import Mathlib

/-!
Parking management system: shallow embedding and verified properties

The C program keeps one aggregate (`args`) holding a fixed array of parkings, a chained
hash table of vehicles and the last accepted date.  The embedding below follows the C
sources function by function.

Conventions of the embedding
* C `int` values are `Int`; `/` and `%` on them are `Int.tdiv` and `Int.tmod`
  (truncation towards zero).  The embedding of the handlers computes with exact
  integers; the only `int` arithmetic of the program that can overflow is the minute
  count of `get_all_minutes`, and the definitions with the suffix `_int32` are the date
  functions with every operation wrapped to 32 bits, as the compiled program computes
  them.  The two agree for years from 0 to 4084.
* C `double` amounts are exact rationals (`ℚ`) in the embedding of the handlers; the
  definitions with the suffix `_fp` are the same functions over binary64 values
  (`fp`), with rounding, infinities and NaN.
* C strings are `String`; every character stands for one byte.  A nullable `char *`
  is an `Option String`, a nullable pointer to a struct is an `Option` of it.
* A singly linked list with head and tail pointers is a `List`; the tail pointer is
  the last element.
* A pointer into the parkings array is the slot index; a pointer to a vehicle is the
  entry of the hash table that holds it, so writes through the pointer are writes
  to that entry.
* Reads through a null pointer and reads outside an array are faults
  (`Result.fault`).  Memory allocation never fails.
* Text written to standard output is a list of structured `Output` lines.
* Tokens produced by `strtok` arrive already split; numeric tokens carry the
  numbers that `sscanf`, `atoi` and `atof` read from them.
-/

namespace Parking

/-! ## Constants (proj1.h) -/

/-- Number of max parkings that can exist at the same time. -/
def MAX_PARKINGS : Nat := 20

/-- Initial length of the hashtable. -/
def INITIAL_LENGTH : Nat := 2024

/-- Days of a long month. -/
def MONTH_31 : Int := 31

/-- Days of a short month. -/
def MONTH_30 : Int := 30

/-- Days of February. -/
def MONTH_28 : Int := 28

/-! ## Structs (proj1.h) -/

/-- The C struct `date`. -/
structure date where
  day : Int
  month : Int
  year : Int
  hour : Int
  minutes : Int
deriving DecidableEq, Repr

/-- The C struct `vehicle_log` without its `next` pointer.  It serves both as an event
of a vehicle history and as a billing record of a billing day. -/
structure vehicle_log where
  license_plate : String
  parking_name : Option String
  entry_date : Option date
  exit_date : Option date
  cost : ℚ
deriving DecidableEq, Repr

/-- The C struct `vehicle`; `my_logs` is the linked list from `my_logs` to
`my_last_log`. -/
structure vehicle where
  license_plate : String
  parking_name : Option String
  is_parked : Int
  my_logs : List vehicle_log
deriving DecidableEq, Repr

/-- The C struct `billing_day` without its `next` pointer; `vehicle_log` is the linked
list from `vehicle_log` to `last_vehicle_log`. -/
structure billing_day where
  exit_date : date
  total_cost : ℚ
  vehicle_log : List vehicle_log
deriving DecidableEq, Repr

/-- The C struct `parking`; `billing_day_log` is the linked list from `billing_day_log`
to `last_billing_day_log`. -/
structure parking where
  name : String
  max_capacity : Int
  cost_x : ℚ
  cost_y : ℚ
  cost_z : ℚ
  free_spaces : Int
  billing_day_log : List billing_day
deriving DecidableEq, Repr

/-- The C struct `entry` without its `next` pointer. -/
structure entry where
  key : String
  value : vehicle
deriving DecidableEq, Repr

/-- The C struct `hashtable`: slot `i` of `entries` is the chain that starts at
`entries[i]`; an empty chain is a slot whose key is null. -/
structure hashtable where
  entries : List (List entry)
  length : Nat
  num_entries : Int
deriving DecidableEq, Repr

/-- The C struct `args`. -/
structure args where
  parkings : List (Option parking)
  vehicles : hashtable
  last_date : date
  park_counter : Int
  num_logs : Int
deriving DecidableEq, Repr

/-! ## Faults, tokens and output lines -/

/-- What goes wrong when the C code leaves defined behaviour. -/
inductive Fault where
  | null_deref
  | out_of_bounds
deriving DecidableEq, Repr

/-- Outcome of a C function that may fault. -/
inductive Result (α : Type) where
  | ok (a : α)
  | fault (f : Fault)
deriving DecidableEq, Repr

/-- The three numbers read from a date token by `sscanf` with "%d-%d-%d". -/
structure date_token where
  day : Int
  month : Int
  year : Int
deriving DecidableEq, Repr

/-- The two numbers read from a time token by `sscanf` with "%d:%d". -/
structure time_token where
  hour : Int
  minutes : Int
deriving DecidableEq, Repr

/-- One line written by a `printf` call of the command handlers. -/
inductive Output where
  | parking_line (name : String) (max_capacity free_spaces : Int)
  | too_many_parks
  | invalid_capacity (max_capacity : Int)
  | invalid_cost
  | parking_already_exists (name : String)
  | no_such_parking (name : Option String)
  | parking_is_full (name : String)
  | invalid_licence_plate (license_plate : Option String)
  | invalid_vehicle_entry (license_plate : String)
  | invalid_vehicle_exit (license_plate : String)
  | invalid_date
  | entry_line (name : String) (free_spaces : Int)
  | exit_line (license_plate : String) (entry_date exit_date : date) (cost : ℚ)
  | name_line (name : String)
  | no_entries_found (license_plate : String)
  | log_line (name : String) (entry_date : date) (exit_date : Option date)
  | summary_line (exit_date : date) (total_cost : ℚ)
  | revenue_line (license_plate : String) (hour minutes : Int) (cost : ℚ)
deriving DecidableEq, Repr

/-! ## Strings -/

/-- The byte at index `i` of a C string; past the end it is the terminating NUL. -/
def char_at (s : String) (i : Nat) : Char :=
  s.data.getD i (Char.ofNat 0)

/-- The C library `isupper` in the "C" locale. -/
def isupper (c : Char) : Bool :=
  decide (65 ≤ c.toNat ∧ c.toNat ≤ 90)

/-- The C library `isdigit`. -/
def isdigit (c : Char) : Bool :=
  decide (48 ≤ c.toNat ∧ c.toNat ≤ 57)

/-- The C library `strcmp`, up to the magnitude of a non-zero result. -/
def strcmp (a b : String) : Int :=
  if a = b then 0 else if a < b then -1 else 1

/-! ## Calendar and clock (aux.c) -/

/-- Gets the number of days in a given month. -/
def get_days_in_month (month : Int) : Int :=
  if month = 1 ∨ month = 3 ∨ month = 5 ∨ month = 7 ∨ month = 8 ∨ month = 10
      ∨ month = 12 then MONTH_31
  else if month = 4 ∨ month = 6 ∨ month = 9 ∨ month = 11 then MONTH_30
  else if month = 2 then MONTH_28
  else 0

/-- Checks a date and ratchets `last_date`; returns the C result and the updated
aggregate. -/
def is_date_valid (entry_date : date) (parking_args : args) : Int × args :=
  let days_in_month := get_days_in_month entry_date.month
  if days_in_month = 0 then (0, parking_args)
  else if entry_date.day < 1 ∨ entry_date.day > days_in_month then (0, parking_args)
  else if entry_date.hour < 0 ∨ entry_date.hour > 23 ∨ entry_date.minutes < 0
      ∨ entry_date.minutes > 59 then (0, parking_args)
  else if parking_args.last_date.minutes = -1 then
    (1, { parking_args with last_date := entry_date })
  else if parking_args.last_date.year > entry_date.year then (0, parking_args)
  else if parking_args.last_date.year = entry_date.year ∧
      parking_args.last_date.month > entry_date.month then (0, parking_args)
  else if parking_args.last_date.year = entry_date.year ∧
      parking_args.last_date.month = entry_date.month ∧
      parking_args.last_date.day > entry_date.day then (0, parking_args)
  else if parking_args.last_date.year = entry_date.year ∧
      parking_args.last_date.month = entry_date.month ∧
      parking_args.last_date.day = entry_date.day ∧
      parking_args.last_date.hour > entry_date.hour then (0, parking_args)
  else if parking_args.last_date.year = entry_date.year ∧
      parking_args.last_date.month = entry_date.month ∧
      parking_args.last_date.day = entry_date.day ∧
      parking_args.last_date.hour = entry_date.hour ∧
      parking_args.last_date.minutes > entry_date.minutes then (0, parking_args)
  else (1, { parking_args with last_date := entry_date })

/-- The loop `for (i = 1; i < month; i++) total += get_days_in_month(i) * 24 * 60`. -/
def month_minutes (month : Int) : Int :=
  ((List.range (month.toNat - 1)).map
    (fun k => get_days_in_month ((k : Int) + 1) * 24 * 60)).sum

/-- The minute count the C code computes for one date, in exact integers;
`date_minutes_int32` is the same count in 32-bit arithmetic. -/
def date_minutes (d : date) : Int :=
  d.hour * 60 + d.minutes + d.day * 24 * 60 + d.year * 365 * 24 * 60 + month_minutes d.month

/-- Calculates the total number of minutes between two dates, in exact integers;
`get_all_minutes_int32` is the same function in 32-bit arithmetic. -/
def get_all_minutes (entry_date exit_date : date) : Int :=
  let entry_minutes := date_minutes entry_date
  let exit_minutes := date_minutes exit_date
  exit_minutes - entry_minutes

/-- Compares two dates: 0 on the same calendar day, otherwise the minutes from
`date_1` to `date_2`; a null `date_1` gives 1 and a null `date_2` gives -1.  The
minutes are exact integers; `compare_dates_int32` is the same function in 32-bit
arithmetic. -/
def compare_dates (date_1 date_2 : Option date) : Int :=
  match date_1, date_2 with
  | none, _ => 1
  | some _, none => -1
  | some d1, some d2 =>
    if d1.year = d2.year ∧ d1.month = d2.month ∧ d1.day = d2.day then 0
    else get_all_minutes d1 d2

/-! ## Tariff (aux.c) -/

/-- Calculates the parking cost based on the duration of parking and the costs of the
parking, with the rates and the cost as exact rationals; `calculate_cost_fp` is the
same function over binary64 values and 32-bit minutes. -/
def calculate_cost (current_parking : parking) (current_log : vehicle_log) : Result ℚ :=
  match current_log.entry_date, current_log.exit_date with
  | some entry_date, some exit_date =>
    let X := current_parking.cost_x
    let Y := current_parking.cost_y
    let Z := current_parking.cost_z
    let minutes := get_all_minutes entry_date exit_date
    let days := Int.tdiv minutes (24 * 60)
    let remaining_minutes := Int.tmod minutes (24 * 60)
    let total_cost : ℚ := 0 + (days : ℚ) * Z
    let remaining_periods := Int.tdiv (remaining_minutes + 14) 15
    let remaining_cost : ℚ :=
      if remaining_periods > 4 then 4 * X + ((remaining_periods - 4 : Int) : ℚ) * Y
      else (remaining_periods : ℚ) * X
    if remaining_cost < Z then Result.ok (total_cost + remaining_cost)
    else Result.ok (total_cost + Z)
  | _, _ => Result.fault Fault.null_deref

/-! ## Licence plates (aux.c) -/

/-- The loop over the three segments of a plate, starting at the indices given; `none`
is the early `return 0`, otherwise the two counters. -/
def plate_segments (license_plate : String) : List Nat → Int → Int → Option (Int × Int)
  | [], letter_count, digit_count => some (letter_count, digit_count)
  | i :: rest, letter_count, digit_count =>
    if (isupper (char_at license_plate i) && isupper (char_at license_plate (i + 1))) ||
        (isdigit (char_at license_plate i) && isdigit (char_at license_plate (i + 1))) then
      if isupper (char_at license_plate i) then
        plate_segments license_plate rest (letter_count + 1) digit_count
      else
        plate_segments license_plate rest letter_count (digit_count + 1)
    else none

/-- Checks if a license plate is valid: 1 if it is, otherwise 0. -/
def is_license_plate_valid (license_plate : String) : Int :=
  if license_plate.length ≠ 8 ∨ char_at license_plate 2 ≠ '-'
      ∨ char_at license_plate 5 ≠ '-' then 0
  else
    match plate_segments license_plate [0, 3, 6] 0 0 with
    | none => 0
    | some (letter_count, digit_count) =>
      if letter_count < 1 ∨ digit_count < 1 then 0 else 1

/-! ## Vehicle index (aux.c) -/

/-- Calculates the hash value for the given key (`size_t` is 64 bits wide).  Every
character is added by its code, which is the value of the C `char` for the ASCII
characters of a valid plate. -/
def hash_function (key : String) : Nat :=
  key.data.foldl (fun hash c => ((hash <<< 5) + hash + c.toNat) % 2 ^ 64) 5381

/-- The walk along one chain of the table looking for a key. -/
def chain_find : List entry → String → Option vehicle
  | [], _ => none
  | e :: rest, license_plate =>
    if strcmp e.key license_plate = 0 then some e.value else chain_find rest license_plate

/-- Finds a vehicle in the hashtable by license plate. -/
def find_vehicle (vehicles : hashtable) (license_plate : String) : Option vehicle :=
  let hash_index := hash_function license_plate % vehicles.length
  chain_find (vehicles.entries.getD hash_index []) license_plate

/-- Inserts a new entry (vehicle) into the hashtable, at the end of its chain. -/
def insert_new_entry (ht : hashtable) (key : String) (value : vehicle) : hashtable :=
  let hash := hash_function key % ht.length
  { ht with
    entries := ht.entries.set hash (ht.entries.getD hash [] ++ [{ key := key, value := value }])
    num_entries := ht.num_entries + 1 }

/-- A write through the pointer that `chain_find` returned: the first entry of the chain
with this key gets the new vehicle record. -/
def chain_store : List entry → String → vehicle → List entry
  | [], _, _ => []
  | e :: rest, license_plate, value =>
    if strcmp e.key license_plate = 0 then { e with value := value } :: rest
    else e :: chain_store rest license_plate value

/-- A write through the pointer that `find_vehicle` returned. -/
def store_vehicle (vehicles : hashtable) (license_plate : String) (value : vehicle) :
    hashtable :=
  let hash_index := hash_function license_plate % vehicles.length
  { vehicles with
    entries := vehicles.entries.set hash_index
      (chain_store (vehicles.entries.getD hash_index []) license_plate value) }

/-- Checks if a vehicle is parked. -/
def is_vehicle_parked (my_vehicle : Option vehicle) : Int :=
  match my_vehicle with
  | none => 0
  | some v => v.is_parked

/-! ## Initialisation (aux.c) -/

/-- Initializes the parking array in the aggregate. -/
def initialize_parking_list (parking_args : args) : args :=
  { parking_args with
    park_counter := 0
    num_logs := 0
    parkings := List.replicate MAX_PARKINGS none }

/-- Initializes the hashtable for storing vehicle information and the last date. -/
def initialize_hashtable (parking_args : args) : args :=
  { parking_args with
    last_date := { day := -1, month := -1, year := -1, hour := -1, minutes := -1 }
    vehicles := { entries := List.replicate INITIAL_LENGTH [], length := INITIAL_LENGTH,
                  num_entries := 0 } }

/-- The aggregate as `main` has it before the first command; every field is set by the
two initializers. -/
def initial_args : args :=
  initialize_hashtable (initialize_parking_list
    { parkings := [], vehicles := { entries := [], length := 0, num_entries := 0 },
      last_date := { day := 0, month := 0, year := 0, hour := 0, minutes := 0 },
      park_counter := 0, num_logs := 0 })

/-! ## Parsing of tokens (aux.c) -/

/-- The date that `parse_date` builds from a date token and a time token. -/
def token_date (d : date_token) (t : time_token) : date :=
  { day := d.day, month := d.month, year := d.year, hour := t.hour, minutes := t.minutes }

/-- Puts the numbers of the date and time tokens in a date; a missing time gives 00:00.
A missing date token is a null pointer handed to `sscanf`. -/
def parse_date (date_input : Option date_token) (time_input : Option time_token) :
    Result date :=
  match date_input with
  | none => Result.fault Fault.null_deref
  | some d =>
    match time_input with
    | none => Result.ok { day := d.day, month := d.month, year := d.year, hour := 0,
                          minutes := 0 }
    | some t => Result.ok (token_date d t)

/-! ## Parking registry (aux.c, proj1.c) -/

/-- The loop of `find_parking`: `n` iterations are left and `i` is the loop index.  The
array has `MAX_PARKINGS` slots; a read at another index is out of bounds. -/
def find_parking_loop (parkings : List (Option parking)) (name : String) :
    Nat → Nat → Result (Option (Nat × parking))
  | 0, _ => Result.ok none
  | n + 1, i =>
    if i < MAX_PARKINGS then
      match parkings.getD i none with
      | some p =>
        if strcmp p.name name = 0 then Result.ok (some (i, p))
        else find_parking_loop parkings name n (i + 1)
      | none => find_parking_loop parkings name n (i + 1)
    else Result.fault Fault.out_of_bounds

/-- Finds a parking by its name: the slot and the parking in it.  The loop runs for
`i = 0, ..., park_counter` (bounds included). -/
def find_parking (parking_args : args) (name : Option String) :
    Result (Option (Nat × parking)) :=
  match name with
  | none => Result.ok none
  | some name =>
    find_parking_loop parking_args.parkings name (parking_args.park_counter + 1).toNat 0

/-- Lists all parkings in the parking array. -/
def list_all_parkings (parking_args : args) : List Output :=
  (List.range MAX_PARKINGS).filterMap (fun i =>
    match parking_args.parkings.getD i none with
    | some p => some (Output.parking_line p.name p.max_capacity p.free_spaces)
    | none => none)

/-- The duplicate check of `add_new_parking` over all `MAX_PARKINGS` slots. -/
def name_in_use (parkings : List (Option parking)) (name : String) : Bool :=
  (List.range MAX_PARKINGS).any (fun i =>
    match parkings.getD i none with
    | some p => decide (strcmp p.name name = 0)
    | none => false)

/-- Adds a new parking to the parking array; the first component is the C return
value.  The rates are exact rationals; `add_new_parking_fp` is the same function with
the rates as binary64 values. -/
def add_new_parking (parking_args : args) (name : String) (max_capacity : Int)
    (cost_x cost_y cost_z : ℚ) : Result (Int × args × List Output) :=
  if parking_args.park_counter ≥ MAX_PARKINGS then
    Result.ok (-1, parking_args, [Output.too_many_parks])
  else if name_in_use parking_args.parkings name then
    Result.ok (1, parking_args, [])
  else if max_capacity ≤ 0 then
    Result.ok (-1, parking_args, [Output.invalid_capacity max_capacity])
  else if cost_x ≤ 0 ∨ cost_y ≤ 0 ∨ cost_z ≤ 0 then
    Result.ok (-1, parking_args, [Output.invalid_cost])
  else if cost_x ≥ cost_y ∨ cost_x ≥ cost_z ∨ cost_y ≥ cost_z then
    Result.ok (-1, parking_args, [Output.invalid_cost])
  else if parking_args.park_counter < 0 then
    Result.fault Fault.out_of_bounds
  else
    let new_parking : parking :=
      { name := name, max_capacity := max_capacity, cost_x := cost_x, cost_y := cost_y,
        cost_z := cost_z, free_spaces := max_capacity, billing_day_log := [] }
    Result.ok (0,
      { parking_args with
        parkings := parking_args.parkings.set parking_args.park_counter.toNat
          (some new_parking)
        park_counter := parking_args.park_counter + 1 }, [])

/-- Either lists all parkings or adds a new parking; the tokens after the name are the
capacity and the three costs. -/
def list_or_add_park (parking_args : args) (name : Option String)
    (max_capacity : Option Int) (cost_x cost_y cost_z : Option ℚ) :
    Result (args × List Output) :=
  match name with
  | none => Result.ok (parking_args, list_all_parkings parking_args)
  | some name =>
    match max_capacity, cost_x, cost_y, cost_z with
    | some max_capacity, some cost_x, some cost_y, some cost_z =>
      match add_new_parking parking_args name max_capacity cost_x cost_y cost_z with
      | Result.fault f => Result.fault f
      | Result.ok (r, parking_args1, out) =>
        if r = 1 then Result.ok (parking_args1, out ++ [Output.parking_already_exists name])
        else Result.ok (parking_args1, out)
    | _, _, _, _ => Result.ok (parking_args, [])

/-! ## Ledger (aux.c) -/

/-- Adds a new log entry for a vehicle parked in a parking, at the end of its logs, and
prints the parking with its free spaces. -/
def add_new_log (my_vehicle : vehicle) (current_parking : parking) (entry_date : date)
    (name : String) : vehicle × List Output :=
  let new_log : vehicle_log :=
    { license_plate := my_vehicle.license_plate, parking_name := some name,
      entry_date := some entry_date, exit_date := none, cost := 0 }
  ({ my_vehicle with my_logs := my_vehicle.my_logs ++ [new_log] },
   [Output.entry_line current_parking.name current_parking.free_spaces])

/-- The billing record that `add_new_exit` and `add_new_billing_day` build. -/
def new_billing_record (exit_date : date) (cost : ℚ) (my_vehicle : vehicle) : vehicle_log :=
  { license_plate := my_vehicle.license_plate, parking_name := none, entry_date := none,
    exit_date := some exit_date, cost := cost }

/-- Adds the exit to the last billing day of the parking, or a new billing day after it
when the exit is on another calendar day. -/
def add_new_billing_day (current_parking : parking) (exit_date : date) (cost : ℚ)
    (my_vehicle : vehicle) : Result parking :=
  match current_parking.billing_day_log.getLast? with
  | none => Result.fault Fault.null_deref
  | some current_log =>
    if compare_dates (some current_log.exit_date) (some exit_date) ≠ 0 then
      let new_exit : billing_day :=
        { exit_date := exit_date, total_cost := cost,
          vehicle_log := [new_billing_record exit_date cost my_vehicle] }
      Result.ok { current_parking with
        billing_day_log := current_parking.billing_day_log ++ [new_exit] }
    else
      match current_log.vehicle_log.getLast? with
      | none => Result.fault Fault.null_deref
      | some _ =>
        Result.ok { current_parking with
          billing_day_log := current_parking.billing_day_log.dropLast ++
            [{ current_log with
               vehicle_log := current_log.vehicle_log ++
                 [new_billing_record exit_date cost my_vehicle]
               total_cost := current_log.total_cost + cost }] }

/-- Adds a new exit revenue record for a vehicle in a parking; the result is the parking
after the call (nothing changes when a pointer is null). -/
def add_new_exit (current_parking : Option parking) (exit_date : Option date) (cost : ℚ)
    (my_vehicle : Option vehicle) : Result (Option parking) :=
  match current_parking, exit_date, my_vehicle with
  | some park, some d, some v =>
    if park.billing_day_log = [] then
      let new_exit : billing_day :=
        { exit_date := d, total_cost := cost, vehicle_log := [new_billing_record d cost v] }
      Result.ok (some { park with billing_day_log := [new_exit] })
    else
      match add_new_billing_day park d cost v with
      | Result.fault f => Result.fault f
      | Result.ok park1 => Result.ok (some park1)
  | _, _, _ => Result.ok current_parking

/-! ## Entry and exit commands (proj1.c) -/

/-- The part of `register_entry` after the checks (lines 216 to 251): the vehicle is
created if it was not found, it gets the parking name and the parked flag, the parking
loses one free space and the entry is logged.  `parking_args` is the aggregate after
`is_date_valid`, `slot` and `park` are `current_parking`. -/
def register_entry_commit (parking_args : args) (slot : Nat) (park : parking)
    (name plate : String) (entry_date : date) (my_vehicle : Option vehicle) :
    args × List Output :=
  let vehicle0 : vehicle :=
    match my_vehicle with
    | none => { license_plate := plate, parking_name := none, is_parked := 0, my_logs := [] }
    | some v => v
  let vehicle1 : vehicle := { vehicle0 with parking_name := some name, is_parked := 1 }
  let park1 : parking := { park with free_spaces := park.free_spaces - 1 }
  let logged := add_new_log vehicle1 park1 entry_date name
  let vehicles1 : hashtable :=
    match my_vehicle with
    | none => insert_new_entry parking_args.vehicles plate logged.1
    | some _ => store_vehicle parking_args.vehicles plate logged.1
  ({ parking_args with
      parkings := parking_args.parkings.set slot (some park1)
      vehicles := vehicles1 }, logged.2)

/-- Registers a vehicle entry into the parking system. -/
def register_entry (parking_args : args) (name license_plate : Option String)
    (date_input : Option date_token) (time_input : Option time_token) :
    Result (args × List Output) :=
  match find_parking parking_args name with
  | Result.fault f => Result.fault f
  | Result.ok current_parking =>
  match parse_date date_input time_input with
  | Result.fault f => Result.fault f
  | Result.ok entry_date =>
  match current_parking, name with
  | some (slot, park), some name =>
    if park.free_spaces ≤ 0 then Result.ok (parking_args, [Output.parking_is_full name])
    else
      match license_plate with
      | none => Result.ok (parking_args, [Output.invalid_licence_plate none])
      | some plate =>
        if is_license_plate_valid plate = 0 then
          Result.ok (parking_args, [Output.invalid_licence_plate (some plate)])
        else
          let my_vehicle := find_vehicle parking_args.vehicles plate
          if is_vehicle_parked my_vehicle ≠ 0 then
            Result.ok (parking_args, [Output.invalid_vehicle_entry plate])
          else if date_input = none ∨ time_input = none then
            Result.ok (parking_args, [Output.invalid_date])
          else
            let checked := is_date_valid entry_date parking_args
            if checked.1 = 0 then Result.ok (checked.2, [Output.invalid_date])
            else
              Result.ok
                (register_entry_commit checked.2 slot park name plate entry_date my_vehicle)
  | _, _ => Result.ok (parking_args, [Output.no_such_parking name])

/-- The part of `register_exit` after the checks (lines 319 to 349): the last log of the
vehicle gets the exit date and the cost, the vehicle is no longer parked, the parking
gains one free space and the exit is billed.  `parking_args` is the aggregate after
`is_date_valid`, `slot` and `park` are `current_parking`, `v` is `my_vehicle`. -/
def register_exit_commit (parking_args : args) (slot : Nat) (park : parking)
    (plate : String) (exit_date : date) (v : vehicle) : Result (args × List Output) :=
  match v.my_logs.getLast? with
  | none => Result.fault Fault.null_deref
  | some last_log =>
    let current_log : vehicle_log := { last_log with exit_date := some exit_date }
    let vehicle1 : vehicle := { v with is_parked := 0, parking_name := none }
    let park1 : parking := { park with free_spaces := park.free_spaces + 1 }
    match calculate_cost park1 current_log with
    | Result.fault f => Result.fault f
    | Result.ok cost =>
      let closed_log : vehicle_log := { current_log with cost := cost }
      let vehicle2 : vehicle := { vehicle1 with my_logs := v.my_logs.dropLast ++ [closed_log] }
      match add_new_exit (some park1) (some exit_date) cost (some vehicle2),
          closed_log.entry_date with
      | Result.ok (some park2), some entry_date =>
        Result.ok ({ parking_args with
                      parkings := parking_args.parkings.set slot (some park2)
                      vehicles := store_vehicle parking_args.vehicles plate vehicle2 },
                   [Output.exit_line vehicle2.license_plate entry_date exit_date cost])
      | Result.fault f, _ => Result.fault f
      | _, _ => Result.fault Fault.null_deref

/-- Registers the exit of a vehicle from the parking system. -/
def register_exit (parking_args : args) (name license_plate : Option String)
    (date_input : Option date_token) (time_input : Option time_token) :
    Result (args × List Output) :=
  match parse_date date_input time_input with
  | Result.fault f => Result.fault f
  | Result.ok exit_date =>
  match find_parking parking_args name with
  | Result.fault f => Result.fault f
  | Result.ok current_parking =>
  match license_plate with
  | none => Result.fault Fault.null_deref
  | some plate =>
    let my_vehicle := find_vehicle parking_args.vehicles plate
    match current_parking with
    | none => Result.ok (parking_args, [Output.no_such_parking name])
    | some (slot, park) =>
      if is_license_plate_valid plate = 0 then
        Result.ok (parking_args, [Output.invalid_licence_plate (some plate)])
      else
        match my_vehicle with
        | none => Result.ok (parking_args, [Output.invalid_vehicle_exit plate])
        | some v =>
          if is_vehicle_parked (some v) = 0 then
            Result.ok (parking_args, [Output.invalid_vehicle_exit plate])
          else
            match v.parking_name with
            | none => Result.fault Fault.null_deref
            | some vehicle_parking =>
              if strcmp park.name vehicle_parking ≠ 0 then
                Result.ok (parking_args, [Output.invalid_vehicle_exit plate])
              else if date_input = none ∨ time_input = none then
                Result.ok (parking_args, [])
              else
                let checked := is_date_valid exit_date parking_args
                if checked.1 = 0 then Result.ok (checked.2, [Output.invalid_date])
                else register_exit_commit checked.2 slot park plate exit_date v

/-! ## Sorting (aux.c) -/

/-- The inner `while` loop of `insertion_sort` with `j + 1 = k`: elements greater than
`key` move one position ahead, then `key` is stored at `j + 1`. -/
def insertion_sort_shift (array : List String) (key : String) : Nat → List String
  | 0 => array.set 0 key
  | k + 1 =>
    if strcmp (array.getD k "") key > 0 then
      insertion_sort_shift (array.set (k + 1) (array.getD k "")) key k
    else array.set (k + 1) key

/-- Sorts an array of strings in lexicographical order using insertion sort; the outer
loop runs for `i = 1, ..., num_elements - 1`. -/
def insertion_sort (array : List String) (num_elements : Nat) : List String :=
  (List.range (num_elements - 1)).foldl
    (fun a k => insertion_sort_shift a (a.getD (k + 1) "") (k + 1)) array

/-! ## Removal of a parking (aux.c, proj1.c) -/

/-- The loop of `remove_vehicle_logs`: the logs of the given parking are unlinked. -/
def remove_logs_loop : List vehicle_log → String → Result (List vehicle_log)
  | [], _ => Result.ok []
  | current :: rest, parking_name =>
    match current.parking_name with
    | none => Result.fault Fault.null_deref
    | some log_name =>
      match remove_logs_loop rest parking_name with
      | Result.fault f => Result.fault f
      | Result.ok kept =>
        if strcmp log_name parking_name = 0 then Result.ok kept
        else Result.ok (current :: kept)

/-- Removes the vehicle logs of a parking from the log list of a vehicle and updates the
state of the vehicle. -/
def remove_vehicle_logs (current_vehicle : vehicle) (parking_name : String) :
    Result vehicle :=
  match remove_logs_loop current_vehicle.my_logs parking_name with
  | Result.fault f => Result.fault f
  | Result.ok kept => Result.ok { current_vehicle with my_logs := kept, is_parked := 0 }

/-- The walk of `remove_parking_from_logs` along one chain of the table. -/
def remove_parking_from_chain : List entry → String → Result (List entry)
  | [], _ => Result.ok []
  | current_entry :: rest, parking_name =>
    match remove_vehicle_logs current_entry.value parking_name with
    | Result.fault f => Result.fault f
    | Result.ok v =>
      match remove_parking_from_chain rest parking_name with
      | Result.fault f => Result.fault f
      | Result.ok chain => Result.ok ({ current_entry with value := v } :: chain)

/-- The loop of `remove_parking_from_logs` over the slots of the table. -/
def remove_parking_from_slots : List (List entry) → String → Result (List (List entry))
  | [], _ => Result.ok []
  | chain :: rest, parking_name =>
    match remove_parking_from_chain chain parking_name with
    | Result.fault f => Result.fault f
    | Result.ok chain1 =>
      match remove_parking_from_slots rest parking_name with
      | Result.fault f => Result.fault f
      | Result.ok slots => Result.ok (chain1 :: slots)

/-- Removes the vehicle logs of a parking from every vehicle of the hashtable. -/
def remove_parking_from_logs (vehicles : hashtable) (parking_name : String) :
    Result hashtable :=
  match remove_parking_from_slots vehicles.entries parking_name with
  | Result.fault f => Result.fault f
  | Result.ok slots => Result.ok { vehicles with entries := slots }

/-- The search loop of `remove_parking_from_list`: the first slot below `park_counter`
that holds a parking of this name; `n` iterations are left and `i` is the loop index. -/
def remove_search (parkings : List (Option parking)) (parking_name : String) :
    Nat → Nat → Option Nat
  | 0, _ => none
  | n + 1, i =>
    match parkings.getD i none with
    | some p =>
      if strcmp p.name parking_name = 0 then some i
      else remove_search parkings parking_name n (i + 1)
    | none => remove_search parkings parking_name n (i + 1)

/-- Removes a parking from the array of parkings: the slots after it move one position
down, the last slot becomes empty and the counter decreases. -/
def remove_parking_from_list (parking_args : args) (parking_name : String) : args :=
  match remove_search parking_args.parkings parking_name parking_args.park_counter.toNat 0 with
  | none => parking_args
  | some i =>
    { parking_args with
      parkings := (List.range MAX_PARKINGS).map (fun j =>
        if j < i then parking_args.parkings.getD j none
        else if j < MAX_PARKINGS - 1 then parking_args.parkings.getD (j + 1) none
        else none)
      park_counter := parking_args.park_counter - 1 }

/-- The names of the parkings in the slots below `park_counter`, in slot order. -/
def collect_parking_names (parking_args : args) : List String :=
  (List.range parking_args.park_counter.toNat).filterMap (fun i =>
    match parking_args.parkings.getD i none with
    | some p => some p.name
    | none => none)

/-- Removes a parking from the parking list and all its associated vehicle logs, then
prints the names of the remaining parkings in sorted order. -/
def remove_parking (parking_args : args) (name : Option String) :
    Result (args × List Output) :=
  match find_parking parking_args name with
  | Result.fault f => Result.fault f
  | Result.ok my_parking =>
    match my_parking, name with
    | some _, some parking_name =>
      match remove_parking_from_logs parking_args.vehicles parking_name with
      | Result.fault f => Result.fault f
      | Result.ok vehicles1 =>
        let parking_args1 :=
          remove_parking_from_list { parking_args with vehicles := vehicles1 } parking_name
        let parking_names := collect_parking_names parking_args1
        Result.ok (parking_args1,
          (insertion_sort parking_names parking_names.length).map Output.name_line)
    | _, _ => Result.ok (parking_args, [Output.no_such_parking name])

/-! ## Queries (proj1.c) -/

/-- The inner loop of `list_vehicle_logs`: the lines of the logs of one parking, in the
order of the log list. -/
def list_logs_of_parking : List vehicle_log → String → Result (List Output)
  | [], _ => Result.ok []
  | current_log :: rest, parking_name =>
    match current_log.parking_name with
    | none => Result.fault Fault.null_deref
    | some log_name =>
      if strcmp log_name parking_name = 0 then
        match current_log.entry_date with
        | none => Result.fault Fault.null_deref
        | some entry_date =>
          match list_logs_of_parking rest parking_name with
          | Result.fault f => Result.fault f
          | Result.ok lines =>
            Result.ok (Output.log_line log_name entry_date current_log.exit_date :: lines)
      else list_logs_of_parking rest parking_name

/-- The outer loop of `list_vehicle_logs` over the sorted parking names. -/
def list_logs_of_parkings (parking_args : args) (my_vehicle : vehicle) :
    List String → Result (List Output)
  | [] => Result.ok []
  | parking_name :: rest =>
    match find_parking parking_args (some parking_name) with
    | Result.fault f => Result.fault f
    | Result.ok none => Result.fault Fault.null_deref
    | Result.ok (some (_, current_parking)) =>
      match list_logs_of_parking my_vehicle.my_logs current_parking.name with
      | Result.fault f => Result.fault f
      | Result.ok lines =>
        match list_logs_of_parkings parking_args my_vehicle rest with
        | Result.fault f => Result.fault f
        | Result.ok more => Result.ok (lines ++ more)

/-- Lists all the log entries for a given vehicle from all parkings. -/
def list_vehicle_logs (parking_args : args) (license_plate : Option String) :
    Result (List Output) :=
  match license_plate with
  | none => Result.ok [Output.invalid_licence_plate none]
  | some plate =>
    if is_license_plate_valid plate = 0 then
      Result.ok [Output.invalid_licence_plate (some plate)]
    else
      let parking_names := collect_parking_names parking_args
      let sorted_names := insertion_sort parking_names parking_names.length
      match find_vehicle parking_args.vehicles plate with
      | none => Result.ok [Output.no_entries_found plate]
      | some my_vehicle =>
        match list_logs_of_parkings parking_args my_vehicle sorted_names with
        | Result.fault f => Result.fault f
        | Result.ok lines =>
          if lines = [] then Result.ok [Output.no_entries_found plate]
          else Result.ok lines

/-- Displays the daily revenue summary for a specific parking. -/
def show_daily_summary (my_parking : parking) : List Output :=
  my_parking.billing_day_log.map (fun current_day =>
    Output.summary_line current_day.exit_date current_day.total_cost)

/-- The search loop of `show_day_revenue_list`: the first billing day on the calendar day
of the revenue date. -/
def find_billing_day : List billing_day → date → Option billing_day
  | [], _ => none
  | current_day :: rest, revenue_date =>
    if compare_dates (some current_day.exit_date) (some revenue_date) = 0 then some current_day
    else find_billing_day rest revenue_date

/-- The print loop of `show_day_revenue_list` over the billing records of one day. -/
def revenue_lines : List vehicle_log → Result (List Output)
  | [] => Result.ok []
  | current_vehicle_log :: rest =>
    match current_vehicle_log.exit_date with
    | none => Result.fault Fault.null_deref
    | some exit_date =>
      match revenue_lines rest with
      | Result.fault f => Result.fault f
      | Result.ok lines =>
        Result.ok (Output.revenue_line current_vehicle_log.license_plate exit_date.hour
          exit_date.minutes current_vehicle_log.cost :: lines)

/-- Displays the revenue details for a specific parking on a given date. -/
def show_day_revenue_list (parking_args : args) (parking_name : String)
    (revenue_date : date) : Result (List Output) :=
  if compare_dates (some parking_args.last_date) (some revenue_date) > 0 then
    Result.ok [Output.invalid_date]
  else
    match find_parking parking_args (some parking_name) with
    | Result.fault f => Result.fault f
    | Result.ok none => Result.fault Fault.null_deref
    | Result.ok (some (_, current_parking)) =>
      match find_billing_day current_parking.billing_day_log revenue_date with
      | none => Result.ok []
      | some last_valid_date => revenue_lines last_valid_date.vehicle_log

/-- Displays the revenue summary for a parking either daily or on a specific date. -/
def show_revenue (parking_args : args) (parking_name : Option String)
    (date_input : Option date_token) : Result (List Output) :=
  match find_parking parking_args parking_name with
  | Result.fault f => Result.fault f
  | Result.ok my_parking =>
    match my_parking, parking_name with
    | some (_, park), some name =>
      match date_input with
      | none => Result.ok (show_daily_summary park)
      | some _ =>
        match parse_date date_input none with
        | Result.fault f => Result.fault f
        | Result.ok revenue_date => show_day_revenue_list parking_args name revenue_date
    | _, _ => Result.ok [Output.no_such_parking parking_name]

/-! ## Notions used to state the properties -/

/-- An uppercase letter `A` to `Z`. -/
def uppercase_letter (c : Char) : Prop := 'A'.toNat ≤ c.toNat ∧ c.toNat ≤ 'Z'.toNat

/-- A decimal digit `0` to `9`. -/
def decimal_digit (c : Char) : Prop := '0'.toNat ≤ c.toNat ∧ c.toNat ≤ '9'.toNat

/-- The two characters at `i` and `i + 1` are uppercase letters. -/
def letter_group (s : String) (i : Nat) : Prop :=
  uppercase_letter (char_at s i) ∧ uppercase_letter (char_at s (i + 1))

/-- The two characters at `i` and `i + 1` are digits. -/
def digit_group (s : String) (i : Nat) : Prop :=
  decimal_digit (char_at s i) ∧ decimal_digit (char_at s (i + 1))

instance (c : Char) : Decidable (uppercase_letter c) := by
  unfold uppercase_letter; infer_instance

instance (c : Char) : Decidable (decimal_digit c) := by
  unfold decimal_digit; infer_instance

instance (s : String) (i : Nat) : Decidable (letter_group s i) := by
  unfold letter_group; infer_instance

instance (s : String) (i : Nat) : Decidable (digit_group s i) := by
  unfold digit_group; infer_instance

/-- The price formula as the specification words it: full days at the daily cap `z`, plus
the remainder in started quarters of an hour, the first four at `x` and the others at
`y`, capped at `z`. -/
def spec_price (m : Int) (x y z : ℚ) : ℚ :=
  let q : Int := ⌈((m % 1440 : Int) : ℚ) / 15⌉
  let p : ℚ := if q ≤ 4 then (q : ℚ) * x else 4 * x + ((q : ℚ) - 4) * y
  ((m / 1440 : Int) : ℚ) * z + min p z

/-- The fixed table of month lengths, January first. -/
def month_table : List Int := [31, 28, 31, 30, 31, 30, 31, 31, 30, 31, 30, 31]

/-- A calendar-valid timestamp: month in 1..12, day within the month of the table, hour
in 0..23, minute in 0..59. -/
def calendar_valid (t : date) : Prop :=
  1 ≤ t.month ∧ t.month ≤ 12 ∧ 1 ≤ t.day ∧ t.day ≤ month_table.getD (t.month - 1).toNat 0 ∧
  0 ≤ t.hour ∧ t.hour ≤ 23 ∧ 0 ≤ t.minutes ∧ t.minutes ≤ 59

/-- Strictly earlier in the lexicographic order on (year, month, day, hour, minute). -/
def date_earlier (a b : date) : Prop :=
  a.year < b.year ∨ (a.year = b.year ∧ (a.month < b.month ∨ (a.month = b.month ∧
    (a.day < b.day ∨ (a.day = b.day ∧ (a.hour < b.hour ∨
      (a.hour = b.hour ∧ a.minutes < b.minutes)))))))

instance (t : date) : Decidable (calendar_valid t) := by
  unfold calendar_valid; infer_instance

instance (a b : date) : Decidable (date_earlier a b) := by
  unfold date_earlier; infer_instance

/-- The timestamps that a sequence of `is_date_valid` calls accepts, in call order. -/
def accepted_dates : args → List date → List date
  | _, [] => []
  | s, t :: ts =>
    if (is_date_valid t s).1 = 0 then accepted_dates (is_date_valid t s).2 ts
    else t :: accepted_dates (is_date_valid t s).2 ts

/-- The aggregate after a sequence of `is_date_valid` calls. -/
def run_clock (s : args) (ts : List date) : args :=
  ts.foldl (fun s t => (is_date_valid t s).2) s

/-- A registered facility: the parking `p` sits in slot `i` below the counter. -/
def registered (s : args) (i : Nat) (p : parking) : Prop :=
  (i : Int) < s.park_counter ∧ s.parkings.getD i none = some p

/-- Shape of the registry: the counter is within the array, the slots below it hold
parkings, the slots from it on are empty, no two slots hold the same name, and the
array has `MAX_PARKINGS` slots. -/
def registry_wf (s : args) : Prop :=
  0 ≤ s.park_counter ∧ s.park_counter ≤ MAX_PARKINGS ∧
  (∀ i : Nat, (i : Int) < s.park_counter → ∃ p, s.parkings.getD i none = some p) ∧
  (∀ i : Nat, s.park_counter ≤ (i : Int) → s.parkings.getD i none = none) ∧
  (∀ (i j : Nat) (p q : parking), s.parkings.getD i none = some p →
    s.parkings.getD j none = some q → p.name = q.name → i = j) ∧
  s.parkings.length = MAX_PARKINGS

/-- Shape of the vehicle index: the array of chains has `length` slots. -/
def index_wf (ht : hashtable) : Prop :=
  ht.entries.length = ht.length ∧ 0 < ht.length

/-- All entries of the vehicle index, chain after chain. -/
def all_entries (ht : hashtable) : List entry :=
  ht.entries.flatten

/-- The vehicle has its parked flag set and its current facility name is `name`. -/
def parked_at (v : vehicle) (name : String) : Prop :=
  v.is_parked ≠ 0 ∧ v.parking_name = some name

instance (v : vehicle) (name : String) : Decidable (parked_at v name) := by
  unfold parked_at; infer_instance

/-- Number of vehicles in the index that are parked at the facility `name`. -/
def parked_count (ht : hashtable) (name : String) : Int :=
  (((all_entries ht).countP (fun e => decide (parked_at e.value name)) : Nat) : Int)

/-- Every parked vehicle names a registered facility and its last event is open for
closing: it exists and has an entry date. -/
def parked_wf (s : args) : Prop :=
  ∀ e ∈ all_entries s.vehicles, e.value.is_parked ≠ 0 →
    ∃ nm, e.value.parking_name = some nm ∧ (∃ i p, registered s i p ∧ p.name = nm) ∧
      ∃ l, e.value.my_logs.getLast? = some l ∧ l.entry_date ≠ none

/-- Every billing day of every parking in the array has at least one billing record. -/
def billing_wf (s : args) : Prop :=
  ∀ (i : Nat) (p : parking), s.parkings.getD i none = some p →
    ∀ b ∈ p.billing_day_log, b.vehicle_log ≠ []

/-- Capacity conservation of one state: for every registered facility the free spaces
and the vehicles parked there add up to the capacity, and the free spaces stay within
0 and the capacity. -/
def capacity_ok (s : args) : Prop :=
  ∀ (i : Nat) (p : parking), registered s i p →
    p.free_spaces + parked_count s.vehicles p.name = p.max_capacity ∧
    0 ≤ p.free_spaces ∧ p.free_spaces ≤ p.max_capacity

/-- States reached from the initial state by add-facility, entry and exit commands with
any tokens, accepted or rejected.  The states reached from a set of added facilities by
entry and exit commands are among them. -/
inductive reached : args → Prop where
  | init : reached initial_args
  | add (s s1 : args) (out : List Output) (name : Option String) (max_capacity : Option Int)
      (cost_x cost_y cost_z : Option ℚ) :
      reached s →
      list_or_add_park s name max_capacity cost_x cost_y cost_z = Result.ok (s1, out) →
      reached s1
  | entry (s s1 : args) (out : List Output) (name license_plate : Option String)
      (date_input : Option date_token) (time_input : Option time_token) :
      reached s →
      register_entry s name license_plate date_input time_input = Result.ok (s1, out) →
      reached s1
  | exit (s s1 : args) (out : List Output) (name license_plate : Option String)
      (date_input : Option date_token) (time_input : Option time_token) :
      reached s →
      register_exit s name license_plate date_input time_input = Result.ok (s1, out) →
      reached s1

/-- The output lines that report a validation, not-found or state-conflict error. -/
def is_error_line : Output → Bool
  | Output.too_many_parks => true
  | Output.invalid_capacity _ => true
  | Output.invalid_cost => true
  | Output.parking_already_exists _ => true
  | Output.no_such_parking _ => true
  | Output.parking_is_full _ => true
  | Output.invalid_licence_plate _ => true
  | Output.invalid_vehicle_entry _ => true
  | Output.invalid_vehicle_exit _ => true
  | Output.invalid_date => true
  | Output.no_entries_found _ => true
  | _ => false

/-- All billing records of a parking, billing day after billing day. -/
def billing_records (p : parking) : List vehicle_log :=
  (p.billing_day_log.map (fun b => b.vehicle_log)).flatten

/-- Indicator of a vehicle parked at the facility: 1 when it is, otherwise 0. -/
def parked_ind (v : vehicle) (name : String) : Int :=
  if parked_at v name then 1 else 0

/-- Number of entries of one chain whose vehicle is parked at the facility. -/
def chain_count (c : List entry) (name : String) : Int :=
  ((c.countP (fun e => decide (parked_at e.value name)) : Nat) : Int)

/-- The checks of `register_entry` all pass for the name `nm`, the plate `pl` and the
tokens `dt` and `tt`; `slot` and `park` are what `find_parking` returns. -/
def entry_checks (s : args) (nm pl : String) (dt : date_token) (tt : time_token)
    (slot : Nat) (park : parking) : Prop :=
  find_parking s (some nm) = Result.ok (some (slot, park)) ∧ 0 < park.free_spaces ∧
  is_license_plate_valid pl ≠ 0 ∧ is_vehicle_parked (find_vehicle s.vehicles pl) = 0 ∧
  (is_date_valid (token_date dt tt) s).1 ≠ 0

/-- The checks of `register_exit` all pass for the name `nm`, the plate `pl` and the
tokens `dt` and `tt`; `slot` and `park` are what `find_parking` returns and `v` is what
`find_vehicle` returns. -/
def exit_checks (s : args) (nm pl : String) (dt : date_token) (tt : time_token)
    (slot : Nat) (park : parking) (v : vehicle) : Prop :=
  find_parking s (some nm) = Result.ok (some (slot, park)) ∧
  is_license_plate_valid pl ≠ 0 ∧ find_vehicle s.vehicles pl = some v ∧ v.is_parked ≠ 0 ∧
  v.parking_name = some park.name ∧ (is_date_valid (token_date dt tt) s).1 ≠ 0

/-- The invariant of the reached states that the statements about entry and exit rely
on. -/
def state_wf (s : args) : Prop :=
  registry_wf s ∧ index_wf s.vehicles ∧ parked_wf s ∧ billing_wf s ∧ capacity_ok s

/-! ## Example run -/

/-- The parking of the example run as it is added: capacity 2 and rates 1, 1.5, 20. -/
def demo_parking : parking :=
  { name := "Parking1", max_capacity := 2, cost_x := 1, cost_y := 3 / 2, cost_z := 20,
    free_spaces := 2, billing_day_log := [] }

/-- The date token of the example run: 01-01-2023. -/
def demo_day : date_token := { day := 1, month := 1, year := 2023 }

/-- The state of the example run after `Parking1` was added to the initial state. -/
def demo_added : args :=
  { initial_args with
    parkings := initial_args.parkings.set 0 (some demo_parking)
    park_counter := 1 }

/-- The state of the example run after `AA-00-AA` entered `Parking1` at 10:00. -/
def demo_parked : args :=
  (register_entry_commit
    { demo_added with last_date := token_date demo_day { hour := 10, minutes := 0 } }
    0 demo_parking "Parking1" "AA-00-AA" (token_date demo_day { hour := 10, minutes := 0 })
    none).1

/-- The vehicle of the example run while it is parked. -/
def demo_vehicle : vehicle :=
  { license_plate := "AA-00-AA", parking_name := some "Parking1", is_parked := 1,
    my_logs := [{ license_plate := "AA-00-AA", parking_name := some "Parking1",
                  entry_date := some (token_date demo_day { hour := 10, minutes := 0 }),
                  exit_date := none, cost := 0 }] }

/-- The time token of the example exit: 11:00. -/
def demo_exit_time : time_token := { hour := 11, minutes := 0 }

/-- The state of the example run after `AA-00-AA` left `Parking1` at 11:00. -/
def demo_exited : args :=
  match register_exit demo_parked (some "Parking1") (some "AA-00-AA") (some demo_day)
      (some demo_exit_time) with
  | Result.ok (s, _) => s
  | Result.fault _ => demo_parked

/-- The state and the output of a second entry of `AA-00-AA` while it is parked. -/
def demo_rejected : args × List Output :=
  match register_entry demo_parked (some "Parking1") (some "AA-00-AA") (some demo_day)
      (some { hour := 10, minutes := 30 }) with
  | Result.ok r => r
  | Result.fault _ => (initial_args, [])

/-- The charge of the specification for `q` started quarters of an hour of a partial day,
before the daily cap: the first four at `x`, the others at `y`. -/
def spec_part_day (q : Int) (x y : ℚ) : ℚ :=
  if q ≤ 4 then (q : ℚ) * x else 4 * x + ((q : ℚ) - 4) * y

/-- Twenty parking names for an example of a full registry. -/
def demo_names : List String :=
  ["P01", "P02", "P03", "P04", "P05", "P06", "P07", "P08", "P09", "P10",
   "P11", "P12", "P13", "P14", "P15", "P16", "P17", "P18", "P19", "P20"]

/-- One add-facility command with capacity 1 and rates 1, 2, 3; a fault keeps the
state. -/
def demo_add (s : args) (name : String) : args :=
  match list_or_add_park s (some name) (some 1) (some 1) (some 2) (some 3) with
  | Result.ok (s1, _) => s1
  | Result.fault _ => s

/-- The state with a full registry: the twenty names added to the initial state. -/
def demo_full : args :=
  demo_names.foldl demo_add initial_args

/-! ## Notions for the removal of a parking and for all reachable states -/

/-- The vehicle record that `remove_vehicle_logs` leaves: the logs of the parking are
gone, the others keep their order, and the parked flag is 0. -/
def purge_vehicle (v : vehicle) (name : String) : vehicle :=
  { v with
    my_logs := v.my_logs.filter (fun l => decide (l.parking_name ≠ some name))
    is_parked := 0 }

/-- The entry of the index after `remove_vehicle_logs` on its vehicle. -/
def purge_entry (e : entry) (name : String) : entry :=
  { e with value := purge_vehicle e.value name }

/-- The index after `remove_parking_from_logs`. -/
def purge_index (ht : hashtable) (name : String) : hashtable :=
  { ht with entries := ht.entries.map (fun c => c.map (fun e => purge_entry e name)) }

/-- The array of parkings after the parking of slot `k` was taken out: the slots after it
move one position down and the last slot is empty. -/
def shifted_parkings (parkings : List (Option parking)) (k : Nat) : List (Option parking) :=
  (List.range MAX_PARKINGS).map (fun j =>
    if j < k then parkings.getD j none
    else if j < MAX_PARKINGS - 1 then parkings.getD (j + 1) none
    else none)

/-- Every event of every vehicle history names its parking and has its entry date. -/
def hist_wf (s : args) : Prop :=
  ∀ e ∈ all_entries s.vehicles, ∀ l ∈ e.value.my_logs,
    l.parking_name ≠ none ∧ l.entry_date ≠ none

/-- The part of the invariant that holds in every reachable state, removals included. -/
def core_wf (s : args) : Prop :=
  registry_wf s ∧ index_wf s.vehicles ∧ hist_wf s

/-- States reached from the initial state by add-facility, entry, exit and
remove-facility commands with any tokens, accepted or rejected. -/
inductive reachable : args → Prop where
  | init : reachable initial_args
  | add (s s1 : args) (out : List Output) (name : Option String) (max_capacity : Option Int)
      (cost_x cost_y cost_z : Option ℚ) :
      reachable s →
      list_or_add_park s name max_capacity cost_x cost_y cost_z = Result.ok (s1, out) →
      reachable s1
  | entry (s s1 : args) (out : List Output) (name license_plate : Option String)
      (date_input : Option date_token) (time_input : Option time_token) :
      reachable s →
      register_entry s name license_plate date_input time_input = Result.ok (s1, out) →
      reachable s1
  | exit (s s1 : args) (out : List Output) (name license_plate : Option String)
      (date_input : Option date_token) (time_input : Option time_token) :
      reachable s →
      register_exit s name license_plate date_input time_input = Result.ok (s1, out) →
      reachable s1
  | remove (s s1 : args) (out : List Output) (name : Option String) :
      reachable s →
      remove_parking s name = Result.ok (s1, out) →
      reachable s1

/-- The state after an accepted add-facility command. -/
def add_shape (s s1 : args) : Prop :=
  ∃ (nm : String) (c : Int) (x y z : ℚ),
    s.park_counter < MAX_PARKINGS ∧ name_in_use s.parkings nm = false ∧ 0 < c ∧
    s1 = { s with
      parkings := s.parkings.set s.park_counter.toNat
        (some { name := nm, max_capacity := c, cost_x := x, cost_y := y, cost_z := z,
                free_spaces := c, billing_day_log := [] })
      park_counter := s.park_counter + 1 }

/-- The vehicle record after an accepted entry at `nm`: the record found in the index
(a fresh one with the plate when none was found) with the facility name, the parked
flag and one more event, open, at the end of its history. -/
def entered_vehicle (found : Option vehicle) (nm pl : String) (t : date) : vehicle :=
  match found with
  | none =>
    { license_plate := pl, parking_name := some nm, is_parked := 1,
      my_logs := [{ license_plate := pl, parking_name := some nm, entry_date := some t,
                    exit_date := none, cost := 0 }] }
  | some v =>
    { v with
      parking_name := some nm
      is_parked := 1
      my_logs := v.my_logs ++ [{ license_plate := v.license_plate, parking_name := some nm,
                                 entry_date := some t, exit_date := none, cost := 0 }] }

/-- The index after an accepted entry: a new entry for an unknown plate, a write to the
entry found otherwise. -/
def entered_index (ht : hashtable) (found : Option vehicle) (pl : String) (v1 : vehicle) :
    hashtable :=
  match found with
  | none => insert_new_entry ht pl v1
  | some _ => store_vehicle ht pl v1

/-- The state after an accepted entry command. -/
def entry_shape (s s1 : args) : Prop :=
  ∃ (nm pl : String) (dt : date_token) (tt : time_token) (slot : Nat) (park : parking),
    entry_checks s nm pl dt tt slot park ∧
    s1 = { s with
      last_date := token_date dt tt
      parkings := s.parkings.set slot (some { park with free_spaces := park.free_spaces - 1 })
      vehicles := entered_index s.vehicles (find_vehicle s.vehicles pl) pl
        (entered_vehicle (find_vehicle s.vehicles pl) nm pl (token_date dt tt)) }

/-- The state after an accepted exit command: `last_log` is the event that is closed,
`cost` the computed cost and `park2` the parking after `add_new_exit`. -/
def exit_shape (s s1 : args) : Prop :=
  ∃ (nm pl : String) (dt : date_token) (tt : time_token) (slot : Nat) (park park2 : parking)
    (v : vehicle) (last_log : vehicle_log) (entry_date : date) (cost : ℚ),
    exit_checks s nm pl dt tt slot park v ∧
    v.my_logs.getLast? = some last_log ∧ last_log.entry_date = some entry_date ∧
    calculate_cost { park with free_spaces := park.free_spaces + 1 }
      { last_log with exit_date := some (token_date dt tt) } = Result.ok cost ∧
    add_new_exit (some { park with free_spaces := park.free_spaces + 1 })
      (some (token_date dt tt)) cost
      (some { v with is_parked := 0, parking_name := none,
                     my_logs := v.my_logs.dropLast ++
                       [{ last_log with exit_date := some (token_date dt tt),
                                        cost := cost }] }) = Result.ok (some park2) ∧
    s1 = { s with
      last_date := token_date dt tt
      parkings := s.parkings.set slot (some park2)
      vehicles := store_vehicle s.vehicles pl
        { v with is_parked := 0, parking_name := none,
                 my_logs := v.my_logs.dropLast ++
                   [{ last_log with exit_date := some (token_date dt tt), cost := cost }] } }

/-- The state after an accepted remove-facility command for the parking `p` of slot
`k`. -/
def remove_shape (s s1 : args) : Prop :=
  ∃ (k : Nat) (p : parking),
    registered s k p ∧
    s1 = { s with
      vehicles := purge_index s.vehicles p.name
      parkings := shifted_parkings s.parkings k
      park_counter := s.park_counter - 1 }

/-! ## Second example run: two parkings and a removal -/

/-- The state after a command; a fault keeps the state `s`. -/
def state_after (r : Result (args × List Output)) (s : args) : args :=
  match r with
  | Result.ok (s1, _) => s1
  | Result.fault _ => s

/-- One entry command on the state `s`. -/
def demo_entry (s : args) (name plate : String) (d : date_token) (t : time_token) : args :=
  state_after (register_entry s (some name) (some plate) (some d) (some t)) s

/-- One exit command on the state `s`. -/
def demo_exit (s : args) (name plate : String) (d : date_token) (t : time_token) : args :=
  state_after (register_exit s (some name) (some plate) (some d) (some t)) s

/-- One remove-facility command on the state `s`. -/
def demo_remove (s : args) (name : String) : args :=
  state_after (remove_parking s (some name)) s

/-- The parkings `P1` and `P2` (capacity 1, rates 1, 2, 3) added to the initial state. -/
def demo_two_added : args :=
  demo_add (demo_add initial_args "P1") "P2"

/-- The second example run before the removal: `AA-00-AA` enters `P1` at 10:00 and
leaves it at 11:00, then enters `P2` at 12:00, all on 01-01-2023. -/
def demo_two_parked : args :=
  demo_entry
    (demo_exit (demo_entry demo_two_added "P1" "AA-00-AA" demo_day { hour := 10, minutes := 0 })
      "P1" "AA-00-AA" demo_day { hour := 11, minutes := 0 })
    "P2" "AA-00-AA" demo_day { hour := 12, minutes := 0 }

/-- The second example run after `P1` was removed. -/
def demo_two_removed : args :=
  demo_remove demo_two_parked "P1"

/-! ## Billing of the specification -/

/-- The billing days of a facility after an exit, as the specification describes it: when
the last billing day has the year, month and day of `d` it gets one more record and
the cost is added to its total; otherwise a new billing day with this one record
follows the others. -/
def spec_billing (days : List billing_day) (plate : String) (d : date) (c : ℚ) :
    List billing_day :=
  let record : vehicle_log :=
    { license_plate := plate, parking_name := none, entry_date := none, exit_date := some d,
      cost := c }
  match days.getLast? with
  | some last =>
    if last.exit_date.year = d.year ∧ last.exit_date.month = d.month ∧
        last.exit_date.day = d.day then
      days.dropLast ++
        [{ last with
           vehicle_log := last.vehicle_log ++ [record]
           total_cost := last.total_cost + c }]
    else days ++ [{ exit_date := d, total_cost := c, vehicle_log := [record] }]
  | none => [{ exit_date := d, total_cost := c, vehicle_log := [record] }]

/-- The billing day of the example run after the exit at 11:00 with cost 4. -/
def demo_bill_day : billing_day :=
  { exit_date := token_date demo_day { hour := 11, minutes := 0 }
    total_cost := 4
    vehicle_log :=
      [new_billing_record (token_date demo_day { hour := 11, minutes := 0 }) 4 demo_vehicle] }

/-- The parking of the example run with one billing day. -/
def demo_billed : parking :=
  { demo_parking with billing_day_log := [demo_bill_day] }

/-! ## Ordering of the ledger -/

/-- Strictly earlier calendar date: the order on (year, month, day). -/
def day_before (a b : date) : Prop :=
  a.year < b.year ∨ (a.year = b.year ∧ (a.month < b.month ∨ (a.month = b.month ∧
    a.day < b.day)))

instance (a b : date) : Decidable (day_before a b) := by
  unfold day_before; infer_instance

/-- The entry timestamp of `a` is not later than the entry timestamp of `b`, in the order
on (year, month, day, hour, minute). -/
def entry_order (a b : vehicle_log) : Prop :=
  ∀ ta tb, a.entry_date = some ta → b.entry_date = some tb → ¬ date_earlier tb ta

/-- The billing days of every parking in the array have strictly increasing calendar
dates, and none is later than the clock floor, which is seeded when there is one. -/
def ledger_wf (s : args) : Prop :=
  ∀ (i : Nat) (p : parking), s.parkings.getD i none = some p →
    List.Pairwise (fun a b : billing_day => day_before a.exit_date b.exit_date)
      p.billing_day_log ∧
    ∀ b ∈ p.billing_day_log,
      s.last_date.minutes ≠ -1 ∧ ¬ date_earlier s.last_date b.exit_date

/-- The history of every vehicle of the index is ordered by entry timestamp, and no
entry timestamp is later than the clock floor, which is seeded when there is one. -/
def history_wf (s : args) : Prop :=
  ∀ e ∈ all_entries s.vehicles,
    List.Pairwise entry_order e.value.my_logs ∧
    ∀ l ∈ e.value.my_logs, ∀ t, l.entry_date = some t →
      s.last_date.minutes ≠ -1 ∧ ¬ date_earlier s.last_date t

/-! ## The vehicle index as a finite map -/

/-- A sequence of `insert_new_entry` calls, first pair first. -/
def insert_all (ht : hashtable) (kvs : List (String × vehicle)) : hashtable :=
  kvs.foldl (fun h kv => insert_new_entry h kv.1 kv.2) ht

/-- The finite map of the specification: the value of the pair with key `k`, if any. -/
def spec_lookup (kvs : List (String × vehicle)) (k : String) : Option vehicle :=
  (kvs.find? (fun kv => decide (kv.1 = k))).map Prod.snd

/-! ## Keys of the vehicle index -/

/-- The keys of the index are pairwise distinct, every entry has the plate of its vehicle
as key and the plate is valid, `num_entries` counts the entries, and every entry is in the
chain of the hash of its key. -/
def keys_wf (ht : hashtable) : Prop :=
  ((all_entries ht).map (fun e => e.key)).Nodup ∧
  (∀ e ∈ all_entries ht, e.key = e.value.license_plate ∧ is_license_plate_valid e.key ≠ 0) ∧
  ht.num_entries = ((all_entries ht).length : Int) ∧
  (∀ (i : Nat), ∀ e ∈ ht.entries.getD i [], hash_function e.key % ht.length = i)

/-! ## History query of the specification -/

/-- Every event of every vehicle history names a registered parking. -/
def events_registered (s : args) : Prop :=
  ∀ e ∈ all_entries s.vehicles, ∀ l ∈ e.value.my_logs,
    ∃ nm, l.parking_name = some nm ∧ ∃ i p, registered s i p ∧ p.name = nm

/-- The output lines of a list of events, one per event that has its parking name and
its entry date, in list order. -/
def event_lines (logs : List vehicle_log) : List Output :=
  logs.filterMap (fun l =>
    match l.parking_name, l.entry_date with
    | some n, some t => some (Output.log_line n t l.exit_date)
    | _, _ => none)

/-- The history of the specification: for each name of the list in turn, the lines of the
events of that parking in history order. -/
def spec_history (names : List String) (logs : List vehicle_log) : List Output :=
  names.flatMap (fun nm =>
    event_lines (logs.filter (fun l => decide (l.parking_name = some nm))))

/-- The example run over the end of a month: `AA-00-AA` enters `Parking1` on 31-01-2023
at 10:00 and leaves it on 01-02-2023 at 00:00. -/
def demo_month_end : args :=
  demo_exit
    (demo_entry demo_added "Parking1" "AA-00-AA" { day := 31, month := 1, year := 2023 }
      { hour := 10, minutes := 0 })
    "Parking1" "AA-00-AA" { day := 1, month := 2, year := 2023 } { hour := 0, minutes := 0 }

/-! ## Minute count of the specification -/

/-- The minute count `M(t)` of the specification: 525600 minutes per year, 1440 per day
of the months before `t.month` (from the table) and per day of the month, 60 per hour. -/
def spec_minutes (t : date) : Int :=
  t.year * 525600 + 1440 * (month_table.take (t.month - 1).toNat).sum + 1440 * t.day +
    60 * t.hour + t.minutes

/-! ## Open and closed events -/

/-- Every vehicle with its parked flag set has a last event that is open (no exit date)
and names the current parking of the vehicle, which is registered. -/
def parked_open (s : args) : Prop :=
  ∀ e ∈ all_entries s.vehicles, e.value.is_parked ≠ 0 →
    ∃ l nm, e.value.my_logs.getLast? = some l ∧ l.exit_date = none ∧
      l.parking_name = some nm ∧ e.value.parking_name = some nm ∧
      ∃ i p, registered s i p ∧ p.name = nm

/-- The entry and exit dates of all events are calendar-valid, and no exit date is
earlier than the entry date of its event. -/
def dates_valid (s : args) : Prop :=
  ∀ e ∈ all_entries s.vehicles, ∀ l ∈ e.value.my_logs,
    (∀ t, l.entry_date = some t → calendar_valid t) ∧
    (∀ t, l.exit_date = some t → calendar_valid t) ∧
    (∀ te tx, l.entry_date = some te → l.exit_date = some tx → ¬ date_earlier tx te)

/-! ## Minute counts in 32-bit arithmetic -/

/-- The value of a signed 32-bit `int` that holds `x` modulo 2^32. -/
def wrap32 (x : Int) : Int :=
  (x + 2147483648) % 4294967296 - 2147483648

/-- The per-date minute total of `get_all_minutes` with every operation in signed
32-bit arithmetic, in the order of evaluation of the C expression and of the loop. -/
def date_minutes_int32 (d : date) : Int :=
  let base :=
    wrap32 (wrap32 (wrap32 (wrap32 (d.hour * 60) + d.minutes) +
      wrap32 (wrap32 (d.day * 24) * 60)) + wrap32 (wrap32 (wrap32 (d.year * 365) * 24) * 60))
  (List.range (d.month.toNat - 1)).foldl
    (fun (acc : Int) (k : Nat) => wrap32 (acc + wrap32 (wrap32 (get_days_in_month ((k : Int) + 1) * 24) * 60)))
    base

/-- The function `get_all_minutes` in signed 32-bit arithmetic. -/
def get_all_minutes_int32 (entry_date exit_date : date) : Int :=
  wrap32 (date_minutes_int32 exit_date - date_minutes_int32 entry_date)

/-- The intermediate values of the computation of the per-date total, in exact
arithmetic: the products, the partial sums of the first expression and the value of the
accumulator after each iteration of the loop over the months. -/
def date_minutes_steps (d : date) : List Int :=
  [d.hour * 60, d.hour * 60 + d.minutes, d.day * 24, d.day * 24 * 60,
   d.hour * 60 + d.minutes + d.day * 24 * 60, d.year * 365, d.year * 365 * 24,
   d.year * 365 * 24 * 60,
   d.hour * 60 + d.minutes + d.day * 24 * 60 + d.year * 365 * 24 * 60] ++
  (List.range d.month.toNat).map (fun n =>
    d.hour * 60 + d.minutes + d.day * 24 * 60 + d.year * 365 * 24 * 60 +
      ((List.range n).map (fun (k : Nat) => get_days_in_month ((k : Int) + 1) * 24 * 60)).sum)

/-! ## Totals of the ledger -/

/-- The sum of the stored costs of the closed events (events with an exit date) of the
parking `name` in one history. -/
def closed_cost (name : String) (logs : List vehicle_log) : ℚ :=
  ((logs.filter (fun l => decide (l.parking_name = some name ∧ l.exit_date ≠ none))).map
    (fun l => l.cost)).sum

/-- The sum of the stored costs of the closed events of the parking `name` over the
histories of all vehicles of the index. -/
def closed_total (ht : hashtable) (name : String) : ℚ :=
  ((all_entries ht).map (fun e => closed_cost name e.value.my_logs)).sum

/-- The sum of the totals of the billing days of a parking. -/
def billing_total (p : parking) : ℚ :=
  (p.billing_day_log.map (fun b => b.total_cost)).sum

/-- The total of every billing day is the sum of the costs of its records, and the
billing days of every registered parking add up to the costs of its closed events. -/
def totals_wf (s : args) : Prop :=
  (∀ (i : Nat) (p : parking), s.parkings.getD i none = some p →
    ∀ b ∈ p.billing_day_log, b.total_cost = (b.vehicle_log.map (fun l => l.cost)).sum) ∧
  (∀ (i : Nat) (p : parking), registered s i p →
    billing_total p = closed_total s.vehicles p.name)

/-! ## The date functions with 32-bit `int`

`compare_dates`, `add_new_billing_day` and `add_new_exit` once more, word for word, with
the minute difference of `get_all_minutes_int32` (every operation wrapped to 32 bits, as
the compiled program computes it) in the place of the exact one. -/

/-- The function `compare_dates` in signed 32-bit arithmetic. -/
def compare_dates_int32 (date_1 date_2 : Option date) : Int :=
  match date_1, date_2 with
  | none, _ => 1
  | some _, none => -1
  | some d1, some d2 =>
    if d1.year = d2.year ∧ d1.month = d2.month ∧ d1.day = d2.day then 0
    else get_all_minutes_int32 d1 d2

/-- The function `add_new_billing_day` with the 32-bit `compare_dates_int32`. -/
def add_new_billing_day_int32 (current_parking : parking) (exit_date : date) (cost : ℚ)
    (my_vehicle : vehicle) : Result parking :=
  match current_parking.billing_day_log.getLast? with
  | none => Result.fault Fault.null_deref
  | some current_log =>
    if compare_dates_int32 (some current_log.exit_date) (some exit_date) ≠ 0 then
      let new_exit : billing_day :=
        { exit_date := exit_date, total_cost := cost,
          vehicle_log := [new_billing_record exit_date cost my_vehicle] }
      Result.ok { current_parking with
        billing_day_log := current_parking.billing_day_log ++ [new_exit] }
    else
      match current_log.vehicle_log.getLast? with
      | none => Result.fault Fault.null_deref
      | some _ =>
        Result.ok { current_parking with
          billing_day_log := current_parking.billing_day_log.dropLast ++
            [{ current_log with
               vehicle_log := current_log.vehicle_log ++
                 [new_billing_record exit_date cost my_vehicle]
               total_cost := current_log.total_cost + cost }] }

/-- The function `add_new_exit` with the 32-bit `add_new_billing_day_int32`. -/
def add_new_exit_int32 (current_parking : Option parking) (exit_date : Option date) (cost : ℚ)
    (my_vehicle : Option vehicle) : Result (Option parking) :=
  match current_parking, exit_date, my_vehicle with
  | some park, some d, some v =>
    if park.billing_day_log = [] then
      let new_exit : billing_day :=
        { exit_date := d, total_cost := cost, vehicle_log := [new_billing_record d cost v] }
      Result.ok (some { park with billing_day_log := [new_exit] })
    else
      match add_new_billing_day_int32 park d cost v with
      | Result.fault f => Result.fault f
      | Result.ok park1 => Result.ok (some park1)
  | _, _, _ => Result.ok current_parking

/-- The timestamp 01-01-0001 00:00. -/
def demo_year_one : date := { day := 1, month := 1, year := 1, hour := 0, minutes := 0 }

/-- The timestamp 21-07-8172 04:16, `2 ^ 32` minutes after 01-01-0001 00:00. -/
def demo_year_8172 : date := { day := 21, month := 7, year := 8172, hour := 4, minutes := 16 }

/-- The vehicle `AA-00-AA` after an exit; `add_new_exit` reads only its plate. -/
def demo_left_vehicle : vehicle :=
  { license_plate := "AA-00-AA", parking_name := none, is_parked := 0, my_logs := [] }

/-- The parking `P` (capacity 5, rates 1, 1.5, 20) with the billing day 01-01-0001 of one
exit of cost 0. -/
def demo_old_parking : parking :=
  { name := "P", max_capacity := 5, cost_x := 1, cost_y := 3 / 2, cost_z := 20,
    free_spaces := 5,
    billing_day_log :=
      [{ exit_date := demo_year_one, total_cost := 0,
         vehicle_log := [new_billing_record demo_year_one 0 demo_left_vehicle] }] }

/-! ## The program with machine arithmetic: binary64 `double` -/

/-- A value of the C type `double` (IEEE 754 binary64): a finite value, written as the
rational number it stands for, one of the two infinities, or NaN.  The two signed zeros
are one value, `finite 0`: the program never divides and no comparison tells them
apart. -/
inductive fp where
  | finite (q : ℚ)
  | pos_inf
  | neg_inf
  | nan
  deriving DecidableEq

/-- The power `2 ^ e` for an integer exponent. -/
def two_pow (e : Int) : ℚ :=
  if 0 ≤ e then ((2 ^ e.toNat : Nat) : ℚ) else 1 / ((2 ^ (-e).toNat : Nat) : ℚ)

/-- The number of times `n` can be halved before it falls below 2, counted in at most
`fuel` steps: the position of the highest bit of `n` when `fuel` is `n`. -/
def halvings : Nat → Nat → Nat
  | 0, _ => 0
  | fuel + 1, n => if 2 ≤ n then halvings fuel (n / 2) + 1 else 0

/-- The binary exponent of a positive rational: the integer `e` with
`2 ^ e <= q < 2 ^ (e + 1)`. -/
def binary_exponent (q : ℚ) : Int :=
  let e0 : Int := (halvings q.num.natAbs q.num.natAbs : Int) - (halvings q.den q.den : Int)
  if two_pow e0 ≤ q then e0 else e0 - 1

/-- Rounding of a non-negative rational to the nearest integer, ties to the even one. -/
def round_half_even (m : ℚ) : Int :=
  let f : Int := m.num / (m.den : Int)
  let r : ℚ := m - (f : ℚ)
  if r < 1 / 2 then f
  else if 1 / 2 < r then f + 1
  else if f % 2 = 0 then f
  else f + 1

/-- Rounding of a positive rational to the binary64 grid (53 significant bits, least
exponent -1074 for the last bit), to nearest, ties to even. -/
def round_positive (q : ℚ) : ℚ :=
  let u : Int := max (binary_exponent q - 52) (-1074)
  (round_half_even (q / two_pow u) : ℚ) * two_pow u

/-- The binary64 value of a real result: round to nearest, ties to even; a result that
rounds to `2 ^ 1024` or more in magnitude overflows to an infinity. -/
def fp_round (q : ℚ) : fp :=
  if q = 0 then fp.finite 0
  else if 0 < q then
    (if two_pow 1024 ≤ round_positive q then fp.pos_inf else fp.finite (round_positive q))
  else
    (if two_pow 1024 ≤ round_positive (-q) then fp.neg_inf
     else fp.finite (-(round_positive (-q))))

/-- Conversion of an `int` to `double`. -/
def fp_of_int (n : Int) : fp := fp_round (n : ℚ)

/-- The sign of a `double` that is not NaN: -1, 0 or 1. -/
def fp_sign : fp → Int
  | fp.finite q => if 0 < q then 1 else if q < 0 then -1 else 0
  | fp.pos_inf => 1
  | fp.neg_inf => -1
  | fp.nan => 0

/-- The `double` addition: one rounding of the exact sum; `inf + (-inf)` is NaN. -/
def fp_add : fp → fp → fp
  | fp.nan, _ => fp.nan
  | _, fp.nan => fp.nan
  | fp.finite a, fp.finite b => fp_round (a + b)
  | fp.pos_inf, fp.neg_inf => fp.nan
  | fp.neg_inf, fp.pos_inf => fp.nan
  | fp.pos_inf, _ => fp.pos_inf
  | _, fp.pos_inf => fp.pos_inf
  | fp.neg_inf, _ => fp.neg_inf
  | _, fp.neg_inf => fp.neg_inf

/-- The `double` multiplication: one rounding of the exact product; `0 * inf` is NaN. -/
def fp_mul : fp → fp → fp
  | fp.nan, _ => fp.nan
  | _, fp.nan => fp.nan
  | fp.finite a, fp.finite b => fp_round (a * b)
  | a, b =>
    if fp_sign a * fp_sign b = 0 then fp.nan
    else if 0 < fp_sign a * fp_sign b then fp.pos_inf
    else fp.neg_inf

/-- The C comparison `a < b` on `double`: false when an operand is NaN. -/
def fp_lt : fp → fp → Bool
  | fp.finite a, fp.finite b => decide (a < b)
  | fp.finite _, fp.pos_inf => true
  | fp.neg_inf, fp.finite _ => true
  | fp.neg_inf, fp.pos_inf => true
  | _, _ => false

/-- The C comparison `a <= b` on `double`: false when an operand is NaN. -/
def fp_le : fp → fp → Bool
  | fp.finite a, fp.finite b => decide (a ≤ b)
  | fp.finite _, fp.pos_inf => true
  | fp.neg_inf, fp.finite _ => true
  | fp.neg_inf, fp.pos_inf => true
  | fp.pos_inf, fp.pos_inf => true
  | fp.neg_inf, fp.neg_inf => true
  | _, _ => false


/-- The C comparison `a >= b` on `double`: false when an operand is NaN. -/
def fp_ge (a b : fp) : Bool := fp_le b a

/-- A value of the type `double` as a data invariant: a finite value lies on the
binary64 grid (rounding leaves it as it is). -/
def is_double : fp → Prop
  | fp.finite q => fp_round q = fp.finite q
  | _ => True

instance (a : fp) : Decidable (is_double a) := by
  cases a <;> unfold is_double <;> infer_instance

/-- The C struct `parking` with its three `double` rates as binary64 values. -/
structure parking_fp where
  name : String
  max_capacity : Int
  cost_x : fp
  cost_y : fp
  cost_z : fp
  free_spaces : Int
  billing_day_log : List billing_day
  deriving DecidableEq

/-- The parking record with the rates as the program holds them: each rate is the
`double` nearest to the number written in the command. -/
def parking_fp_of (p : parking) : parking_fp :=
  { name := p.name, max_capacity := p.max_capacity, cost_x := fp_round p.cost_x,
    cost_y := fp_round p.cost_y, cost_z := fp_round p.cost_z, free_spaces := p.free_spaces,
    billing_day_log := p.billing_day_log }

/-- The function `calculate_cost` as the compiled program computes it: the minutes in
signed 32-bit arithmetic, the cost in `double`, every operation rounded once. -/
def calculate_cost_fp (current_parking : parking_fp) (current_log : vehicle_log) : Result fp :=
  match current_log.entry_date, current_log.exit_date with
  | some entry_date, some exit_date =>
    let X := current_parking.cost_x
    let Y := current_parking.cost_y
    let Z := current_parking.cost_z
    let minutes := get_all_minutes_int32 entry_date exit_date
    let days := Int.tdiv minutes (24 * 60)
    let remaining_minutes := Int.tmod minutes (24 * 60)
    let total_cost : fp := fp_add (fp.finite 0) (fp_mul (fp_of_int days) Z)
    let remaining_periods := Int.tdiv (remaining_minutes + 14) 15
    let remaining_cost : fp :=
      if remaining_periods > 4 then
        fp_add (fp_mul (fp_of_int 4) X) (fp_mul (fp_of_int (remaining_periods - 4)) Y)
      else fp_mul (fp_of_int remaining_periods) X
    if fp_lt remaining_cost Z then Result.ok (fp_add total_cost remaining_cost)
    else Result.ok (fp_add total_cost Z)
  | _, _ => Result.fault Fault.null_deref

/-- The function `add_new_parking` with the rates in `double`: the return value, the
record stored in the slot `parkings[park_counter]` (none when the call is refused) and
the lines printed.  The checks are those of the source, in its order; a comparison with
a NaN operand is false. -/
def add_new_parking_fp (parking_args : args) (name : String) (max_capacity : Int)
    (cost_x cost_y cost_z : fp) : Result (Int × Option parking_fp × List Output) :=
  if parking_args.park_counter ≥ MAX_PARKINGS then
    Result.ok (-1, none, [Output.too_many_parks])
  else if name_in_use parking_args.parkings name then
    Result.ok (1, none, [])
  else if max_capacity ≤ 0 then
    Result.ok (-1, none, [Output.invalid_capacity max_capacity])
  else if fp_le cost_x (fp.finite 0) ∨ fp_le cost_y (fp.finite 0) ∨
      fp_le cost_z (fp.finite 0) then
    Result.ok (-1, none, [Output.invalid_cost])
  else if fp_ge cost_x cost_y ∨ fp_ge cost_x cost_z ∨ fp_ge cost_y cost_z then
    Result.ok (-1, none, [Output.invalid_cost])
  else if parking_args.park_counter < 0 then
    Result.fault Fault.out_of_bounds
  else
    let new_parking : parking_fp :=
      { name := name, max_capacity := max_capacity, cost_x := cost_x, cost_y := cost_y,
        cost_z := cost_z, free_spaces := max_capacity, billing_day_log := [] }
    Result.ok (0, some new_parking, [])

/-- The event of `AA-00-AA` in a parking from 01-01-2023 10:00 to the exit date. -/
def demo_stay (name : String) (exit_date : date) : vehicle_log :=
  { license_plate := "AA-00-AA", parking_name := some name,
    entry_date := some (token_date demo_day { hour := 10, minutes := 0 }),
    exit_date := some exit_date, cost := 0 }

/-! ## Tariff, plates and clock: lemmas -/

theorem tdiv_periods (r : Int) (h0 : 0 ≤ r) :
    Int.tdiv (r + 14) 15 = ⌈(r : ℚ) / 15⌉ := by
  rw [Int.tdiv_eq_ediv (by omega) (by norm_num)]
  symm
  rw [Int.ceil_eq_iff]
  have h1 : 15 * ((r + 14) / 15) ≤ r + 14 := Int.mul_ediv_self_le (by norm_num)
  have h2 : r + 14 < 15 * ((r + 14) / 15) + 15 := Int.lt_mul_ediv_self_add (by norm_num)
  have h3 : 15 * ((r + 14) / 15) - 15 < r := by omega
  have h4 : r ≤ 15 * ((r + 14) / 15) := by omega
  constructor
  · rw [lt_div_iff₀ (by norm_num)]
    have : ((15 * ((r + 14) / 15) - 15 : Int) : ℚ) < (r : ℚ) := by exact_mod_cast h3
    push_cast at this
    linarith
  · rw [div_le_iff₀ (by norm_num)]
    have : ((r : Int) : ℚ) ≤ ((15 * ((r + 14) / 15) : Int) : ℚ) := by exact_mod_cast h4
    push_cast at this
    linarith

theorem isupper_iff (c : Char) : isupper c = true ↔ uppercase_letter c := by
  simp [isupper, uppercase_letter]

theorem isdigit_iff (c : Char) : isdigit c = true ↔ decimal_digit c := by
  simp [isdigit, decimal_digit]

theorem letter_not_digit (c : Char) (h : uppercase_letter c) : ¬ decimal_digit c := by
  have h1 : 'A'.toNat = 65 := by decide
  have h4 : '9'.toNat = 57 := by decide
  unfold uppercase_letter at h
  unfold decimal_digit
  omega

theorem plate_segments_cons (s : String) (i : Nat) (rest : List Nat) (l d : Int) :
    plate_segments s (i :: rest) l d =
      if letter_group s i then plate_segments s rest (l + 1) d
      else if digit_group s i then plate_segments s rest l (d + 1)
      else none := by
  unfold letter_group digit_group
  rw [plate_segments]
  by_cases u0 : uppercase_letter (char_at s i) <;> by_cases u1 : uppercase_letter (char_at s (i + 1))
    <;> by_cases d0 : decimal_digit (char_at s i) <;> by_cases d1 : decimal_digit (char_at s (i + 1))
    <;> first
      | exact absurd d0 (letter_not_digit _ u0)
      | simp [(isupper_iff _).mpr, (isdigit_iff _).mpr, isupper_iff, isdigit_iff, u0, u1, d0, d1]

theorem letter_group_not_digit (s : String) (i : Nat) (h : letter_group s i) :
    ¬ digit_group s i := fun h2 => letter_not_digit _ h.1 h2.1

theorem month_cases (m : Int) :
    m < 1 ∨ m = 1 ∨ m = 2 ∨ m = 3 ∨ m = 4 ∨ m = 5 ∨ m = 6 ∨ m = 7 ∨ m = 8 ∨ m = 9 ∨
      m = 10 ∨ m = 11 ∨ m = 12 ∨ 12 < m := by omega

theorem get_days_in_month_table (month : Int) (h1 : 1 ≤ month) (h2 : month ≤ 12) :
    get_days_in_month month = month_table.getD (month - 1).toNat 0 := by
  rcases month_cases month with h | h | h | h | h | h | h | h | h | h | h | h | h | h
  · omega
  all_goals first | omega | (subst h; decide)

theorem get_days_in_month_out (month : Int) (h : month < 1 ∨ 12 < month) :
    get_days_in_month month = 0 := by
  unfold get_days_in_month
  rw [if_neg (by omega), if_neg (by omega), if_neg (by omega)]

theorem get_days_in_month_eq_zero (month : Int) :
    get_days_in_month month = 0 ↔ (month < 1 ∨ 12 < month) := by
  constructor
  · intro h0
    by_contra hc
    have := get_days_in_month_table month (by omega) (by omega)
    rw [h0] at this
    rcases month_cases month with h | h | h | h | h | h | h | h | h | h | h | h | h | h
    · omega
    all_goals first | omega | (subst h; revert this; decide)
  · exact get_days_in_month_out month

theorem is_date_valid_fst (t : date) (s : args) :
    (is_date_valid t s).1 = 1 ↔
      (calendar_valid t ∧ (s.last_date.minutes = -1 ∨ ¬ date_earlier t s.last_date)) := by
  unfold is_date_valid calendar_valid date_earlier
  by_cases hm : t.month < 1 ∨ 12 < t.month
  · have h0 := get_days_in_month_out _ hm
    simp only [h0, if_true]
    constructor
    · intro h; exact absurd h (by decide)
    · rintro ⟨⟨h1, h2, _⟩, _⟩; omega
  · have h0 : ¬ get_days_in_month t.month = 0 := by
      rw [get_days_in_month_eq_zero]; exact hm
    have ht := get_days_in_month_table t.month (by omega) (by omega)
    simp only [h0, if_false]
    rw [← ht]
    generalize get_days_in_month t.month = dm
    split_ifs <;> dsimp only <;> omega

theorem is_date_valid_cases (t : date) (s : args) :
    is_date_valid t s = (0, s) ∨ is_date_valid t s = (1, { s with last_date := t }) := by
  unfold is_date_valid
  dsimp only
  split_ifs <;> simp

theorem is_date_valid_01 (t : date) (s : args) :
    (is_date_valid t s).1 = 1 ∨ (is_date_valid t s).1 = 0 := by
  rcases is_date_valid_cases t s with h | h <;> rw [h] <;> simp

theorem is_date_valid_reject (t : date) (s : args) (h : (is_date_valid t s).1 = 0) :
    (is_date_valid t s).2 = s := by
  rcases is_date_valid_cases t s with h1 | h1
  · rw [h1]
  · rw [h1] at h; exact absurd h (by simp)

theorem is_date_valid_accept (t : date) (s : args) (h : (is_date_valid t s).1 ≠ 0) :
    (is_date_valid t s).2 = { s with last_date := t } := by
  rcases is_date_valid_cases t s with h1 | h1
  · rw [h1] at h; exact absurd rfl h
  · rw [h1]

theorem accepted_chain (ts : List date) :
    ∀ s : args, s.last_date.minutes ≠ -1 →
      List.Chain (fun a b => ¬ date_earlier b a) s.last_date (accepted_dates s ts) := by
  induction ts with
  | nil => intro s _; exact List.Chain.nil
  | cons t ts ih =>
    intro s hs
    unfold accepted_dates
    by_cases h : (is_date_valid t s).1 = 0
    · rw [if_pos h, is_date_valid_reject t s h]
      exact ih s hs
    · rw [if_neg h, is_date_valid_accept t s h]
      have h1 : (is_date_valid t s).1 = 1 := by
        rcases is_date_valid_01 t s with h1 | h1
        · exact h1
        · exact absurd h1 h
      have hv := (is_date_valid_fst t s).mp h1
      have hmin : t.minutes ≠ -1 := by
        have := hv.1
        unfold calendar_valid at this
        omega
      refine List.Chain.cons ?_ (ih { s with last_date := t } hmin)
      rcases hv.2 with h2 | h2
      · exact absurd h2 hs
      · exact h2

theorem accepted_chain_all (ts : List date) :
    ∀ s : args, List.Chain' (fun a b => ¬ date_earlier b a) (accepted_dates s ts) := by
  induction ts with
  | nil => intro s; exact List.chain'_nil
  | cons t ts ih =>
    intro s
    unfold accepted_dates
    by_cases h : (is_date_valid t s).1 = 0
    · rw [if_pos h]
      exact ih _
    · rw [if_neg h, is_date_valid_accept t s h]
      have h1 : (is_date_valid t s).1 = 1 := by
        rcases is_date_valid_01 t s with h1 | h1
        · exact h1
        · exact absurd h1 h
      have hv := (is_date_valid_fst t s).mp h1
      have hmin : t.minutes ≠ -1 := by
        have := hv.1
        unfold calendar_valid at this
        omega
      exact accepted_chain ts { s with last_date := t } hmin

theorem run_clock_floor (ts : List date) :
    ∀ s : args, (run_clock s ts).last_date =
      ((accepted_dates s ts).getLast?).getD s.last_date := by
  induction ts with
  | nil => intro s; rfl
  | cons t ts ih =>
    intro s
    unfold accepted_dates
    show (run_clock (is_date_valid t s).2 ts).last_date = _
    rw [ih]
    by_cases h : (is_date_valid t s).1 = 0
    · rw [if_pos h, is_date_valid_reject t s h]
    · rw [if_neg h, is_date_valid_accept t s h]
      cases hacc : accepted_dates { s with last_date := t } ts with
      | nil => simp
      | cons a l => simp [List.getLast?_cons_cons, List.getLast?_eq_getLast]

/-! ## Registry and index: lemmas -/

theorem strcmp_eq_zero (a b : String) : strcmp a b = 0 ↔ a = b := by
  unfold strcmp
  by_cases h : a = b
  · simp [h]
  · simp only [h, if_false, iff_false]
    split_ifs <;> decide

theorem getD_set_same {α : Type} (l : List α) (i : Nat) (a d : α) (h : i < l.length) :
    (l.set i a).getD i d = a := by
  simp [List.getD_eq_getElem?_getD, List.getElem?_set, h]

theorem getD_set_other {α : Type} (l : List α) (i j : Nat) (a d : α) (h : i ≠ j) :
    (l.set i a).getD j d = l.getD j d := by
  simp [List.getD_eq_getElem?_getD, List.getElem?_set, h]

theorem getD_some_lt {α : Type} (l : List (Option α)) (i : Nat) (a : α)
    (h : l.getD i none = some a) : i < l.length := by
  by_contra hc
  rw [List.getD_eq_default _ _ (by omega)] at h
  exact absurd h (by simp)

theorem getD_ne_nil_lt {α : Type} (l : List (List α)) (i : Nat)
    (h : l.getD i [] ≠ []) : i < l.length := by
  by_contra hc
  rw [List.getD_eq_default _ _ (by omega)] at h
  exact h rfl

/-- What `find_parking_loop` returns when it returns a slot. -/
theorem find_parking_loop_some (parkings : List (Option parking)) (name : String) :
    ∀ (n i k : Nat) (p : parking),
      find_parking_loop parkings name n i = Result.ok (some (k, p)) →
      i ≤ k ∧ k < i + n ∧ k < MAX_PARKINGS ∧ parkings.getD k none = some p ∧ p.name = name := by
  intro n
  induction n with
  | zero => intro i k p h; simp [find_parking_loop] at h
  | succ n ih =>
    intro i k p h
    rw [find_parking_loop] at h
    by_cases hi : i < MAX_PARKINGS
    · rw [if_pos hi] at h
      cases hq : parkings.getD i none with
      | none =>
        rw [hq] at h
        obtain ⟨h1, h2, h3, h4, h5⟩ := ih _ _ _ h
        exact ⟨by omega, by omega, h3, h4, h5⟩
      | some q =>
        rw [hq] at h
        dsimp only at h
        by_cases hs : strcmp q.name name = 0
        · rw [if_pos hs] at h
          simp only [Result.ok.injEq, Option.some.injEq, Prod.mk.injEq] at h
          obtain ⟨rfl, rfl⟩ := h
          exact ⟨le_refl _, by omega, hi, hq, (strcmp_eq_zero _ _).mp hs⟩
        · rw [if_neg hs] at h
          obtain ⟨h1, h2, h3, h4, h5⟩ := ih _ _ _ h
          exact ⟨by omega, by omega, h3, h4, h5⟩
    · rw [if_neg hi] at h
      exact absurd h (by simp)

/-- The loop of `find_parking` finds a parking of the given name when one is in range. -/
theorem find_parking_loop_finds (parkings : List (Option parking)) (name : String) :
    ∀ (n i k : Nat) (p : parking), i ≤ k → k < i + n → k < MAX_PARKINGS →
      parkings.getD k none = some p → p.name = name →
      ∃ k1 p1, find_parking_loop parkings name n i = Result.ok (some (k1, p1)) := by
  intro n
  induction n with
  | zero => intro i k p h1 h2; omega
  | succ n ih =>
    intro i k p h1 h2 h3 h4 h5
    rw [find_parking_loop]
    rw [if_pos (by omega)]
    cases hq : parkings.getD i none with
    | none =>
      dsimp only
      have hne : i ≠ k := by
        intro hik; rw [hik, h4] at hq; exact absurd hq (by simp)
      exact ih (i + 1) k p (by omega) (by omega) h3 h4 h5
    | some q =>
      dsimp only
      by_cases hs : strcmp q.name name = 0
      · rw [if_pos hs]; exact ⟨i, q, rfl⟩
      · rw [if_neg hs]
        have hne : i ≠ k := by
          intro hik; rw [hik, h4] at hq
          simp only [Option.some.injEq] at hq
          rw [← hq, (strcmp_eq_zero _ _).mpr h5] at hs
          exact hs rfl
        exact ih (i + 1) k p (by omega) (by omega) h3 h4 h5

/-- The loop of `find_parking` that ends without a slot has seen no parking of the name. -/
theorem find_parking_loop_none (parkings : List (Option parking)) (name : String) :
    ∀ (n i : Nat), find_parking_loop parkings name n i = Result.ok none →
      ∀ (k : Nat) (p : parking), i ≤ k → k < i + n → parkings.getD k none = some p →
        p.name ≠ name := by
  intro n
  induction n with
  | zero => intro i _ k p h1 h2; omega
  | succ n ih =>
    intro i h k p h1 h2 h3
    rw [find_parking_loop] at h
    by_cases hi : i < MAX_PARKINGS
    · rw [if_pos hi] at h
      cases hq : parkings.getD i none with
      | none =>
        rw [hq] at h
        have hne : i ≠ k := by
          intro hik; rw [hik, h3] at hq; exact absurd hq (by simp)
        exact ih _ h k p (by omega) (by omega) h3
      | some q =>
        rw [hq] at h
        dsimp only at h
        by_cases hs : strcmp q.name name = 0
        · rw [if_pos hs] at h
          exact absurd h (by simp)
        · rw [if_neg hs] at h
          by_cases hik : i = k
          · rw [hik, h3] at hq
            simp only [Option.some.injEq] at hq
            rw [← hq] at hs
            intro hn; exact hs ((strcmp_eq_zero _ _).mpr hn)
          · exact ih _ h k p (by omega) (by omega) h3
    · rw [if_neg hi] at h
      exact absurd h (by simp)

theorem chain_count_nil (name : String) : chain_count [] name = 0 := rfl

theorem chain_count_cons (e : entry) (c : List entry) (name : String) :
    chain_count (e :: c) name = parked_ind e.value name + chain_count c name := by
  unfold chain_count parked_ind
  rw [List.countP_cons]
  by_cases h : parked_at e.value name
  · simp [h]; ring
  · simp [h]

theorem chain_count_append (c1 c2 : List entry) (name : String) :
    chain_count (c1 ++ c2) name = chain_count c1 name + chain_count c2 name := by
  unfold chain_count
  rw [List.countP_append]
  push_cast
  rfl

theorem chain_find_store_same (c : List entry) (k : String) (v v1 : vehicle)
    (h : chain_find c k = some v) : chain_find (chain_store c k v1) k = some v1 := by
  induction c with
  | nil => simp [chain_find] at h
  | cons e c ih =>
    rw [chain_find] at h
    rw [chain_store]
    by_cases hs : strcmp e.key k = 0
    · rw [if_pos hs]
      rw [chain_find, if_pos hs]
    · rw [if_neg hs] at h
      rw [if_neg hs, chain_find, if_neg hs]
      exact ih h

theorem chain_find_store_other (c : List entry) (k k1 : String) (v1 : vehicle)
    (hk : k1 ≠ k) : chain_find (chain_store c k v1) k1 = chain_find c k1 := by
  induction c with
  | nil => rfl
  | cons e c ih =>
    rw [chain_store]
    by_cases hs : strcmp e.key k = 0
    · rw [if_pos hs]
      have hne : ¬ strcmp e.key k1 = 0 := by
        rw [strcmp_eq_zero] at hs ⊢
        rw [hs]; exact fun h => hk h.symm
      rw [chain_find, chain_find]
      simp only [hne, if_false]
    · rw [if_neg hs, chain_find, chain_find, ih]

theorem chain_find_append_new (c : List entry) (k : String) (v1 : vehicle)
    (h : chain_find c k = none) :
    chain_find (c ++ [{ key := k, value := v1 }]) k = some v1 := by
  induction c with
  | nil =>
    show chain_find [{ key := k, value := v1 }] k = some v1
    rw [chain_find, if_pos ((strcmp_eq_zero _ _).mpr rfl)]
  | cons e c ih =>
    rw [chain_find] at h
    by_cases hs : strcmp e.key k = 0
    · rw [if_pos hs] at h; exact absurd h (by simp)
    · rw [if_neg hs] at h
      rw [List.cons_append, chain_find, if_neg hs]
      exact ih h

theorem chain_find_append_other (c : List entry) (k k1 : String) (v1 : vehicle)
    (hk : k1 ≠ k) :
    chain_find (c ++ [{ key := k, value := v1 }]) k1 = chain_find c k1 := by
  induction c with
  | nil =>
    show chain_find [{ key := k, value := v1 }] k1 = chain_find [] k1
    have hne : ¬ strcmp k k1 = 0 := by
      rw [strcmp_eq_zero]; exact fun h => hk h.symm
    simp only [chain_find, hne, if_false]
  | cons e c ih =>
    rw [List.cons_append, chain_find, chain_find, ih]

theorem chain_count_store (c : List entry) (k : String) (v v1 : vehicle) (name : String)
    (h : chain_find c k = some v) :
    chain_count (chain_store c k v1) name =
      chain_count c name - parked_ind v name + parked_ind v1 name := by
  induction c with
  | nil => simp [chain_find] at h
  | cons e c ih =>
    rw [chain_find] at h
    rw [chain_store]
    by_cases hs : strcmp e.key k = 0
    · rw [if_pos hs] at h
      simp only [Option.some.injEq] at h
      rw [if_pos hs, chain_count_cons, chain_count_cons, h]
      ring
    · rw [if_neg hs] at h
      rw [if_neg hs, chain_count_cons, chain_count_cons, ih h]
      ring

theorem chain_store_mem (c : List entry) (k : String) (v1 : vehicle) (e : entry)
    (h : e ∈ chain_store c k v1) : e ∈ c ∨ e.value = v1 := by
  induction c with
  | nil => simp [chain_store] at h
  | cons a c ih =>
    rw [chain_store] at h
    by_cases hs : strcmp a.key k = 0
    · rw [if_pos hs] at h
      rcases List.mem_cons.mp h with h1 | h1
      · right; rw [h1]
      · left; exact List.mem_cons_of_mem _ h1
    · rw [if_neg hs] at h
      rcases List.mem_cons.mp h with h1 | h1
      · left; rw [h1]; exact List.mem_cons_self _ _
      · rcases ih h1 with h2 | h2
        · left; exact List.mem_cons_of_mem _ h2
        · right; exact h2

theorem chain_find_mem (c : List entry) (k : String) (v : vehicle)
    (h : chain_find c k = some v) : ∃ e ∈ c, e.value = v := by
  induction c with
  | nil => simp [chain_find] at h
  | cons a c ih =>
    rw [chain_find] at h
    by_cases hs : strcmp a.key k = 0
    · rw [if_pos hs] at h
      simp only [Option.some.injEq] at h
      exact ⟨a, List.mem_cons_self _ _, h⟩
    · rw [if_neg hs] at h
      obtain ⟨e, he, hv⟩ := ih h
      exact ⟨e, List.mem_cons_of_mem _ he, hv⟩

/-- Counting over all chains after one chain was replaced. -/
theorem flatten_set_count (l : List (List entry)) (name : String) :
    ∀ (i : Nat) (c1 : List entry), i < l.length →
      chain_count ((l.set i c1).flatten) name =
        chain_count l.flatten name - chain_count (l.getD i []) name + chain_count c1 name := by
  induction l with
  | nil => intro i c1 h; simp at h
  | cons c l ih =>
    intro i c1 h
    cases i with
    | zero =>
      simp only [List.set_cons_zero, List.flatten_cons, chain_count_append, List.getD_cons_zero]
      ring
    | succ i =>
      simp only [List.set_cons_succ, List.flatten_cons, chain_count_append, List.getD_cons_succ]
      rw [ih i c1 (by simpa using h)]
      ring

theorem flatten_set_mem (l : List (List entry)) (e : entry) :
    ∀ (i : Nat) (c1 : List entry), e ∈ (l.set i c1).flatten → e ∈ l.flatten ∨ e ∈ c1 := by
  induction l with
  | nil => intro i c1 h; simp at h
  | cons c l ih =>
    intro i c1 h
    cases i with
    | zero =>
      simp only [List.set_cons_zero, List.flatten_cons, List.mem_append] at h ⊢
      tauto
    | succ i =>
      simp only [List.set_cons_succ, List.flatten_cons, List.mem_append] at h ⊢
      rcases h with h | h
      · tauto
      · rcases ih i c1 h with h1 | h1 <;> tauto

theorem getD_mem_flatten (l : List (List entry)) (i : Nat) (e : entry)
    (h : e ∈ l.getD i []) : e ∈ l.flatten := by
  by_cases hi : i < l.length
  · rw [List.getD_eq_getElem _ _ hi] at h
    exact List.mem_flatten.mpr ⟨l[i], List.getElem_mem hi, h⟩
  · rw [List.getD_eq_default _ _ (by omega)] at h
    simp at h

theorem chain_find_some_ne_nil (c : List entry) (k : String) (v : vehicle)
    (h : chain_find c k = some v) : c ≠ [] := by
  intro hc; rw [hc] at h; simp [chain_find] at h

theorem find_vehicle_idx_lt (ht : hashtable) (k : String) (v : vehicle)
    (h : find_vehicle ht k = some v) :
    hash_function k % ht.length < ht.entries.length :=
  getD_ne_nil_lt _ _ (chain_find_some_ne_nil _ _ _ h)

theorem find_vehicle_store_same (ht : hashtable) (k : String) (v v1 : vehicle)
    (h : find_vehicle ht k = some v) :
    find_vehicle (store_vehicle ht k v1) k = some v1 := by
  have hi := find_vehicle_idx_lt ht k v h
  unfold find_vehicle store_vehicle
  dsimp only
  rw [getD_set_same _ _ _ _ hi]
  exact chain_find_store_same _ _ _ _ h

theorem find_vehicle_store_other (ht : hashtable) (k k1 : String) (v1 : vehicle)
    (hk : k1 ≠ k) :
    find_vehicle (store_vehicle ht k v1) k1 = find_vehicle ht k1 := by
  unfold find_vehicle store_vehicle
  dsimp only
  by_cases hidx : hash_function k % ht.length = hash_function k1 % ht.length
  · rw [← hidx]
    by_cases hi : hash_function k % ht.length < ht.entries.length
    · rw [getD_set_same _ _ _ _ hi]
      exact chain_find_store_other _ _ _ _ hk
    · rw [List.set_eq_of_length_le (by omega)]
  · rw [getD_set_other _ _ _ _ _ hidx]

theorem find_vehicle_insert_same (ht : hashtable) (k : String) (v1 : vehicle)
    (hwf : index_wf ht) (h : find_vehicle ht k = none) :
    find_vehicle (insert_new_entry ht k v1) k = some v1 := by
  have hi : hash_function k % ht.length < ht.entries.length := by
    rw [hwf.1]; exact Nat.mod_lt _ hwf.2
  unfold find_vehicle insert_new_entry
  dsimp only
  rw [getD_set_same _ _ _ _ hi]
  exact chain_find_append_new _ _ _ h

theorem find_vehicle_insert_other (ht : hashtable) (k k1 : String) (v1 : vehicle)
    (hk : k1 ≠ k) :
    find_vehicle (insert_new_entry ht k v1) k1 = find_vehicle ht k1 := by
  unfold find_vehicle insert_new_entry
  dsimp only
  by_cases hidx : hash_function k % ht.length = hash_function k1 % ht.length
  · rw [← hidx]
    by_cases hi : hash_function k % ht.length < ht.entries.length
    · rw [getD_set_same _ _ _ _ hi]
      exact chain_find_append_other _ _ _ _ hk
    · rw [List.set_eq_of_length_le (by omega)]
  · rw [getD_set_other _ _ _ _ _ hidx]

theorem parked_count_eq (ht : hashtable) (name : String) :
    parked_count ht name = chain_count ht.entries.flatten name := rfl

theorem parked_count_store (ht : hashtable) (k : String) (v v1 : vehicle) (name : String)
    (h : find_vehicle ht k = some v) :
    parked_count (store_vehicle ht k v1) name =
      parked_count ht name - parked_ind v name + parked_ind v1 name := by
  have hi := find_vehicle_idx_lt ht k v h
  rw [parked_count_eq, parked_count_eq]
  unfold store_vehicle
  dsimp only
  rw [flatten_set_count _ _ _ _ hi, chain_count_store _ _ _ _ _ h]
  ring

theorem parked_count_insert (ht : hashtable) (k : String) (v1 : vehicle) (name : String)
    (hwf : index_wf ht) :
    parked_count (insert_new_entry ht k v1) name = parked_count ht name + parked_ind v1 name := by
  have hi : hash_function k % ht.length < ht.entries.length := by
    rw [hwf.1]; exact Nat.mod_lt _ hwf.2
  rw [parked_count_eq, parked_count_eq]
  unfold insert_new_entry
  dsimp only
  rw [flatten_set_count _ _ _ _ hi, chain_count_append, chain_count_cons, chain_count_nil]
  ring

theorem all_entries_store (ht : hashtable) (k : String) (v1 : vehicle) (e : entry)
    (h : e ∈ all_entries (store_vehicle ht k v1)) : e ∈ all_entries ht ∨ e.value = v1 := by
  unfold all_entries store_vehicle at h
  dsimp only at h
  rcases flatten_set_mem _ _ _ _ h with h1 | h1
  · left; exact h1
  · rcases chain_store_mem _ _ _ _ h1 with h2 | h2
    · left; exact getD_mem_flatten _ _ _ h2
    · right; exact h2

theorem all_entries_insert (ht : hashtable) (k : String) (v1 : vehicle) (e : entry)
    (h : e ∈ all_entries (insert_new_entry ht k v1)) : e ∈ all_entries ht ∨ e.value = v1 := by
  unfold all_entries insert_new_entry at h
  dsimp only at h
  rcases flatten_set_mem _ _ _ _ h with h1 | h1
  · left; exact h1
  · rcases List.mem_append.mp h1 with h2 | h2
    · left; exact getD_mem_flatten _ _ _ h2
    · right
      rw [List.mem_singleton] at h2
      rw [h2]

theorem find_vehicle_mem (ht : hashtable) (k : String) (v : vehicle)
    (h : find_vehicle ht k = some v) : ∃ e ∈ all_entries ht, e.value = v := by
  obtain ⟨e, he, hv⟩ := chain_find_mem _ _ _ h
  exact ⟨e, getD_mem_flatten _ _ _ he, hv⟩

theorem index_wf_store (ht : hashtable) (k : String) (v1 : vehicle) (h : index_wf ht) :
    index_wf (store_vehicle ht k v1) := by
  unfold index_wf store_vehicle at *
  simpa using h

theorem index_wf_insert (ht : hashtable) (k : String) (v1 : vehicle) (h : index_wf ht) :
    index_wf (insert_new_entry ht k v1) := by
  unfold index_wf insert_new_entry at *
  simpa using h

/-! ### The registry seen through `find_parking` -/

theorem find_parking_registered (s : args) (name : String) (k : Nat) (p : parking)
    (hwf : registry_wf s) (h : find_parking s (some name) = Result.ok (some (k, p))) :
    registered s k p ∧ p.name = name := by
  unfold find_parking at h
  dsimp only at h
  obtain ⟨_, h2, _, h4, h5⟩ := find_parking_loop_some _ _ _ _ _ _ h
  refine ⟨⟨?_, h4⟩, h5⟩
  by_contra hc
  have := hwf.2.2.2.1 k (by omega)
  rw [this] at h4
  exact absurd h4 (by simp)

theorem find_parking_of_registered (s : args) (name : String) (k : Nat) (p : parking)
    (hwf : registry_wf s) (hr : registered s k p) (hn : p.name = name) :
    find_parking s (some name) = Result.ok (some (k, p)) := by
  unfold find_parking
  dsimp only
  have hk : k < MAX_PARKINGS := by
    have := hwf.2.1
    have := hr.1
    omega
  obtain ⟨k1, p1, h1⟩ := find_parking_loop_finds s.parkings name
    (s.park_counter + 1).toNat 0 k p (by omega) (by have := hr.1; omega) hk hr.2 hn
  rw [h1]
  obtain ⟨_, _, _, h4, h5⟩ := find_parking_loop_some _ _ _ _ _ _ h1
  have hkk : k1 = k := hwf.2.2.2.2.1 k1 k p1 p h4 hr.2 (by rw [h5, hn])
  subst hkk
  rw [hr.2] at h4
  simp only [Option.some.injEq] at h4
  rw [h4]

theorem find_parking_none_name (s : args) :
    find_parking s none = Result.ok none := rfl

theorem find_parking_slot (s : args) (name : Option String) (k : Nat) (p : parking)
    (h : find_parking s name = Result.ok (some (k, p))) :
    s.parkings.getD k none = some p ∧ name = some p.name := by
  cases name with
  | none => simp [find_parking] at h
  | some nm =>
    unfold find_parking at h
    dsimp only at h
    obtain ⟨_, _, _, h4, h5⟩ := find_parking_loop_some _ _ _ _ _ _ h
    exact ⟨h4, by rw [h5]⟩

/-! ## Entry and exit: case analysis -/

theorem parse_date_tokens (dt : date_token) (tt : time_token) :
    parse_date (some dt) (some tt) = Result.ok (token_date dt tt) := rfl

theorem is_vehicle_parked_zero (o : Option vehicle) :
    is_vehicle_parked o = 0 ↔ (o = none ∨ ∃ v, o = some v ∧ v.is_parked = 0) := by
  cases o with
  | none => simp [is_vehicle_parked]
  | some v => simp [is_vehicle_parked]

/-- The two outcomes of `register_entry` that do not fault: an error line with the state
as it was, or the commit after all checks. -/
theorem register_entry_cases (s s1 : args) (out : List Output) (name plate : Option String)
    (d : Option date_token) (t : Option time_token)
    (h : register_entry s name plate d t = Result.ok (s1, out)) :
    (s1 = s ∧ ∃ e, out = [e] ∧ is_error_line e = true) ∨
    (∃ nm pl dt tt slot park, name = some nm ∧ plate = some pl ∧ d = some dt ∧ t = some tt ∧
      entry_checks s nm pl dt tt slot park ∧
      (s1, out) = register_entry_commit { s with last_date := token_date dt tt } slot park
        nm pl (token_date dt tt) (find_vehicle s.vehicles pl)) := by
  unfold register_entry at h
  cases hfp : find_parking s name with
  | fault f => rw [hfp] at h; exact absurd h (by simp)
  | ok cp =>
    rw [hfp] at h
    dsimp only at h
    cases hpd : parse_date d t with
    | fault f => rw [hpd] at h; exact absurd h (by simp)
    | ok entry_date =>
      rw [hpd] at h
      dsimp only at h
      cases cp with
      | none =>
        left
        simp only [Result.ok.injEq, Prod.mk.injEq] at h
        exact ⟨h.1.symm, _, h.2.symm, rfl⟩
      | some sp =>
        obtain ⟨slot, park⟩ := sp
        cases name with
        | none =>
          left
          simp only [Result.ok.injEq, Prod.mk.injEq] at h
          exact ⟨h.1.symm, _, h.2.symm, rfl⟩
        | some nm =>
          dsimp only at h
          by_cases hfree : park.free_spaces ≤ 0
          · rw [if_pos hfree] at h
            left
            simp only [Result.ok.injEq, Prod.mk.injEq] at h
            exact ⟨h.1.symm, _, h.2.symm, rfl⟩
          · rw [if_neg hfree] at h
            cases plate with
            | none =>
              left
              simp only [Result.ok.injEq, Prod.mk.injEq] at h
              exact ⟨h.1.symm, _, h.2.symm, rfl⟩
            | some pl =>
              dsimp only at h
              by_cases hv : is_license_plate_valid pl = 0
              · rw [if_pos hv] at h
                left
                simp only [Result.ok.injEq, Prod.mk.injEq] at h
                exact ⟨h.1.symm, _, h.2.symm, rfl⟩
              · rw [if_neg hv] at h
                by_cases hp : is_vehicle_parked (find_vehicle s.vehicles pl) ≠ 0
                · rw [if_pos hp] at h
                  left
                  simp only [Result.ok.injEq, Prod.mk.injEq] at h
                  exact ⟨h.1.symm, _, h.2.symm, rfl⟩
                · rw [if_neg hp] at h
                  by_cases hdt : d = none ∨ t = none
                  · rw [if_pos hdt] at h
                    left
                    simp only [Result.ok.injEq, Prod.mk.injEq] at h
                    exact ⟨h.1.symm, _, h.2.symm, rfl⟩
                  · rw [if_neg hdt] at h
                    push_neg at hdt
                    obtain ⟨dt, rfl⟩ := Option.ne_none_iff_exists'.mp hdt.1
                    obtain ⟨tt, rfl⟩ := Option.ne_none_iff_exists'.mp hdt.2
                    rw [parse_date_tokens] at hpd
                    simp only [Result.ok.injEq] at hpd
                    subst hpd
                    by_cases hd : (is_date_valid (token_date dt tt) s).1 = 0
                    · rw [if_pos hd, is_date_valid_reject _ _ hd] at h
                      left
                      simp only [Result.ok.injEq, Prod.mk.injEq] at h
                      exact ⟨h.1.symm, _, h.2.symm, rfl⟩
                    · rw [if_neg hd, is_date_valid_accept _ _ hd] at h
                      right
                      simp only [Result.ok.injEq] at h
                      refine ⟨nm, pl, dt, tt, slot, park, rfl, rfl, rfl, rfl,
                        ⟨hfp, by omega, hv, not_not.mp hp, hd⟩, h.symm⟩

/-- When all checks pass, `register_entry` is the commit. -/
theorem register_entry_accept (s : args) (nm pl : String) (dt : date_token) (tt : time_token)
    (slot : Nat) (park : parking) (h : entry_checks s nm pl dt tt slot park) :
    register_entry s (some nm) (some pl) (some dt) (some tt) =
      Result.ok (register_entry_commit { s with last_date := token_date dt tt } slot park
        nm pl (token_date dt tt) (find_vehicle s.vehicles pl)) := by
  obtain ⟨h1, h2, h3, h4, h5⟩ := h
  unfold register_entry
  rw [h1, parse_date_tokens]
  dsimp only
  rw [if_neg (by omega), if_neg h3, if_neg (by simpa using h4), if_neg (by simp), if_neg h5,
    is_date_valid_accept _ _ h5]

/-- The outcomes of `register_exit` that do not fault: the state as it was with an error
line or (when the time token is missing) no line, or the commit after all checks. -/
theorem register_exit_cases (s s1 : args) (out : List Output) (name plate : Option String)
    (d : Option date_token) (t : Option time_token)
    (h : register_exit s name plate d t = Result.ok (s1, out)) :
    (s1 = s ∧ (out = [] ∨ ∃ e, out = [e] ∧ is_error_line e = true)) ∨
    (∃ nm pl dt tt slot park v, name = some nm ∧ plate = some pl ∧ d = some dt ∧ t = some tt ∧
      exit_checks s nm pl dt tt slot park v ∧
      register_exit_commit { s with last_date := token_date dt tt } slot park pl
        (token_date dt tt) v = Result.ok (s1, out)) := by
  unfold register_exit at h
  cases hpd : parse_date d t with
  | fault f => rw [hpd] at h; exact absurd h (by simp)
  | ok exit_date =>
    rw [hpd] at h
    dsimp only at h
    cases hfp : find_parking s name with
    | fault f => rw [hfp] at h; exact absurd h (by simp)
    | ok cp =>
      rw [hfp] at h
      dsimp only at h
      cases plate with
      | none => exact absurd h (by simp)
      | some pl =>
        dsimp only at h
        cases cp with
        | none =>
          left
          simp only [Result.ok.injEq, Prod.mk.injEq] at h
          exact ⟨h.1.symm, Or.inr ⟨_, h.2.symm, rfl⟩⟩
        | some sp =>
          obtain ⟨slot, park⟩ := sp
          dsimp only at h
          by_cases hv : is_license_plate_valid pl = 0
          · rw [if_pos hv] at h
            left
            simp only [Result.ok.injEq, Prod.mk.injEq] at h
            exact ⟨h.1.symm, Or.inr ⟨_, h.2.symm, rfl⟩⟩
          · rw [if_neg hv] at h
            cases hfv : find_vehicle s.vehicles pl with
            | none =>
              rw [hfv] at h
              left
              simp only [Result.ok.injEq, Prod.mk.injEq] at h
              exact ⟨h.1.symm, Or.inr ⟨_, h.2.symm, rfl⟩⟩
            | some v =>
              rw [hfv] at h
              dsimp only at h
              by_cases hp : is_vehicle_parked (some v) = 0
              · rw [if_pos hp] at h
                left
                simp only [Result.ok.injEq, Prod.mk.injEq] at h
                exact ⟨h.1.symm, Or.inr ⟨_, h.2.symm, rfl⟩⟩
              · rw [if_neg hp] at h
                cases hvn : v.parking_name with
                | none => rw [hvn] at h; exact absurd h (by simp)
                | some vp =>
                  rw [hvn] at h
                  dsimp only at h
                  by_cases hn : strcmp park.name vp ≠ 0
                  · rw [if_pos hn] at h
                    left
                    simp only [Result.ok.injEq, Prod.mk.injEq] at h
                    exact ⟨h.1.symm, Or.inr ⟨_, h.2.symm, rfl⟩⟩
                  · rw [if_neg hn] at h
                    by_cases hdt : d = none ∨ t = none
                    · rw [if_pos hdt] at h
                      left
                      simp only [Result.ok.injEq, Prod.mk.injEq] at h
                      exact ⟨h.1.symm, Or.inl h.2.symm⟩
                    · rw [if_neg hdt] at h
                      push_neg at hdt
                      obtain ⟨dt, rfl⟩ := Option.ne_none_iff_exists'.mp hdt.1
                      obtain ⟨tt, rfl⟩ := Option.ne_none_iff_exists'.mp hdt.2
                      rw [parse_date_tokens] at hpd
                      simp only [Result.ok.injEq] at hpd
                      subst hpd
                      by_cases hd : (is_date_valid (token_date dt tt) s).1 = 0
                      · rw [if_pos hd, is_date_valid_reject _ _ hd] at h
                        left
                        simp only [Result.ok.injEq, Prod.mk.injEq] at h
                        exact ⟨h.1.symm, Or.inr ⟨_, h.2.symm, rfl⟩⟩
                      · rw [if_neg hd, is_date_valid_accept _ _ hd] at h
                        right
                        have hnm := (find_parking_slot _ _ _ _ hfp).2
                        have hvp : vp = park.name :=
                          ((strcmp_eq_zero _ _).mp (not_not.mp hn)).symm
                        refine ⟨park.name, pl, dt, tt, slot, park, v, hnm, rfl, rfl, rfl,
                          ⟨by rw [← hnm]; exact hfp, hv, hfv, ?_, by rw [hvn, hvp], hd⟩, h⟩
                        simpa [is_vehicle_parked] using hp

/-- When all checks pass, `register_exit` is the commit. -/
theorem register_exit_accept (s : args) (nm pl : String) (dt : date_token) (tt : time_token)
    (slot : Nat) (park : parking) (v : vehicle) (h : exit_checks s nm pl dt tt slot park v) :
    register_exit s (some nm) (some pl) (some dt) (some tt) =
      register_exit_commit { s with last_date := token_date dt tt } slot park pl
        (token_date dt tt) v := by
  obtain ⟨h1, h2, h3, h4, h5, h6⟩ := h
  unfold register_exit
  rw [parse_date_tokens]
  dsimp only
  rw [h1]
  dsimp only
  rw [if_neg h2, h3]
  dsimp only
  rw [if_neg (by simpa [is_vehicle_parked] using h4), h5]
  dsimp only
  rw [if_neg (by simp [strcmp_eq_zero]), if_neg (by simp), if_neg h6,
    is_date_valid_accept _ _ h6]

theorem calculate_cost_ok (p : parking) (l : vehicle_log) (e x : date)
    (he : l.entry_date = some e) (hx : l.exit_date = some x) :
    ∃ c, calculate_cost p l = Result.ok c := by
  unfold calculate_cost
  rw [he, hx]
  dsimp only
  split_ifs <;> exact ⟨_, rfl⟩

theorem calculate_cost_entry (p : parking) (l : vehicle_log) (c : ℚ)
    (h : calculate_cost p l = Result.ok c) : ∃ e, l.entry_date = some e := by
  unfold calculate_cost at h
  cases he : l.entry_date with
  | none => rw [he] at h; simp at h
  | some e => exact ⟨e, rfl⟩

/-- The two outcomes of `add_new_exit` on a parking, a date and a vehicle: a fault on a
billing day without records, or one more billing record at the end. -/
theorem add_new_exit_cases (park : parking) (d : date) (cost : ℚ) (v : vehicle) :
    ((∃ f, add_new_exit (some park) (some d) cost (some v) = Result.fault f) ∧
      ∃ b ∈ park.billing_day_log, b.vehicle_log = []) ∨
    (∃ days : List billing_day,
      add_new_exit (some park) (some d) cost (some v) =
        Result.ok (some { park with billing_day_log := days }) ∧
      (days.map (fun b => b.vehicle_log)).flatten =
        (park.billing_day_log.map (fun b => b.vehicle_log)).flatten ++
          [new_billing_record d cost v] ∧
      ((∀ b ∈ park.billing_day_log, b.vehicle_log ≠ []) → ∀ b ∈ days, b.vehicle_log ≠ [])) := by
  unfold add_new_exit
  dsimp only
  by_cases hnil : park.billing_day_log = []
  · right
    rw [if_pos hnil]
    refine ⟨_, rfl, by simp [hnil], ?_⟩
    intro _ b hb
    simp only [List.mem_singleton] at hb
    rw [hb]; simp
  · rw [if_neg hnil]
    unfold add_new_billing_day
    have hlast : park.billing_day_log.getLast? = some (park.billing_day_log.getLast hnil) :=
      List.getLast?_eq_getLast _ hnil
    have hsplit : park.billing_day_log.dropLast ++ [park.billing_day_log.getLast hnil] =
        park.billing_day_log := List.dropLast_append_getLast hnil
    generalize park.billing_day_log.getLast hnil = last at hlast hsplit
    rw [hlast]
    dsimp only
    by_cases hc : compare_dates (some last.exit_date) (some d) ≠ 0
    · right
      rw [if_pos hc]
      refine ⟨_, rfl, by simp, ?_⟩
      intro hall b hb
      rcases List.mem_append.mp hb with h1 | h1
      · exact hall b h1
      · simp only [List.mem_singleton] at h1
        rw [h1]; simp
    · rw [if_neg hc]
      cases hl : last.vehicle_log.getLast? with
      | none =>
        left
        refine ⟨⟨_, rfl⟩, last, ?_, ?_⟩
        · rw [← hsplit]; simp
        · simpa using hl
      | some r =>
        right
        dsimp only
        refine ⟨_, rfl, ?_, ?_⟩
        · conv_rhs => rw [← hsplit]
          simp
        · intro hall b hb
          rcases List.mem_append.mp hb with h1 | h1
          · exact hall b (List.mem_of_mem_dropLast h1)
          · simp only [List.mem_singleton] at h1
            rw [h1]; simp

/-- What a successful commit of `register_exit` does. -/
theorem register_exit_commit_ok (s s1 : args) (out : List Output) (slot : Nat) (park : parking)
    (pl : String) (x : date) (v : vehicle)
    (h : register_exit_commit s slot park pl x v = Result.ok (s1, out)) :
    ∃ (last_log : vehicle_log) (entry_date : date) (cost : ℚ) (days : List billing_day),
      v.my_logs.getLast? = some last_log ∧ last_log.entry_date = some entry_date ∧
      calculate_cost { park with free_spaces := park.free_spaces + 1 }
        { last_log with exit_date := some x } = Result.ok cost ∧
      (days.map (fun b => b.vehicle_log)).flatten =
        (park.billing_day_log.map (fun b => b.vehicle_log)).flatten ++
          [new_billing_record x cost
            { v with is_parked := 0, parking_name := none,
                     my_logs := v.my_logs.dropLast ++
                       [{ last_log with exit_date := some x, cost := cost }] }] ∧
      ((∀ b ∈ park.billing_day_log, b.vehicle_log ≠ []) → ∀ b ∈ days, b.vehicle_log ≠ []) ∧
      s1 = { s with
        parkings := s.parkings.set slot
          (some { park with free_spaces := park.free_spaces + 1, billing_day_log := days })
        vehicles := store_vehicle s.vehicles pl
          { v with is_parked := 0, parking_name := none,
                   my_logs := v.my_logs.dropLast ++
                     [{ last_log with exit_date := some x, cost := cost }] } } ∧
      out = [Output.exit_line v.license_plate entry_date x cost] := by
  unfold register_exit_commit at h
  cases hl : v.my_logs.getLast? with
  | none => rw [hl] at h; exact absurd h (by simp)
  | some last_log =>
    rw [hl] at h
    dsimp only at h
    cases hc : calculate_cost { park with free_spaces := park.free_spaces + 1 }
        { last_log with exit_date := some x } with
    | fault f => rw [hc] at h; exact absurd h (by simp)
    | ok cost =>
      rw [hc] at h
      dsimp only at h
      obtain ⟨e, he⟩ := calculate_cost_entry _ _ _ hc
      dsimp only at he
      rcases add_new_exit_cases { park with free_spaces := park.free_spaces + 1 } x cost
        { v with is_parked := 0, parking_name := none,
                 my_logs := v.my_logs.dropLast ++
                   [{ last_log with exit_date := some x, cost := cost }] } with
        ⟨⟨f, hf⟩, _⟩ | ⟨days, hd, hrec, hne⟩
      · rw [hf] at h; exact absurd h (by simp)
      · rw [hd, he] at h
        simp only [Result.ok.injEq, Prod.mk.injEq] at h
        rw [← he] at h
        exact ⟨last_log, e, cost, days, rfl, he, hc, hrec, hne, h.1.symm, h.2.symm⟩

/-- The commit of `register_exit` succeeds when the last log of the vehicle has its
entry date and no billing day of the parking is without records. -/
theorem register_exit_commit_succeeds (s : args) (slot : Nat) (park : parking)
    (pl : String) (x : date) (v : vehicle) (last_log : vehicle_log)
    (hl : v.my_logs.getLast? = some last_log) (he : last_log.entry_date ≠ none)
    (hb : ∀ b ∈ park.billing_day_log, b.vehicle_log ≠ []) :
    ∃ s1 e c, register_exit_commit s slot park pl x v =
      Result.ok (s1, [Output.exit_line v.license_plate e x c]) := by
  obtain ⟨e, he⟩ := Option.ne_none_iff_exists'.mp he
  unfold register_exit_commit
  rw [hl]
  dsimp only
  obtain ⟨c, hc⟩ := calculate_cost_ok { park with free_spaces := park.free_spaces + 1 }
    { last_log with exit_date := some x } e x he rfl
  rw [hc]
  dsimp only
  rcases add_new_exit_cases { park with free_spaces := park.free_spaces + 1 } x c
    { v with is_parked := 0, parking_name := none,
             my_logs := v.my_logs.dropLast ++
               [{ last_log with exit_date := some x, cost := c }] } with
    ⟨_, b, hb1, hb2⟩ | ⟨days, hd, _, _⟩
  · exact absurd hb2 (hb b hb1)
  · rw [hd, he]
    exact ⟨_, _, _, rfl⟩

/-! ### Replacing the parking of one slot -/

theorem slot_update_get (s s1 : args) (slot : Nat) (p p1 : parking)
    (hpk : s1.parkings = s.parkings.set slot (some p1))
    (hget : s.parkings.getD slot none = some p) (j : Nat) :
    s1.parkings.getD j none = if j = slot then some p1 else s.parkings.getD j none := by
  rw [hpk]
  by_cases hj : j = slot
  · rw [if_pos hj, hj]
    exact getD_set_same _ _ _ _ (getD_some_lt _ _ _ hget)
  · rw [if_neg hj]
    exact getD_set_other _ _ _ _ _ (fun h => hj h.symm)

theorem slot_update_registry (s s1 : args) (slot : Nat) (p p1 : parking)
    (hpc : s1.park_counter = s.park_counter)
    (hpk : s1.parkings = s.parkings.set slot (some p1))
    (hget : s.parkings.getD slot none = some p) (hname : p1.name = p.name)
    (hwf : registry_wf s) : registry_wf s1 := by
  have hg := slot_update_get s s1 slot p p1 hpk hget
  obtain ⟨h1, h2, h3, h4, h5, h6⟩ := hwf
  refine ⟨by rw [hpc]; exact h1, by rw [hpc]; exact h2, ?_, ?_, ?_,
    by rw [hpk, List.length_set]; exact h6⟩
  · intro i hi
    rw [hg]
    by_cases his : i = slot
    · rw [if_pos his]; exact ⟨_, rfl⟩
    · rw [if_neg his]; exact h3 i (by rw [← hpc]; exact hi)
  · intro i hi
    rw [hg]
    by_cases his : i = slot
    · rw [hpc] at hi
      have := h4 i hi
      rw [his, hget] at this
      exact absurd this (by simp)
    · rw [if_neg his]; exact h4 i (by rw [← hpc]; exact hi)
  · intro i j a b ha hb hab
    rw [hg] at ha hb
    by_cases his : i = slot <;> by_cases hjs : j = slot
    · rw [his, hjs]
    · rw [if_pos his] at ha
      rw [if_neg hjs] at hb
      simp only [Option.some.injEq] at ha
      rw [his]
      exact h5 slot j p b hget hb (by rw [← hname, ha, hab])
    · rw [if_neg his] at ha
      rw [if_pos hjs] at hb
      simp only [Option.some.injEq] at hb
      rw [hjs]
      exact h5 i slot a p ha hget (by rw [hab, ← hb, hname])
    · rw [if_neg his] at ha
      rw [if_neg hjs] at hb
      exact h5 i j a b ha hb hab

theorem slot_update_registered (s s1 : args) (slot : Nat) (p p1 : parking)
    (hpc : s1.park_counter = s.park_counter)
    (hpk : s1.parkings = s.parkings.set slot (some p1))
    (hget : s.parkings.getD slot none = some p) (i : Nat) (q : parking)
    (h : registered s1 i q) : (i = slot ∧ q = p1) ∨ (i ≠ slot ∧ registered s i q) := by
  have hg := slot_update_get s s1 slot p p1 hpk hget i
  obtain ⟨h1, h2⟩ := h
  rw [hg] at h2
  by_cases his : i = slot
  · rw [if_pos his] at h2
    simp only [Option.some.injEq] at h2
    exact Or.inl ⟨his, h2.symm⟩
  · rw [if_neg his] at h2
    exact Or.inr ⟨his, by rw [← hpc]; exact h1, h2⟩

theorem slot_update_name (s s1 : args) (slot : Nat) (p p1 : parking)
    (hpc : s1.park_counter = s.park_counter)
    (hpk : s1.parkings = s.parkings.set slot (some p1))
    (hget : s.parkings.getD slot none = some p) (hname : p1.name = p.name) (n : String)
    (h : ∃ i q, registered s i q ∧ q.name = n) : ∃ i q, registered s1 i q ∧ q.name = n := by
  obtain ⟨i, q, ⟨h1, h2⟩, h3⟩ := h
  have hg := slot_update_get s s1 slot p p1 hpk hget i
  by_cases his : i = slot
  · rw [if_pos his] at hg
    refine ⟨i, p1, ⟨by rw [hpc]; exact h1, hg⟩, ?_⟩
    rw [his, hget] at h2
    simp only [Option.some.injEq] at h2
    rw [hname, h2, h3]
  · rw [if_neg his] at hg
    exact ⟨i, q, ⟨by rw [hpc]; exact h1, by rw [hg, h2]⟩, h3⟩

theorem slot_update_billing (s s1 : args) (slot : Nat) (p p1 : parking)
    (hpk : s1.parkings = s.parkings.set slot (some p1))
    (hget : s.parkings.getD slot none = some p)
    (hb1 : ∀ b ∈ p1.billing_day_log, b.vehicle_log ≠ [])
    (hwf : billing_wf s) : billing_wf s1 := by
  intro i q hq
  rw [slot_update_get s s1 slot p p1 hpk hget i] at hq
  by_cases his : i = slot
  · rw [if_pos his] at hq
    simp only [Option.some.injEq] at hq
    rw [← hq]; exact hb1
  · rw [if_neg his] at hq
    exact hwf i q hq

/-! ### Adding a parking -/

theorem name_in_use_false (parkings : List (Option parking)) (name : String)
    (h : name_in_use parkings name = false) (i : Nat) (hi : i < MAX_PARKINGS) (p : parking)
    (hp : parkings.getD i none = some p) : p.name ≠ name := by
  unfold name_in_use at h
  rw [List.any_eq_false] at h
  have := h i (List.mem_range.mpr hi)
  rw [hp] at this
  simpa [strcmp_eq_zero] using this

/-- The outcomes of `list_or_add_park` that do not fault: the state as it was, with an
error line when the arguments were refused, or a new parking in the first free slot and
no output. -/
theorem list_or_add_park_cases (s s1 : args) (out : List Output) (name : Option String)
    (max_capacity : Option Int) (cost_x cost_y cost_z : Option ℚ)
    (h : list_or_add_park s name max_capacity cost_x cost_y cost_z = Result.ok (s1, out)) :
    s1 = s ∨
    (∃ nm c x y z, name = some nm ∧ max_capacity = some c ∧ cost_x = some x ∧
      cost_y = some y ∧ cost_z = some z ∧
      0 ≤ s.park_counter ∧ s.park_counter < MAX_PARKINGS ∧
      name_in_use s.parkings nm = false ∧ 0 < c ∧ 0 < x ∧ x < y ∧ y < z ∧
      s1 = { s with
        parkings := s.parkings.set s.park_counter.toNat
          (some { name := nm, max_capacity := c, cost_x := x, cost_y := y, cost_z := z,
                  free_spaces := c, billing_day_log := [] })
        park_counter := s.park_counter + 1 } ∧
      out = []) := by
  unfold list_or_add_park at h
  cases name with
  | none =>
    left
    simp only [Result.ok.injEq, Prod.mk.injEq] at h
    exact h.1.symm
  | some nm =>
    dsimp only at h
    cases max_capacity with
    | none => left; simp only [Result.ok.injEq, Prod.mk.injEq] at h; exact h.1.symm
    | some c =>
      cases cost_x with
      | none => left; simp only [Result.ok.injEq, Prod.mk.injEq] at h; exact h.1.symm
      | some x =>
        cases cost_y with
        | none => left; simp only [Result.ok.injEq, Prod.mk.injEq] at h; exact h.1.symm
        | some y =>
          cases cost_z with
          | none => left; simp only [Result.ok.injEq, Prod.mk.injEq] at h; exact h.1.symm
          | some z =>
            dsimp only at h
            unfold add_new_parking at h
            by_cases h1 : s.park_counter ≥ MAX_PARKINGS
            · rw [if_pos h1] at h
              left
              simp at h
              exact h.1.symm
            · rw [if_neg h1] at h
              by_cases h2 : name_in_use s.parkings nm = true
              · rw [if_pos h2] at h
                left
                simp at h
                exact h.1.symm
              · rw [if_neg h2] at h
                by_cases h3 : c ≤ 0
                · rw [if_pos h3] at h
                  left
                  simp at h
                  exact h.1.symm
                · rw [if_neg h3] at h
                  by_cases h4 : x ≤ 0 ∨ y ≤ 0 ∨ z ≤ 0
                  · rw [if_pos h4] at h
                    left
                    simp at h
                    exact h.1.symm
                  · rw [if_neg h4] at h
                    by_cases h5 : x ≥ y ∨ x ≥ z ∨ y ≥ z
                    · rw [if_pos h5] at h
                      left
                      simp at h
                      exact h.1.symm
                    · rw [if_neg h5] at h
                      by_cases h6 : s.park_counter < 0
                      · rw [if_pos h6] at h
                        exact absurd h (by simp)
                      · rw [if_neg h6] at h
                        right
                        simp at h
                        push_neg at h4 h5
                        exact ⟨nm, c, x, y, z, rfl, rfl, rfl, rfl, rfl, by omega, by omega,
                          by simpa using h2, by omega, h4.1, h5.1, h5.2.2, h.1.symm, h.2⟩

/-! ### Counting parked vehicles -/

theorem parked_ind_not_parked (v : vehicle) (name : String) (h : v.is_parked = 0) :
    parked_ind v name = 0 := by
  unfold parked_ind parked_at
  rw [if_neg (fun hc => hc.1 h)]

theorem parked_ind_parked (v : vehicle) (nm name : String) (h1 : v.is_parked ≠ 0)
    (h2 : v.parking_name = some nm) :
    parked_ind v name = if nm = name then 1 else 0 := by
  unfold parked_ind parked_at
  by_cases hn : nm = name
  · rw [if_pos hn, if_pos ⟨h1, by rw [h2, hn]⟩]
  · rw [if_neg hn, if_neg]
    rintro ⟨_, h⟩
    rw [h2] at h
    simp only [Option.some.injEq] at h
    exact hn h

theorem chain_count_nonneg (c : List entry) (name : String) : 0 ≤ chain_count c name := by
  unfold chain_count; exact Int.natCast_nonneg _

theorem chain_count_zero (c : List entry) (name : String)
    (h : ∀ e ∈ c, ¬ parked_at e.value name) : chain_count c name = 0 := by
  unfold chain_count
  rw [Int.natCast_eq_zero, List.countP_eq_zero]
  intro e he
  simpa using h e he

/-! ### The initial state -/

theorem replicate_none_getD {α : Type} (n i : Nat) :
    (List.replicate n (none : Option α)).getD i none = none := by
  rw [List.getD_eq_getElem?_getD, List.getElem?_replicate]
  split_ifs <;> rfl

theorem replicate_nil_flatten {α : Type} (n : Nat) :
    (List.replicate n ([] : List α)).flatten = [] := by
  induction n with
  | zero => rfl
  | succ n ih => rw [List.replicate_succ, List.flatten_cons, ih]; rfl

theorem initial_parkings_get (i : Nat) : initial_args.parkings.getD i none = none :=
  replicate_none_getD _ _

theorem initial_all_entries : all_entries initial_args.vehicles = [] :=
  replicate_nil_flatten _

theorem state_wf_init : state_wf initial_args := by
  refine ⟨⟨by decide, by decide, ?_, ?_, ?_, ?_⟩, ⟨?_, by decide⟩, ?_, ?_, ?_⟩
  · intro i hi
    have : initial_args.park_counter = 0 := rfl
    omega
  · intro i _; exact initial_parkings_get i
  · intro i j p q hp
    rw [initial_parkings_get] at hp
    exact absurd hp (by simp)
  · exact List.length_replicate _ _
  · exact List.length_replicate _ _
  · intro e he
    rw [initial_all_entries] at he
    exact absurd he (List.not_mem_nil _)
  · intro i p hp
    rw [initial_parkings_get] at hp
    exact absurd hp (by simp)
  · intro i p hp
    have := hp.2
    rw [initial_parkings_get] at this
    exact absurd this (by simp)

/-! ### The invariant after a new parking -/

theorem state_wf_add (s : args) (nm : String) (c : Int) (x y z : ℚ)
    (hwf : state_wf s) (hpc : s.park_counter < MAX_PARKINGS)
    (hname : name_in_use s.parkings nm = false) (hc : 0 < c) :
    state_wf { s with
      parkings := s.parkings.set s.park_counter.toNat
        (some { name := nm, max_capacity := c, cost_x := x, cost_y := y, cost_z := z,
                free_spaces := c, billing_day_log := [] })
      park_counter := s.park_counter + 1 } := by
  obtain ⟨⟨r1, r2, r3, r4, r5, r6⟩, hidx, hpark, hbill, hcap⟩ := hwf
  have hM : (MAX_PARKINGS : Int) = 20 := rfl
  have hlt : s.park_counter.toNat < s.parkings.length := by rw [r6]; unfold MAX_PARKINGS; omega
  have hget : ∀ j : Nat,
      (s.parkings.set s.park_counter.toNat
        (some { name := nm, max_capacity := c, cost_x := x, cost_y := y, cost_z := z,
                free_spaces := c, billing_day_log := [] })).getD j none =
      if j = s.park_counter.toNat then
        some { name := nm, max_capacity := c, cost_x := x, cost_y := y, cost_z := z,
               free_spaces := c, billing_day_log := [] }
      else s.parkings.getD j none := by
    intro j
    by_cases hj : j = s.park_counter.toNat
    · rw [if_pos hj, hj]; exact getD_set_same _ _ _ _ hlt
    · rw [if_neg hj]; exact getD_set_other _ _ _ _ _ (fun h => hj h.symm)
  have hfresh : ∀ (i : Nat) (p : parking), s.parkings.getD i none = some p → p.name ≠ nm := by
    intro i p hp
    have hi : i < MAX_PARKINGS := by rw [← r6]; exact getD_some_lt _ _ _ hp
    exact name_in_use_false _ _ hname i hi p hp
  have hcount : parked_count s.vehicles nm = 0 := by
    apply chain_count_zero
    intro e he hpa
    obtain ⟨n1, hn1, ⟨i, p, hreg, hpn⟩, _⟩ := hpark e he hpa.1
    rw [hpa.2] at hn1
    simp only [Option.some.injEq] at hn1
    exact hfresh i p hreg.2 (by rw [hpn, hn1])
  refine ⟨⟨?_, ?_, ?_, ?_, ?_, ?_⟩, hidx, ?_, ?_, ?_⟩
  · show 0 ≤ s.park_counter + 1
    omega
  · show s.park_counter + 1 ≤ MAX_PARKINGS
    omega
  · intro i hi
    show ∃ p, (s.parkings.set _ _).getD i none = some p
    rw [hget]
    by_cases hj : i = s.park_counter.toNat
    · rw [if_pos hj]; exact ⟨_, rfl⟩
    · rw [if_neg hj]
      apply r3
      have : (i : Int) < s.park_counter + 1 := hi
      omega
  · intro i hi
    show (s.parkings.set _ _).getD i none = none
    rw [hget]
    have : s.park_counter + 1 ≤ (i : Int) := hi
    rw [if_neg (by omega)]
    exact r4 i (by omega)
  · intro i j p q hp hq hpq
    have hp1 : (s.parkings.set _ _).getD i none = some p := hp
    have hq1 : (s.parkings.set _ _).getD j none = some q := hq
    rw [hget] at hp1 hq1
    by_cases hi : i = s.park_counter.toNat <;> by_cases hj : j = s.park_counter.toNat
    · rw [hi, hj]
    · rw [if_pos hi] at hp1
      rw [if_neg hj] at hq1
      simp only [Option.some.injEq] at hp1
      exact absurd (by rw [← hpq, ← hp1]) (hfresh j q hq1)
    · rw [if_neg hi] at hp1
      rw [if_pos hj] at hq1
      simp only [Option.some.injEq] at hq1
      exact absurd (by rw [hpq, ← hq1]) (hfresh i p hp1)
    · rw [if_neg hi] at hp1
      rw [if_neg hj] at hq1
      exact r5 i j p q hp1 hq1 hpq
  · show (s.parkings.set _ _).length = MAX_PARKINGS
    rw [List.length_set]; exact r6
  · intro e he hpa
    obtain ⟨n1, hn1, ⟨i, p, hreg, hpn⟩, hl⟩ := hpark e he hpa
    refine ⟨n1, hn1, ⟨i, p, ⟨?_, ?_⟩, hpn⟩, hl⟩
    · show (i : Int) < s.park_counter + 1
      have := hreg.1
      omega
    · show (s.parkings.set _ _).getD i none = some p
      rw [hget, if_neg]
      · exact hreg.2
      · have := hreg.1
        omega
  · intro i p hp
    have hp1 : (s.parkings.set _ _).getD i none = some p := hp
    rw [hget] at hp1
    by_cases hi : i = s.park_counter.toNat
    · rw [if_pos hi] at hp1
      simp only [Option.some.injEq] at hp1
      rw [← hp1]
      intro b hb
      exact absurd hb (List.not_mem_nil _)
    · rw [if_neg hi] at hp1
      exact hbill i p hp1
  · intro i p hp
    have hp1 : (s.parkings.set _ _).getD i none = some p := hp.2
    have hp0 : (i : Int) < s.park_counter + 1 := hp.1
    rw [hget] at hp1
    show p.free_spaces + parked_count s.vehicles p.name = p.max_capacity ∧ _
    by_cases hi : i = s.park_counter.toNat
    · rw [if_pos hi] at hp1
      simp only [Option.some.injEq] at hp1
      rw [← hp1]
      dsimp only
      rw [hcount]
      omega
    · rw [if_neg hi] at hp1
      exact hcap i p ⟨by omega, hp1⟩

/-! ### The invariant after an entry or an exit -/

/-- The invariant survives a step that replaces the parking of one registered slot by one
of the same name and capacity with `delta` fewer free spaces, while `delta` more vehicles
are parked under that name and every new or changed entry of the index is in order. -/
theorem state_wf_update (s s1 : args) (slot : Nat) (p p1 : parking) (delta : Int)
    (hwf : state_wf s)
    (hpc : s1.park_counter = s.park_counter)
    (hpk : s1.parkings = s.parkings.set slot (some p1))
    (hreg : registered s slot p)
    (hname : p1.name = p.name) (hmax : p1.max_capacity = p.max_capacity)
    (hfree : p1.free_spaces = p.free_spaces - delta) (hfree0 : 0 ≤ p1.free_spaces)
    (hbill : ∀ b ∈ p1.billing_day_log, b.vehicle_log ≠ [])
    (hidx : index_wf s1.vehicles)
    (hcount : ∀ n, parked_count s1.vehicles n =
      parked_count s.vehicles n + (if p.name = n then delta else 0))
    (hent : ∀ e ∈ all_entries s1.vehicles, e ∈ all_entries s.vehicles ∨
      (e.value.is_parked ≠ 0 → e.value.parking_name = some p.name ∧
        ∃ l, e.value.my_logs.getLast? = some l ∧ l.entry_date ≠ none)) :
    state_wf s1 := by
  obtain ⟨hr, _, hpark, hb, hcap⟩ := hwf
  have hget := hreg.2
  refine ⟨slot_update_registry s s1 slot p p1 hpc hpk hget hname hr, hidx, ?_,
    slot_update_billing s s1 slot p p1 hpk hget hbill hb, ?_⟩
  · intro e he hpa
    rcases hent e he with h1 | h1
    · obtain ⟨n1, hn1, hex, hl⟩ := hpark e h1 hpa
      exact ⟨n1, hn1, slot_update_name s s1 slot p p1 hpc hpk hget hname n1 hex, hl⟩
    · obtain ⟨h2, h3⟩ := h1 hpa
      exact ⟨p.name, h2,
        slot_update_name s s1 slot p p1 hpc hpk hget hname p.name ⟨slot, p, hreg, rfl⟩, h3⟩
  · intro i q hq
    rcases slot_update_registered s s1 slot p p1 hpc hpk hget i q hq with ⟨_, h2⟩ | ⟨h1, h2⟩
    · rw [h2, hcount, hname, if_pos rfl, hmax, hfree]
      have := hcap slot p hreg
      have hcn := chain_count_nonneg (all_entries s1.vehicles) p.name
      have hce : parked_count s1.vehicles p.name = chain_count (all_entries s1.vehicles) p.name :=
        rfl
      rw [hcount, if_pos rfl] at hce
      rw [hfree] at hfree0
      omega
    · have hne : p.name ≠ q.name := by
        intro hn
        exact h1 (hr.2.2.2.2.1 i slot q p h2.2 hget hn.symm)
      rw [hcount, if_neg hne, add_zero]
      exact hcap i q h2

theorem getLast?_append_single {α : Type} (l : List α) (a : α) :
    (l ++ [a]).getLast? = some a := by
  simp

/-- The invariant after the commit of an entry. -/
theorem state_wf_entry (s : args) (nm pl : String) (dt : date_token) (tt : time_token)
    (slot : Nat) (park : parking) (hwf : state_wf s)
    (hc : entry_checks s nm pl dt tt slot park) :
    state_wf (register_entry_commit { s with last_date := token_date dt tt } slot park
      nm pl (token_date dt tt) (find_vehicle s.vehicles pl)).1 := by
  obtain ⟨h1, h2, _, h4, _⟩ := hc
  obtain ⟨hreg, hnm⟩ := find_parking_registered s nm slot park hwf.1 h1
  subst hnm
  refine state_wf_update s
    (register_entry_commit { s with last_date := token_date dt tt } slot park
      park.name pl (token_date dt tt) (find_vehicle s.vehicles pl)).1
    slot park { park with free_spaces := park.free_spaces - 1 } 1 hwf
    rfl rfl hreg rfl rfl rfl ?_ ?_ ?_ ?_ ?_
  · show 0 ≤ park.free_spaces - 1
    omega
  · exact hwf.2.2.2.1 slot park hreg.2
  · cases hfv : find_vehicle s.vehicles pl with
    | none => exact index_wf_insert _ _ _ hwf.2.1
    | some v => exact index_wf_store _ _ _ hwf.2.1
  · intro n
    cases hfv : find_vehicle s.vehicles pl with
    | none =>
      show parked_count (insert_new_entry s.vehicles pl _) n = _
      rw [parked_count_insert _ _ _ _ hwf.2.1,
        parked_ind_parked _ park.name n (show (1 : Int) ≠ 0 by decide) rfl]
    | some v =>
      show parked_count (store_vehicle s.vehicles pl _) n = _
      rw [hfv] at h4
      rw [parked_count_store _ _ v _ _ hfv, parked_ind_not_parked v n h4,
        parked_ind_parked _ park.name n (show (1 : Int) ≠ 0 by decide) rfl]
      ring
  · intro e he
    cases hfv : find_vehicle s.vehicles pl with
    | none =>
      rw [hfv] at he
      rcases all_entries_insert _ _ _ _ he with h | h
      · exact Or.inl h
      · right
        intro _
        rw [h]
        exact ⟨rfl, _, getLast?_append_single _ _, by simp⟩
    | some v =>
      rw [hfv] at he
      rcases all_entries_store _ _ _ _ he with h | h
      · exact Or.inl h
      · right
        intro _
        rw [h]
        exact ⟨rfl, _, getLast?_append_single _ _, by simp⟩

/-- The invariant after the commit of an exit. -/
theorem state_wf_exit (s s1 : args) (out : List Output) (nm pl : String) (dt : date_token)
    (tt : time_token) (slot : Nat) (park : parking) (v : vehicle) (hwf : state_wf s)
    (hc : exit_checks s nm pl dt tt slot park v)
    (h : register_exit_commit { s with last_date := token_date dt tt } slot park pl
      (token_date dt tt) v = Result.ok (s1, out)) :
    state_wf s1 := by
  obtain ⟨h1, _, h3, h4, h5, _⟩ := hc
  obtain ⟨hreg, _⟩ := find_parking_registered s nm slot park hwf.1 h1
  obtain ⟨last_log, e, cost, days, _, _, _, _, hne, hs1, _⟩ :=
    register_exit_commit_ok _ _ _ _ _ _ _ _ h
  have hcap := hwf.2.2.2.2 slot park hreg
  refine state_wf_update s s1 slot park
    { park with free_spaces := park.free_spaces + 1, billing_day_log := days } (-1) hwf
    (by rw [hs1]) (by rw [hs1]) hreg rfl rfl ?_ ?_ ?_ ?_ ?_ ?_
  · show park.free_spaces + 1 = park.free_spaces - -1
    omega
  · show 0 ≤ park.free_spaces + 1
    omega
  · exact hne (hwf.2.2.2.1 slot park hreg.2)
  · rw [hs1]; exact index_wf_store _ _ _ hwf.2.1
  · intro n
    rw [hs1]
    show parked_count (store_vehicle s.vehicles pl _) n = _
    rw [parked_count_store _ _ v _ _ h3, parked_ind_parked v park.name n h4 h5,
      parked_ind_not_parked _ n rfl]
    split_ifs <;> ring
  · intro e1 he
    rw [hs1] at he
    rcases all_entries_store _ _ _ _ he with h | h
    · exact Or.inl h
    · right
      intro hp
      rw [h] at hp
      exact absurd rfl hp

/-- Every reached state satisfies the invariant. -/
theorem reached_state_wf (s : args) (h : reached s) : state_wf s := by
  induction h with
  | init => exact state_wf_init
  | add s s1 out name max_capacity cost_x cost_y cost_z _ hstep ih =>
    rcases list_or_add_park_cases _ _ _ _ _ _ _ _ hstep with h1 |
      ⟨nm, c, x, y, z, _, _, _, _, _, _, hpc, hname, hc, _, _, _, hs1, _⟩
    · rw [h1]; exact ih
    · rw [hs1]; exact state_wf_add s nm c x y z ih hpc hname hc
  | entry s s1 out name license_plate date_input time_input _ hstep ih =>
    rcases register_entry_cases _ _ _ _ _ _ _ hstep with ⟨h1, _⟩ |
      ⟨nm, pl, dt, tt, slot, park, _, _, _, _, hc, hs1⟩
    · rw [h1]; exact ih
    · have := state_wf_entry s nm pl dt tt slot park ih hc
      rw [← hs1] at this
      exact this
  | exit s s1 out name license_plate date_input time_input _ hstep ih =>
    rcases register_exit_cases _ _ _ _ _ _ _ hstep with ⟨h1, _⟩ |
      ⟨nm, pl, dt, tt, slot, park, v, _, _, _, _, hc, hs1⟩
    · rw [h1]; exact ih
    · exact state_wf_exit s s1 out nm pl dt tt slot park v ih hc hs1

theorem is_license_plate_valid_01 (s : String) :
    is_license_plate_valid s = 1 ∨ is_license_plate_valid s = 0 := by
  unfold is_license_plate_valid
  split
  · right; rfl
  · split
    · right; rfl
    · split
      · right; rfl
      · left; rfl

theorem is_license_plate_valid_ne (s : String) :
    is_license_plate_valid s ≠ 0 ↔ is_license_plate_valid s = 1 := by
  rcases is_license_plate_valid_01 s with h | h <;> rw [h] <;> simp

theorem is_date_valid_ne (t : date) (s : args) :
    (is_date_valid t s).1 ≠ 0 ↔ (is_date_valid t s).1 = 1 := by
  rcases is_date_valid_01 t s with h | h <;> rw [h] <;> simp

theorem register_entry_commit_out (s : args) (slot : Nat) (park : parking) (nm pl : String)
    (x : date) (ov : Option vehicle) :
    (register_entry_commit s slot park nm pl x ov).2 =
      [Output.entry_line park.name (park.free_spaces - 1)] := rfl

theorem calculate_cost_rates (p q : parking) (l : vehicle_log) (hx : p.cost_x = q.cost_x)
    (hy : p.cost_y = q.cost_y) (hz : p.cost_z = q.cost_z) :
    calculate_cost p l = calculate_cost q l := by
  unfold calculate_cost
  rw [hx, hy, hz]

/-! ### The example run -/

theorem demo_add_step :
    list_or_add_park initial_args (some "Parking1") (some 2) (some 1) (some (3 / 2)) (some 20) =
      Result.ok (demo_added, []) := by
  decide!

theorem demo_entry_step :
    register_entry demo_added (some "Parking1") (some "AA-00-AA") (some demo_day)
      (some { hour := 10, minutes := 0 }) =
      Result.ok (demo_parked, [Output.entry_line "Parking1" 1]) := by
  decide!

theorem demo_added_reached : reached demo_added :=
  reached.add _ _ _ _ _ _ _ _ reached.init demo_add_step

theorem demo_parked_reached : reached demo_parked :=
  reached.entry _ _ _ _ _ _ _ demo_added_reached demo_entry_step

theorem name_lines_no_error (l : List String) :
    ∀ e ∈ l.map Output.name_line, is_error_line e = false := by
  intro e he
  obtain ⟨n, _, hn⟩ := List.mem_map.mp he
  rw [← hn]; rfl

theorem remove_parking_cases (s s1 : args) (out : List Output) (name : Option String)
    (h : remove_parking s name = Result.ok (s1, out)) :
    s1 = s ∨ ∃ l : List String, out = l.map Output.name_line := by
  unfold remove_parking at h
  cases hfp : find_parking s name with
  | fault f => rw [hfp] at h; exact absurd h (by simp)
  | ok mp =>
    rw [hfp] at h
    dsimp only at h
    cases mp with
    | none =>
      left
      simp only [Result.ok.injEq, Prod.mk.injEq] at h
      exact h.1.symm
    | some sp =>
      cases name with
      | none =>
        left
        simp only [Result.ok.injEq, Prod.mk.injEq] at h
        exact h.1.symm
      | some nm =>
        dsimp only at h
        cases hr : remove_parking_from_logs s.vehicles nm with
        | fault f => rw [hr] at h; exact absurd h (by simp)
        | ok v1 =>
          rw [hr] at h
          dsimp only at h
          simp only [Result.ok.injEq, Prod.mk.injEq] at h
          exact Or.inr ⟨_, h.2.symm⟩

/-! ## Tariff: bounds and monotonicity -/


/-- The cost that `calculate_cost` computes is the price formula of the specification. -/
theorem calculate_cost_eq_spec_price (current_parking : parking) (current_log : vehicle_log)
    (entry_date exit_date : date)
    (hentry : current_log.entry_date = some entry_date)
    (hexit : current_log.exit_date = some exit_date)
    (hm0 : 0 ≤ get_all_minutes entry_date exit_date) :
    calculate_cost current_parking current_log =
      Result.ok (spec_price (get_all_minutes entry_date exit_date) current_parking.cost_x
        current_parking.cost_y current_parking.cost_z) := by
  generalize hm : get_all_minutes entry_date exit_date = m at hm0
  have hr : 0 ≤ m % 1440 := Int.emod_nonneg _ (by norm_num)
  unfold calculate_cost spec_price
  simp only [hentry, hexit, hm]
  have e1 : Int.tdiv m (24 * 60) = m / 1440 := by
    rw [Int.tdiv_eq_ediv hm0 (by norm_num)]; norm_num
  have e2 : Int.tmod m (24 * 60) = m % 1440 := by
    rw [Int.tmod_eq_emod hm0 (by norm_num)]; norm_num
  rw [e1, e2, tdiv_periods _ hr]
  generalize ⌈((m % 1440 : Int) : ℚ) / 15⌉ = q
  by_cases hq : q ≤ 4
  · have hq' : ¬ q > 4 := by omega
    simp only [hq, hq', if_true, if_false, zero_add]
    by_cases hc : (q : ℚ) * current_parking.cost_x < current_parking.cost_z
    · simp [hc, min_eq_left (le_of_lt hc)]
    · simp [hc, min_eq_right (not_lt.mp hc)]
  · have hq' : q > 4 := by omega
    simp only [hq, hq', if_true, if_false, zero_add]
    push_cast
    by_cases hc : 4 * current_parking.cost_x + ((q : ℚ) - 4) * current_parking.cost_y <
        current_parking.cost_z
    · simp [hc, min_eq_left (le_of_lt hc)]
    · simp [hc, min_eq_right (not_lt.mp hc)]

theorem spec_price_eq (m : Int) (x y z : ℚ) :
    spec_price m x y z =
      ((m / 1440 : Int) : ℚ) * z + min (spec_part_day ⌈((m % 1440 : Int) : ℚ) / 15⌉ x y) z := rfl

theorem quarters_nonneg (r : Int) (h : 0 ≤ r) : 0 ≤ ⌈((r : Int) : ℚ) / 15⌉ := by
  apply Int.ceil_nonneg
  have : (0 : ℚ) ≤ (r : ℚ) := by exact_mod_cast h
  positivity

theorem quarters_mono (r1 r2 : Int) (h : r1 ≤ r2) :
    ⌈((r1 : Int) : ℚ) / 15⌉ ≤ ⌈((r2 : Int) : ℚ) / 15⌉ := by
  apply Int.ceil_le_ceil
  have : (r1 : ℚ) ≤ (r2 : ℚ) := by exact_mod_cast h
  exact div_le_div_of_nonneg_right this (by norm_num)

theorem spec_part_day_nonneg (q : Int) (x y : ℚ) (hq : 0 ≤ q) (hx : 0 ≤ x) (hy : 0 ≤ y) :
    0 ≤ spec_part_day q x y := by
  unfold spec_part_day
  have hq0 : (0 : ℚ) ≤ (q : ℚ) := by exact_mod_cast hq
  split_ifs with h
  · exact mul_nonneg hq0 hx
  · have h4 : (4 : ℚ) ≤ (q : ℚ) := by
      have : (4 : Int) ≤ q := by omega
      exact_mod_cast this
    have : 0 ≤ ((q : ℚ) - 4) * y := mul_nonneg (by linarith) hy
    linarith

theorem spec_part_day_mono (q1 q2 : Int) (x y : ℚ) (h : q1 ≤ q2) (hx : 0 ≤ x) (hy : 0 ≤ y) :
    spec_part_day q1 x y ≤ spec_part_day q2 x y := by
  unfold spec_part_day
  have hc : (q1 : ℚ) ≤ (q2 : ℚ) := by exact_mod_cast h
  by_cases h1 : q1 ≤ 4 <;> by_cases h2 : q2 ≤ 4
  · rw [if_pos h1, if_pos h2]
    exact mul_le_mul_of_nonneg_right hc hx
  · rw [if_pos h1, if_neg h2]
    have a1 : (q1 : ℚ) ≤ 4 := by exact_mod_cast h1
    have a2 : (4 : ℚ) ≤ (q2 : ℚ) := by
      have : (4 : Int) ≤ q2 := by omega
      exact_mod_cast this
    have b1 : (q1 : ℚ) * x ≤ 4 * x := mul_le_mul_of_nonneg_right a1 hx
    have b2 : 0 ≤ ((q2 : ℚ) - 4) * y := mul_nonneg (by linarith) hy
    linarith
  · omega
  · rw [if_neg h1, if_neg h2]
    have : ((q1 : ℚ) - 4) * y ≤ ((q2 : ℚ) - 4) * y :=
      mul_le_mul_of_nonneg_right (by linarith) hy
    linarith

/-- The price lies between the charge for the full days and one daily cap more. -/
theorem spec_price_bounds (m : Int) (x y z : ℚ) (hx : 0 < x) (hy : 0 < y) (hz : 0 < z) :
    ((m / 1440 : Int) : ℚ) * z ≤ spec_price m x y z ∧
    spec_price m x y z ≤ (((m / 1440 : Int) : ℚ) + 1) * z := by
  rw [spec_price_eq]
  have hp := spec_part_day_nonneg ⌈((m % 1440 : Int) : ℚ) / 15⌉ x y
    (quarters_nonneg _ (Int.emod_nonneg _ (by norm_num))) hx.le hy.le
  have h1 : 0 ≤ min (spec_part_day ⌈((m % 1440 : Int) : ℚ) / 15⌉ x y) z := le_min hp hz.le
  have h2 : min (spec_part_day ⌈((m % 1440 : Int) : ℚ) / 15⌉ x y) z ≤ z := min_le_right _ _
  constructor
  · linarith
  · linarith

/-- The price does not decrease when the elapsed time grows. -/
theorem spec_price_mono (m1 m2 : Int) (x y z : ℚ) (hm : m1 ≤ m2) (hx : 0 < x)
    (hy : 0 < y) (hz : 0 < z) : spec_price m1 x y z ≤ spec_price m2 x y z := by
  have hd : m1 / 1440 ≤ m2 / 1440 := Int.ediv_le_ediv (by norm_num) hm
  rcases lt_or_eq_of_le hd with hlt | heq
  · have b1 := (spec_price_bounds m1 x y z hx hy hz).2
    have b2 := (spec_price_bounds m2 x y z hx hy hz).1
    have hc : ((m1 / 1440 : Int) : ℚ) + 1 ≤ ((m2 / 1440 : Int) : ℚ) := by
      have : m1 / 1440 + 1 ≤ m2 / 1440 := by omega
      exact_mod_cast this
    have : (((m1 / 1440 : Int) : ℚ) + 1) * z ≤ ((m2 / 1440 : Int) : ℚ) * z :=
      mul_le_mul_of_nonneg_right hc hz.le
    linarith
  · rw [spec_price_eq, spec_price_eq, heq]
    have hr : m1 % 1440 ≤ m2 % 1440 := by
      have e1 := Int.emod_add_ediv m1 1440
      have e2 := Int.emod_add_ediv m2 1440
      omega
    have := spec_part_day_mono _ _ x y (quarters_mono _ _ hr) hx.le hy.le
    have := min_le_min_right z this
    linarith

theorem spec_price_zero (x y z : ℚ) (hz : 0 < z) : spec_price 0 x y z = 0 := by
  rw [spec_price_eq]
  norm_num [spec_part_day]
  exact hz.le

theorem spec_price_day (x y z : ℚ) (hz : 0 < z) : spec_price 1440 x y z = z := by
  rw [spec_price_eq]
  norm_num [spec_part_day]
  exact hz.le


/-! ## Adding a parking: lemmas -/

theorem name_in_use_true (parkings : List (Option parking)) (name : String) (i : Nat)
    (hi : i < MAX_PARKINGS) (p : parking) (hp : parkings.getD i none = some p)
    (hn : p.name = name) : name_in_use parkings name = true := by
  unfold name_in_use
  rw [List.any_eq_true]
  refine ⟨i, List.mem_range.mpr hi, ?_⟩
  rw [hp]
  simpa [strcmp_eq_zero] using hn

theorem name_in_use_iff (s : args) (name : String) (hwf : registry_wf s) :
    name_in_use s.parkings name = true ↔ ∃ i p, registered s i p ∧ p.name = name := by
  constructor
  · intro h
    unfold name_in_use at h
    rw [List.any_eq_true] at h
    obtain ⟨i, _, hi⟩ := h
    cases hp : s.parkings.getD i none with
    | none => rw [hp] at hi; exact absurd hi (by simp)
    | some p =>
      rw [hp] at hi
      refine ⟨i, p, ⟨?_, hp⟩, by simpa [strcmp_eq_zero] using hi⟩
      by_contra hc
      have := hwf.2.2.2.1 i (by omega)
      rw [this] at hp
      exact absurd hp (by simp)
  · rintro ⟨i, p, hreg, hn⟩
    have h1 := hreg.1
    have h2 := hwf.2.1
    exact name_in_use_true _ _ i (by unfold MAX_PARKINGS at *; omega) p hreg.2 hn

/-- What a successful `add_new_parking` has checked and done. -/
theorem add_new_parking_zero (s s1 : args) (out : List Output) (name : String) (c : Int)
    (x y z : ℚ) (h : add_new_parking s name c x y z = Result.ok (0, s1, out)) :
    0 ≤ s.park_counter ∧ s.park_counter < MAX_PARKINGS ∧ name_in_use s.parkings name = false ∧
    0 < c ∧ 0 < x ∧ 0 < y ∧ 0 < z ∧ x < y ∧ y < z ∧
    s1 = { s with
      parkings := s.parkings.set s.park_counter.toNat
        (some { name := name, max_capacity := c, cost_x := x, cost_y := y, cost_z := z,
                free_spaces := c, billing_day_log := [] })
      park_counter := s.park_counter + 1 } ∧
    out = [] := by
  unfold add_new_parking at h
  by_cases h1 : s.park_counter ≥ MAX_PARKINGS
  · rw [if_pos h1] at h; simp at h
  · rw [if_neg h1] at h
    by_cases h2 : name_in_use s.parkings name = true
    · rw [if_pos h2] at h; simp at h
    · rw [if_neg h2] at h
      by_cases h3 : c ≤ 0
      · rw [if_pos h3] at h; simp at h
      · rw [if_neg h3] at h
        by_cases h4 : x ≤ 0 ∨ y ≤ 0 ∨ z ≤ 0
        · rw [if_pos h4] at h; simp at h
        · rw [if_neg h4] at h
          by_cases h5 : x ≥ y ∨ x ≥ z ∨ y ≥ z
          · rw [if_pos h5] at h; simp at h
          · rw [if_neg h5] at h
            by_cases h6 : s.park_counter < 0
            · rw [if_pos h6] at h; exact absurd h (by simp)
            · rw [if_neg h6] at h
              simp at h
              push_neg at h4 h5
              exact ⟨by omega, by omega, by simpa using h2, by omega, h4.1, h4.2.1, h4.2.2,
                h5.1, h5.2.2, h.1.symm, h.2⟩

/-- When every check passes, `add_new_parking` stores the parking and returns 0. -/
theorem add_new_parking_accept (s : args) (name : String) (c : Int) (x y z : ℚ)
    (h0 : 0 ≤ s.park_counter) (h1 : s.park_counter < MAX_PARKINGS)
    (h2 : name_in_use s.parkings name = false) (h3 : 0 < c) (hx : 0 < x) (hy : 0 < y)
    (hz : 0 < z) (hxy : x < y) (hyz : y < z) :
    add_new_parking s name c x y z = Result.ok (0,
      { s with
        parkings := s.parkings.set s.park_counter.toNat
          (some { name := name, max_capacity := c, cost_x := x, cost_y := y, cost_z := z,
                  free_spaces := c, billing_day_log := [] })
        park_counter := s.park_counter + 1 }, []) := by
  unfold add_new_parking
  rw [if_neg (by omega), h2]
  simp only [Bool.false_eq_true, if_false]
  rw [if_neg (by omega), if_neg, if_neg, if_neg (by omega)]
  · push_neg
    exact ⟨hxy, lt_trans hxy hyz, hyz⟩
  · push_neg
    exact ⟨hx, hy, hz⟩

theorem demo_add_reached (s : args) (name : String) (h : reached s) :
    reached (demo_add s name) := by
  unfold demo_add
  cases hr : list_or_add_park s (some name) (some 1) (some 1) (some 2) (some 3) with
  | fault f => exact h
  | ok r =>
    obtain ⟨s1, out⟩ := r
    exact reached.add _ _ _ _ _ _ _ _ h hr

theorem demo_foldl_reached (l : List String) :
    ∀ s : args, reached s → reached (l.foldl demo_add s) := by
  induction l with
  | nil => intro s h; exact h
  | cons n l ih => intro s h; exact ih _ (demo_add_reached s n h)

theorem demo_full_reached : reached demo_full :=
  demo_foldl_reached _ _ reached.init

theorem remove_logs_loop_ok (name : String) :
    ∀ logs : List vehicle_log, (∀ l ∈ logs, l.parking_name ≠ none) →
      remove_logs_loop logs name =
        Result.ok (logs.filter (fun l => decide (l.parking_name ≠ some name)))
  | [], _ => rfl
  | l :: rest, h => by
    have hl := h l (List.mem_cons_self _ _)
    have hrest := remove_logs_loop_ok name rest
      (fun x hx => h x (List.mem_cons_of_mem _ hx))
    cases hn : l.parking_name with
    | none => exact absurd hn hl
    | some n =>
      simp only [remove_logs_loop, hn, hrest, strcmp_eq_zero]
      by_cases hnn : n = name
      · subst hnn
        simp [List.filter_cons, hn]
      · have : ¬ (some n = some name) := fun hc => hnn (Option.some.inj hc)
        simp [List.filter_cons, hn, hnn]

theorem remove_vehicle_logs_ok (v : vehicle) (name : String)
    (h : ∀ l ∈ v.my_logs, l.parking_name ≠ none) :
    remove_vehicle_logs v name = Result.ok (purge_vehicle v name) := by
  simp only [remove_vehicle_logs, remove_logs_loop_ok name v.my_logs h, purge_vehicle]

theorem remove_parking_from_chain_ok (name : String) :
    ∀ c : List entry, (∀ e ∈ c, ∀ l ∈ e.value.my_logs, l.parking_name ≠ none) →
      remove_parking_from_chain c name = Result.ok (c.map (fun e => purge_entry e name))
  | [], _ => rfl
  | e :: rest, h => by
    have he := remove_vehicle_logs_ok e.value name (h e (List.mem_cons_self _ _))
    have hrest := remove_parking_from_chain_ok name rest
      (fun x hx => h x (List.mem_cons_of_mem _ hx))
    simp only [remove_parking_from_chain, he, hrest, List.map_cons, purge_entry]

theorem remove_parking_from_slots_ok (name : String) :
    ∀ l : List (List entry),
      (∀ e ∈ l.flatten, ∀ x ∈ e.value.my_logs, x.parking_name ≠ none) →
      remove_parking_from_slots l name =
        Result.ok (l.map (fun c => c.map (fun e => purge_entry e name)))
  | [], _ => rfl
  | c :: rest, h => by
    have hc := remove_parking_from_chain_ok name c
      (fun e he => h e (by simp [he]))
    have hrest := remove_parking_from_slots_ok name rest
      (fun e he => h e (by simp only [List.flatten_cons, List.mem_append]; exact Or.inr he))
    simp only [remove_parking_from_slots, hc, hrest, List.map_cons]

theorem remove_parking_from_logs_ok (ht : hashtable) (name : String)
    (h : ∀ e ∈ all_entries ht, ∀ x ∈ e.value.my_logs, x.parking_name ≠ none) :
    remove_parking_from_logs ht name = Result.ok (purge_index ht name) := by
  simp only [remove_parking_from_logs, remove_parking_from_slots_ok name ht.entries h,
    purge_index]

theorem chain_find_purge (name k : String) :
    ∀ c : List entry, chain_find (c.map (fun e => purge_entry e name)) k =
      (chain_find c k).map (fun v => purge_vehicle v name)
  | [] => rfl
  | e :: rest => by
    simp only [List.map_cons, chain_find, purge_entry]
    split_ifs
    · rfl
    · exact chain_find_purge name k rest

theorem find_vehicle_purge (ht : hashtable) (name k : String) :
    find_vehicle (purge_index ht name) k =
      (find_vehicle ht k).map (fun v => purge_vehicle v name) := by
  simp only [find_vehicle, purge_index]
  rw [← chain_find_purge]
  congr 1
  simp only [List.getD_eq_getElem?_getD, List.getElem?_map]
  cases ht.entries[hash_function k % ht.length]? <;> rfl

theorem all_entries_purge (ht : hashtable) (name : String) :
    all_entries (purge_index ht name) =
      (all_entries ht).map (fun e => purge_entry e name) := by
  simp only [all_entries, purge_index, List.map_flatten]

theorem index_wf_purge (ht : hashtable) (name : String) (h : index_wf ht) :
    index_wf (purge_index ht name) := by
  unfold index_wf at *
  simp only [purge_index, List.length_map]
  exact h

theorem remove_search_some (parkings : List (Option parking)) (name : String) :
    ∀ (n i k : Nat), remove_search parkings name n i = some k →
      i ≤ k ∧ k < i + n ∧ ∃ p, parkings.getD k none = some p ∧ p.name = name
  | 0, i, k, h => by simp [remove_search] at h
  | n + 1, i, k, h => by
    unfold remove_search at h
    cases hp : parkings.getD i none with
    | none =>
      rw [hp] at h
      obtain ⟨h1, h2, h3⟩ := remove_search_some parkings name n (i + 1) k h
      exact ⟨by omega, by omega, h3⟩
    | some p =>
      rw [hp] at h
      dsimp only at h
      by_cases hc : strcmp p.name name = 0
      · rw [if_pos hc] at h
        have hk : i = k := Option.some.inj h
        subst hk
        exact ⟨le_refl _, by omega, p, hp, (strcmp_eq_zero _ _).1 hc⟩
      · rw [if_neg hc] at h
        obtain ⟨h1, h2, h3⟩ := remove_search_some parkings name n (i + 1) k h
        exact ⟨by omega, by omega, h3⟩

theorem remove_search_finds (parkings : List (Option parking)) (name : String) :
    ∀ (n i k : Nat) (p : parking), i ≤ k → k < i + n → parkings.getD k none = some p →
      p.name = name → ∃ k1, remove_search parkings name n i = some k1
  | 0, i, k, p, h1, h2, _, _ => by omega
  | n + 1, i, k, p, h1, h2, hp, hn => by
    unfold remove_search
    by_cases hik : i = k
    · subst hik
      rw [hp]
      dsimp only
      rw [if_pos ((strcmp_eq_zero _ _).2 hn)]
      exact ⟨i, rfl⟩
    · have hrec := remove_search_finds parkings name n (i + 1) k p (by omega) (by omega) hp hn
      cases hq : parkings.getD i none with
      | none => exact hrec
      | some q =>
        dsimp only
        by_cases hc : strcmp q.name name = 0
        · rw [if_pos hc]; exact ⟨i, rfl⟩
        · rw [if_neg hc]; exact hrec

theorem remove_search_registered (s : args) (k : Nat) (p : parking) (hwf : registry_wf s)
    (hr : registered s k p) :
    remove_search s.parkings p.name s.park_counter.toNat 0 = some k := by
  obtain ⟨h0, _, _, _, huniq, _⟩ := hwf
  obtain ⟨hk, hp⟩ := hr
  obtain ⟨k1, hk1⟩ := remove_search_finds s.parkings p.name s.park_counter.toNat 0 k p
    (Nat.zero_le _) (by omega) hp rfl
  obtain ⟨_, _, q, hq, hqn⟩ := remove_search_some _ _ _ _ _ hk1
  rw [hk1, huniq k1 k q p hq hp hqn]

theorem shifted_parkings_get (parkings : List (Option parking)) (k j : Nat)
    (hlen : parkings.length = MAX_PARKINGS) :
    (shifted_parkings parkings k).getD j none =
      if j < k then parkings.getD j none else parkings.getD (j + 1) none := by
  unfold shifted_parkings
  simp only [List.getD_eq_getElem?_getD, List.getElem?_map, List.getElem?_range]
  by_cases hj : j < MAX_PARKINGS
  · rw [List.getElem?_range hj]
    simp only [Option.map_some', Option.getD_some]
    by_cases hjk : j < k
    · simp only [if_pos hjk]
    · simp only [if_neg hjk]
      by_cases hl : j < MAX_PARKINGS - 1
      · simp only [if_pos hl]
      · simp only [if_neg hl]
        have : parkings.length ≤ j + 1 := by rw [hlen]; omega
        rw [List.getElem?_eq_none this]
        rfl
  · have hr : (List.range MAX_PARKINGS)[j]? = none :=
      List.getElem?_eq_none (by rw [List.length_range]; omega)
    rw [hr]
    have h1 : parkings[j]? = none := List.getElem?_eq_none (by omega)
    have h2 : parkings[j + 1]? = none := List.getElem?_eq_none (by omega)
    rw [h1, h2]
    simp

theorem shifted_parkings_length (parkings : List (Option parking)) (k : Nat) :
    (shifted_parkings parkings k).length = MAX_PARKINGS := by
  simp [shifted_parkings]

theorem remove_shape_registry (s s1 : args) (hwf : registry_wf s) (h : remove_shape s s1) :
    registry_wf s1 := by
  obtain ⟨k, p, ⟨hk, hp⟩, rfl⟩ := h
  obtain ⟨h0, h1, hsome, hnone, huniq, hlen⟩ := hwf
  have hget := fun j => shifted_parkings_get s.parkings k j hlen
  refine ⟨?_, ?_, ?_, ?_, ?_, ?_⟩
  · show 0 ≤ s.park_counter - 1
    omega
  · show s.park_counter - 1 ≤ MAX_PARKINGS
    omega
  · intro i hi
    change (i : Int) < s.park_counter - 1 at hi
    show ∃ q, (shifted_parkings s.parkings k).getD i none = some q
    rw [hget]
    split_ifs
    · exact hsome i (by omega)
    · exact hsome (i + 1) (by push_cast; omega)
  · intro i hi
    change s.park_counter - 1 ≤ (i : Int) at hi
    show (shifted_parkings s.parkings k).getD i none = none
    rw [hget, if_neg (by omega)]
    exact hnone (i + 1) (by push_cast; omega)
  · intro i j a b ha hb hab
    change (shifted_parkings s.parkings k).getD i none = some a at ha
    change (shifted_parkings s.parkings k).getD j none = some b at hb
    rw [hget] at ha hb
    split_ifs at ha hb with hi hj hj
    · exact huniq i j a b ha hb hab
    · have := huniq i (j + 1) a b ha hb hab
      omega
    · have := huniq (i + 1) j a b ha hb hab
      omega
    · have := huniq (i + 1) (j + 1) a b ha hb hab
      omega
  · exact shifted_parkings_length _ _

theorem remove_parking_accept (s : args) (k : Nat) (p : parking) (hwf : registry_wf s)
    (hh : ∀ e ∈ all_entries s.vehicles, ∀ x ∈ e.value.my_logs, x.parking_name ≠ none)
    (hr : registered s k p) :
    ∃ out, remove_parking s (some p.name) = Result.ok
      ({ s with
          vehicles := purge_index s.vehicles p.name
          parkings := shifted_parkings s.parkings k
          park_counter := s.park_counter - 1 }, out) := by
  have hf := find_parking_of_registered s p.name k p hwf hr rfl
  have hs : remove_search s.parkings p.name s.park_counter.toNat 0 = some k :=
    remove_search_registered s k p hwf hr
  unfold remove_parking
  rw [hf]
  simp only [remove_parking_from_logs_ok s.vehicles p.name hh, remove_parking_from_list, hs]
  exact ⟨_, rfl⟩

theorem remove_logs_loop_names (name : String) :
    ∀ (logs kept : List vehicle_log), remove_logs_loop logs name = Result.ok kept →
      ∀ l ∈ logs, l.parking_name ≠ none
  | [], _, _ => by simp
  | l :: rest, kept, h => by
    unfold remove_logs_loop at h
    cases hn : l.parking_name with
    | none => rw [hn] at h; simp at h
    | some n =>
      rw [hn] at h
      dsimp only at h
      cases hr : remove_logs_loop rest name with
      | fault f => rw [hr] at h; simp at h
      | ok kept1 =>
        have := remove_logs_loop_names name rest kept1 hr
        intro x hx
        rcases List.mem_cons.1 hx with rfl | hx
        · rw [hn]; simp
        · exact this x hx

theorem remove_parking_cases_shape (s s1 : args) (out : List Output) (name : Option String)
    (hwf : registry_wf s)
    (hh : ∀ e ∈ all_entries s.vehicles, ∀ x ∈ e.value.my_logs, x.parking_name ≠ none)
    (h : remove_parking s name = Result.ok (s1, out)) :
    (s1 = s ∧ out = [Output.no_such_parking name]) ∨
    (∃ k p, name = some p.name ∧ registered s k p ∧
      s1 = { s with
        vehicles := purge_index s.vehicles p.name
        parkings := shifted_parkings s.parkings k
        park_counter := s.park_counter - 1 }) := by
  cases hf : find_parking s name with
  | fault f => unfold remove_parking at h; rw [hf] at h; simp at h
  | ok r =>
    cases r with
    | none =>
      unfold remove_parking at h; rw [hf] at h
      simp only [Result.ok.injEq, Prod.mk.injEq] at h
      exact Or.inl ⟨h.1.symm, h.2.symm⟩
    | some kp =>
      obtain ⟨k, p⟩ := kp
      have hnm := (find_parking_slot s name k p hf).2
      subst hnm
      obtain ⟨hr, _⟩ := find_parking_registered s p.name k p hwf hf
      obtain ⟨out1, h1⟩ := remove_parking_accept s k p hwf hh hr
      rw [h1] at h
      simp only [Result.ok.injEq, Prod.mk.injEq] at h
      exact Or.inr ⟨k, p, rfl, hr, h.1.symm⟩

theorem add_cases_shape (s s1 : args) (out : List Output) (name : Option String)
    (max_capacity : Option Int) (cost_x cost_y cost_z : Option ℚ)
    (h : list_or_add_park s name max_capacity cost_x cost_y cost_z = Result.ok (s1, out)) :
    s1 = s ∨ add_shape s s1 := by
  rcases list_or_add_park_cases s s1 out name max_capacity cost_x cost_y cost_z h with h1 | h1
  · exact Or.inl h1
  · obtain ⟨nm, c, x, y, z, _, _, _, _, _, _, hpc, hn, hc, _, _, _, hs, _⟩ := h1
    exact Or.inr ⟨nm, c, x, y, z, hpc, hn, hc, hs⟩

theorem register_entry_commit_state (s : args) (slot : Nat) (park : parking)
    (nm pl : String) (t : date) (found : Option vehicle) :
    (register_entry_commit s slot park nm pl t found).1 =
      { s with
        parkings := s.parkings.set slot (some { park with free_spaces := park.free_spaces - 1 })
        vehicles := entered_index s.vehicles found pl (entered_vehicle found nm pl t) } := by
  cases found <;> rfl

theorem entry_cases_shape (s s1 : args) (out : List Output) (name plate : Option String)
    (d : Option date_token) (t : Option time_token)
    (h : register_entry s name plate d t = Result.ok (s1, out)) :
    s1 = s ∨ entry_shape s s1 := by
  rcases register_entry_cases s s1 out name plate d t h with h1 | h1
  · exact Or.inl h1.1
  · obtain ⟨nm, pl, dt, tt, slot, park, _, _, _, _, hc, hs⟩ := h1
    refine Or.inr ⟨nm, pl, dt, tt, slot, park, hc, ?_⟩
    have := congrArg Prod.fst hs
    simp only [register_entry_commit_state] at this
    exact this

theorem register_exit_commit_shape (s s1 : args) (out : List Output) (slot : Nat)
    (park : parking) (pl : String) (x : date) (v : vehicle)
    (h : register_exit_commit s slot park pl x v = Result.ok (s1, out)) :
    ∃ (last_log : vehicle_log) (entry_date : date) (cost : ℚ) (park2 : parking),
      v.my_logs.getLast? = some last_log ∧ last_log.entry_date = some entry_date ∧
      calculate_cost { park with free_spaces := park.free_spaces + 1 }
        { last_log with exit_date := some x } = Result.ok cost ∧
      add_new_exit (some { park with free_spaces := park.free_spaces + 1 }) (some x) cost
        (some { v with is_parked := 0, parking_name := none,
                       my_logs := v.my_logs.dropLast ++
                         [{ last_log with exit_date := some x, cost := cost }] }) =
          Result.ok (some park2) ∧
      s1 = { s with
        parkings := s.parkings.set slot (some park2)
        vehicles := store_vehicle s.vehicles pl
          { v with is_parked := 0, parking_name := none,
                   my_logs := v.my_logs.dropLast ++
                     [{ last_log with exit_date := some x, cost := cost }] } } := by
  unfold register_exit_commit at h
  cases hl : v.my_logs.getLast? with
  | none => rw [hl] at h; exact absurd h (by simp)
  | some last_log =>
    rw [hl] at h
    dsimp only at h
    cases hc : calculate_cost { park with free_spaces := park.free_spaces + 1 }
        { last_log with exit_date := some x } with
    | fault f => rw [hc] at h; exact absurd h (by simp)
    | ok cost =>
      rw [hc] at h
      dsimp only at h
      obtain ⟨e, he⟩ := calculate_cost_entry _ _ _ hc
      dsimp only at he
      rcases add_new_exit_cases { park with free_spaces := park.free_spaces + 1 } x cost
        { v with is_parked := 0, parking_name := none,
                 my_logs := v.my_logs.dropLast ++
                   [{ last_log with exit_date := some x, cost := cost }] } with
        ⟨⟨f, hf⟩, _⟩ | ⟨days, hd, _, _⟩
      · rw [hf] at h; exact absurd h (by simp)
      · have hd1 := hd
        rw [hd, he] at h
        simp only [Result.ok.injEq, Prod.mk.injEq] at h
        rw [← he] at h
        exact ⟨last_log, e, cost, _, rfl, he, hc, hd1, h.1.symm⟩

theorem exit_cases_shape (s s1 : args) (out : List Output) (name plate : Option String)
    (d : Option date_token) (t : Option time_token)
    (h : register_exit s name plate d t = Result.ok (s1, out)) :
    s1 = s ∨ exit_shape s s1 := by
  rcases register_exit_cases s s1 out name plate d t h with h1 | h1
  · exact Or.inl h1.1
  · obtain ⟨nm, pl, dt, tt, slot, park, v, _, _, _, _, hc, hs⟩ := h1
    obtain ⟨last_log, e, cost, park2, hl, he, hcost, hadd, hs1⟩ :=
      register_exit_commit_shape _ _ _ _ _ _ _ _ hs
    exact Or.inr ⟨nm, pl, dt, tt, slot, park, park2, v, last_log, e, cost, hc, hl, he, hcost,
      hadd, hs1⟩

theorem remove_cases_shape (s s1 : args) (out : List Output) (name : Option String)
    (hwf : core_wf s) (h : remove_parking s name = Result.ok (s1, out)) :
    s1 = s ∨ remove_shape s s1 := by
  rcases remove_parking_cases_shape s s1 out name hwf.1
    (fun e he x hx => (hwf.2.2 e he x hx).1) h with h1 | h1
  · exact Or.inl h1.1
  · obtain ⟨k, p, _, hr, hs⟩ := h1
    exact Or.inr ⟨k, p, hr, hs⟩

theorem add_shape_get (s : args) (p1 : parking) (j : Nat) (hwf : registry_wf s)
    (hpc : s.park_counter < MAX_PARKINGS) :
    (s.parkings.set s.park_counter.toNat (some p1)).getD j none =
      if j = s.park_counter.toNat then some p1 else s.parkings.getD j none := by
  obtain ⟨r1, _, _, _, _, r6⟩ := hwf
  have hM : (MAX_PARKINGS : Int) = 20 := rfl
  have hlt : s.park_counter.toNat < s.parkings.length := by
    rw [r6]; unfold MAX_PARKINGS; omega
  by_cases hj : j = s.park_counter.toNat
  · rw [if_pos hj, hj]; exact getD_set_same _ _ _ _ hlt
  · rw [if_neg hj]; exact getD_set_other _ _ _ _ _ (fun h => hj h.symm)

theorem add_shape_registry (s s1 : args) (hwf : registry_wf s) (h : add_shape s s1) :
    registry_wf s1 := by
  obtain ⟨nm, c, x, y, z, hpc, hname, _, rfl⟩ := h
  have hget := fun j => add_shape_get s
    { name := nm, max_capacity := c, cost_x := x, cost_y := y, cost_z := z,
      free_spaces := c, billing_day_log := [] } j hwf hpc
  obtain ⟨r1, r2, r3, r4, r5, r6⟩ := hwf
  have hM : (MAX_PARKINGS : Int) = 20 := rfl
  have hfresh : ∀ (i : Nat) (p : parking), s.parkings.getD i none = some p → p.name ≠ nm := by
    intro i p hp
    have hi : i < MAX_PARKINGS := by rw [← r6]; exact getD_some_lt _ _ _ hp
    exact name_in_use_false _ _ hname i hi p hp
  refine ⟨?_, ?_, ?_, ?_, ?_, ?_⟩
  · show 0 ≤ s.park_counter + 1
    omega
  · show s.park_counter + 1 ≤ MAX_PARKINGS
    omega
  · intro i hi
    show ∃ p, (s.parkings.set _ _).getD i none = some p
    rw [hget]
    by_cases hj : i = s.park_counter.toNat
    · rw [if_pos hj]; exact ⟨_, rfl⟩
    · rw [if_neg hj]
      apply r3
      have : (i : Int) < s.park_counter + 1 := hi
      omega
  · intro i hi
    show (s.parkings.set _ _).getD i none = none
    rw [hget]
    have : s.park_counter + 1 ≤ (i : Int) := hi
    rw [if_neg (by omega)]
    exact r4 i (by omega)
  · intro i j p q hp hq hpq
    have hp1 : (s.parkings.set _ _).getD i none = some p := hp
    have hq1 : (s.parkings.set _ _).getD j none = some q := hq
    rw [hget] at hp1 hq1
    by_cases hi : i = s.park_counter.toNat <;> by_cases hj : j = s.park_counter.toNat
    · rw [hi, hj]
    · rw [if_pos hi] at hp1
      rw [if_neg hj] at hq1
      simp only [Option.some.injEq] at hp1
      exact absurd (by rw [← hpq, ← hp1]) (hfresh j q hq1)
    · rw [if_neg hi] at hp1
      rw [if_pos hj] at hq1
      simp only [Option.some.injEq] at hq1
      exact absurd (by rw [hpq, ← hq1]) (hfresh i p hp1)
    · rw [if_neg hi] at hp1
      rw [if_neg hj] at hq1
      exact r5 i j p q hp1 hq1 hpq
  · show (s.parkings.set _ _).length = MAX_PARKINGS
    rw [List.length_set]; exact r6

theorem entered_index_mem (ht : hashtable) (found : Option vehicle) (pl : String)
    (v1 : vehicle) (e : entry) (h : e ∈ all_entries (entered_index ht found pl v1)) :
    e ∈ all_entries ht ∨ e.value = v1 := by
  cases found with
  | none => exact all_entries_insert _ _ _ _ h
  | some v => exact all_entries_store _ _ _ _ h

theorem index_wf_entered (ht : hashtable) (found : Option vehicle) (pl : String)
    (v1 : vehicle) (h : index_wf ht) : index_wf (entered_index ht found pl v1) := by
  cases found with
  | none => exact index_wf_insert _ _ _ h
  | some v => exact index_wf_store _ _ _ h

theorem entered_vehicle_logs (found : Option vehicle) (nm pl : String) (t : date) :
    (entered_vehicle found nm pl t).my_logs =
      (match found with | none => [] | some v => v.my_logs) ++
        [{ license_plate := (entered_vehicle found nm pl t).license_plate,
           parking_name := some nm, entry_date := some t, exit_date := none, cost := 0 }] := by
  cases found <;> rfl

theorem found_logs_mem (ht : hashtable) (pl : String) (l : vehicle_log)
    (h : l ∈ (match find_vehicle ht pl with | none => [] | some v => v.my_logs)) :
    ∃ e ∈ all_entries ht, l ∈ e.value.my_logs := by
  cases hf : find_vehicle ht pl with
  | none => rw [hf] at h; exact absurd h (List.not_mem_nil _)
  | some v =>
    rw [hf] at h
    obtain ⟨e, he, hv⟩ := find_vehicle_mem ht pl v hf
    exact ⟨e, he, by rw [hv]; exact h⟩

theorem add_new_exit_fields (park park2 : parking) (d : date) (cost : ℚ) (v : vehicle)
    (h : add_new_exit (some park) (some d) cost (some v) = Result.ok (some park2)) :
    park2 = { park with billing_day_log := park2.billing_day_log } := by
  rcases add_new_exit_cases park d cost v with ⟨⟨f, hf⟩, _⟩ | ⟨days, hd, _, _⟩
  · rw [hf] at h; exact absurd h (by simp)
  · rw [hd] at h
    simp only [Result.ok.injEq, Option.some.injEq] at h
    rw [← h]

theorem entry_shape_core (s s1 : args) (hwf : core_wf s) (h : entry_shape s s1) :
    core_wf s1 := by
  obtain ⟨nm, pl, dt, tt, slot, park, hc, rfl⟩ := h
  obtain ⟨hr, hi, hh⟩ := hwf
  obtain ⟨hreg, _⟩ := find_parking_registered s nm slot park hr hc.1
  refine ⟨slot_update_registry s _ slot park { park with free_spaces := park.free_spaces - 1 }
    rfl rfl hreg.2 rfl hr, index_wf_entered _ _ _ _ hi, ?_⟩
  intro e he l hl
  rcases entered_index_mem _ _ _ _ _ he with h1 | h1
  · exact hh e h1 l hl
  · rw [h1, entered_vehicle_logs] at hl
    rcases List.mem_append.1 hl with h2 | h2
    · obtain ⟨e0, he0, hl0⟩ := found_logs_mem _ _ _ h2
      exact hh e0 he0 l hl0
    · rw [List.mem_singleton.1 h2]
      exact ⟨by simp, by simp⟩

theorem exit_shape_core (s s1 : args) (hwf : core_wf s) (h : exit_shape s s1) :
    core_wf s1 := by
  obtain ⟨nm, pl, dt, tt, slot, park, park2, v, last_log, ed, cost, hc, hl, hed, _, hadd, rfl⟩ := h
  obtain ⟨hr, hi, hh⟩ := hwf
  obtain ⟨hreg, _⟩ := find_parking_registered s nm slot park hr hc.1
  have hf := add_new_exit_fields _ _ _ _ _ hadd
  refine ⟨slot_update_registry s _ slot park park2 rfl rfl hreg.2 (by rw [hf]) hr,
    index_wf_store _ _ _ hi, ?_⟩
  obtain ⟨e0, he0, hv0⟩ := find_vehicle_mem _ _ _ hc.2.2.1
  intro e he l hlm
  rcases all_entries_store _ _ _ _ he with h1 | h1
  · exact hh e h1 l hlm
  · rw [h1] at hlm
    rcases List.mem_append.1 hlm with h2 | h2
    · exact hh e0 he0 l (by rw [hv0]; exact List.mem_of_mem_dropLast h2)
    · rw [List.mem_singleton.1 h2]
      have := hh e0 he0 last_log (by rw [hv0]; exact List.mem_of_mem_getLast? hl)
      exact this

theorem remove_shape_core (s s1 : args) (hwf : core_wf s) (h : remove_shape s s1) :
    core_wf s1 := by
  have hr := remove_shape_registry s s1 hwf.1 h
  obtain ⟨k, p, hreg, rfl⟩ := h
  refine ⟨hr, index_wf_purge _ _ hwf.2.1, ?_⟩
  intro e he l hl
  change e ∈ all_entries (purge_index s.vehicles p.name) at he
  rw [all_entries_purge] at he
  obtain ⟨e0, he0, rfl⟩ := List.mem_map.1 he
  exact hwf.2.2 e0 he0 l (List.mem_of_mem_filter hl)

theorem add_shape_core (s s1 : args) (hwf : core_wf s) (h : add_shape s s1) :
    core_wf s1 := by
  have hr := add_shape_registry s s1 hwf.1 h
  obtain ⟨nm, c, x, y, z, _, _, _, rfl⟩ := h
  exact ⟨hr, hwf.2.1, hwf.2.2⟩

theorem core_wf_init : core_wf initial_args := by
  refine ⟨state_wf_init.1, state_wf_init.2.1, ?_⟩
  intro e he
  rw [initial_all_entries] at he
  exact absurd he (List.not_mem_nil _)

theorem reachable_invariant (P : args → Prop) (hinit : P initial_args)
    (hadd : ∀ s s1, core_wf s → P s → add_shape s s1 → P s1)
    (hentry : ∀ s s1, core_wf s → P s → entry_shape s s1 → P s1)
    (hexit : ∀ s s1, core_wf s → P s → exit_shape s s1 → P s1)
    (hremove : ∀ s s1, core_wf s → P s → remove_shape s s1 → P s1) :
    ∀ s, reachable s → core_wf s ∧ P s := by
  intro s h
  induction h with
  | init => exact ⟨core_wf_init, hinit⟩
  | add s s1 out name c x y z _ hstep ih =>
    rcases add_cases_shape s s1 out name c x y z hstep with h1 | h1
    · rw [h1]; exact ih
    · exact ⟨add_shape_core s s1 ih.1 h1, hadd s s1 ih.1 ih.2 h1⟩
  | entry s s1 out name pl d t _ hstep ih =>
    rcases entry_cases_shape s s1 out name pl d t hstep with h1 | h1
    · rw [h1]; exact ih
    · exact ⟨entry_shape_core s s1 ih.1 h1, hentry s s1 ih.1 ih.2 h1⟩
  | exit s s1 out name pl d t _ hstep ih =>
    rcases exit_cases_shape s s1 out name pl d t hstep with h1 | h1
    · rw [h1]; exact ih
    · exact ⟨exit_shape_core s s1 ih.1 h1, hexit s s1 ih.1 ih.2 h1⟩
  | remove s s1 out name _ hstep ih =>
    rcases remove_cases_shape s s1 out name ih.1 hstep with h1 | h1
    · rw [h1]; exact ih
    · exact ⟨remove_shape_core s s1 ih.1 h1, hremove s s1 ih.1 ih.2 h1⟩

theorem reachable_core (s : args) (h : reachable s) : core_wf s :=
  (reachable_invariant (fun _ => True) trivial (fun _ _ _ _ _ => trivial)
    (fun _ _ _ _ _ => trivial) (fun _ _ _ _ _ => trivial) (fun _ _ _ _ _ => trivial) s h).1

theorem reached_reachable (s : args) (h : reached s) : reachable s := by
  induction h with
  | init => exact reachable.init
  | add s s1 out name c x y z _ hstep ih => exact reachable.add s s1 out name c x y z ih hstep
  | entry s s1 out name pl d t _ hstep ih => exact reachable.entry s s1 out name pl d t ih hstep
  | exit s s1 out name pl d t _ hstep ih => exact reachable.exit s s1 out name pl d t ih hstep

theorem reachable_demo_add (s : args) (name : String) (h : reachable s) :
    reachable (demo_add s name) := by
  unfold demo_add
  cases hr : list_or_add_park s (some name) (some 1) (some 1) (some 2) (some 3) with
  | fault f => exact h
  | ok r => exact reachable.add s r.1 r.2 _ _ _ _ _ h hr

theorem reachable_demo_entry (s : args) (name plate : String) (d : date_token)
    (t : time_token) (h : reachable s) : reachable (demo_entry s name plate d t) := by
  unfold demo_entry state_after
  cases hr : register_entry s (some name) (some plate) (some d) (some t) with
  | fault f => exact h
  | ok r => exact reachable.entry s r.1 r.2 _ _ _ _ h hr

theorem reachable_demo_exit (s : args) (name plate : String) (d : date_token)
    (t : time_token) (h : reachable s) : reachable (demo_exit s name plate d t) := by
  unfold demo_exit state_after
  cases hr : register_exit s (some name) (some plate) (some d) (some t) with
  | fault f => exact h
  | ok r => exact reachable.exit s r.1 r.2 _ _ _ _ h hr

theorem reachable_demo_remove (s : args) (name : String) (h : reachable s) :
    reachable (demo_remove s name) := by
  unfold demo_remove state_after
  cases hr : remove_parking s (some name) with
  | fault f => exact h
  | ok r => exact reachable.remove s r.1 r.2 _ h hr

theorem demo_two_parked_reachable : reachable demo_two_parked :=
  reachable_demo_entry _ _ _ _ _ (reachable_demo_exit _ _ _ _ _ (reachable_demo_entry _ _ _ _ _
    (reachable_demo_add _ _ (reachable_demo_add _ _ reachable.init))))

theorem find_parking_loop_absent (parkings : List (Option parking)) (name : String) :
    ∀ (n i : Nat), i + n ≤ MAX_PARKINGS →
      (∀ (k : Nat) (p : parking), i ≤ k → k < i + n → parkings.getD k none = some p →
        p.name ≠ name) →
      find_parking_loop parkings name n i = Result.ok none
  | 0, _, _, _ => rfl
  | n + 1, i, hb, h => by
    unfold find_parking_loop
    rw [if_pos (by omega)]
    have hrec := find_parking_loop_absent parkings name n (i + 1) (by omega)
      (fun k p h1 h2 hp => h k p (by omega) (by omega) hp)
    cases hp : parkings.getD i none with
    | none => exact hrec
    | some p =>
      dsimp only
      rw [if_neg (fun hc => h i p (le_refl _) (by omega) hp ((strcmp_eq_zero _ _).1 hc))]
      exact hrec

theorem find_parking_absent (s : args) (name : String) (hwf : registry_wf s)
    (hpc : s.park_counter < MAX_PARKINGS)
    (h : ∀ (k : Nat) (p : parking), registered s k p → p.name ≠ name) :
    find_parking s (some name) = Result.ok none := by
  unfold find_parking
  apply find_parking_loop_absent
  · have := hwf.1
    have hM : (MAX_PARKINGS : Int) = 20 := rfl
    unfold MAX_PARKINGS
    omega
  · intro k p _ hk hp
    by_cases hlt : (k : Int) < s.park_counter
    · exact h k p ⟨hlt, hp⟩
    · have := hwf.2.2.2.1 k (by omega)
      rw [this] at hp
      exact absurd hp (by simp)

theorem remove_shape_absent (s s1 : args) (k : Nat) (p : parking) (hwf : registry_wf s)
    (hr : registered s k p)
    (hs : s1 = { s with
      vehicles := purge_index s.vehicles p.name
      parkings := shifted_parkings s.parkings k
      park_counter := s.park_counter - 1 })
    (j : Nat) (q : parking) (hq : s1.parkings.getD j none = some q) : q.name ≠ p.name := by
  subst hs
  change (shifted_parkings s.parkings k).getD j none = some q at hq
  rw [shifted_parkings_get _ _ _ hwf.2.2.2.2.2] at hq
  intro hn
  split_ifs at hq with hjk
  · have := hwf.2.2.2.2.1 j k q p hq hr.2 hn
    omega
  · have := hwf.2.2.2.2.1 (j + 1) k q p hq hr.2 hn
    omega

theorem month_minutes_cases (m : Int) (h1 : 1 ≤ m) (h2 : m ≤ 12) :
    (m = 1 ∧ month_minutes m = 0 ∧ month_table.getD (m - 1).toNat 0 = 31) ∨
    (m = 2 ∧ month_minutes m = 31 * 1440 ∧ month_table.getD (m - 1).toNat 0 = 28) ∨
    (m = 3 ∧ month_minutes m = 59 * 1440 ∧ month_table.getD (m - 1).toNat 0 = 31) ∨
    (m = 4 ∧ month_minutes m = 90 * 1440 ∧ month_table.getD (m - 1).toNat 0 = 30) ∨
    (m = 5 ∧ month_minutes m = 120 * 1440 ∧ month_table.getD (m - 1).toNat 0 = 31) ∨
    (m = 6 ∧ month_minutes m = 151 * 1440 ∧ month_table.getD (m - 1).toNat 0 = 30) ∨
    (m = 7 ∧ month_minutes m = 181 * 1440 ∧ month_table.getD (m - 1).toNat 0 = 31) ∨
    (m = 8 ∧ month_minutes m = 212 * 1440 ∧ month_table.getD (m - 1).toNat 0 = 31) ∨
    (m = 9 ∧ month_minutes m = 243 * 1440 ∧ month_table.getD (m - 1).toNat 0 = 30) ∨
    (m = 10 ∧ month_minutes m = 273 * 1440 ∧ month_table.getD (m - 1).toNat 0 = 31) ∨
    (m = 11 ∧ month_minutes m = 304 * 1440 ∧ month_table.getD (m - 1).toNat 0 = 30) ∨
    (m = 12 ∧ month_minutes m = 334 * 1440 ∧ month_table.getD (m - 1).toNat 0 = 31) := by
  have hm : m = 1 ∨ m = 2 ∨ m = 3 ∨ m = 4 ∨ m = 5 ∨ m = 6 ∨ m = 7 ∨ m = 8 ∨ m = 9 ∨ m = 10 ∨
      m = 11 ∨ m = 12 := by omega
  rcases hm with h | h | h | h | h | h | h | h | h | h | h | h <;> subst h <;> decide

/-- For a calendar-valid date the minute count is 1440 times a day number plus the minute
of the day, and the day number is 365 times the year plus a day of the year that
determines month and day. -/
theorem date_minutes_split (a : date) (ha : calendar_valid a) :
    ∃ n : Int, date_minutes a = (a.year * 365 + n) * 1440 + (a.hour * 60 + a.minutes) ∧
      0 ≤ a.hour * 60 + a.minutes ∧ a.hour * 60 + a.minutes < 1440 ∧ 1 ≤ n ∧ n ≤ 365 ∧
      ((a.month = 1 ∧ n = a.day ∧ a.day ≤ 31) ∨
       (a.month = 2 ∧ n = 31 + a.day ∧ a.day ≤ 28) ∨
       (a.month = 3 ∧ n = 59 + a.day ∧ a.day ≤ 31) ∨
       (a.month = 4 ∧ n = 90 + a.day ∧ a.day ≤ 30) ∨
       (a.month = 5 ∧ n = 120 + a.day ∧ a.day ≤ 31) ∨
       (a.month = 6 ∧ n = 151 + a.day ∧ a.day ≤ 30) ∨
       (a.month = 7 ∧ n = 181 + a.day ∧ a.day ≤ 31) ∨
       (a.month = 8 ∧ n = 212 + a.day ∧ a.day ≤ 31) ∨
       (a.month = 9 ∧ n = 243 + a.day ∧ a.day ≤ 30) ∨
       (a.month = 10 ∧ n = 273 + a.day ∧ a.day ≤ 31) ∨
       (a.month = 11 ∧ n = 304 + a.day ∧ a.day ≤ 30) ∨
       (a.month = 12 ∧ n = 334 + a.day ∧ a.day ≤ 31)) ∧ 1 ≤ a.day := by
  obtain ⟨h1, h2, h3, h4, h5, h6, h7, h8⟩ := ha
  unfold date_minutes
  rcases month_minutes_cases a.month h1 h2 with
    ⟨hm, hmm, ht⟩ | ⟨hm, hmm, ht⟩ | ⟨hm, hmm, ht⟩ | ⟨hm, hmm, ht⟩ | ⟨hm, hmm, ht⟩ |
    ⟨hm, hmm, ht⟩ | ⟨hm, hmm, ht⟩ | ⟨hm, hmm, ht⟩ | ⟨hm, hmm, ht⟩ | ⟨hm, hmm, ht⟩ |
    ⟨hm, hmm, ht⟩ | ⟨hm, hmm, ht⟩ <;>
  rw [ht] at h4 <;> rw [hmm]
  · exact ⟨a.day, by ring, by omega, by omega, by omega, by omega,
      Or.inl ⟨hm, rfl, h4⟩, h3⟩
  · exact ⟨31 + a.day, by ring, by omega, by omega, by omega, by omega,
      Or.inr (Or.inl ⟨hm, rfl, h4⟩), h3⟩
  · exact ⟨59 + a.day, by ring, by omega, by omega, by omega, by omega,
      Or.inr (Or.inr (Or.inl ⟨hm, rfl, h4⟩)), h3⟩
  · exact ⟨90 + a.day, by ring, by omega, by omega, by omega, by omega,
      Or.inr (Or.inr (Or.inr (Or.inl ⟨hm, rfl, h4⟩))), h3⟩
  · exact ⟨120 + a.day, by ring, by omega, by omega, by omega, by omega,
      Or.inr (Or.inr (Or.inr (Or.inr (Or.inl ⟨hm, rfl, h4⟩)))), h3⟩
  · exact ⟨151 + a.day, by ring, by omega, by omega, by omega, by omega,
      Or.inr (Or.inr (Or.inr (Or.inr (Or.inr (Or.inl ⟨hm, rfl, h4⟩))))), h3⟩
  · exact ⟨181 + a.day, by ring, by omega, by omega, by omega, by omega,
      Or.inr (Or.inr (Or.inr (Or.inr (Or.inr (Or.inr (Or.inl ⟨hm, rfl, h4⟩)))))), h3⟩
  · exact ⟨212 + a.day, by ring, by omega, by omega, by omega, by omega,
      Or.inr (Or.inr (Or.inr (Or.inr (Or.inr (Or.inr (Or.inr (Or.inl ⟨hm, rfl, h4⟩))))))), h3⟩
  · exact ⟨243 + a.day, by ring, by omega, by omega, by omega, by omega,
      Or.inr (Or.inr (Or.inr (Or.inr (Or.inr (Or.inr (Or.inr (Or.inr (Or.inl ⟨hm, rfl, h4⟩)))))))), h3⟩
  · exact ⟨273 + a.day, by ring, by omega, by omega, by omega, by omega,
      Or.inr (Or.inr (Or.inr (Or.inr (Or.inr (Or.inr (Or.inr (Or.inr (Or.inr (Or.inl ⟨hm, rfl, h4⟩))))))))), h3⟩
  · exact ⟨304 + a.day, by ring, by omega, by omega, by omega, by omega,
      Or.inr (Or.inr (Or.inr (Or.inr (Or.inr (Or.inr (Or.inr (Or.inr (Or.inr (Or.inr (Or.inl ⟨hm, rfl, h4⟩)))))))))), h3⟩
  · exact ⟨334 + a.day, by ring, by omega, by omega, by omega, by omega,
      Or.inr (Or.inr (Or.inr (Or.inr (Or.inr (Or.inr (Or.inr (Or.inr (Or.inr (Or.inr (Or.inr (⟨hm, rfl, h4⟩))))))))))), h3⟩

theorem date_minutes_same_day (a b : date) (ha : calendar_valid a) (hb : calendar_valid b)
    (h : date_minutes a = date_minutes b) :
    a.year = b.year ∧ a.month = b.month ∧ a.day = b.day := by
  obtain ⟨n, hn, t0, t1, n0, n1, hcase, hd⟩ := date_minutes_split a ha
  obtain ⟨m, hm, u0, u1, m0, m1, hcase2, hd2⟩ := date_minutes_split b hb
  rw [hn, hm] at h
  have hy : a.year = b.year := by omega
  have hnm : n = m := by omega
  refine ⟨hy, ?_⟩
  rcases hcase with c | c | c | c | c | c | c | c | c | c | c | c <;>
  rcases hcase2 with e | e | e | e | e | e | e | e | e | e | e | e <;>
  omega

theorem compare_dates_zero_iff (a b : date) (ha : calendar_valid a) (hb : calendar_valid b) :
    compare_dates (some a) (some b) = 0 ↔
      (a.year = b.year ∧ a.month = b.month ∧ a.day = b.day) := by
  unfold compare_dates
  dsimp only
  constructor
  · intro h
    by_contra hne
    rw [if_neg hne] at h
    unfold get_all_minutes at h
    exact hne (date_minutes_same_day a b ha hb (by dsimp only at h; omega))
  · intro h
    rw [if_pos h]

theorem add_new_exit_eq_spec (park : parking) (d : date) (c : ℚ) (v : vehicle)
    (hd : calendar_valid d)
    (hlast : ∀ b, park.billing_day_log.getLast? = some b →
      calendar_valid b.exit_date ∧ b.vehicle_log ≠ []) :
    add_new_exit (some park) (some d) c (some v) =
      Result.ok (some { park with
        billing_day_log := spec_billing park.billing_day_log v.license_plate d c }) := by
  unfold add_new_exit spec_billing
  cases hl : park.billing_day_log.getLast? with
  | none =>
    have hnil : park.billing_day_log = [] := List.getLast?_eq_none_iff.1 hl
    simp only [hnil, if_true, new_billing_record]
  | some last =>
    obtain ⟨hv, hne⟩ := hlast last hl
    have hnn : park.billing_day_log ≠ [] := by
      intro h0
      rw [h0] at hl
      simp at hl
    simp only [if_neg hnn, add_new_billing_day, hl]
    by_cases hs : last.exit_date.year = d.year ∧ last.exit_date.month = d.month ∧
        last.exit_date.day = d.day
    · have h0 := (compare_dates_zero_iff last.exit_date d hv hd).2 hs
      rw [if_neg (by rw [h0]; simp), if_pos hs]
      cases hr : last.vehicle_log.getLast? with
      | none => exact absurd (List.getLast?_eq_none_iff.1 hr) hne
      | some r => simp only [new_billing_record]
    · have h0 : compare_dates (some last.exit_date) (some d) ≠ 0 :=
        fun h => hs ((compare_dates_zero_iff last.exit_date d hv hd).1 h)
      rw [if_pos h0, if_neg hs]
      simp only [new_billing_record]

theorem spec_billing_earlier (days : List billing_day) (plate : String) (d : date) (c : ℚ) :
    (spec_billing days plate d c).take (days.length - 1) = days.dropLast := by
  unfold spec_billing
  cases hl : days.getLast? with
  | none =>
    have hnil : days = [] := List.getLast?_eq_none_iff.1 hl
    simp [hnil]
  | some last =>
    dsimp only
    have hlen : days.dropLast.length = days.length - 1 := List.length_dropLast days
    split_ifs
    · rw [← hlen, List.take_left']
      rfl
    · rw [List.take_append_of_le_length (by omega), List.dropLast_eq_take]

theorem month_minutes_table (m : Int) (h1 : 1 ≤ m) (h2 : m ≤ 12) :
    month_minutes m = 1440 * (month_table.take (m - 1).toNat).sum := by
  have hm : m = 1 ∨ m = 2 ∨ m = 3 ∨ m = 4 ∨ m = 5 ∨ m = 6 ∨ m = 7 ∨ m = 8 ∨ m = 9 ∨ m = 10 ∨
      m = 11 ∨ m = 12 := by omega
  rcases hm with h | h | h | h | h | h | h | h | h | h | h | h <;> subst h <;> decide

theorem date_minutes_eq_spec (t : date) (hv : calendar_valid t) :
    date_minutes t = spec_minutes t := by
  unfold date_minutes spec_minutes
  rw [month_minutes_table t.month hv.1 hv.2.1]
  ring

theorem day_number_order (a b : date) (n m : Int)
    (ha : (a.month = 1 ∧ n = a.day ∧ a.day ≤ 31) ∨
       (a.month = 2 ∧ n = 31 + a.day ∧ a.day ≤ 28) ∨
       (a.month = 3 ∧ n = 59 + a.day ∧ a.day ≤ 31) ∨
       (a.month = 4 ∧ n = 90 + a.day ∧ a.day ≤ 30) ∨
       (a.month = 5 ∧ n = 120 + a.day ∧ a.day ≤ 31) ∨
       (a.month = 6 ∧ n = 151 + a.day ∧ a.day ≤ 30) ∨
       (a.month = 7 ∧ n = 181 + a.day ∧ a.day ≤ 31) ∨
       (a.month = 8 ∧ n = 212 + a.day ∧ a.day ≤ 31) ∨
       (a.month = 9 ∧ n = 243 + a.day ∧ a.day ≤ 30) ∨
       (a.month = 10 ∧ n = 273 + a.day ∧ a.day ≤ 31) ∨
       (a.month = 11 ∧ n = 304 + a.day ∧ a.day ≤ 30) ∨
       (a.month = 12 ∧ n = 334 + a.day ∧ a.day ≤ 31))
    (hb : (b.month = 1 ∧ m = b.day ∧ b.day ≤ 31) ∨
       (b.month = 2 ∧ m = 31 + b.day ∧ b.day ≤ 28) ∨
       (b.month = 3 ∧ m = 59 + b.day ∧ b.day ≤ 31) ∨
       (b.month = 4 ∧ m = 90 + b.day ∧ b.day ≤ 30) ∨
       (b.month = 5 ∧ m = 120 + b.day ∧ b.day ≤ 31) ∨
       (b.month = 6 ∧ m = 151 + b.day ∧ b.day ≤ 30) ∨
       (b.month = 7 ∧ m = 181 + b.day ∧ b.day ≤ 31) ∨
       (b.month = 8 ∧ m = 212 + b.day ∧ b.day ≤ 31) ∨
       (b.month = 9 ∧ m = 243 + b.day ∧ b.day ≤ 30) ∨
       (b.month = 10 ∧ m = 273 + b.day ∧ b.day ≤ 31) ∨
       (b.month = 11 ∧ m = 304 + b.day ∧ b.day ≤ 30) ∨
       (b.month = 12 ∧ m = 334 + b.day ∧ b.day ≤ 31))
    (ha1 : 1 ≤ a.day) (hb1 : 1 ≤ b.day) :
    (a.month < b.month → n < m) ∧ (a.month = b.month → n - a.day = m - b.day) := by
  rcases ha with c | c | c | c | c | c | c | c | c | c | c | c <;>
  rcases hb with e | e | e | e | e | e | e | e | e | e | e | e <;>
  exact ⟨fun _ => by omega, fun _ => by omega⟩

theorem date_minutes_lt_iff (a b : date) (ha : calendar_valid a) (hb : calendar_valid b) :
    date_minutes a < date_minutes b ↔ date_earlier a b := by
  obtain ⟨n, hn, t0, t1, n0, n1, hcase, hd⟩ := date_minutes_split a ha
  obtain ⟨m, hm, u0, u1, m0, m1, hcase2, hd2⟩ := date_minutes_split b hb
  obtain ⟨o1, o2⟩ := day_number_order a b n m hcase hcase2 hd hd2
  obtain ⟨o3, o4⟩ := day_number_order b a m n hcase2 hcase hd2 hd
  have hh1 := ha.2.2.2.2.1
  have hh2 := ha.2.2.2.2.2.1
  have hh3 := ha.2.2.2.2.2.2.1
  have hh4 := ha.2.2.2.2.2.2.2
  have gg1 := hb.2.2.2.2.1
  have gg2 := hb.2.2.2.2.2.1
  have gg3 := hb.2.2.2.2.2.2.1
  have gg4 := hb.2.2.2.2.2.2.2
  rw [hn, hm]
  unfold date_earlier
  rcases lt_trichotomy a.month b.month with hmo | hmo | hmo
  · have := o1 hmo
    constructor
    · intro h; omega
    · intro h; omega
  · have := o2 hmo
    constructor
    · intro h; omega
    · intro h; omega
  · have := o3 hmo
    constructor
    · intro h; omega
    · intro h; omega

theorem date_minutes_eq_iff (a b : date) (ha : calendar_valid a) (hb : calendar_valid b) :
    date_minutes a = date_minutes b ↔ a = b := by
  constructor
  · intro h
    have h1 := (date_minutes_lt_iff a b ha hb).not.1 (by omega)
    have h2 := (date_minutes_lt_iff b a hb ha).not.1 (by omega)
    unfold date_earlier at h1 h2
    cases a
    cases b
    simp only [date.mk.injEq]
    dsimp only at h1 h2
    omega
  · intro h
    rw [h]

theorem wrap32_id (x : Int) (h1 : -2147483648 ≤ x) (h2 : x ≤ 2147483647) : wrap32 x = x := by
  unfold wrap32
  omega

theorem get_days_in_month_bounds (m : Int) :
    0 ≤ get_days_in_month m ∧ get_days_in_month m ≤ 31 := by
  unfold get_days_in_month MONTH_31 MONTH_30 MONTH_28
  split_ifs <;> constructor <;> decide

theorem month_sum_bounds :
    ∀ n : Nat, 0 ≤ ((List.range n).map
        (fun (k : Nat) => get_days_in_month ((k : Int) + 1) * 24 * 60)).sum ∧
      ((List.range n).map (fun (k : Nat) => get_days_in_month ((k : Int) + 1) * 24 * 60)).sum ≤
        44640 * (n : Int)
  | 0 => by simp
  | n + 1 => by
    obtain ⟨h1, h2⟩ := month_sum_bounds n
    obtain ⟨g1, g2⟩ := get_days_in_month_bounds ((n : Int) + 1)
    rw [List.range_succ, List.map_append, List.sum_append]
    simp only [List.map_cons, List.map_nil, List.sum_cons, List.sum_nil, add_zero]
    push_cast
    constructor <;> omega

theorem month_minutes_range (m : Int) :
    month_minutes m = ((List.range (m.toNat - 1)).map
      (fun (k : Nat) => get_days_in_month ((k : Int) + 1) * 24 * 60)).sum := by
  unfold month_minutes
  congr 1
  generalize List.range (m.toNat - 1) = l
  induction l with
  | nil => rfl
  | cons a rest ih =>
    simp only [List.map_cons]
    rw [← ih]
    rfl

theorem month_loop_int32 (base : Int) (h0 : 0 ≤ base) (h1 : base ≤ 2146596479) :
    ∀ n : Nat, n ≤ 11 →
      (List.range n).foldl
        (fun (acc : Int) (k : Nat) =>
          wrap32 (acc + wrap32 (wrap32 (get_days_in_month ((k : Int) + 1) * 24) * 60))) base =
        base + ((List.range n).map
          (fun (k : Nat) => get_days_in_month ((k : Int) + 1) * 24 * 60)).sum
  | 0, _ => by simp
  | n + 1, hn => by
    have ih := month_loop_int32 base h0 h1 n (by omega)
    obtain ⟨s1, s2⟩ := month_sum_bounds n
    obtain ⟨g1, g2⟩ := get_days_in_month_bounds ((n : Int) + 1)
    rw [List.range_succ, List.foldl_append, List.map_append, List.sum_append]
    simp only [List.foldl_cons, List.foldl_nil, List.map_cons, List.map_nil, List.sum_cons,
      List.sum_nil, add_zero]
    rw [ih, wrap32_id (get_days_in_month ((n : Int) + 1) * 24) (by omega) (by omega),
      wrap32_id (get_days_in_month ((n : Int) + 1) * 24 * 60) (by omega) (by omega),
      wrap32_id _ (by omega) (by omega)]
    ring

theorem date_minutes_int32_eq (t : date) (hv : calendar_valid t) (hy0 : 0 ≤ t.year)
    (hy1 : t.year ≤ 4084) :
    date_minutes_int32 t = date_minutes t ∧ 0 ≤ date_minutes t ∧
    date_minutes t ≤ 2147483647 ∧
    ∀ x ∈ date_minutes_steps t, 0 ≤ x ∧ x ≤ 2147483647 := by
  obtain ⟨m1, m2, d1, d2, hh1, hh2, mi1, mi2⟩ := hv
  have hd31 : t.day ≤ 31 := by
    rcases month_minutes_cases t.month m1 m2 with
      ⟨_, _, ht⟩ | ⟨_, _, ht⟩ | ⟨_, _, ht⟩ | ⟨_, _, ht⟩ | ⟨_, _, ht⟩ | ⟨_, _, ht⟩ |
      ⟨_, _, ht⟩ | ⟨_, _, ht⟩ | ⟨_, _, ht⟩ | ⟨_, _, ht⟩ | ⟨_, _, ht⟩ | ⟨_, _, ht⟩ <;>
    rw [ht] at d2 <;> omega
  have hn : t.month.toNat - 1 ≤ 11 := by omega
  have hbase : wrap32 (wrap32 (wrap32 (wrap32 (t.hour * 60) + t.minutes) +
      wrap32 (wrap32 (t.day * 24) * 60)) + wrap32 (wrap32 (wrap32 (t.year * 365) * 24) * 60)) =
      t.hour * 60 + t.minutes + t.day * 24 * 60 + t.year * 365 * 24 * 60 := by
    rw [wrap32_id (t.hour * 60) (by omega) (by omega),
      wrap32_id (t.hour * 60 + t.minutes) (by omega) (by omega),
      wrap32_id (t.day * 24) (by omega) (by omega),
      wrap32_id (t.day * 24 * 60) (by omega) (by omega),
      wrap32_id (t.hour * 60 + t.minutes + t.day * 24 * 60) (by omega) (by omega),
      wrap32_id (t.year * 365) (by omega) (by omega),
      wrap32_id (t.year * 365 * 24) (by omega) (by omega),
      wrap32_id (t.year * 365 * 24 * 60) (by omega) (by omega),
      wrap32_id _ (by omega) (by omega)]
  obtain ⟨s1, s2⟩ := month_sum_bounds (t.month.toNat - 1)
  have hs2 : ((List.range (t.month.toNat - 1)).map
      (fun (k : Nat) => get_days_in_month ((k : Int) + 1) * 24 * 60)).sum ≤ 491040 := by
    have : ((t.month.toNat - 1 : Nat) : Int) ≤ 11 := by omega
    omega
  have heq : date_minutes_int32 t = date_minutes t := by
    unfold date_minutes_int32 date_minutes
    dsimp only
    rw [hbase, month_loop_int32 _ (by omega) (by omega) _ hn, month_minutes_range]
  refine ⟨heq, ?_, ?_, ?_⟩
  · unfold date_minutes
    rw [month_minutes_range]
    omega
  · unfold date_minutes
    rw [month_minutes_range]
    omega
  · intro x hx
    unfold date_minutes_steps at hx
    rcases List.mem_append.1 hx with h | h
    · simp only [List.mem_cons, List.mem_singleton, List.not_mem_nil, or_false] at h
      rcases h with h | h | h | h | h | h | h | h | h <;> rw [h] <;> constructor <;> omega
    · obtain ⟨n, hn1, hn2⟩ := List.mem_map.1 h
      rw [List.mem_range] at hn1
      obtain ⟨u1, u2⟩ := month_sum_bounds n
      have : (n : Int) ≤ 11 := by omega
      rw [← hn2]
      constructor <;> omega

theorem date_le_trans (a b c : date) (h1 : ¬ date_earlier b a) (h2 : ¬ date_earlier c b) :
    ¬ date_earlier c a := by
  unfold date_earlier at *
  omega

theorem day_before_trans (a b c : date) (h1 : day_before a b) (h2 : day_before b c) :
    day_before a c := by
  unfold day_before at *
  omega

theorem day_before_of_le (a b : date) (h1 : ¬ date_earlier b a)
    (h2 : ¬ (a.year = b.year ∧ a.month = b.month ∧ a.day = b.day)) : day_before a b := by
  unfold date_earlier at h1
  unfold day_before
  omega

theorem day_before_le (a b c : date) (h1 : day_before a b) (h2 : ¬ date_earlier c b) :
    day_before a c := by
  unfold date_earlier at h2
  unfold day_before at *
  omega

theorem accepted_floor (t : date) (s : args) (h : (is_date_valid t s).1 ≠ 0) :
    calendar_valid t ∧ (s.last_date.minutes = -1 ∨ ¬ date_earlier t s.last_date) :=
  (is_date_valid_fst t s).1 ((is_date_valid_ne t s).1 h)

theorem floor_step (t x : date) (s : args) (h : (is_date_valid t s).1 ≠ 0)
    (hx : s.last_date.minutes ≠ -1 ∧ ¬ date_earlier s.last_date x) :
    t.minutes ≠ -1 ∧ ¬ date_earlier t x := by
  obtain ⟨hv, hf⟩ := accepted_floor t s h
  refine ⟨?_, ?_⟩
  · have := hv.2.2.2.2.2.2.1
    omega
  · rcases hf with hf | hf
    · exact absurd hf hx.1
    · exact date_le_trans x s.last_date t hx.2 hf

theorem floor_self (t : date) (s : args) (h : (is_date_valid t s).1 ≠ 0) :
    t.minutes ≠ -1 ∧ ¬ date_earlier t t := by
  obtain ⟨hv, _⟩ := accepted_floor t s h
  refine ⟨?_, ?_⟩
  · have := hv.2.2.2.2.2.2.1
    omega
  · unfold date_earlier
    omega

theorem add_new_exit_days (park park2 : parking) (d : date) (c : ℚ) (v : vehicle)
    (h : add_new_exit (some park) (some d) c (some v) = Result.ok (some park2)) :
    (park.billing_day_log = [] ∧
      park2.billing_day_log =
        [{ exit_date := d, total_cost := c, vehicle_log := [new_billing_record d c v] }]) ∨
    (∃ last, park.billing_day_log.getLast? = some last ∧
      ¬ (last.exit_date.year = d.year ∧ last.exit_date.month = d.month ∧
          last.exit_date.day = d.day) ∧
      park2.billing_day_log = park.billing_day_log ++
        [{ exit_date := d, total_cost := c, vehicle_log := [new_billing_record d c v] }]) ∨
    (∃ last, park.billing_day_log.getLast? = some last ∧
      park2.billing_day_log = park.billing_day_log.dropLast ++
        [{ last with
           vehicle_log := last.vehicle_log ++ [new_billing_record d c v]
           total_cost := last.total_cost + c }]) := by
  unfold add_new_exit at h
  dsimp only at h
  by_cases hnil : park.billing_day_log = []
  · rw [if_pos hnil] at h
    simp only [Result.ok.injEq, Option.some.injEq] at h
    left
    exact ⟨hnil, by rw [← h]⟩
  · rw [if_neg hnil] at h
    right
    unfold add_new_billing_day at h
    cases hl : park.billing_day_log.getLast? with
    | none => exact absurd (List.getLast?_eq_none_iff.1 hl) hnil
    | some last =>
      rw [hl] at h
      dsimp only at h
      by_cases hc : compare_dates (some last.exit_date) (some d) ≠ 0
      · rw [if_pos hc] at h
        simp only [Result.ok.injEq, Option.some.injEq] at h
        left
        refine ⟨last, rfl, ?_, by rw [← h]⟩
        intro hs
        apply hc
        unfold compare_dates
        dsimp only
        rw [if_pos hs]
      · rw [if_neg hc] at h
        right
        cases hr : last.vehicle_log.getLast? with
        | none => rw [hr] at h; simp at h
        | some r =>
          rw [hr] at h
          simp only [Result.ok.injEq, Option.some.injEq] at h
          exact ⟨last, rfl, by rw [← h]⟩

theorem pairwise_before_last {α : Type} (R : α → α → Prop) (l : List α) (a : α)
    (hl : l.getLast? = some a) (h : List.Pairwise R l) : ∀ x ∈ l.dropLast, R x a := by
  rw [← List.dropLast_append_getLast? a hl] at h
  intro x hx
  exact (List.pairwise_append.1 h).2.2 x (by simpa using hx) a (List.mem_singleton.2 rfl)

theorem pairwise_replace_last {α : Type} (R : α → α → Prop) (l : List α) (a b : α)
    (hl : l.getLast? = some a) (hR : ∀ x, R x a → R x b) (h : List.Pairwise R l) :
    List.Pairwise R (l.dropLast ++ [b]) := by
  have hb := pairwise_before_last R l a hl h
  have hd : List.Pairwise R l.dropLast := h.sublist (List.dropLast_sublist l)
  refine List.pairwise_append.2 ⟨hd, List.pairwise_singleton _ _, ?_⟩
  intro x hx y hy
  rw [List.mem_singleton.1 hy]
  exact hR x (hb x hx)

theorem mem_dropLast_or_last {α : Type} (l : List α) (a x : α) (hl : l.getLast? = some a)
    (hx : x ∈ l) : x ∈ l.dropLast ∨ x = a := by
  rw [← List.dropLast_append_getLast? a hl] at hx
  rcases List.mem_append.1 hx with h | h
  · exact Or.inl h
  · exact Or.inr (List.mem_singleton.1 h)

theorem ledger_wf_init : ledger_wf initial_args := by
  intro i p hp
  rw [initial_parkings_get] at hp
  exact absurd hp (by simp)

theorem ledger_wf_add (s s1 : args) (hc : core_wf s) (hl : ledger_wf s) (h : add_shape s s1) :
    ledger_wf s1 := by
  obtain ⟨nm, c, x, y, z, hpc, _, _, rfl⟩ := h
  intro i p hp
  change (s.parkings.set _ _).getD i none = some p at hp
  rw [add_shape_get s _ i hc.1 hpc] at hp
  split_ifs at hp with hi
  · simp only [Option.some.injEq] at hp
    rw [← hp]
    exact ⟨List.Pairwise.nil, fun b hb => absurd hb (List.not_mem_nil _)⟩
  · exact hl i p hp

theorem ledger_wf_entry (s s1 : args) (hc : core_wf s) (hl : ledger_wf s)
    (h : entry_shape s s1) : ledger_wf s1 := by
  obtain ⟨nm, pl, dt, tt, slot, park, hck, rfl⟩ := h
  obtain ⟨hreg, _⟩ := find_parking_registered s nm slot park hc.1 hck.1
  have hv := hck.2.2.2.2
  intro i p hp
  rw [slot_update_get s _ slot park { park with free_spaces := park.free_spaces - 1 } rfl
    hreg.2 i] at hp
  split_ifs at hp with hi
  · simp only [Option.some.injEq] at hp
    rw [← hp]
    obtain ⟨h1, h2⟩ := hl slot park hreg.2
    exact ⟨h1, fun b hb => floor_step _ _ s hv (h2 b hb)⟩
  · obtain ⟨h1, h2⟩ := hl i p hp
    exact ⟨h1, fun b hb => floor_step _ _ s hv (h2 b hb)⟩

theorem ledger_wf_exit (s s1 : args) (hc : core_wf s) (hl : ledger_wf s)
    (h : exit_shape s s1) : ledger_wf s1 := by
  obtain ⟨nm, pl, dt, tt, slot, park, park2, v, last_log, ed, cost, hck, _, _, _, hadd, rfl⟩ := h
  obtain ⟨hreg, _⟩ := find_parking_registered s nm slot park hc.1 hck.1
  have hv := hck.2.2.2.2.2
  intro i p hp
  rw [slot_update_get s _ slot park park2 rfl hreg.2 i] at hp
  split_ifs at hp with hi
  · simp only [Option.some.injEq] at hp
    rw [← hp]
    obtain ⟨h1, h2⟩ := hl slot park hreg.2
    rcases add_new_exit_days _ _ _ _ _ hadd with ⟨_, hd⟩ | ⟨last, hlast, hne, hd⟩ |
      ⟨last, hlast, hd⟩
    · rw [hd]
      refine ⟨List.pairwise_singleton _ _, ?_⟩
      intro b hb
      rw [List.mem_singleton.1 hb]
      exact floor_self _ s hv
    · rw [hd]
      change park.billing_day_log.getLast? = some last at hlast
      have hfl := floor_step (token_date dt tt) last.exit_date s hv
        (h2 last (List.mem_of_mem_getLast? hlast))
      have hbl := day_before_of_le last.exit_date (token_date dt tt) hfl.2 hne
      constructor
      · refine List.pairwise_append.2 ⟨h1, List.pairwise_singleton _ _, ?_⟩
        intro a ha b hb
        rw [List.mem_singleton.1 hb]
        rcases mem_dropLast_or_last _ last a hlast ha with h3 | h3
        · exact day_before_trans _ _ _ (pairwise_before_last _ _ last hlast h1 a h3) hbl
        · rw [h3]; exact hbl
      · intro b hb
        rcases List.mem_append.1 hb with h3 | h3
        · exact floor_step _ _ s hv (h2 b h3)
        · rw [List.mem_singleton.1 h3]
          exact floor_self _ s hv
    · rw [hd]
      change park.billing_day_log.getLast? = some last at hlast
      constructor
      · exact pairwise_replace_last _ _ last _ hlast (fun x hx => hx) h1
      · intro b hb
        rcases List.mem_append.1 hb with h3 | h3
        · exact floor_step _ _ s hv (h2 b (List.mem_of_mem_dropLast h3))
        · rw [List.mem_singleton.1 h3]
          exact floor_step _ _ s hv (h2 last (List.mem_of_mem_getLast? hlast))
  · obtain ⟨h1, h2⟩ := hl i p hp
    exact ⟨h1, fun b hb => floor_step _ _ s hv (h2 b hb)⟩

theorem ledger_wf_remove (s s1 : args) (hc : core_wf s) (hl : ledger_wf s)
    (h : remove_shape s s1) : ledger_wf s1 := by
  obtain ⟨k, q, _, rfl⟩ := h
  intro i p hp
  change (shifted_parkings s.parkings k).getD i none = some p at hp
  rw [shifted_parkings_get _ _ _ hc.1.2.2.2.2.2] at hp
  split_ifs at hp
  · exact hl i p hp
  · exact hl (i + 1) p hp

theorem reachable_ledger (s : args) (h : reachable s) : ledger_wf s :=
  (reachable_invariant ledger_wf ledger_wf_init ledger_wf_add ledger_wf_entry ledger_wf_exit
    ledger_wf_remove s h).2

theorem history_wf_init : history_wf initial_args := by
  intro e he
  rw [initial_all_entries] at he
  exact absurd he (List.not_mem_nil _)

theorem history_wf_add (s s1 : args) (_hc : core_wf s) (hl : history_wf s)
    (h : add_shape s s1) : history_wf s1 := by
  obtain ⟨nm, c, x, y, z, _, _, _, rfl⟩ := h
  exact hl

theorem found_logs_history (s : args) (pl : String) (hl : history_wf s) :
    List.Pairwise entry_order
      (match find_vehicle s.vehicles pl with | none => [] | some v => v.my_logs) ∧
    ∀ l ∈ (match find_vehicle s.vehicles pl with | none => [] | some v => v.my_logs),
      ∀ t, l.entry_date = some t → s.last_date.minutes ≠ -1 ∧ ¬ date_earlier s.last_date t := by
  cases hf : find_vehicle s.vehicles pl with
  | none => exact ⟨List.Pairwise.nil, fun l h => absurd h (List.not_mem_nil _)⟩
  | some v =>
    obtain ⟨e, he, hv⟩ := find_vehicle_mem _ _ _ hf
    have := hl e he
    rw [hv] at this
    exact this

theorem history_wf_entry (s s1 : args) (_hc : core_wf s) (hl : history_wf s)
    (h : entry_shape s s1) : history_wf s1 := by
  obtain ⟨nm, pl, dt, tt, slot, park, hck, rfl⟩ := h
  have hv := hck.2.2.2.2
  intro e he
  rcases entered_index_mem _ _ _ _ _ he with h1 | h1
  · obtain ⟨h2, h3⟩ := hl e h1
    exact ⟨h2, fun l hlm t ht => floor_step _ _ s hv (h3 l hlm t ht)⟩
  · rw [h1, entered_vehicle_logs]
    obtain ⟨h2, h3⟩ := found_logs_history s pl hl
    constructor
    · refine List.pairwise_append.2 ⟨h2, List.pairwise_singleton _ _, ?_⟩
      intro a ha b hb ta tb hta htb
      rw [List.mem_singleton.1 hb] at htb
      simp only [Option.some.injEq] at htb
      rw [← htb]
      exact (floor_step _ _ s hv (h3 a ha ta hta)).2
    · intro l hlm t ht
      rcases List.mem_append.1 hlm with h4 | h4
      · exact floor_step _ _ s hv (h3 l h4 t ht)
      · rw [List.mem_singleton.1 h4] at ht
        simp only [Option.some.injEq] at ht
        rw [← ht]
        exact floor_self _ s hv

theorem history_wf_exit (s s1 : args) (_hc : core_wf s) (hl : history_wf s)
    (h : exit_shape s s1) : history_wf s1 := by
  obtain ⟨nm, pl, dt, tt, slot, park, park2, v, last_log, ed, cost, hck, hlast, _, _, _, rfl⟩ := h
  have hv := hck.2.2.2.2.2
  obtain ⟨e0, he0, hv0⟩ := find_vehicle_mem _ _ _ hck.2.2.1
  obtain ⟨h2, h3⟩ := hl e0 he0
  rw [hv0] at h2 h3
  intro e he
  rcases all_entries_store _ _ _ _ he with h1 | h1
  · obtain ⟨h4, h5⟩ := hl e h1
    exact ⟨h4, fun l hlm t ht => floor_step _ _ s hv (h5 l hlm t ht)⟩
  · rw [h1]
    constructor
    · exact pairwise_replace_last entry_order _ last_log _ hlast
        (fun x hx ta tb hta htb => hx ta tb hta htb) h2
    · intro l hlm t ht
      rcases List.mem_append.1 hlm with h4 | h4
      · exact floor_step _ _ s hv (h3 l (List.mem_of_mem_dropLast h4) t ht)
      · rw [List.mem_singleton.1 h4] at ht
        exact floor_step _ _ s hv (h3 last_log (List.mem_of_mem_getLast? hlast) t ht)

theorem history_wf_remove (s s1 : args) (_hc : core_wf s) (hl : history_wf s)
    (h : remove_shape s s1) : history_wf s1 := by
  obtain ⟨k, q, _, rfl⟩ := h
  intro e he
  change e ∈ all_entries (purge_index s.vehicles q.name) at he
  rw [all_entries_purge] at he
  obtain ⟨e0, he0, rfl⟩ := List.mem_map.1 he
  obtain ⟨h2, h3⟩ := hl e0 he0
  exact ⟨h2.sublist (List.filter_sublist _),
    fun l hlm t ht => h3 l (List.mem_of_mem_filter hlm) t ht⟩

theorem reachable_history (s : args) (h : reachable s) : history_wf s :=
  (reachable_invariant history_wf history_wf_init history_wf_add history_wf_entry
    history_wf_exit history_wf_remove s h).2

theorem find_vehicle_fresh (k : String) : find_vehicle initial_args.vehicles k = none := by
  unfold find_vehicle
  have : initial_args.vehicles.entries.getD (hash_function k % initial_args.vehicles.length) []
      = [] := by
    show (List.replicate INITIAL_LENGTH ([] : List entry)).getD _ [] = []
    rw [List.getD_eq_getElem?_getD, List.getElem?_replicate]
    split_ifs <;> rfl
  simp only [this, chain_find]

theorem spec_lookup_cons (k0 : String) (v0 : vehicle) (rest : List (String × vehicle))
    (k : String) :
    spec_lookup ((k0, v0) :: rest) k = if k0 = k then some v0 else spec_lookup rest k := by
  unfold spec_lookup
  by_cases h : k0 = k
  · simp [List.find?_cons, h]
  · simp [List.find?_cons, h]

theorem spec_lookup_none (kvs : List (String × vehicle)) (k : String)
    (h : k ∉ kvs.map Prod.fst) : spec_lookup kvs k = none := by
  induction kvs with
  | nil => rfl
  | cons kv rest ih =>
    obtain ⟨k0, v0⟩ := kv
    simp only [List.map_cons, List.mem_cons, not_or] at h
    rw [spec_lookup_cons, if_neg (fun hc => h.1 hc.symm)]
    exact ih h.2

theorem insert_all_find (kvs : List (String × vehicle)) :
    ∀ (ht : hashtable), index_wf ht → (kvs.map Prod.fst).Nodup →
      (∀ k ∈ kvs.map Prod.fst, find_vehicle ht k = none) →
      ∀ k, find_vehicle (insert_all ht kvs) k =
        match spec_lookup kvs k with
        | some v => some v
        | none => find_vehicle ht k := by
  induction kvs with
  | nil => intro ht _ _ _ k; rfl
  | cons kv rest ih =>
    obtain ⟨k0, v0⟩ := kv
    intro ht hwf hnd hnone k
    simp only [List.map_cons, List.nodup_cons] at hnd
    have hstep : insert_all ht ((k0, v0) :: rest) =
        insert_all (insert_new_entry ht k0 v0) rest := rfl
    have hnone1 : ∀ k1 ∈ rest.map Prod.fst, find_vehicle (insert_new_entry ht k0 v0) k1 = none := by
      intro k1 hk1
      rw [find_vehicle_insert_other ht k0 k1 v0 (fun hc => hnd.1 (hc ▸ hk1))]
      exact hnone k1 (List.mem_cons_of_mem _ hk1)
    rw [hstep, ih _ (index_wf_insert _ _ _ hwf) hnd.2 hnone1 k, spec_lookup_cons]
    by_cases hk : k0 = k
    · subst hk
      rw [if_pos rfl, spec_lookup_none rest k0 hnd.1]
      exact find_vehicle_insert_same ht k0 v0 hwf (hnone k0 (List.mem_cons_self _ _))
    · rw [if_neg hk]
      cases spec_lookup rest k with
      | some v => rfl
      | none => exact find_vehicle_insert_other ht k0 k v0 (fun hc => hk hc.symm)

theorem flatten_set_append_perm {α : Type} (a : α) :
    ∀ (l : List (List α)) (i : Nat), i < l.length →
      List.Perm (l.set i (l.getD i [] ++ [a])).flatten (a :: l.flatten)
  | [], i, h => absurd h (Nat.not_lt_zero _)
  | c :: rest, 0, _ => by
    simp only [List.set_cons_zero, List.flatten_cons, List.getD_cons_zero, List.append_assoc]
    have h1 : List.Perm (c ++ ([a] ++ rest.flatten)) (c ++ (rest.flatten ++ [a])) :=
      List.Perm.append_left c List.perm_append_comm
    refine h1.trans ?_
    rw [← List.append_assoc]
    exact (List.perm_append_singleton a (c ++ rest.flatten))
  | c :: rest, i + 1, h => by
    simp only [List.set_cons_succ, List.flatten_cons, List.getD_cons_succ]
    have ih := flatten_set_append_perm a rest i (by simpa using h)
    have h1 := List.Perm.append_left c ih
    refine h1.trans ?_
    exact List.perm_middle

theorem flatten_set_keys {α β : Type} (f : α → β) :
    ∀ (l : List (List α)) (i : Nat) (c1 : List α), c1.map f = (l.getD i []).map f →
      (l.set i c1).flatten.map f = l.flatten.map f
  | [], _, _, _ => rfl
  | c :: rest, 0, c1, h => by
    simp only [List.set_cons_zero, List.flatten_cons, List.map_append]
    rw [h]
    rfl
  | c :: rest, i + 1, c1, h => by
    simp only [List.set_cons_succ, List.flatten_cons, List.map_append]
    rw [flatten_set_keys f rest i c1 h]

theorem chain_store_keys (k : String) (v1 : vehicle) :
    ∀ c : List entry, (chain_store c k v1).map (fun e => e.key) = c.map (fun e => e.key)
  | [] => rfl
  | e :: rest => by
    unfold chain_store
    split_ifs
    · rfl
    · simp only [List.map_cons, chain_store_keys k v1 rest]

theorem chain_store_mem_key (c : List entry) (k : String) (v1 : vehicle) (e : entry)
    (h : e ∈ chain_store c k v1) : e ∈ c ∨ (e.key = k ∧ e.value = v1) := by
  induction c with
  | nil => exact absurd h (List.not_mem_nil _)
  | cons e0 rest ih =>
    unfold chain_store at h
    split_ifs at h with hk
    · rcases List.mem_cons.1 h with h1 | h1
      · right
        rw [h1]
        exact ⟨(strcmp_eq_zero _ _).1 hk, rfl⟩
      · exact Or.inl (List.mem_cons_of_mem _ h1)
    · rcases List.mem_cons.1 h with h1 | h1
      · left; rw [h1]; exact List.mem_cons_self _ _
      · rcases ih h1 with h2 | h2
        · exact Or.inl (List.mem_cons_of_mem _ h2)
        · exact Or.inr h2

theorem chain_find_key (c : List entry) (k : String) (v : vehicle)
    (h : chain_find c k = some v) : ∃ e ∈ c, e.key = k ∧ e.value = v := by
  induction c with
  | nil => simp [chain_find] at h
  | cons e0 rest ih =>
    unfold chain_find at h
    split_ifs at h with hk
    · simp only [Option.some.injEq] at h
      exact ⟨e0, List.mem_cons_self _ _, (strcmp_eq_zero _ _).1 hk, h⟩
    · obtain ⟨e, he, h1⟩ := ih h
      exact ⟨e, List.mem_cons_of_mem _ he, h1⟩

theorem chain_find_none_key (c : List entry) (k : String) (h : chain_find c k = none) :
    ∀ e ∈ c, e.key ≠ k := by
  induction c with
  | nil => intro e he; exact absurd he (List.not_mem_nil _)
  | cons e0 rest ih =>
    unfold chain_find at h
    split_ifs at h with hk
    intro e he
    rcases List.mem_cons.1 he with h1 | h1
    · rw [h1]
      exact fun hc => hk ((strcmp_eq_zero _ _).2 hc)
    · exact ih h e h1

theorem mem_flatten_getD {α : Type} (l : List (List α)) (a : α) (h : a ∈ l.flatten) :
    ∃ i, a ∈ l.getD i [] := by
  obtain ⟨c, hc, ha⟩ := List.mem_flatten.1 h
  obtain ⟨i, hi, hget⟩ := List.getElem_of_mem hc
  refine ⟨i, ?_⟩
  rw [List.getD_eq_getElem?_getD, List.getElem?_eq_getElem hi, Option.getD_some, hget]
  exact ha

theorem find_vehicle_key (ht : hashtable) (k : String) (v : vehicle)
    (h : find_vehicle ht k = some v) : ∃ e ∈ all_entries ht, e.key = k ∧ e.value = v := by
  obtain ⟨e, he, h1⟩ := chain_find_key _ _ _ h
  exact ⟨e, getD_mem_flatten _ _ _ he, h1⟩

theorem find_vehicle_none_key (ht : hashtable) (k : String) (hk : keys_wf ht)
    (h : find_vehicle ht k = none) : ∀ e ∈ all_entries ht, e.key ≠ k := by
  intro e he hc
  obtain ⟨i, hi⟩ := mem_flatten_getD _ _ he
  have hp := hk.2.2.2 i e hi
  rw [hc] at hp
  rw [← hp] at hi
  exact chain_find_none_key _ _ h e hi hc

theorem all_entries_store_key (ht : hashtable) (k : String) (v1 : vehicle) (e : entry)
    (h : e ∈ all_entries (store_vehicle ht k v1)) :
    e ∈ all_entries ht ∨ (e.key = k ∧ e.value = v1) := by
  rcases flatten_set_mem _ _ _ _ h with h1 | h1
  · exact Or.inl h1
  · rcases chain_store_mem_key _ _ _ _ h1 with h2 | h2
    · exact Or.inl (getD_mem_flatten _ _ _ h2)
    · exact Or.inr h2

theorem getD_set_cases {α : Type} (l : List α) (i j : Nat) (a d : α) :
    (l.set i a).getD j d = l.getD j d ∨ (j = i ∧ (l.set i a).getD j d = a) := by
  by_cases hij : i = j
  · subst hij
    by_cases hi : i < l.length
    · exact Or.inr ⟨rfl, getD_set_same _ _ _ _ hi⟩
    · left
      rw [List.set_eq_of_length_le (by omega)]
  · exact Or.inl (getD_set_other _ _ _ _ _ hij)

theorem keys_wf_insert (ht : hashtable) (k : String) (v1 : vehicle) (hi : index_wf ht)
    (hk : keys_wf ht) (hnone : find_vehicle ht k = none) (hpl : v1.license_plate = k)
    (hval : is_license_plate_valid k ≠ 0) : keys_wf (insert_new_entry ht k v1) := by
  have hlt : hash_function k % ht.length < ht.entries.length := by
    rw [hi.1]; exact Nat.mod_lt _ hi.2
  have hperm : List.Perm (all_entries (insert_new_entry ht k v1))
      ({ key := k, value := v1 } :: all_entries ht) :=
    flatten_set_append_perm _ _ _ hlt
  obtain ⟨k1, k2, k3, k4⟩ := hk
  refine ⟨?_, ?_, ?_, ?_⟩
  · rw [(hperm.map _).nodup_iff, List.map_cons, List.nodup_cons]
    refine ⟨?_, k1⟩
    intro hmem
    obtain ⟨e, he, hek⟩ := List.mem_map.1 hmem
    exact find_vehicle_none_key ht k ⟨k1, k2, k3, k4⟩ hnone e he hek
  · intro e he
    rcases List.mem_cons.1 (hperm.mem_iff.1 he) with h1 | h1
    · rw [h1]
      exact ⟨hpl.symm, hval⟩
    · exact k2 e h1
  · show ht.num_entries + 1 = _
    rw [hperm.length_eq, List.length_cons, k3]
    push_cast
    rfl
  · intro i e he
    show hash_function e.key % ht.length = i
    change e ∈ (ht.entries.set _ _).getD i [] at he
    rcases getD_set_cases ht.entries (hash_function k % ht.length) i
      (ht.entries.getD (hash_function k % ht.length) [] ++ [{ key := k, value := v1 }]) []
      with h1 | ⟨h1, h2⟩
    · rw [h1] at he
      exact k4 i e he
    · rw [h2] at he
      rcases List.mem_append.1 he with h3 | h3
      · rw [h1]
        exact k4 _ e h3
      · rw [List.mem_singleton.1 h3, h1]

theorem keys_wf_store (ht : hashtable) (k : String) (v1 : vehicle)
    (hk : keys_wf ht) (hpl : v1.license_plate = k)
    (hval : is_license_plate_valid k ≠ 0) : keys_wf (store_vehicle ht k v1) := by
  have hkeys : (all_entries (store_vehicle ht k v1)).map (fun e => e.key) =
      (all_entries ht).map (fun e => e.key) :=
    flatten_set_keys _ _ _ _ (chain_store_keys k v1 _)
  obtain ⟨k1, k2, k3, k4⟩ := hk
  refine ⟨?_, ?_, ?_, ?_⟩
  · rw [hkeys]; exact k1
  · intro e he
    rcases all_entries_store_key _ _ _ _ he with h1 | ⟨h1, h2⟩
    · exact k2 e h1
    · rw [h1, h2]
      exact ⟨hpl.symm, hval⟩
  · show ht.num_entries = _
    have := congrArg List.length hkeys
    simp only [List.length_map] at this
    rw [this, k3]
  · intro i e he
    show hash_function e.key % ht.length = i
    change e ∈ (ht.entries.set _ _).getD i [] at he
    rcases getD_set_cases ht.entries (hash_function k % ht.length) i
      (chain_store (ht.entries.getD (hash_function k % ht.length) []) k v1) []
      with h1 | ⟨h1, h2⟩
    · rw [h1] at he
      exact k4 i e he
    · rw [h2] at he
      rcases chain_store_mem_key _ _ _ _ he with h3 | ⟨h3, _⟩
      · rw [h1]
        exact k4 _ e h3
      · rw [h3, h1]

theorem keys_wf_purge (ht : hashtable) (name : String) (hk : keys_wf ht) :
    keys_wf (purge_index ht name) := by
  obtain ⟨k1, k2, k3, k4⟩ := hk
  refine ⟨?_, ?_, ?_, ?_⟩
  · rw [all_entries_purge, List.map_map]
    exact k1
  · intro e he
    rw [all_entries_purge] at he
    obtain ⟨e0, he0, rfl⟩ := List.mem_map.1 he
    exact k2 e0 he0
  · show ht.num_entries = _
    rw [all_entries_purge, List.length_map]
    exact k3
  · intro i e he
    show hash_function e.key % ht.length = i
    change e ∈ (ht.entries.map _).getD i [] at he
    rw [List.getD_eq_getElem?_getD, List.getElem?_map] at he
    cases hg : ht.entries[i]? with
    | none => rw [hg] at he; exact absurd he (List.not_mem_nil _)
    | some c =>
      rw [hg] at he
      simp only [Option.map_some', Option.getD_some] at he
      obtain ⟨e0, he0, rfl⟩ := List.mem_map.1 he
      apply k4 i e0
      rw [List.getD_eq_getElem?_getD, hg]
      exact he0

theorem keys_wf_init : keys_wf initial_args.vehicles := by
  refine ⟨?_, ?_, ?_, ?_⟩
  · rw [initial_all_entries]; exact List.nodup_nil
  · intro e he
    rw [initial_all_entries] at he
    exact absurd he (List.not_mem_nil _)
  · rw [initial_all_entries]; rfl
  · intro i e he
    change e ∈ (List.replicate INITIAL_LENGTH ([] : List entry)).getD i [] at he
    rw [List.getD_eq_getElem?_getD, List.getElem?_replicate] at he
    split_ifs at he <;> exact absurd he (List.not_mem_nil _)

theorem reachable_keys (s : args) (h : reachable s) : keys_wf s.vehicles := by
  refine (reachable_invariant (fun s => keys_wf s.vehicles) keys_wf_init ?_ ?_ ?_ ?_ s h).2
  · intro s s1 _ hk hs
    obtain ⟨nm, c, x, y, z, _, _, _, rfl⟩ := hs
    exact hk
  · intro s s1 hc hk hs
    obtain ⟨nm, pl, dt, tt, slot, park, hck, rfl⟩ := hs
    show keys_wf (entered_index s.vehicles (find_vehicle s.vehicles pl) pl _)
    cases hf : find_vehicle s.vehicles pl with
    | none => exact keys_wf_insert _ _ _ hc.2.1 hk hf rfl hck.2.2.1
    | some v =>
      obtain ⟨e, he, hek, hev⟩ := find_vehicle_key _ _ _ hf
      refine keys_wf_store _ _ _ hk ?_ hck.2.2.1
      show v.license_plate = pl
      rw [← hev, ← (hk.2.1 e he).1, hek]
  · intro s s1 hc hk hs
    obtain ⟨nm, pl, dt, tt, slot, park, park2, v, last_log, ed, cost, hck, _, _, _, _, rfl⟩ := hs
    obtain ⟨e, he, hek, hev⟩ := find_vehicle_key _ _ _ hck.2.2.1
    refine keys_wf_store _ _ _ hk ?_ hck.2.1
    show v.license_plate = pl
    rw [← hev, ← (hk.2.1 e he).1, hek]
  · intro s s1 _ hk hs
    obtain ⟨k, p, _, rfl⟩ := hs
    exact keys_wf_purge _ _ hk

theorem registered_after_add (s s1 : args) (hwf : registry_wf s) (h : add_shape s s1)
    (i : Nat) (p : parking) (hr : registered s i p) : registered s1 i p := by
  obtain ⟨nm, c, x, y, z, hpc, _, _, rfl⟩ := h
  refine ⟨?_, ?_⟩
  · show (i : Int) < s.park_counter + 1
    have := hr.1
    omega
  · show (s.parkings.set _ _).getD i none = some p
    rw [add_shape_get s _ i hwf hpc, if_neg]
    · exact hr.2
    · have := hr.1
      omega

theorem registered_after_remove (s : args) (k : Nat) (q : parking) (hwf : registry_wf s)
    (hq : registered s k q) (i : Nat) (p : parking) (hr : registered s i p) (hik : i ≠ k) :
    ∃ j, registered
      { s with
        vehicles := purge_index s.vehicles q.name
        parkings := shifted_parkings s.parkings k
        park_counter := s.park_counter - 1 } j p := by
  by_cases hlt : i < k
  · refine ⟨i, ?_, ?_⟩
    · show (i : Int) < s.park_counter - 1
      have := hq.1
      omega
    · show (shifted_parkings s.parkings k).getD i none = some p
      rw [shifted_parkings_get _ _ _ hwf.2.2.2.2.2, if_pos hlt]
      exact hr.2
  · obtain ⟨j, rfl⟩ : ∃ j, i = j + 1 := ⟨i - 1, by omega⟩
    refine ⟨j, ?_, ?_⟩
    · show (j : Int) < s.park_counter - 1
      have := hr.1
      push_cast at this
      omega
    · show (shifted_parkings s.parkings k).getD j none = some p
      rw [shifted_parkings_get _ _ _ hwf.2.2.2.2.2, if_neg (by omega)]
      exact hr.2

theorem slot_update_name_state (s : args) (slot : Nat) (p p1 : parking) (t : date)
    (ht : hashtable) (hget : s.parkings.getD slot none = some p) (hname : p1.name = p.name)
    (n : String) (h : ∃ i q, registered s i q ∧ q.name = n) :
    ∃ i q, registered
      { s with
        last_date := t
        parkings := s.parkings.set slot (some p1)
        vehicles := ht } i q ∧ q.name = n :=
  slot_update_name s
    { s with
      last_date := t
      parkings := s.parkings.set slot (some p1)
      vehicles := ht } slot p p1 rfl rfl hget hname n h

theorem events_registered_init : events_registered initial_args := by
  intro e he
  rw [initial_all_entries] at he
  exact absurd he (List.not_mem_nil _)

theorem reachable_events (s : args) (h : reachable s) : events_registered s := by
  refine (reachable_invariant events_registered events_registered_init ?_ ?_ ?_ ?_ s h).2
  · intro s s1 hc hev hs e he l hl
    have he0 : e ∈ all_entries s.vehicles := by
      obtain ⟨nm, c, x, y, z, _, _, _, rfl⟩ := hs
      exact he
    obtain ⟨nm, hn, i, p, hr, hp⟩ := hev e he0 l hl
    exact ⟨nm, hn, i, p, registered_after_add s s1 hc.1 hs i p hr, hp⟩
  · intro s s1 hc hev hs
    obtain ⟨nm, pl, dt, tt, slot, park, hck, rfl⟩ := hs
    obtain ⟨hreg, hnm⟩ := find_parking_registered s nm slot park hc.1 hck.1
    have hname := fun n hn => slot_update_name_state s slot park
      { park with free_spaces := park.free_spaces - 1 } (token_date dt tt)
      (entered_index s.vehicles (find_vehicle s.vehicles pl) pl
        (entered_vehicle (find_vehicle s.vehicles pl) nm pl (token_date dt tt)))
      hreg.2 rfl n hn
    intro e he l hl
    rcases entered_index_mem _ _ _ _ _ he with h1 | h1
    · obtain ⟨n, hn, hex⟩ := hev e h1 l hl
      exact ⟨n, hn, hname n hex⟩
    · rw [h1, entered_vehicle_logs] at hl
      rcases List.mem_append.1 hl with h2 | h2
      · obtain ⟨e0, he0, hl0⟩ := found_logs_mem _ _ _ h2
        obtain ⟨n, hn, hex⟩ := hev e0 he0 l hl0
        exact ⟨n, hn, hname n hex⟩
      · rw [List.mem_singleton.1 h2]
        exact ⟨nm, rfl, hname nm ⟨slot, park, hreg, hnm⟩⟩
  · intro s s1 hc hev hs
    obtain ⟨nm, pl, dt, tt, slot, park, park2, v, last_log, ed, cost, hck, hlast, _, _, hadd,
      rfl⟩ := hs
    obtain ⟨hreg, _⟩ := find_parking_registered s nm slot park hc.1 hck.1
    have hf := add_new_exit_fields _ _ _ _ _ hadd
    have hname := fun n hn => slot_update_name_state s slot park park2 (token_date dt tt)
      (store_vehicle s.vehicles pl
        { v with is_parked := 0, parking_name := none,
                 my_logs := v.my_logs.dropLast ++
                   [{ last_log with exit_date := some (token_date dt tt), cost := cost }] })
      hreg.2 (by rw [hf]) n hn
    obtain ⟨e0, he0, hv0⟩ := find_vehicle_mem _ _ _ hck.2.2.1
    intro e he l hl
    rcases all_entries_store _ _ _ _ he with h1 | h1
    · obtain ⟨n, hn, hex⟩ := hev e h1 l hl
      exact ⟨n, hn, hname n hex⟩
    · rw [h1] at hl
      rcases List.mem_append.1 hl with h2 | h2
      · obtain ⟨n, hn, hex⟩ := hev e0 he0 l (by rw [hv0]; exact List.mem_of_mem_dropLast h2)
        exact ⟨n, hn, hname n hex⟩
      · rw [List.mem_singleton.1 h2]
        obtain ⟨n, hn, hex⟩ := hev e0 he0 last_log
          (by rw [hv0]; exact List.mem_of_mem_getLast? hlast)
        exact ⟨n, hn, hname n hex⟩
  · intro s s1 hc hev hs
    obtain ⟨k, q, hq, rfl⟩ := hs
    intro e he l hl
    change e ∈ all_entries (purge_index s.vehicles q.name) at he
    rw [all_entries_purge] at he
    obtain ⟨e0, he0, rfl⟩ := List.mem_map.1 he
    obtain ⟨hl1, hl2⟩ := List.mem_filter.1 hl
    obtain ⟨n, hn, i, p, hr, hp⟩ := hev e0 he0 l hl1
    have hne : n ≠ q.name := by
      intro hc1
      rw [hn, hc1] at hl2
      simp at hl2
    have hik : i ≠ k := by
      intro hc1
      rw [hc1] at hr
      have := hr.2.symm.trans hq.2
      simp only [Option.some.injEq] at this
      exact hne (by rw [← hp, this])
    obtain ⟨j, hj⟩ := registered_after_remove s k q hc.1 hq i p hr hik
    exact ⟨n, hn, j, p, hj, hp⟩

theorem collect_parking_names_mem (s : args) (_hwf : registry_wf s) (nm : String) :
    nm ∈ collect_parking_names s ↔ ∃ i p, registered s i p ∧ p.name = nm := by
  unfold collect_parking_names
  rw [List.mem_filterMap]
  constructor
  · rintro ⟨i, hi, h⟩
    rw [List.mem_range] at hi
    cases hp : s.parkings.getD i none with
    | none => rw [hp] at h; simp at h
    | some p =>
      rw [hp] at h
      simp only [Option.some.injEq] at h
      exact ⟨i, p, ⟨by omega, hp⟩, h⟩
  · rintro ⟨i, p, hr, hn⟩
    refine ⟨i, ?_, ?_⟩
    · rw [List.mem_range]
      have := hr.1
      omega
    · rw [hr.2]
      show some p.name = some nm
      rw [hn]

theorem collect_parking_names_nodup (s : args) (hwf : registry_wf s) :
    (collect_parking_names s).Nodup := by
  unfold collect_parking_names
  apply List.Nodup.filterMap _ (List.nodup_range _)
  intro i j nm hi hj
  cases hp : s.parkings.getD i none with
  | none => rw [hp] at hi; simp at hi
  | some p =>
    cases hq : s.parkings.getD j none with
    | none => rw [hq] at hj; simp at hj
    | some q =>
      rw [hp] at hi
      rw [hq] at hj
      simp only [Option.mem_def, Option.some.injEq] at hi hj
      exact hwf.2.2.2.2.1 i j p q hp hq (by rw [hi, hj])

theorem list_logs_of_parking_ok (nm : String) :
    ∀ logs : List vehicle_log,
      (∀ l ∈ logs, l.parking_name ≠ none ∧ l.entry_date ≠ none) →
      list_logs_of_parking logs nm =
        Result.ok (event_lines (logs.filter (fun l => decide (l.parking_name = some nm))))
  | [], _ => rfl
  | l :: rest, h => by
    have hrec := list_logs_of_parking_ok nm rest (fun x hx => h x (List.mem_cons_of_mem _ hx))
    obtain ⟨h1, h2⟩ := h l (List.mem_cons_self _ _)
    obtain ⟨n, hn⟩ := Option.ne_none_iff_exists'.1 h1
    obtain ⟨t, ht⟩ := Option.ne_none_iff_exists'.1 h2
    unfold list_logs_of_parking
    rw [hn]
    dsimp only
    by_cases hc : n = nm
    · subst hc
      rw [if_pos ((strcmp_eq_zero _ _).2 rfl), ht]
      dsimp only
      rw [hrec, List.filter_cons_of_pos (by simp [hn])]
      simp only [event_lines, List.filterMap_cons, hn, ht]
    · rw [if_neg (fun h0 => hc ((strcmp_eq_zero _ _).1 h0)), hrec,
        List.filter_cons_of_neg (by simp [hn, hc])]

theorem list_logs_of_parkings_ok (s : args) (v : vehicle) (hwf : registry_wf s)
    (hlogs : ∀ l ∈ v.my_logs, l.parking_name ≠ none ∧ l.entry_date ≠ none) :
    ∀ names : List String, (∀ nm ∈ names, ∃ i p, registered s i p ∧ p.name = nm) →
      list_logs_of_parkings s v names = Result.ok (spec_history names v.my_logs)
  | [], _ => rfl
  | nm :: rest, h => by
    obtain ⟨i, p, hr, hp⟩ := h nm (List.mem_cons_self _ _)
    have hf := find_parking_of_registered s nm i p hwf hr hp
    have hrec := list_logs_of_parkings_ok s v hwf hlogs rest
      (fun x hx => h x (List.mem_cons_of_mem _ hx))
    unfold list_logs_of_parkings
    rw [hf]
    dsimp only
    rw [hp, list_logs_of_parking_ok nm v.my_logs hlogs]
    dsimp only
    rw [hrec]
    rfl

theorem event_lines_append (l1 l2 : List vehicle_log) :
    event_lines (l1 ++ l2) = event_lines l1 ++ event_lines l2 := by
  unfold event_lines
  rw [List.filterMap_append]

theorem event_lines_length (logs : List vehicle_log)
    (h : ∀ l ∈ logs, l.parking_name ≠ none ∧ l.entry_date ≠ none) :
    (event_lines logs).length = logs.length := by
  induction logs with
  | nil => rfl
  | cons l rest ih =>
    obtain ⟨h1, h2⟩ := h l (List.mem_cons_self _ _)
    obtain ⟨n, hn⟩ := Option.ne_none_iff_exists'.1 h1
    obtain ⟨t, ht⟩ := Option.ne_none_iff_exists'.1 h2
    have := ih (fun x hx => h x (List.mem_cons_of_mem _ hx))
    unfold event_lines at this ⊢
    simp only [List.filterMap_cons, hn, ht, List.length_cons, this]

theorem spec_history_cons (nm : String) (rest : List String) (logs : List vehicle_log) :
    spec_history (nm :: rest) logs =
      event_lines (logs.filter (fun l => decide (l.parking_name = some nm))) ++
        spec_history rest logs := by
  unfold spec_history
  rw [List.flatMap_cons]

theorem spec_history_filter (n : String) (logs : List vehicle_log) :
    ∀ rest : List String, n ∉ rest →
      spec_history rest (logs.filter (fun l => decide (l.parking_name ≠ some n))) =
        spec_history rest logs
  | [], _ => rfl
  | nm :: rest, h => by
    rw [spec_history_cons, spec_history_cons,
      spec_history_filter n logs rest (fun hc => h (List.mem_cons_of_mem _ hc)),
      List.filter_filter]
    congr 2
    apply List.filter_congr
    intro l _
    have hne : nm ≠ n := fun hc => h (hc ▸ List.mem_cons_self _ _)
    by_cases hl : l.parking_name = some nm
    · simp [hl, hne]
    · simp [hl]

theorem spec_history_perm :
    ∀ (names : List String) (logs : List vehicle_log), names.Nodup →
      (∀ l ∈ logs, ∃ nm ∈ names, l.parking_name = some nm) →
      List.Perm (spec_history names logs) (event_lines logs)
  | [], logs, _, h => by
    cases logs with
    | nil => exact List.Perm.refl _
    | cons l rest =>
      obtain ⟨nm, hnm, _⟩ := h l (List.mem_cons_self _ _)
      exact absurd hnm (List.not_mem_nil _)
  | n :: rest, logs, hnd, h => by
    rw [List.nodup_cons] at hnd
    rw [spec_history_cons, ← spec_history_filter n logs rest hnd.1]
    have ih := spec_history_perm rest
      (logs.filter (fun l => decide (l.parking_name ≠ some n))) hnd.2 (by
        intro l hl
        obtain ⟨hl1, hl2⟩ := List.mem_filter.1 hl
        obtain ⟨nm, hnm, hn⟩ := h l hl1
        rcases List.mem_cons.1 hnm with h1 | h1
        · rw [hn, h1] at hl2
          simp at hl2
        · exact ⟨nm, h1, hn⟩)
    refine (List.Perm.append_left _ ih).trans ?_
    rw [← event_lines_append]
    unfold event_lines
    apply List.Perm.filterMap
    have := List.filter_append_perm (fun l : vehicle_log => decide (l.parking_name = some n)) logs
    refine List.Perm.trans ?_ this
    apply List.Perm.append_left
    apply List.Perm.of_eq
    apply List.filter_congr
    intro l _
    simp

theorem event_lines_mem (logs : List vehicle_log) (o : Output) (h : o ∈ event_lines logs) :
    ∃ n t x, o = Output.log_line n t x := by
  unfold event_lines at h
  obtain ⟨l, _, hl⟩ := List.mem_filterMap.1 h
  cases hn : l.parking_name with
  | none => rw [hn] at hl; simp at hl
  | some n =>
    cases ht : l.entry_date with
    | none => rw [hn, ht] at hl; simp at hl
    | some t =>
      rw [hn, ht] at hl
      simp only [Option.some.injEq] at hl
      exact ⟨n, t, l.exit_date, hl.symm⟩

theorem parked_open_init : parked_open initial_args := by
  intro e he
  rw [initial_all_entries] at he
  exact absurd he (List.not_mem_nil _)

theorem reachable_parked_open (s : args) (h : reachable s) : parked_open s := by
  refine (reachable_invariant parked_open parked_open_init ?_ ?_ ?_ ?_ s h).2
  · intro s s1 hc hp hs e he hpk
    have he0 : e ∈ all_entries s.vehicles := by
      obtain ⟨nm, c, x, y, z, _, _, _, rfl⟩ := hs
      exact he
    have hpk0 : e.value.is_parked ≠ 0 := hpk
    obtain ⟨l, nm, h1, h2, h3, h4, i, p, hr, hn⟩ := hp e he0 hpk0
    exact ⟨l, nm, h1, h2, h3, h4, i, p, registered_after_add s s1 hc.1 hs i p hr, hn⟩
  · intro s s1 hc hp hs
    obtain ⟨nm, pl, dt, tt, slot, park, hck, rfl⟩ := hs
    obtain ⟨hreg, hnm⟩ := find_parking_registered s nm slot park hc.1 hck.1
    have hname := fun n hn => slot_update_name_state s slot park
      { park with free_spaces := park.free_spaces - 1 } (token_date dt tt)
      (entered_index s.vehicles (find_vehicle s.vehicles pl) pl
        (entered_vehicle (find_vehicle s.vehicles pl) nm pl (token_date dt tt)))
      hreg.2 rfl n hn
    intro e he hpk
    rcases entered_index_mem _ _ _ _ _ he with h1 | h1
    · obtain ⟨l, n, h2, h3, h4, h5, hex⟩ := hp e h1 hpk
      exact ⟨l, n, h2, h3, h4, h5, hname n hex⟩
    · rw [h1]
      refine ⟨{ license_plate :=
                  (entered_vehicle (find_vehicle s.vehicles pl) nm pl
                    (token_date dt tt)).license_plate,
                parking_name := some nm, entry_date := some (token_date dt tt),
                exit_date := none, cost := 0 }, nm, ?_, ?_, ?_, ?_,
        hname nm ⟨slot, park, hreg, hnm⟩⟩
      · rw [entered_vehicle_logs]
        exact getLast?_append_single _ _
      · rfl
      · rfl
      · cases find_vehicle s.vehicles pl <;> rfl
  · intro s s1 hc hp hs
    obtain ⟨nm, pl, dt, tt, slot, park, park2, v, last_log, ed, cost, hck, hlast, _, _, hadd,
      rfl⟩ := hs
    obtain ⟨hreg, _⟩ := find_parking_registered s nm slot park hc.1 hck.1
    have hf := add_new_exit_fields _ _ _ _ _ hadd
    have hname := fun n hn => slot_update_name_state s slot park park2 (token_date dt tt)
      (store_vehicle s.vehicles pl
        { v with is_parked := 0, parking_name := none,
                 my_logs := v.my_logs.dropLast ++
                   [{ last_log with exit_date := some (token_date dt tt), cost := cost }] })
      hreg.2 (by rw [hf]) n hn
    intro e he hpk
    rcases all_entries_store _ _ _ _ he with h1 | h1
    · obtain ⟨l, n, h2, h3, h4, h5, hex⟩ := hp e h1 hpk
      exact ⟨l, n, h2, h3, h4, h5, hname n hex⟩
    · rw [h1] at hpk
      exact absurd rfl hpk
  · intro s s1 hc hp hs
    obtain ⟨k, q, hq, rfl⟩ := hs
    intro e he hpk
    change e ∈ all_entries (purge_index s.vehicles q.name) at he
    rw [all_entries_purge] at he
    obtain ⟨e0, he0, rfl⟩ := List.mem_map.1 he
    exact absurd rfl hpk

theorem dates_valid_init : history_wf initial_args ∧ dates_valid initial_args := by
  refine ⟨history_wf_init, ?_⟩
  intro e he
  rw [initial_all_entries] at he
  exact absurd he (List.not_mem_nil _)

theorem reachable_dates_valid (s : args) (h : reachable s) : dates_valid s := by
  refine (reachable_invariant (fun s => history_wf s ∧ dates_valid s) dates_valid_init
    ?_ ?_ ?_ ?_ s h).2.2
  · intro s s1 hc hp hs
    refine ⟨history_wf_add s s1 hc hp.1 hs, ?_⟩
    obtain ⟨nm, c, x, y, z, _, _, _, rfl⟩ := hs
    exact hp.2
  · intro s s1 hc hp hs
    refine ⟨history_wf_entry s s1 hc hp.1 hs, ?_⟩
    obtain ⟨nm, pl, dt, tt, slot, park, hck, rfl⟩ := hs
    have hv := (accepted_floor _ s hck.2.2.2.2).1
    intro e he l hl
    rcases entered_index_mem _ _ _ _ _ he with h1 | h1
    · exact hp.2 e h1 l hl
    · rw [h1, entered_vehicle_logs] at hl
      rcases List.mem_append.1 hl with h2 | h2
      · obtain ⟨e0, he0, hl0⟩ := found_logs_mem _ _ _ h2
        exact hp.2 e0 he0 l hl0
      · rw [List.mem_singleton.1 h2]
        refine ⟨?_, ?_, ?_⟩
        · intro t ht
          simp only [Option.some.injEq] at ht
          rw [← ht]; exact hv
        · intro t ht
          simp at ht
        · intro te tx _ htx
          simp at htx
  · intro s s1 hc hp hs
    refine ⟨history_wf_exit s s1 hc hp.1 hs, ?_⟩
    obtain ⟨nm, pl, dt, tt, slot, park, park2, v, last_log, ed, cost, hck, hlast, _, _, _,
      rfl⟩ := hs
    have hacc := hck.2.2.2.2.2
    have hv := (accepted_floor _ s hacc).1
    obtain ⟨e0, he0, hv0⟩ := find_vehicle_mem _ _ _ hck.2.2.1
    have hmem : last_log ∈ e0.value.my_logs := by
      rw [hv0]; exact List.mem_of_mem_getLast? hlast
    intro e he l hl
    rcases all_entries_store _ _ _ _ he with h1 | h1
    · exact hp.2 e h1 l hl
    · rw [h1] at hl
      rcases List.mem_append.1 hl with h2 | h2
      · exact hp.2 e0 he0 l (by rw [hv0]; exact List.mem_of_mem_dropLast h2)
      · rw [List.mem_singleton.1 h2]
        refine ⟨(hp.2 e0 he0 last_log hmem).1, ?_, ?_⟩
        · intro t ht
          simp only [Option.some.injEq] at ht
          rw [← ht]; exact hv
        · intro te tx hte htx
          simp only [Option.some.injEq] at htx
          rw [← htx]
          exact (floor_step _ _ s hacc ((hp.1 e0 he0).2 last_log hmem te hte)).2
  · intro s s1 hc hp hs
    refine ⟨history_wf_remove s s1 hc hp.1 hs, ?_⟩
    obtain ⟨k, q, _, rfl⟩ := hs
    intro e he l hl
    change e ∈ all_entries (purge_index s.vehicles q.name) at he
    rw [all_entries_purge] at he
    obtain ⟨e0, he0, rfl⟩ := List.mem_map.1 he
    exact hp.2 e0 he0 l (List.mem_of_mem_filter hl)

theorem get_all_minutes_nonneg (te tx : date) (h1 : calendar_valid te)
    (h2 : calendar_valid tx) (h : ¬ date_earlier tx te) : 0 ≤ get_all_minutes te tx := by
  have := (date_minutes_lt_iff tx te h2 h1).not.2 h
  unfold get_all_minutes
  dsimp only
  omega

theorem reachable_induction (P : args → Prop) (hinit : P initial_args)
    (hadd : ∀ s s1, reachable s → P s → add_shape s s1 → P s1)
    (hentry : ∀ s s1, reachable s → P s → entry_shape s s1 → P s1)
    (hexit : ∀ s s1, reachable s → P s → exit_shape s s1 → P s1)
    (hremove : ∀ s s1, reachable s → P s → remove_shape s s1 → P s1) :
    ∀ s, reachable s → P s := by
  intro s h
  induction h with
  | init => exact hinit
  | add s s1 out name c x y z hs hstep ih =>
    rcases add_cases_shape s s1 out name c x y z hstep with h1 | h1
    · rw [h1]; exact ih
    · exact hadd s s1 hs ih h1
  | entry s s1 out name pl d t hs hstep ih =>
    rcases entry_cases_shape s s1 out name pl d t hstep with h1 | h1
    · rw [h1]; exact ih
    · exact hentry s s1 hs ih h1
  | exit s s1 out name pl d t hs hstep ih =>
    rcases exit_cases_shape s s1 out name pl d t hstep with h1 | h1
    · rw [h1]; exact ih
    · exact hexit s s1 hs ih h1
  | remove s s1 out name hs hstep ih =>
    rcases remove_cases_shape s s1 out name (reachable_core s hs) hstep with h1 | h1
    · rw [h1]; exact ih
    · exact hremove s s1 hs ih h1

theorem chain_sum_store (g : vehicle → ℚ) (c : List entry) (k : String) (v v1 : vehicle)
    (h : chain_find c k = some v) :
    ((chain_store c k v1).map (fun e => g e.value)).sum =
      (c.map (fun e => g e.value)).sum - g v + g v1 := by
  induction c with
  | nil => simp [chain_find] at h
  | cons e c ih =>
    rw [chain_find] at h
    rw [chain_store]
    by_cases hs : strcmp e.key k = 0
    · rw [if_pos hs] at h
      simp only [Option.some.injEq] at h
      rw [if_pos hs]
      simp only [List.map_cons, List.sum_cons, h]
      ring
    · rw [if_neg hs] at h
      rw [if_neg hs]
      simp only [List.map_cons, List.sum_cons, ih h]
      ring

theorem flatten_set_sum (g : entry → ℚ) (l : List (List entry)) :
    ∀ (i : Nat) (c1 : List entry), i < l.length →
      ((l.set i c1).flatten.map g).sum =
        (l.flatten.map g).sum - ((l.getD i []).map g).sum + (c1.map g).sum := by
  induction l with
  | nil => intro i c1 h; simp at h
  | cons c l ih =>
    intro i c1 h
    cases i with
    | zero =>
      simp only [List.set_cons_zero, List.flatten_cons, List.map_append, List.sum_append,
        List.getD_cons_zero]
      ring
    | succ i =>
      simp only [List.set_cons_succ, List.flatten_cons, List.map_append, List.sum_append,
        List.getD_cons_succ]
      rw [ih i c1 (by simpa using h)]
      ring

theorem all_entries_store_sum (g : vehicle → ℚ) (ht : hashtable) (k : String)
    (v v1 : vehicle) (h : find_vehicle ht k = some v) :
    ((all_entries (store_vehicle ht k v1)).map (fun e => g e.value)).sum =
      ((all_entries ht).map (fun e => g e.value)).sum - g v + g v1 := by
  have hlt := find_vehicle_idx_lt ht k v h
  unfold all_entries store_vehicle
  dsimp only
  rw [flatten_set_sum (fun e => g e.value) _ _ _ hlt, chain_sum_store g _ k v v1 h]
  ring

theorem all_entries_insert_sum (g : vehicle → ℚ) (ht : hashtable) (k : String)
    (v1 : vehicle) (hi : index_wf ht) :
    ((all_entries (insert_new_entry ht k v1)).map (fun e => g e.value)).sum =
      ((all_entries ht).map (fun e => g e.value)).sum + g v1 := by
  have hlt : hash_function k % ht.length < ht.entries.length := by
    rw [hi.1]; exact Nat.mod_lt _ hi.2
  have hperm : List.Perm (all_entries (insert_new_entry ht k v1))
      ({ key := k, value := v1 } :: all_entries ht) :=
    flatten_set_append_perm _ _ _ hlt
  rw [(hperm.map _).sum_eq, List.map_cons, List.sum_cons]
  ring

theorem closed_cost_append (name : String) (l1 l2 : List vehicle_log) :
    closed_cost name (l1 ++ l2) = closed_cost name l1 + closed_cost name l2 := by
  unfold closed_cost
  rw [List.filter_append, List.map_append, List.sum_append]

theorem closed_cost_open (name : String) (l : vehicle_log) (h : l.exit_date = none) :
    closed_cost name [l] = 0 := by
  unfold closed_cost
  rw [List.filter_cons_of_neg (by simp [h])]
  rfl

theorem closed_cost_closed (name : String) (l : vehicle_log) (nm : String) (t : date)
    (hn : l.parking_name = some nm) (h : l.exit_date = some t) :
    closed_cost name [l] = if nm = name then l.cost else 0 := by
  unfold closed_cost
  by_cases hc : nm = name
  · rw [if_pos hc, List.filter_cons_of_pos (by simp [hn, h, hc])]
    simp
  · rw [if_neg hc, List.filter_cons_of_neg (by simp [hn, hc])]
    rfl

theorem closed_cost_none (name : String) (logs : List vehicle_log)
    (h : ∀ l ∈ logs, l.parking_name ≠ some name) : closed_cost name logs = 0 := by
  unfold closed_cost
  rw [List.filter_eq_nil_iff.2 (by
    intro l hl
    simp [h l hl])]
  rfl

theorem closed_cost_purge (name other : String) (logs : List vehicle_log)
    (hne : name ≠ other) :
    closed_cost name (logs.filter (fun l => decide (l.parking_name ≠ some other))) =
      closed_cost name logs := by
  unfold closed_cost
  rw [List.filter_filter]
  congr 2
  apply List.filter_congr
  intro l _
  by_cases hl : l.parking_name = some name
  · simp [hl, hne]
  · simp [hl]

theorem totals_wf_init : totals_wf initial_args := by
  constructor
  · intro i p hp
    rw [initial_parkings_get] at hp
    exact absurd hp (by simp)
  · intro i p hp
    have := hp.2
    rw [initial_parkings_get] at this
    exact absurd this (by simp)

theorem closed_total_unregistered (s : args) (hev : events_registered s) (nm : String)
    (h : ∀ i p, registered s i p → p.name ≠ nm) : closed_total s.vehicles nm = 0 := by
  unfold closed_total
  apply List.sum_eq_zero
  intro x hx
  obtain ⟨e, he, rfl⟩ := List.mem_map.1 hx
  apply closed_cost_none
  intro l hl hc
  obtain ⟨n, hn, i, p, hr, hp⟩ := hev e he l hl
  rw [hn] at hc
  simp only [Option.some.injEq] at hc
  exact h i p hr (by rw [hp, hc])

theorem totals_wf_add (s s1 : args) (hs : reachable s) (ht : totals_wf s)
    (h : add_shape s s1) : totals_wf s1 := by
  have hc := reachable_core s hs
  have hev := reachable_events s hs
  obtain ⟨nm, c, x, y, z, hpc, hname, _, rfl⟩ := h
  have hget := fun j => add_shape_get s
    { name := nm, max_capacity := c, cost_x := x, cost_y := y, cost_z := z,
      free_spaces := c, billing_day_log := [] } j hc.1 hpc
  have hfresh : ∀ (i : Nat) (p : parking), registered s i p → p.name ≠ nm := by
    intro i p hp
    have hi : i < MAX_PARKINGS := by rw [← hc.1.2.2.2.2.2]; exact getD_some_lt _ _ _ hp.2
    exact name_in_use_false _ _ hname i hi p hp.2
  constructor
  · intro i p hp
    change (s.parkings.set _ _).getD i none = some p at hp
    rw [hget] at hp
    split_ifs at hp with hi
    · simp only [Option.some.injEq] at hp
      rw [← hp]
      intro b hb
      exact absurd hb (List.not_mem_nil _)
    · exact ht.1 i p hp
  · intro i p hp
    have hp1 : (i : Int) < s.park_counter + 1 := hp.1
    have hp2 : (s.parkings.set _ _).getD i none = some p := hp.2
    show billing_total p = closed_total s.vehicles p.name
    rw [hget] at hp2
    split_ifs at hp2 with hi
    · simp only [Option.some.injEq] at hp2
      rw [← hp2]
      show (0 : ℚ) = closed_total s.vehicles nm
      rw [closed_total_unregistered s hev nm hfresh]
    · have h0 := hc.1.1
      exact ht.2 i p ⟨by omega, hp2⟩

theorem entered_closed_total (ht : hashtable) (hi : index_wf ht) (nm pl : String) (t : date)
    (n : String) :
    closed_total (entered_index ht (find_vehicle ht pl) pl
      (entered_vehicle (find_vehicle ht pl) nm pl t)) n = closed_total ht n := by
  unfold closed_total
  cases hf : find_vehicle ht pl with
  | none =>
    show ((all_entries (insert_new_entry ht pl _)).map _).sum = _
    rw [all_entries_insert_sum (fun v => closed_cost n v.my_logs) ht pl _ hi]
    show _ + closed_cost n [_] = _
    rw [closed_cost_open n _ rfl, add_zero]
  | some v =>
    show ((all_entries (store_vehicle ht pl _)).map _).sum = _
    rw [all_entries_store_sum (fun v => closed_cost n v.my_logs) ht pl v _ hf]
    show _ - closed_cost n v.my_logs + closed_cost n (v.my_logs ++ [_]) = _
    rw [closed_cost_append, closed_cost_open n _ rfl]
    ring

theorem slot_update_registered_state (s : args) (slot : Nat) (p p1 : parking) (t : date)
    (ht : hashtable) (hget : s.parkings.getD slot none = some p) (i : Nat) (q : parking)
    (h : registered
      { s with
        last_date := t
        parkings := s.parkings.set slot (some p1)
        vehicles := ht } i q) :
    (i = slot ∧ q = p1) ∨ (i ≠ slot ∧ registered s i q) :=
  slot_update_registered s
    { s with
      last_date := t
      parkings := s.parkings.set slot (some p1)
      vehicles := ht } slot p p1 rfl rfl hget i q h

theorem totals_wf_entry (s s1 : args) (hs : reachable s) (ht : totals_wf s)
    (h : entry_shape s s1) : totals_wf s1 := by
  have hc := reachable_core s hs
  obtain ⟨nm, pl, dt, tt, slot, park, hck, rfl⟩ := h
  obtain ⟨hreg, _⟩ := find_parking_registered s nm slot park hc.1 hck.1
  constructor
  · intro i p hp
    rw [slot_update_get s _ slot park { park with free_spaces := park.free_spaces - 1 } rfl
      hreg.2 i] at hp
    split_ifs at hp with hi
    · simp only [Option.some.injEq] at hp
      rw [← hp]
      exact ht.1 slot park hreg.2
    · exact ht.1 i p hp
  · intro i q hq
    show billing_total q = closed_total (entered_index s.vehicles _ pl _) q.name
    rw [entered_closed_total s.vehicles hc.2.1 nm pl _ q.name]
    rcases slot_update_registered_state s slot park
      { park with free_spaces := park.free_spaces - 1 } _ _ hreg.2 i q hq with
      ⟨_, h2⟩ | ⟨_, h2⟩
    · rw [h2]
      exact ht.2 slot park hreg
    · exact ht.2 i q h2

theorem billing_total_exit (park park2 : parking) (d : date) (c : ℚ) (v : vehicle)
    (h : add_new_exit (some park) (some d) c (some v) = Result.ok (some park2))
    (hd : ∀ b ∈ park.billing_day_log,
      b.total_cost = (b.vehicle_log.map (fun l => l.cost)).sum) :
    billing_total park2 = billing_total park + c ∧
    ∀ b ∈ park2.billing_day_log,
      b.total_cost = (b.vehicle_log.map (fun l => l.cost)).sum := by
  unfold billing_total
  rcases add_new_exit_days _ _ _ _ _ h with ⟨h0, h1⟩ | ⟨last, _, _, h1⟩ | ⟨last, hl, h1⟩
  · rw [h1, h0]
    constructor
    · simp
    · intro b hb
      rw [List.mem_singleton.1 hb]
      simp [new_billing_record]
  · rw [h1]
    constructor
    · simp
    · intro b hb
      rcases List.mem_append.1 hb with h2 | h2
      · exact hd b h2
      · rw [List.mem_singleton.1 h2]
        simp [new_billing_record]
  · rw [h1]
    constructor
    · conv_rhs => rw [← List.dropLast_append_getLast? last hl]
      simp only [List.map_append, List.sum_append, List.map_cons, List.map_nil, List.sum_cons,
        List.sum_nil]
      ring
    · intro b hb
      rcases List.mem_append.1 hb with h2 | h2
      · exact hd b (List.mem_of_mem_dropLast h2)
      · rw [List.mem_singleton.1 h2]
        have := hd last (List.mem_of_mem_getLast? hl)
        simp only [List.map_append, List.sum_append, List.map_cons, List.map_nil,
          List.sum_cons, List.sum_nil, new_billing_record, this]
        ring

theorem totals_wf_exit (s s1 : args) (hs : reachable s) (ht : totals_wf s)
    (h : exit_shape s s1) : totals_wf s1 := by
  have hc := reachable_core s hs
  have hpo := reachable_parked_open s hs
  obtain ⟨nm, pl, dt, tt, slot, park, park2, v, last_log, ed, cost, hck, hlast, _, _, hadd,
    rfl⟩ := h
  obtain ⟨hreg, _⟩ := find_parking_registered s nm slot park hc.1 hck.1
  have hf := add_new_exit_fields _ _ _ _ _ hadd
  obtain ⟨hb1, hb2⟩ := billing_total_exit _ _ _ _ _ hadd (ht.1 slot park hreg.2)
  obtain ⟨e0, he0, hv0⟩ := find_vehicle_mem _ _ _ hck.2.2.1
  obtain ⟨l, n, h2, h3, h4, h5, _⟩ := hpo e0 he0 (by rw [hv0]; exact hck.2.2.2.1)
  rw [hv0] at h2 h5
  have hl : l = last_log := Option.some.inj (h2.symm.trans hlast)
  have hnn : n = park.name := by
    have := h5.symm.trans hck.2.2.2.2.1
    simpa using this
  rw [hl] at h3 h4
  rw [hnn] at h4
  have htotal : ∀ m : String,
      closed_total (store_vehicle s.vehicles pl
        { v with is_parked := 0, parking_name := none,
                 my_logs := v.my_logs.dropLast ++
                   [{ last_log with exit_date := some (token_date dt tt), cost := cost }] }) m =
        closed_total s.vehicles m + (if park.name = m then cost else 0) := by
    intro m
    unfold closed_total
    rw [all_entries_store_sum (fun v => closed_cost m v.my_logs) s.vehicles pl v _ hck.2.2.1]
    have hold : closed_cost m v.my_logs = closed_cost m v.my_logs.dropLast := by
      conv_lhs => rw [← List.dropLast_append_getLast? last_log hlast]
      rw [closed_cost_append, closed_cost_open m last_log h3, add_zero]
    have hnew : closed_cost m (v.my_logs.dropLast ++
        [{ last_log with exit_date := some (token_date dt tt), cost := cost }]) =
        closed_cost m v.my_logs.dropLast + (if park.name = m then cost else 0) := by
      rw [closed_cost_append, closed_cost_closed m
        { last_log with exit_date := some (token_date dt tt), cost := cost } park.name
        (token_date dt tt) h4 rfl]
    show _ - closed_cost m v.my_logs + closed_cost m (v.my_logs.dropLast ++ [_]) = _
    rw [hold, hnew]
    ring
  constructor
  · intro i p hp
    rw [slot_update_get s _ slot park park2 rfl hreg.2 i] at hp
    split_ifs at hp with hi
    · simp only [Option.some.injEq] at hp
      rw [← hp]
      exact hb2
    · exact ht.1 i p hp
  · intro i q hq
    show billing_total q = closed_total (store_vehicle s.vehicles pl _) q.name
    rw [htotal q.name]
    rcases slot_update_registered_state s slot park park2 _ _ hreg.2 i q hq with
      ⟨_, h7⟩ | ⟨h6, h7⟩
    · rw [h7, hb1]
      have hn2 : park2.name = park.name := by rw [hf]
      rw [hn2, if_pos rfl]
      have := ht.2 slot park hreg
      unfold billing_total at this ⊢
      rw [← this]
    · have hne : park.name ≠ q.name := by
        intro hn
        exact h6 (hc.1.2.2.2.2.1 i slot q park h7.2 hreg.2 hn.symm)
      rw [if_neg hne, add_zero]
      exact ht.2 i q h7

theorem totals_wf_remove (s s1 : args) (hs : reachable s) (ht : totals_wf s)
    (h : remove_shape s s1) : totals_wf s1 := by
  have hc := reachable_core s hs
  obtain ⟨k, q, hq, rfl⟩ := h
  have hget := fun j => shifted_parkings_get s.parkings k j hc.1.2.2.2.2.2
  constructor
  · intro i p hp
    change (shifted_parkings s.parkings k).getD i none = some p at hp
    rw [hget] at hp
    split_ifs at hp
    · exact ht.1 i p hp
    · exact ht.1 (i + 1) p hp
  · intro i p hp
    have hp1 : (i : Int) < s.park_counter - 1 := hp.1
    have hp2 : (shifted_parkings s.parkings k).getD i none = some p := hp.2
    have hne : p.name ≠ q.name := remove_shape_absent s _ k q hc.1 hq rfl i p hp2
    show billing_total p = closed_total (purge_index s.vehicles q.name) p.name
    have hct : closed_total (purge_index s.vehicles q.name) p.name =
        closed_total s.vehicles p.name := by
      unfold closed_total
      rw [all_entries_purge, List.map_map]
      congr 1
      apply List.map_congr_left
      intro e _
      exact closed_cost_purge p.name q.name e.value.my_logs hne
    rw [hct]
    rw [hget] at hp2
    split_ifs at hp2
    · exact ht.2 i p ⟨by omega, hp2⟩
    · exact ht.2 (i + 1) p ⟨by push_cast; omega, hp2⟩

theorem reachable_totals (s : args) (h : reachable s) : totals_wf s :=
  reachable_induction totals_wf totals_wf_init totals_wf_add totals_wf_entry totals_wf_exit
    totals_wf_remove s h

theorem strcmp_pos (a b : String) : strcmp a b > 0 ↔ b < a := by
  unfold strcmp
  by_cases h : a = b
  · subst h
    simp
  · by_cases h2 : a < b
    · simp only [h, h2, if_false, if_true]
      constructor
      · intro hc; exact absurd hc (by decide)
      · intro hc; exact absurd hc (not_lt_of_lt h2)
    · simp only [h, h2, if_false]
      constructor
      · intro _
        exact lt_of_le_of_ne (not_lt.1 h2) (fun hc => h hc.symm)
      · intro _; decide

theorem strcmp_le (a b : String) : strcmp a b ≤ 0 ↔ a ≤ b := by
  have := strcmp_pos a b
  constructor
  · intro h
    exact not_lt.1 (fun hc => absurd (this.2 hc) (by omega))
  · intro h
    by_contra hc
    exact absurd (this.1 (by omega)) (not_lt.2 h)

theorem set_append_length {α : Type} (z : α) :
    ∀ (q t : List α) (i : Nat), (q ++ t).set (q.length + i) z = q ++ t.set i z
  | [], t, i => by simp
  | y :: q, t, i => by
    have : (y :: q).length + i = (q.length + i) + 1 := by simp; omega
    rw [this, List.cons_append, List.set_cons_succ, set_append_length z q t i]
    rfl

theorem getD_append_length {α : Type} (d : α) :
    ∀ (q t : List α) (i : Nat), (q ++ t).getD (q.length + i) d = t.getD i d
  | [], t, i => by simp
  | y :: q, t, i => by
    have : (y :: q).length + i = (q.length + i) + 1 := by simp; omega
    rw [this, List.cons_append, List.getD_cons_succ, getD_append_length d q t i]

theorem insertion_sort_shift_append (key : String) (p : List String) :
    ∀ (x : String) (r : List String),
      insertion_sort_shift (p ++ x :: r) key p.length =
        (p.reverse.orderedInsert (fun x y : String => x ≥ y) key).reverse ++ r := by
  induction p using List.reverseRecOn with
  | nil =>
    intro x r
    simp [insertion_sort_shift]
  | append_singleton q y ih =>
    intro x r
    have hlen : (q ++ [y]).length = q.length + 1 := by simp
    have hget : (q ++ [y] ++ x :: r).getD q.length "" = y := by
      have := getD_append_length "" q (y :: x :: r) 0
      simpa using this
    have hset : ∀ z, (q ++ [y] ++ x :: r).set (q.length + 1) z = q ++ y :: z :: r := by
      intro z
      have := set_append_length z q (y :: x :: r) 1
      simpa using this
    rw [hlen]
    unfold insertion_sort_shift
    rw [hget, hset, hset, List.reverse_append, List.reverse_singleton, List.singleton_append,
      List.orderedInsert]
    by_cases hc : strcmp y key > 0
    · have hlt : key < y := (strcmp_pos _ _).1 hc
      rw [if_pos hc, if_neg (not_le.2 hlt), ih y (y :: r)]
      simp
    · have hle : y ≤ key := not_lt.1 (fun hx => hc ((strcmp_pos _ _).2 hx))
      rw [if_neg hc, if_pos hle]
      simp

theorem insertion_sort_step (a : List String) (k : Nat) (hk : k + 1 < a.length)
    (hs : List.Pairwise (fun x y : String => x ≤ y) (a.take (k + 1))) :
    List.Perm (insertion_sort_shift a (a.getD (k + 1) "") (k + 1)) a ∧
    List.Pairwise (fun x y : String => x ≤ y)
      ((insertion_sort_shift a (a.getD (k + 1) "") (k + 1)).take (k + 2)) := by
  have hdec : a = a.take (k + 1) ++ a[k + 1] :: a.drop (k + 2) := by
    conv_lhs => rw [← List.take_append_drop (k + 1) a]
    rw [List.drop_eq_getElem_cons hk]
  have hget : a.getD (k + 1) "" = a[k + 1] := by
    rw [List.getD_eq_getElem?_getD, List.getElem?_eq_getElem hk, Option.getD_some]
  have hlen : (a.take (k + 1)).length = k + 1 := by
    rw [List.length_take]; omega
  have heq : insertion_sort_shift a a[k + 1] (k + 1) =
      ((a.take (k + 1)).reverse.orderedInsert (fun x y : String => x ≥ y) a[k + 1]).reverse ++
        a.drop (k + 2) := by
    have := insertion_sort_shift_append a[k + 1] (a.take (k + 1)) a[k + 1] (a.drop (k + 2))
    rw [hlen, ← hdec] at this
    exact this
  rw [hget, heq]
  constructor
  · have h1 : List.Perm
        ((a.take (k + 1)).reverse.orderedInsert (fun x y : String => x ≥ y) a[k + 1]).reverse
        (a[k + 1] :: a.take (k + 1)) :=
      (List.reverse_perm _).trans ((List.perm_orderedInsert _ _ _).trans
        (List.Perm.cons _ (List.reverse_perm _)))
    have h2 := List.Perm.append_right (a.drop (k + 2)) h1
    refine h2.trans ?_
    conv_rhs => rw [hdec]
    simp only [List.cons_append]
    exact List.perm_middle.symm
  · have hl2 : (((a.take (k + 1)).reverse.orderedInsert (fun x y : String => x ≥ y)
        a[k + 1]).reverse).length = k + 2 := by
      rw [List.length_reverse, List.orderedInsert_length, List.length_reverse, hlen]
    rw [← hl2, List.take_left']
    · have hsr : List.Sorted (fun x y : String => x ≥ y) (a.take (k + 1)).reverse := by
        unfold List.Sorted
        rw [List.pairwise_reverse]
        exact hs
      have := hsr.orderedInsert a[k + 1]
      unfold List.Sorted at this
      rw [← List.pairwise_reverse] at this
      exact this
    · rfl

theorem insertion_sort_loop (a : List String) :
    ∀ m : Nat, m + 1 ≤ a.length →
      List.Perm ((List.range m).foldl
        (fun b k => insertion_sort_shift b (b.getD (k + 1) "") (k + 1)) a) a ∧
      List.Pairwise (fun x y : String => x ≤ y)
        (((List.range m).foldl
          (fun b k => insertion_sort_shift b (b.getD (k + 1) "") (k + 1)) a).take (m + 1))
  | 0, _ => by
    refine ⟨List.Perm.refl _, ?_⟩
    simp only [List.range_zero, List.foldl_nil]
    cases a with
    | nil => simp
    | cons x t => simp
  | m + 1, h => by
    obtain ⟨hp, hs⟩ := insertion_sort_loop a m (by omega)
    rw [List.range_succ, List.foldl_append]
    simp only [List.foldl_cons, List.foldl_nil]
    have hlen := hp.length_eq
    obtain ⟨h1, h2⟩ := insertion_sort_step _ m (by rw [hlen]; omega) hs
    exact ⟨h1.trans hp, h2⟩

theorem insertion_sort_correct (a : List String) :
    List.Perm (insertion_sort a a.length) a ∧
    List.Pairwise (fun x y => strcmp x y ≤ 0) (insertion_sort a a.length) ∧
    (insertion_sort a a.length).length = a.length := by
  unfold insertion_sort
  cases ha : a.length with
  | zero =>
    have : a = [] := List.length_eq_zero.1 ha
    subst this
    simp
  | succ n =>
    obtain ⟨hp, hs⟩ := insertion_sort_loop a n (by omega)
    simp only [Nat.add_sub_cancel]
    refine ⟨hp, ?_, by rw [hp.length_eq, ha]⟩
    have hl : ((List.range n).foldl
        (fun b k => insertion_sort_shift b (b.getD (k + 1) "") (k + 1)) a).length = n + 1 := by
      rw [hp.length_eq, ha]
    rw [← hl, List.take_length] at hs
    exact hs.imp (fun hxy => (strcmp_le _ _).2 hxy)

/-! ## Binary64 arithmetic -/

theorem fp_round_zero : fp_round 0 = fp.finite 0 := by
  unfold fp_round
  rw [if_pos rfl]

theorem fp_of_int_zero : fp_of_int 0 = fp.finite 0 := by
  unfold fp_of_int
  rw [Int.cast_zero]
  exact fp_round_zero

theorem fp_of_int_one : fp_of_int 1 = fp.finite 1 := by decide!

theorem fp_le_iff_not_lt (a b : fp) (ha : a ≠ fp.nan) (hb : b ≠ fp.nan) :
    fp_le a b = true ↔ fp_lt b a = false := by
  cases a <;> cases b <;> simp [fp_le, fp_lt] at ha hb ⊢

theorem fp_lt_trans (a b c : fp) (h1 : fp_lt a b = true) (h2 : fp_lt b c = true) :
    fp_lt a c = true := by
  cases a <;> cases b <;> cases c <;> simp [fp_lt] at h1 h2 ⊢
  exact lt_trans h1 h2

/-- The cost that `calculate_cost_fp` returns, in terms of the minute count. -/
theorem calculate_cost_fp_eq (park : parking_fp) (l : vehicle_log) (e x : date) (m : Int)
    (he : l.entry_date = some e) (hx : l.exit_date = some x)
    (hm : get_all_minutes_int32 e x = m) :
    calculate_cost_fp park l =
      if fp_lt (if Int.tdiv (Int.tmod m (24 * 60) + 14) 15 > 4 then
            fp_add (fp_mul (fp_of_int 4) park.cost_x)
              (fp_mul (fp_of_int (Int.tdiv (Int.tmod m (24 * 60) + 14) 15 - 4)) park.cost_y)
          else fp_mul (fp_of_int (Int.tdiv (Int.tmod m (24 * 60) + 14) 15)) park.cost_x)
          park.cost_z then
        Result.ok (fp_add (fp_add (fp.finite 0) (fp_mul (fp_of_int (Int.tdiv m (24 * 60)))
          park.cost_z))
          (if Int.tdiv (Int.tmod m (24 * 60) + 14) 15 > 4 then
            fp_add (fp_mul (fp_of_int 4) park.cost_x)
              (fp_mul (fp_of_int (Int.tdiv (Int.tmod m (24 * 60) + 14) 15 - 4)) park.cost_y)
          else fp_mul (fp_of_int (Int.tdiv (Int.tmod m (24 * 60) + 14) 15)) park.cost_x))
      else
        Result.ok (fp_add (fp_add (fp.finite 0) (fp_mul (fp_of_int (Int.tdiv m (24 * 60)))
          park.cost_z)) park.cost_z) := by
  unfold calculate_cost_fp
  rw [he, hx]
  dsimp only
  rw [hm]

theorem add_new_parking_fp_zero (s : args) (name : String) (c : Int) (x y z : fp)
    (r : Option parking_fp) (out : List Output)
    (h : add_new_parking_fp s name c x y z = Result.ok (0, r, out)) :
    s.park_counter < MAX_PARKINGS ∧ name_in_use s.parkings name = false ∧ 0 < c ∧
    fp_le x (fp.finite 0) = false ∧ fp_le y (fp.finite 0) = false ∧
    fp_le z (fp.finite 0) = false ∧ fp_ge x y = false ∧ fp_ge x z = false ∧
    fp_ge y z = false := by
  unfold add_new_parking_fp at h
  split_ifs at h with h1 h2 h3 h4 h5 h6
  all_goals first
    | (exfalso; simp at h; done)
    | skip
  refine ⟨by omega, by simpa using h2, by omega, ?_, ?_, ?_, ?_, ?_, ?_⟩
  · simpa using fun hh => h4 (Or.inl hh)
  · simpa using fun hh => h4 (Or.inr (Or.inl hh))
  · simpa using fun hh => h4 (Or.inr (Or.inr hh))
  · simpa using fun hh => h5 (Or.inl hh)
  · simpa using fun hh => h5 (Or.inr (Or.inl hh))
  · simpa using fun hh => h5 (Or.inr (Or.inr hh))

/-- C1: for an elapsed time `m >= 0` between the entry and the exit date of a log and
rates `x`, `y`, `z` taken as exact rationals, `calculate_cost` returns
`(m div 1440) * z + min(p, z)`, where `q = ceil((m mod 1440) / 15)` and `p = q * x` if
`q <= 4`, else `4 * x + (q - 4) * y`; this value is `spec_price m x y z`. -/
theorem calculate_cost_formula (current_parking : parking) (current_log : vehicle_log)
    (entry_date exit_date : date) (m : Int)
    (hentry : current_log.entry_date = some entry_date)
    (hexit : current_log.exit_date = some exit_date)
    (hm : get_all_minutes entry_date exit_date = m) (hm0 : 0 ≤ m) :
    calculate_cost current_parking current_log =
      Result.ok (spec_price m current_parking.cost_x current_parking.cost_y
        current_parking.cost_z) := by
  have hr : 0 ≤ m % 1440 := Int.emod_nonneg _ (by norm_num)
  unfold calculate_cost spec_price
  simp only [hentry, hexit, hm]
  have e1 : Int.tdiv m (24 * 60) = m / 1440 := by
    rw [Int.tdiv_eq_ediv hm0 (by norm_num)]; norm_num
  have e2 : Int.tmod m (24 * 60) = m % 1440 := by
    rw [Int.tmod_eq_emod hm0 (by norm_num)]; norm_num
  rw [e1, e2, tdiv_periods _ hr]
  generalize ⌈((m % 1440 : Int) : ℚ) / 15⌉ = q
  by_cases hq : q ≤ 4
  · have hq' : ¬ q > 4 := by omega
    simp only [hq, hq', if_true, if_false, zero_add]
    by_cases hc : (q : ℚ) * current_parking.cost_x < current_parking.cost_z
    · simp [hc, min_eq_left (le_of_lt hc)]
    · simp [hc, min_eq_right (not_lt.mp hc)]
  · have hq' : q > 4 := by omega
    simp only [hq, hq', if_true, if_false, zero_add]
    push_cast
    by_cases hc : 4 * current_parking.cost_x + ((q : ℚ) - 4) * current_parking.cost_y <
        current_parking.cost_z
    · simp [hc, min_eq_left (le_of_lt hc)]
    · simp [hc, min_eq_right (not_lt.mp hc)]

/-- Witness of C1: one hour in `Parking1` (rates 1, 1.5, 20) costs 4. -/
theorem calculate_cost_formula_witness :
    get_all_minutes (token_date demo_day { hour := 10, minutes := 0 })
      (token_date demo_day demo_exit_time) = 60 ∧
    calculate_cost demo_parking
      { license_plate := "AA-00-AA", parking_name := some "Parking1",
        entry_date := some (token_date demo_day { hour := 10, minutes := 0 }),
        exit_date := some (token_date demo_day demo_exit_time), cost := 0 } = Result.ok 4 := by
  refine ⟨by decide, ?_⟩
  rw [calculate_cost_formula demo_parking _ (token_date demo_day { hour := 10, minutes := 0 })
    (token_date demo_day demo_exit_time) 60 rfl rfl (by decide) (by decide)]
  decide!

/-- C2: `is_license_plate_valid s` returns 1 exactly when `s` has 8 characters, dashes at
positions 2 and 5, each of the groups at 0, 3 and 6 is two uppercase letters or two
digits, and at least one group is a letter group and at least one a digit group; it
returns 0 otherwise.  `AA-00-AA` and `12-AB-34` are accepted, `AA-AA-AA`, `00-00-00`
and `AA-00-A` are rejected. -/
theorem plate_valid_iff :
    (∀ s : String, is_license_plate_valid s = 1 ↔
      (s.length = 8 ∧ char_at s 2 = '-' ∧ char_at s 5 = '-' ∧
        (∀ i ∈ [0, 3, 6], letter_group s i ∨ digit_group s i) ∧
        (∃ i ∈ [0, 3, 6], letter_group s i) ∧ (∃ i ∈ [0, 3, 6], digit_group s i))) ∧
    (∀ s : String, is_license_plate_valid s = 1 ∨ is_license_plate_valid s = 0) ∧
    is_license_plate_valid "AA-00-AA" = 1 ∧ is_license_plate_valid "12-AB-34" = 1 ∧
    is_license_plate_valid "AA-AA-AA" = 0 ∧ is_license_plate_valid "00-00-00" = 0 ∧
    is_license_plate_valid "AA-00-A" = 0 := by
  refine ⟨?_, ?_, by decide, by decide, by decide, by decide, by decide⟩
  · intro s
    unfold is_license_plate_valid
    by_cases hl : s.length = 8 <;> by_cases h2 : char_at s 2 = '-' <;>
      by_cases h5 : char_at s 5 = '-' <;> simp only [hl, h2, h5, ne_eq, not_true, not_false_eq_true,
        or_false, or_true, false_or, true_or, if_true, if_false, true_and, false_and, iff_false,
        zero_ne_one, one_ne_zero] <;> try (simp; done)
    simp only [plate_segments_cons]
    simp only [plate_segments, List.mem_cons, List.mem_singleton,
      List.not_mem_nil, or_false, forall_eq_or_imp, forall_eq, exists_eq_or_imp, exists_eq_left]
    by_cases a0 : letter_group s 0 <;> by_cases a3 : letter_group s 3 <;>
      by_cases a6 : letter_group s 6 <;> by_cases b0 : digit_group s 0 <;>
      by_cases b3 : digit_group s 3 <;> by_cases b6 : digit_group s 6 <;>
      first
        | exact absurd b0 (letter_group_not_digit _ _ a0)
        | exact absurd b3 (letter_group_not_digit _ _ a3)
        | exact absurd b6 (letter_group_not_digit _ _ a6)
        | simp [a0, a3, a6, b0, b3, b6]
  · exact is_license_plate_valid_01

/-- C3: in every state reached from the initial state by add-facility, entry and exit
commands (accepted or rejected), every registered facility `F` has
`free_spaces + (vehicles parked at F) = max_capacity` and
`0 <= free_spaces <= max_capacity`. -/
theorem capacity_conservation (s : args) (h : reached s) (i : Nat) (F : parking)
    (hF : registered s i F) :
    F.free_spaces + parked_count s.vehicles F.name = F.max_capacity ∧
    0 ≤ F.free_spaces ∧ F.free_spaces ≤ F.max_capacity :=
  (reached_state_wf s h).2.2.2.2 i F hF

/-- Witness of C3: the example state with one vehicle parked in `Parking1`. -/
theorem capacity_conservation_witness :
    reached demo_parked ∧ registered demo_parked 0 { demo_parking with free_spaces := 1 } ∧
    ((1 : Int) + parked_count demo_parked.vehicles "Parking1" = 2 ∧ (0 : Int) ≤ 1 ∧
      (1 : Int) ≤ 2) :=
  ⟨demo_parked_reached, ⟨by decide, by decide!⟩,
    capacity_conservation demo_parked demo_parked_reached 0
      { demo_parking with free_spaces := 1 } ⟨by decide, by decide!⟩⟩

/-- C4: `is_date_valid` accepts a timestamp exactly when it is calendar-valid (fixed month
table, so 29 February is always rejected) and the floor is unseeded (its minutes are -1)
or the timestamp is not strictly earlier than the floor in the order on (year, month,
day, hour, minute); the result is 1 or 0; `get_days_in_month` is the table for the months
1..12 and 0 for any other month. -/
theorem is_date_valid_iff :
    (∀ (t : date) (s : args), (is_date_valid t s).1 = 1 ↔
      (calendar_valid t ∧ (s.last_date.minutes = -1 ∨ ¬ date_earlier t s.last_date))) ∧
    (∀ (t : date) (s : args), (is_date_valid t s).1 = 1 ∨ (is_date_valid t s).1 = 0) ∧
    (∀ (t : date) (s : args), t.month = 2 ∧ t.day = 29 → (is_date_valid t s).1 = 0) ∧
    (∀ month : Int, month < 1 ∨ 12 < month → get_days_in_month month = 0) ∧
    (∀ month : Int, 1 ≤ month ∧ month ≤ 12 →
      get_days_in_month month = month_table.getD (month - 1).toNat 0) := by
  refine ⟨is_date_valid_fst, is_date_valid_01, ?_, get_days_in_month_out,
    fun month h => get_days_in_month_table month h.1 h.2⟩
  rintro t s ⟨hm, hd⟩
  rcases is_date_valid_01 t s with h | h
  · have hv := ((is_date_valid_fst t s).mp h).1
    unfold calendar_valid at hv
    rw [hm, hd] at hv
    exact absurd hv.2.2.2.1 (by decide)
  · exact h

/-- C5: a rejected `is_date_valid` call leaves the aggregate, and so the floor, unchanged;
an accepted call sets the floor to the accepted timestamp and changes nothing else; the
initial floor is unseeded; the timestamps accepted along any sequence of calls, from any
floor and so from the unseeded one, never go back in the order on (year, month, day,
hour, minute); and the floor after a sequence of calls from the initial state is the
last accepted timestamp. -/
theorem is_date_valid_ratchet :
    (∀ (t : date) (s : args), (is_date_valid t s).1 = 0 → (is_date_valid t s).2 = s) ∧
    (∀ (t : date) (s : args), (is_date_valid t s).1 ≠ 0 →
      (is_date_valid t s).2 = { s with last_date := t }) ∧
    initial_args.last_date.minutes = -1 ∧
    (∀ (s : args) (ts : List date),
      List.Chain' (fun a b => ¬ date_earlier b a) (accepted_dates s ts)) ∧
    (∀ ts : List date, (run_clock initial_args ts).last_date =
      ((accepted_dates initial_args ts).getLast?).getD initial_args.last_date) :=
  ⟨is_date_valid_reject, is_date_valid_accept, rfl, fun s ts => accepted_chain_all ts s,
    fun ts => run_clock_floor ts initial_args⟩

/-- C6: in a state with a well-formed registry, an entry command with all tokens present
is performed (it prints the entry line) exactly when the named facility is registered
with `free_spaces > 0`, the plate is valid, the vehicle is absent from the index or has
its parked flag clear, and `is_date_valid` accepts the timestamp against the current
floor. -/
theorem register_entry_performed_iff (s : args) (name plate : String) (d : date_token)
    (t : time_token) (hwf : registry_wf s) :
    (∃ s1 nm fs, register_entry s (some name) (some plate) (some d) (some t) =
        Result.ok (s1, [Output.entry_line nm fs])) ↔
    ((∃ i p, registered s i p ∧ p.name = name ∧ 0 < p.free_spaces) ∧
      is_license_plate_valid plate = 1 ∧
      (find_vehicle s.vehicles plate = none ∨
        ∃ v, find_vehicle s.vehicles plate = some v ∧ v.is_parked = 0) ∧
      (is_date_valid (token_date d t) s).1 = 1) := by
  constructor
  · rintro ⟨s1, nm, fs, h⟩
    rcases register_entry_cases _ _ _ _ _ _ _ h with ⟨_, e, he, herr⟩ |
      ⟨nm1, pl, dt, tt, slot, park, hn, hp, hd, ht, hc, _⟩
    · simp only [List.cons.injEq, and_true] at he
      rw [← he] at herr
      exact absurd herr (by simp [is_error_line])
    · simp only [Option.some.injEq] at hn hp hd ht
      subst hn hp hd ht
      obtain ⟨h1, h2, h3, h4, h5⟩ := hc
      obtain ⟨hreg, hnm⟩ := find_parking_registered s name slot park hwf h1
      exact ⟨⟨slot, park, hreg, hnm, h2⟩, (is_license_plate_valid_ne _).mp h3,
        (is_vehicle_parked_zero _).mp h4, (is_date_valid_ne _ _).mp h5⟩
  · rintro ⟨⟨i, p, hreg, hnm, hfree⟩, hv, hp, hd⟩
    have hc : entry_checks s name plate d t i p :=
      ⟨find_parking_of_registered s name i p hwf hreg hnm, hfree,
        (is_license_plate_valid_ne _).mpr hv, (is_vehicle_parked_zero _).mpr hp,
        (is_date_valid_ne _ _).mpr hd⟩
    refine ⟨(register_entry_commit { s with last_date := token_date d t } i p name plate
      (token_date d t) (find_vehicle s.vehicles plate)).1, p.name, p.free_spaces - 1, ?_⟩
    rw [register_entry_accept s name plate d t i p hc]
    rfl

/-- Witness of C6: the entry of `AA-00-AA` into the freshly added `Parking1`. -/
theorem register_entry_performed_iff_witness :
    registry_wf demo_added ∧
    ((∃ s1 nm fs, register_entry demo_added (some "Parking1") (some "AA-00-AA")
        (some demo_day) (some { hour := 10, minutes := 0 }) =
        Result.ok (s1, [Output.entry_line nm fs])) ↔
    ((∃ i p, registered demo_added i p ∧ p.name = "Parking1" ∧ 0 < p.free_spaces) ∧
      is_license_plate_valid "AA-00-AA" = 1 ∧
      (find_vehicle demo_added.vehicles "AA-00-AA" = none ∨
        ∃ v, find_vehicle demo_added.vehicles "AA-00-AA" = some v ∧ v.is_parked = 0) ∧
      (is_date_valid (token_date demo_day { hour := 10, minutes := 0 }) demo_added).1 = 1)) :=
  ⟨(reached_state_wf _ demo_added_reached).1,
    register_entry_performed_iff demo_added "Parking1" "AA-00-AA" demo_day
      { hour := 10, minutes := 0 } (reached_state_wf _ demo_added_reached).1⟩

/-- C7: after an accepted entry of plate `plate` at facility `name` with timestamp `t`,
the facility has one free space less, the vehicle of the plate is in the index with the
parked flag set and the facility as current facility, its history is the previous one
(empty for a new vehicle) followed by one event with this facility, entry timestamp
`t`, no exit timestamp and cost 0, and every other slot of the registry and every other
vehicle is unchanged. -/
theorem register_entry_effect (s s1 : args) (name plate nm : String) (fs : Int)
    (d : date_token) (t : time_token) (hwf : registry_wf s) (hidx : index_wf s.vehicles)
    (h : register_entry s (some name) (some plate) (some d) (some t) =
      Result.ok (s1, [Output.entry_line nm fs])) :
    ∃ (slot : Nat) (park : parking) (v1 : vehicle),
      registered s slot park ∧ park.name = name ∧
      s1.parkings.getD slot none =
        some { park with free_spaces := park.free_spaces - 1 } ∧
      nm = name ∧ fs = park.free_spaces - 1 ∧
      find_vehicle s1.vehicles plate = some v1 ∧ v1.is_parked = 1 ∧
      v1.parking_name = some name ∧
      v1.my_logs =
        (match find_vehicle s.vehicles plate with
          | none => []
          | some v => v.my_logs) ++
        [{ license_plate := v1.license_plate, parking_name := some name,
           entry_date := some (token_date d t), exit_date := none, cost := 0 }] ∧
      v1.license_plate =
        (match find_vehicle s.vehicles plate with
          | none => plate
          | some v => v.license_plate) ∧
      (∀ j : Nat, j ≠ slot → s1.parkings.getD j none = s.parkings.getD j none) ∧
      s1.park_counter = s.park_counter ∧
      (∀ q : String, q ≠ plate → find_vehicle s1.vehicles q = find_vehicle s.vehicles q) := by
  rcases register_entry_cases _ _ _ _ _ _ _ h with ⟨_, e, he, herr⟩ |
    ⟨nm1, pl, dt, tt, slot, park, hn, hp, hd, ht, hc, hs1⟩
  · simp only [List.cons.injEq, and_true] at he
    rw [← he] at herr
    exact absurd herr (by simp [is_error_line])
  · simp only [Option.some.injEq] at hn hp hd ht
    subst hn hp hd ht
    obtain ⟨h1, _, _, h4, _⟩ := hc
    obtain ⟨hreg, hnm⟩ := find_parking_registered s name slot park hwf h1
    have hlt : slot < s.parkings.length := getD_some_lt _ _ _ hreg.2
    have hs : s1 = (register_entry_commit { s with last_date := token_date d t } slot park
        name plate (token_date d t) (find_vehicle s.vehicles plate)).1 := by rw [← hs1]
    have ho : [Output.entry_line nm fs] = [Output.entry_line park.name (park.free_spaces - 1)] := by
      have := congrArg Prod.snd hs1
      exact this
    simp only [List.cons.injEq, Output.entry_line.injEq, and_true] at ho
    cases hfv : find_vehicle s.vehicles plate with
    | none =>
      rw [hfv] at hs
      refine ⟨slot, park,
        { license_plate := plate, parking_name := some name, is_parked := 1,
          my_logs := [{ license_plate := plate, parking_name := some name,
                        entry_date := some (token_date d t), exit_date := none, cost := 0 }] },
        hreg, hnm, ?_, by rw [ho.1, hnm], ho.2, ?_, rfl, rfl, rfl, rfl,
        ?_, by rw [hs]; rfl, ?_⟩
      · rw [hs]; exact getD_set_same _ _ _ _ hlt
      · rw [hs]; exact find_vehicle_insert_same _ _ _ hidx hfv
      · intro j hj; rw [hs]; exact getD_set_other _ _ _ _ _ (fun h => hj h.symm)
      · intro q hq; rw [hs]; exact find_vehicle_insert_other _ _ _ _ hq
    | some v =>
      rw [hfv] at hs
      refine ⟨slot, park,
        { license_plate := v.license_plate, parking_name := some name, is_parked := 1,
          my_logs := v.my_logs ++
            [{ license_plate := v.license_plate, parking_name := some name,
               entry_date := some (token_date d t), exit_date := none, cost := 0 }] },
        hreg, hnm, ?_, by rw [ho.1, hnm], ho.2, ?_, rfl, rfl, rfl, rfl,
        ?_, by rw [hs]; rfl, ?_⟩
      · rw [hs]; exact getD_set_same _ _ _ _ hlt
      · rw [hs]; exact find_vehicle_store_same _ _ v _ hfv
      · intro j hj; rw [hs]; exact getD_set_other _ _ _ _ _ (fun h => hj h.symm)
      · intro q hq; rw [hs]; exact find_vehicle_store_other _ _ _ _ hq

/-- Witness of C7: the entry of `AA-00-AA` into the freshly added `Parking1`. -/
theorem register_entry_effect_witness :
    registry_wf demo_added ∧ index_wf demo_added.vehicles ∧
    register_entry demo_added (some "Parking1") (some "AA-00-AA") (some demo_day)
      (some { hour := 10, minutes := 0 }) =
      Result.ok (demo_parked, [Output.entry_line "Parking1" 1]) ∧
    ∃ (slot : Nat) (park : parking) (v1 : vehicle),
      registered demo_added slot park ∧
      demo_parked.parkings.getD slot none =
        some { park with free_spaces := park.free_spaces - 1 } ∧
      find_vehicle demo_parked.vehicles "AA-00-AA" = some v1 ∧ v1.is_parked = 1 ∧
      v1.parking_name = some "Parking1" := by
  refine ⟨(reached_state_wf _ demo_added_reached).1, (reached_state_wf _ demo_added_reached).2.1,
    demo_entry_step, ?_⟩
  obtain ⟨slot, park, v1, h1, _, h3, _, _, h6, h7, h8, _⟩ :=
    register_entry_effect demo_added demo_parked "Parking1" "AA-00-AA" "Parking1" 1 demo_day
      { hour := 10, minutes := 0 } (reached_state_wf _ demo_added_reached).1
      (reached_state_wf _ demo_added_reached).2.1 demo_entry_step
  exact ⟨slot, park, v1, h1, h3, h6, h7, h8⟩

/-- C8: in a state with a well-formed registry, in which every parked vehicle has a last
event with an entry date and every billing day has a record, an exit command with all
tokens present is performed (it prints the exit line) exactly when the named
facility is registered, the plate is valid, the vehicle is in the index with its parked
flag set and the named facility as current facility, and `is_date_valid` accepts the
timestamp; an exit that names a registered facility other than the one the vehicle is
parked at is rejected with the invalid-exit error and leaves the state as it was. -/
theorem register_exit_performed_iff (s : args) (name plate : String) (d : date_token)
    (t : time_token) (hwf : registry_wf s) (hpark : parked_wf s) (hbill : billing_wf s) :
    ((∃ s1 pl e x c, register_exit s (some name) (some plate) (some d) (some t) =
        Result.ok (s1, [Output.exit_line pl e x c])) ↔
      ((∃ i p, registered s i p ∧ p.name = name) ∧
        is_license_plate_valid plate = 1 ∧
        (∃ v, find_vehicle s.vehicles plate = some v ∧ v.is_parked ≠ 0 ∧
          v.parking_name = some name) ∧
        (is_date_valid (token_date d t) s).1 = 1)) ∧
    (∀ (v : vehicle) (other : String), (∃ i p, registered s i p ∧ p.name = name) →
      is_license_plate_valid plate = 1 → find_vehicle s.vehicles plate = some v →
      v.is_parked ≠ 0 → v.parking_name = some other → other ≠ name →
      register_exit s (some name) (some plate) (some d) (some t) =
        Result.ok (s, [Output.invalid_vehicle_exit plate])) := by
  constructor
  · constructor
    · rintro ⟨s1, pl, e, x, c, h⟩
      rcases register_exit_cases _ _ _ _ _ _ _ h with ⟨_, he | ⟨e1, he, herr⟩⟩ |
        ⟨nm1, pl1, dt, tt, slot, park, v, hn, hp, hd, ht, hc, _⟩
      · exact absurd he (by simp)
      · simp only [List.cons.injEq, and_true] at he
        rw [← he] at herr
        exact absurd herr (by simp [is_error_line])
      · simp only [Option.some.injEq] at hn hp hd ht
        subst hn hp hd ht
        obtain ⟨h1, h2, h3, h4, h5, h6⟩ := hc
        obtain ⟨hreg, hnm⟩ := find_parking_registered s name slot park hwf h1
        exact ⟨⟨slot, park, hreg, hnm⟩, (is_license_plate_valid_ne _).mp h2,
          ⟨v, h3, h4, by rw [h5, hnm]⟩, (is_date_valid_ne _ _).mp h6⟩
    · rintro ⟨⟨i, p, hreg, hnm⟩, hv, ⟨v, hfv, hpk, hvn⟩, hd⟩
      have hc : exit_checks s name plate d t i p v :=
        ⟨find_parking_of_registered s name i p hwf hreg hnm,
          (is_license_plate_valid_ne _).mpr hv, hfv, hpk, by rw [hvn, hnm],
          (is_date_valid_ne _ _).mpr hd⟩
      obtain ⟨e, he, hev⟩ := find_vehicle_mem _ _ _ hfv
      obtain ⟨_, _, _, l, hl, hle⟩ := hpark e he (by rw [hev]; exact hpk)
      rw [hev] at hl
      obtain ⟨s1, e1, c, hok⟩ := register_exit_commit_succeeds
        { s with last_date := token_date d t } i p plate (token_date d t) v l hl hle
        (hbill i p hreg.2)
      exact ⟨s1, v.license_plate, e1, token_date d t, c, by
        rw [register_exit_accept s name plate d t i p v hc, hok]⟩
  · intro v other ⟨i, p, hreg, hnm⟩ hv hfv hpk hvn hne
    have hfp := find_parking_of_registered s name i p hwf hreg hnm
    unfold register_exit
    rw [parse_date_tokens]
    dsimp only
    rw [hfp]
    dsimp only
    rw [if_neg ((is_license_plate_valid_ne _).mpr hv), hfv]
    dsimp only
    rw [if_neg (by simpa [is_vehicle_parked] using hpk), hvn]
    dsimp only
    rw [if_pos]
    rw [ne_eq, strcmp_eq_zero, hnm]
    exact fun h => hne h.symm

/-- Witness of C8: the exit of the parked `AA-00-AA` from `Parking1`. -/
theorem register_exit_performed_iff_witness :
    registry_wf demo_parked ∧ parked_wf demo_parked ∧ billing_wf demo_parked ∧
    ((∃ s1 pl e x c, register_exit demo_parked (some "Parking1") (some "AA-00-AA")
        (some demo_day) (some demo_exit_time) =
        Result.ok (s1, [Output.exit_line pl e x c])) ↔
      ((∃ i p, registered demo_parked i p ∧ p.name = "Parking1") ∧
        is_license_plate_valid "AA-00-AA" = 1 ∧
        (∃ v, find_vehicle demo_parked.vehicles "AA-00-AA" = some v ∧ v.is_parked ≠ 0 ∧
          v.parking_name = some "Parking1") ∧
        (is_date_valid (token_date demo_day demo_exit_time) demo_parked).1 = 1)) :=
  ⟨(reached_state_wf _ demo_parked_reached).1, (reached_state_wf _ demo_parked_reached).2.2.1,
    (reached_state_wf _ demo_parked_reached).2.2.2.1,
    (register_exit_performed_iff demo_parked "Parking1" "AA-00-AA" demo_day demo_exit_time
      (reached_state_wf _ demo_parked_reached).1 (reached_state_wf _ demo_parked_reached).2.2.1
      (reached_state_wf _ demo_parked_reached).2.2.2.1).1⟩

/-- C9: after an accepted exit of a vehicle from facility `name` with timestamp `t`, the
last event of the vehicle has exit timestamp `t` and the cost that `calculate_cost` gives
for the rates of the facility and the dates of the event, the parked flag is clear and
the current facility absent, the facility has one free space more, exactly one billing
record with the plate of the vehicle and this cost was added to the facility, and the
reported cost is the stored cost. -/
theorem register_exit_effect (s s1 : args) (name plate pl : String) (e x : date) (c : ℚ)
    (d : date_token) (t : time_token) (hwf : registry_wf s)
    (h : register_exit s (some name) (some plate) (some d) (some t) =
      Result.ok (s1, [Output.exit_line pl e x c])) :
    ∃ (slot : Nat) (park park1 : parking) (v v1 : vehicle) (last_log : vehicle_log),
      registered s slot park ∧ park.name = name ∧
      find_vehicle s.vehicles plate = some v ∧ v.my_logs.getLast? = some last_log ∧
      last_log.entry_date = some e ∧ x = token_date d t ∧ pl = v.license_plate ∧
      calculate_cost park { last_log with exit_date := some x } = Result.ok c ∧
      find_vehicle s1.vehicles plate = some v1 ∧
      v1.my_logs = v.my_logs.dropLast ++ [{ last_log with exit_date := some x, cost := c }] ∧
      v1.my_logs.getLast? = some { last_log with exit_date := some x, cost := c } ∧
      v1.is_parked = 0 ∧ v1.parking_name = none ∧
      s1.parkings.getD slot none = some park1 ∧
      park1.free_spaces = park.free_spaces + 1 ∧ park1.name = park.name ∧
      park1.max_capacity = park.max_capacity ∧
      billing_records park1 = billing_records park ++
        [{ license_plate := v.license_plate, parking_name := none, entry_date := none,
           exit_date := some x, cost := c }] := by
  rcases register_exit_cases _ _ _ _ _ _ _ h with ⟨_, he | ⟨e1, he, herr⟩⟩ |
    ⟨nm1, pl1, dt, tt, slot, park, v, hn, hp, hd, ht, hc, hcommit⟩
  · exact absurd he (by simp)
  · simp only [List.cons.injEq, and_true] at he
    rw [← he] at herr
    exact absurd herr (by simp [is_error_line])
  · simp only [Option.some.injEq] at hn hp hd ht
    subst hn hp hd ht
    obtain ⟨h1, _, h3, _, _, _⟩ := hc
    obtain ⟨hreg, hnm⟩ := find_parking_registered s name slot park hwf h1
    have hlt : slot < s.parkings.length := getD_some_lt _ _ _ hreg.2
    obtain ⟨last_log, e1, cost, days, hl, hle, hcost, hrec, _, hs1, hout⟩ :=
      register_exit_commit_ok _ _ _ _ _ _ _ _ hcommit
    simp only [List.cons.injEq, Output.exit_line.injEq, and_true] at hout
    obtain ⟨hpl, he1, hx, hcc⟩ := hout
    subst hpl he1 hx hcc
    refine ⟨slot, park,
      { park with free_spaces := park.free_spaces + 1, billing_day_log := days }, v,
      { v with is_parked := 0, parking_name := none,
               my_logs := v.my_logs.dropLast ++
                 [{ last_log with exit_date := some (token_date d t), cost := c }] },
      last_log, hreg, hnm, h3, hl, hle, rfl, rfl, ?_, ?_, rfl, by simp, rfl, rfl, ?_, rfl, rfl,
      rfl, hrec⟩
    · rw [← hcost]
      exact calculate_cost_rates _ _ _ rfl rfl rfl
    · rw [hs1]; exact find_vehicle_store_same _ _ v _ h3
    · rw [hs1]; exact getD_set_same _ _ _ _ hlt

/-- Witness of C9: the exit of the parked `AA-00-AA` from `Parking1` after one hour. -/
theorem register_exit_effect_witness :
    registry_wf demo_parked ∧
    register_exit demo_parked (some "Parking1") (some "AA-00-AA") (some demo_day)
      (some demo_exit_time) =
      Result.ok (demo_exited, [Output.exit_line "AA-00-AA"
        (token_date demo_day { hour := 10, minutes := 0 })
        (token_date demo_day demo_exit_time) 4]) ∧
    ∃ (slot : Nat) (park park1 : parking) (v1 : vehicle),
      registered demo_parked slot park ∧
      find_vehicle demo_exited.vehicles "AA-00-AA" = some v1 ∧
      v1.is_parked = 0 ∧ v1.parking_name = none ∧
      demo_exited.parkings.getD slot none = some park1 ∧
      park1.free_spaces = park.free_spaces + 1 := by
  have hstep : register_exit demo_parked (some "Parking1") (some "AA-00-AA") (some demo_day)
      (some demo_exit_time) =
      Result.ok (demo_exited, [Output.exit_line "AA-00-AA"
        (token_date demo_day { hour := 10, minutes := 0 })
        (token_date demo_day demo_exit_time) 4]) := by decide!
  refine ⟨(reached_state_wf _ demo_parked_reached).1, hstep, ?_⟩
  obtain ⟨slot, park, park1, v, v1, last_log, h1, _, _, _, _, _, _, _, h9, _, _, h12, h13, h14,
      h15, _⟩ :=
    register_exit_effect demo_parked demo_exited "Parking1" "AA-00-AA" "AA-00-AA"
      (token_date demo_day { hour := 10, minutes := 0 }) (token_date demo_day demo_exit_time) 4
      demo_day demo_exit_time (reached_state_wf _ demo_parked_reached).1 hstep
  exact ⟨slot, park, park1, v1, h1, h9, h12, h13, h14, h15⟩

/-- C10: an add-facility, entry, exit or remove-facility command that does not fault and
reports a validation, not-found or state-conflict error leaves the whole state (registry,
vehicle index and clock floor) equal to the state before it. -/
theorem rejected_command_keeps_state :
    (∀ (s s1 : args) (out : List Output) (name : Option String) (max_capacity : Option Int)
        (cost_x cost_y cost_z : Option ℚ),
      list_or_add_park s name max_capacity cost_x cost_y cost_z = Result.ok (s1, out) →
      (∃ e ∈ out, is_error_line e = true) → s1 = s) ∧
    (∀ (s s1 : args) (out : List Output) (name plate : Option String)
        (d : Option date_token) (t : Option time_token),
      register_entry s name plate d t = Result.ok (s1, out) →
      (∃ e ∈ out, is_error_line e = true) → s1 = s) ∧
    (∀ (s s1 : args) (out : List Output) (name plate : Option String)
        (d : Option date_token) (t : Option time_token),
      register_exit s name plate d t = Result.ok (s1, out) →
      (∃ e ∈ out, is_error_line e = true) → s1 = s) ∧
    (∀ (s s1 : args) (out : List Output) (name : Option String),
      remove_parking s name = Result.ok (s1, out) →
      (∃ e ∈ out, is_error_line e = true) → s1 = s) := by
  refine ⟨?_, ?_, ?_, ?_⟩
  · intro s s1 out name max_capacity cost_x cost_y cost_z h ⟨e, he, herr⟩
    rcases list_or_add_park_cases _ _ _ _ _ _ _ _ h with h1 |
      ⟨_, _, _, _, _, _, _, _, _, _, _, _, _, _, _, _, _, _, hout⟩
    · exact h1
    · rw [hout] at he
      exact absurd he (List.not_mem_nil _)
  · intro s s1 out name plate d t h ⟨e, he, herr⟩
    rcases register_entry_cases _ _ _ _ _ _ _ h with ⟨h1, _⟩ |
      ⟨nm, pl, dt, tt, slot, park, _, _, _, _, _, hs1⟩
    · exact h1
    · have ho : out = [Output.entry_line park.name (park.free_spaces - 1)] := by
        have := congrArg Prod.snd hs1
        exact this
      rw [ho, List.mem_singleton] at he
      rw [he] at herr
      exact absurd herr (by simp [is_error_line])
  · intro s s1 out name plate d t h ⟨e, he, herr⟩
    rcases register_exit_cases _ _ _ _ _ _ _ h with ⟨h1, _⟩ |
      ⟨nm, pl, dt, tt, slot, park, v, _, _, _, _, _, hcommit⟩
    · exact h1
    · obtain ⟨_, _, _, _, _, _, _, _, _, _, hout⟩ :=
        register_exit_commit_ok _ _ _ _ _ _ _ _ hcommit
      rw [hout, List.mem_singleton] at he
      rw [he] at herr
      exact absurd herr (by simp [is_error_line])
  · intro s s1 out name h ⟨e, he, herr⟩
    rcases remove_parking_cases _ _ _ _ h with h1 | ⟨l, hl⟩
    · exact h1
    · rw [hl] at he
      rw [name_lines_no_error l e he] at herr
      exact absurd herr (by simp)

/-- Witness of C10: a second entry of the parked `AA-00-AA` is refused and the state
stays as it was. -/
theorem rejected_command_keeps_state_witness :
    register_entry demo_parked (some "Parking1") (some "AA-00-AA") (some demo_day)
        (some { hour := 10, minutes := 30 }) =
      Result.ok (demo_rejected.1, demo_rejected.2) ∧
    (∃ e ∈ demo_rejected.2, is_error_line e = true) ∧
    demo_rejected.1 = demo_parked :=
  ⟨by decide!, by decide!,
    rejected_command_keeps_state.2.1 demo_parked demo_rejected.1 demo_rejected.2
      (some "Parking1") (some "AA-00-AA") (some demo_day) (some { hour := 10, minutes := 30 })
      (by decide!) (by decide!)⟩

/-! ## Properties of the program, continued -/

/-- C11: from the initial state, adding `Parking1` with capacity 2 and rates 1, 1.5, 20,
then the entry of `AA-00-AA` on 01-01-2023 at 10:00 and its exit at 11:00 give: one free
space after the entry, 60 elapsed minutes, cost 4 for the exit, two free spaces after the
exit, and exactly one billing day for `Parking1`, dated 01-01-2023, with total 4 and one
billing record; the other slots stay empty. -/
theorem scenario_parking1 :
    list_or_add_park initial_args (some "Parking1") (some 2) (some 1) (some (3 / 2)) (some 20) =
      Result.ok (demo_added, []) ∧
    register_entry demo_added (some "Parking1") (some "AA-00-AA") (some demo_day)
      (some { hour := 10, minutes := 0 }) =
      Result.ok (demo_parked, [Output.entry_line "Parking1" 1]) ∧
    demo_parked.parkings.getD 0 none = some { demo_parking with free_spaces := 1 } ∧
    get_all_minutes (token_date demo_day { hour := 10, minutes := 0 })
      (token_date demo_day demo_exit_time) = 60 ∧
    register_exit demo_parked (some "Parking1") (some "AA-00-AA") (some demo_day)
      (some demo_exit_time) =
      Result.ok (demo_exited, [Output.exit_line "AA-00-AA"
        (token_date demo_day { hour := 10, minutes := 0 })
        (token_date demo_day demo_exit_time) 4]) ∧
    demo_exited.parkings.getD 0 none =
      some { demo_parking with
        free_spaces := 2
        billing_day_log :=
          [{ exit_date := { day := 1, month := 1, year := 2023, hour := 11, minutes := 0 },
             total_cost := 4,
             vehicle_log :=
               [{ license_plate := "AA-00-AA", parking_name := none, entry_date := none,
                  exit_date := some { day := 1, month := 1, year := 2023, hour := 11,
                                      minutes := 0 },
                  cost := 4 }] }] } ∧
    (∀ i : Nat, i ≠ 0 → demo_exited.parkings.getD i none = none) := by
  refine ⟨demo_add_step, demo_entry_step, by decide!, by decide, by decide!, by decide!, ?_⟩
  intro i hi
  have h : demo_exited.parkings = some { demo_parking with
        free_spaces := 2
        billing_day_log :=
          [{ exit_date := { day := 1, month := 1, year := 2023, hour := 11, minutes := 0 },
             total_cost := 4,
             vehicle_log :=
               [{ license_plate := "AA-00-AA", parking_name := none, entry_date := none,
                  exit_date := some { day := 1, month := 1, year := 2023, hour := 11,
                                      minutes := 0 },
                  cost := 4 }] }] } :: List.replicate 19 none := by decide!
  rw [h]
  cases i with
  | zero => exact absurd rfl hi
  | succ j => rw [List.getD_cons_succ]; exact replicate_none_getD 19 j

/-- C12: for rates `0 < x < y < z` and elapsed times `0 <= m1 <= m2`, the cost that
`calculate_cost` returns for `m1` is at most the one for `m2`. -/
theorem calculate_cost_monotone (park : parking) (l1 l2 : vehicle_log) (e1 x1 e2 x2 : date)
    (he1 : l1.entry_date = some e1) (hx1 : l1.exit_date = some x1)
    (he2 : l2.entry_date = some e2) (hx2 : l2.exit_date = some x2)
    (hx : 0 < park.cost_x) (hxy : park.cost_x < park.cost_y) (hyz : park.cost_y < park.cost_z)
    (hm1 : 0 ≤ get_all_minutes e1 x1)
    (hm : get_all_minutes e1 x1 ≤ get_all_minutes e2 x2) :
    ∃ c1 c2, calculate_cost park l1 = Result.ok c1 ∧ calculate_cost park l2 = Result.ok c2 ∧
      c1 ≤ c2 :=
  ⟨_, _, calculate_cost_eq_spec_price park l1 e1 x1 he1 hx1 hm1,
    calculate_cost_eq_spec_price park l2 e2 x2 he2 hx2 (le_trans hm1 hm),
    spec_price_mono _ _ _ _ _ hm hx (lt_trans hx hxy) (lt_trans (lt_trans hx hxy) hyz)⟩

/-- Witness of C12: across a day boundary, 1439 and 1440 minutes in `Parking1`. -/
theorem calculate_cost_monotone_witness :
    get_all_minutes (token_date demo_day { hour := 10, minutes := 0 })
      { day := 2, month := 1, year := 2023, hour := 9, minutes := 59 } = 1439 ∧
    get_all_minutes (token_date demo_day { hour := 10, minutes := 0 })
      { day := 2, month := 1, year := 2023, hour := 10, minutes := 0 } = 1440 ∧
    ∃ c1 c2,
      calculate_cost demo_parking
        { license_plate := "AA-00-AA", parking_name := some "Parking1",
          entry_date := some (token_date demo_day { hour := 10, minutes := 0 }),
          exit_date := some { day := 2, month := 1, year := 2023, hour := 9, minutes := 59 },
          cost := 0 } = Result.ok c1 ∧
      calculate_cost demo_parking
        { license_plate := "AA-00-AA", parking_name := some "Parking1",
          entry_date := some (token_date demo_day { hour := 10, minutes := 0 }),
          exit_date := some { day := 2, month := 1, year := 2023, hour := 10, minutes := 0 },
          cost := 0 } = Result.ok c2 ∧
      c1 ≤ c2 :=
  ⟨by decide, by decide,
    calculate_cost_monotone demo_parking _ _ (token_date demo_day { hour := 10, minutes := 0 })
      { day := 2, month := 1, year := 2023, hour := 9, minutes := 59 }
      (token_date demo_day { hour := 10, minutes := 0 })
      { day := 2, month := 1, year := 2023, hour := 10, minutes := 0 }
      rfl rfl rfl rfl (by decide!) (by decide!) (by decide!) (by decide) (by decide)⟩

/-- The zero and the full-day cost with the rates as exact rationals: for rates
`0 < x < y < z`, `calculate_cost` returns 0 for an elapsed time of 0 minutes and exactly
`z` for an elapsed time of 1440 minutes. -/
theorem calculate_cost_zero_and_day (park : parking) (l : vehicle_log) (e x : date)
    (he : l.entry_date = some e) (hx : l.exit_date = some x)
    (hpx : 0 < park.cost_x) (hxy : park.cost_x < park.cost_y) (hyz : park.cost_y < park.cost_z) :
    (get_all_minutes e x = 0 → calculate_cost park l = Result.ok 0) ∧
    (get_all_minutes e x = 1440 → calculate_cost park l = Result.ok park.cost_z) := by
  have hz : 0 < park.cost_z := lt_trans (lt_trans hpx hxy) hyz
  constructor
  · intro hm
    rw [calculate_cost_eq_spec_price park l e x he hx (by rw [hm]), hm, spec_price_zero _ _ _ hz]
  · intro hm
    rw [calculate_cost_eq_spec_price park l e x he hx (by rw [hm]; decide), hm,
      spec_price_day _ _ _ hz]

/-- Example of the full-day cost over exact rationals: exactly one day in `Parking1`
costs the daily cap 20. -/
theorem calculate_cost_zero_and_day_witness :
    get_all_minutes (token_date demo_day { hour := 10, minutes := 0 })
      { day := 2, month := 1, year := 2023, hour := 10, minutes := 0 } = 1440 ∧
    calculate_cost demo_parking
      { license_plate := "AA-00-AA", parking_name := some "Parking1",
        entry_date := some (token_date demo_day { hour := 10, minutes := 0 }),
        exit_date := some { day := 2, month := 1, year := 2023, hour := 10, minutes := 0 },
        cost := 0 } = Result.ok 20 :=
  ⟨by decide,
    (calculate_cost_zero_and_day demo_parking _
      (token_date demo_day { hour := 10, minutes := 0 })
      { day := 2, month := 1, year := 2023, hour := 10, minutes := 0 } rfl rfl
      (by decide!) (by decide!) (by decide!)).2 (by decide)⟩

/-- C14, amended: with the rates and the cost read as exact rationals (no rounding and no
infinite rate), for rates `0 < x < y < z` and an elapsed time `m >= 0`, the cost `c` that
`calculate_cost` returns satisfies `(m div 1440) * z <= c <= (m div 1440 + 1) * z`; so
`c >= 0` and the charge for the partial day is at most `z`. -/
theorem calculate_cost_bounds (park : parking) (l : vehicle_log) (e x : date)
    (he : l.entry_date = some e) (hx : l.exit_date = some x)
    (hpx : 0 < park.cost_x) (hxy : park.cost_x < park.cost_y) (hyz : park.cost_y < park.cost_z)
    (hm : 0 ≤ get_all_minutes e x) :
    ∃ c, calculate_cost park l = Result.ok c ∧
      ((get_all_minutes e x / 1440 : Int) : ℚ) * park.cost_z ≤ c ∧
      c ≤ (((get_all_minutes e x / 1440 : Int) : ℚ) + 1) * park.cost_z ∧
      0 ≤ c ∧ c - ((get_all_minutes e x / 1440 : Int) : ℚ) * park.cost_z ≤ park.cost_z := by
  have hy : 0 < park.cost_y := lt_trans hpx hxy
  have hz : 0 < park.cost_z := lt_trans hy hyz
  obtain ⟨b1, b2⟩ := spec_price_bounds (get_all_minutes e x) park.cost_x park.cost_y
    park.cost_z hpx hy hz
  refine ⟨_, calculate_cost_eq_spec_price park l e x he hx hm, b1, b2, ?_, by linarith⟩
  have hd : (0 : ℚ) ≤ ((get_all_minutes e x / 1440 : Int) : ℚ) := by
    have : 0 ≤ get_all_minutes e x / 1440 := Int.ediv_nonneg hm (by norm_num)
    exact_mod_cast this
  have := mul_nonneg hd hz.le
  linarith

/-- Witness of C14, amended: one hour in `Parking1`. -/
theorem calculate_cost_bounds_witness :
    (0 : Int) ≤ get_all_minutes (token_date demo_day { hour := 10, minutes := 0 })
      (token_date demo_day demo_exit_time) ∧
    ∃ c, calculate_cost demo_parking
        { license_plate := "AA-00-AA", parking_name := some "Parking1",
          entry_date := some (token_date demo_day { hour := 10, minutes := 0 }),
          exit_date := some (token_date demo_day demo_exit_time), cost := 0 } = Result.ok c ∧
      0 ≤ c ∧ c ≤ 20 := by
  refine ⟨by decide, ?_⟩
  obtain ⟨c, h1, _, _, h4, h5⟩ := calculate_cost_bounds demo_parking
    { license_plate := "AA-00-AA", parking_name := some "Parking1",
      entry_date := some (token_date demo_day { hour := 10, minutes := 0 }),
      exit_date := some (token_date demo_day demo_exit_time), cost := 0 }
    (token_date demo_day { hour := 10, minutes := 0 }) (token_date demo_day demo_exit_time)
    rfl rfl (by decide!) (by decide!) (by decide!) (by decide)
  refine ⟨c, h1, h4, ?_⟩
  have e : ((get_all_minutes (token_date demo_day { hour := 10, minutes := 0 })
      (token_date demo_day demo_exit_time) / 1440 : Int) : ℚ) = 0 := by decide!
  rw [e] at h5
  have hz : demo_parking.cost_z = 20 := rfl
  rw [hz] at h5
  linarith

/-- Counterexample to C15 as stated: in the reached state with twenty registered
parkings, adding the registered name `P01` again returns -1 and reports too many parks,
not the duplicate name. -/
theorem add_new_parking_duplicate_full :
    reached demo_full ∧ demo_full.park_counter = 20 ∧
    (∃ p, registered demo_full 0 p ∧ p.name = "P01") ∧
    add_new_parking demo_full "P01" 1 1 2 3 =
      Result.ok (-1, demo_full, [Output.too_many_parks]) ∧
    list_or_add_park demo_full (some "P01") (some 1) (some 1) (some 2) (some 3) =
      Result.ok (demo_full, [Output.too_many_parks]) := by
  refine ⟨demo_full_reached, by decide!, ?_, by decide!, by decide!⟩
  exact ⟨{ name := "P01", max_capacity := 1, cost_x := 1, cost_y := 2, cost_z := 3,
           free_spaces := 1, billing_day_log := [] }, ⟨by decide!, by decide!⟩, rfl⟩

/-- C15, amended: when a facility with the given name is registered, `add_new_parking`
with that name returns 1, reported as parking already exists, whatever the other
arguments, as long as fewer than `MAX_PARKINGS` facilities are registered; when the
counter has reached `MAX_PARKINGS` it returns -1 and reports too many parks instead. -/
theorem add_new_parking_duplicate (s : args) (name : String) (c : Int) (x y z : ℚ)
    (hdup : ∃ i p, registered s i p ∧ p.name = name) :
    (s.park_counter < MAX_PARKINGS →
      add_new_parking s name c x y z = Result.ok (1, s, []) ∧
      list_or_add_park s (some name) (some c) (some x) (some y) (some z) =
        Result.ok (s, [Output.parking_already_exists name])) ∧
    (s.park_counter ≥ MAX_PARKINGS →
      add_new_parking s name c x y z = Result.ok (-1, s, [Output.too_many_parks]) ∧
      list_or_add_park s (some name) (some c) (some x) (some y) (some z) =
        Result.ok (s, [Output.too_many_parks])) := by
  obtain ⟨i, p, hreg, hn⟩ := hdup
  constructor
  · intro hpc
    have hi : i < MAX_PARKINGS := by
      have := hreg.1
      unfold MAX_PARKINGS at *
      omega
    have hu := name_in_use_true s.parkings name i hi p hreg.2 hn
    have ha : add_new_parking s name c x y z = Result.ok (1, s, []) := by
      unfold add_new_parking
      rw [if_neg (by omega), if_pos hu]
    refine ⟨ha, ?_⟩
    unfold list_or_add_park
    dsimp only
    rw [ha]
    rfl
  · intro hpc
    have ha : add_new_parking s name c x y z = Result.ok (-1, s, [Output.too_many_parks]) := by
      unfold add_new_parking
      rw [if_pos hpc]
    refine ⟨ha, ?_⟩
    unfold list_or_add_park
    dsimp only
    rw [ha]
    rfl

/-- Witness of C15, amended: adding `Parking1` a second time. -/
theorem add_new_parking_duplicate_witness :
    (∃ i p, registered demo_added i p ∧ p.name = "Parking1") ∧
    add_new_parking demo_added "Parking1" 5 1 2 3 = Result.ok (1, demo_added, []) :=
  ⟨⟨0, demo_parking, ⟨by decide, by decide!⟩, rfl⟩,
    ((add_new_parking_duplicate demo_added "Parking1" 5 1 2 3
      ⟨0, demo_parking, ⟨by decide, by decide!⟩, rfl⟩).1 (by decide)).1⟩

/-- The success condition with the rates as exact rationals: in a state with a
well-formed registry, `add_new_parking` returns 0 exactly when
fewer than `MAX_PARKINGS` facilities are registered, no registered facility has the name,
the capacity is positive, the three rates are positive and `cost_x < cost_y < cost_z`;
once the registry check and the name check have passed, a capacity `<= 0` is reported as
invalid capacity, and with a positive capacity a rate triple that is not positive or not
strictly increasing is reported as invalid cost. -/
theorem add_new_parking_success_iff (s : args) (name : String) (c : Int) (x y z : ℚ)
    (hwf : registry_wf s) :
    ((∃ s1 out, add_new_parking s name c x y z = Result.ok (0, s1, out)) ↔
      (s.park_counter < MAX_PARKINGS ∧ (∀ i p, registered s i p → p.name ≠ name) ∧
        0 < c ∧ 0 < x ∧ 0 < y ∧ 0 < z ∧ x < y ∧ y < z)) ∧
    (s.park_counter < MAX_PARKINGS → (∀ i p, registered s i p → p.name ≠ name) → c ≤ 0 →
      add_new_parking s name c x y z = Result.ok (-1, s, [Output.invalid_capacity c])) ∧
    (s.park_counter < MAX_PARKINGS → (∀ i p, registered s i p → p.name ≠ name) → 0 < c →
      (x ≤ 0 ∨ y ≤ 0 ∨ z ≤ 0 ∨ ¬ (x < y ∧ y < z)) →
      add_new_parking s name c x y z = Result.ok (-1, s, [Output.invalid_cost])) := by
  have hfresh : (∀ i p, registered s i p → p.name ≠ name) ↔
      name_in_use s.parkings name = false := by
    rw [← Bool.not_eq_true, name_in_use_iff s name hwf]
    constructor
    · rintro h ⟨i, p, hr, hn⟩; exact h i p hr hn
    · intro h i p hr hn; exact h ⟨i, p, hr, hn⟩
  refine ⟨⟨?_, ?_⟩, ?_, ?_⟩
  · rintro ⟨s1, out, h⟩
    obtain ⟨_, h1, h2, h3, hx, hy, hz, hxy, hyz, _⟩ := add_new_parking_zero _ _ _ _ _ _ _ _ h
    exact ⟨h1, hfresh.mpr h2, h3, hx, hy, hz, hxy, hyz⟩
  · rintro ⟨h1, h2, h3, hx, hy, hz, hxy, hyz⟩
    exact ⟨_, _, add_new_parking_accept s name c x y z hwf.1 h1 (hfresh.mp h2) h3 hx hy hz
      hxy hyz⟩
  · intro h1 h2 h3
    unfold add_new_parking
    rw [if_neg (by omega), hfresh.mp h2]
    simp only [Bool.false_eq_true, if_false]
    rw [if_pos h3]
  · intro h1 h2 h3 h4
    unfold add_new_parking
    rw [if_neg (by omega), hfresh.mp h2]
    simp only [Bool.false_eq_true, if_false]
    rw [if_neg (by omega)]
    by_cases h5 : x ≤ 0 ∨ y ≤ 0 ∨ z ≤ 0
    · rw [if_pos h5]
    · rw [if_neg h5, if_pos]
      push_neg at h5
      rcases h4 with h | h | h | h
      · linarith [h5.1]
      · linarith [h5.2.1]
      · linarith [h5.2.2]
      · by_contra hc
        push_neg at hc
        exact h ⟨hc.1, hc.2.2⟩

/-- Example of the success condition over exact rationals: adding `Parking2` after
`Parking1`. -/
theorem add_new_parking_success_iff_witness :
    registry_wf demo_added ∧
    ((∃ s1 out, add_new_parking demo_added "Parking2" 3 1 2 3 = Result.ok (0, s1, out)) ↔
      (demo_added.park_counter < MAX_PARKINGS ∧
        (∀ i p, registered demo_added i p → p.name ≠ "Parking2") ∧
        (0 : Int) < 3 ∧ (0 : ℚ) < 1 ∧ (0 : ℚ) < 2 ∧ (0 : ℚ) < 3 ∧ (1 : ℚ) < 2 ∧ (2 : ℚ) < 3)) :=
  ⟨(reached_state_wf _ demo_added_reached).1,
    (add_new_parking_success_iff demo_added "Parking2" 3 1 2 3
      (reached_state_wf _ demo_added_reached).1).1⟩

/-- C17: a successful `add_new_parking` puts the new facility in the slot right after the
registered ones (the slot at the old counter), with `free_spaces = max_capacity` equal to
the capacity, the given rates and no billing days; the counter grows by 1; every other
slot, the vehicle index and the clock floor are unchanged. -/
theorem add_new_parking_effect (s s1 : args) (out : List Output) (name : String) (c : Int)
    (x y z : ℚ) (hwf : registry_wf s)
    (h : add_new_parking s name c x y z = Result.ok (0, s1, out)) :
    s1.parkings.getD s.park_counter.toNat none =
      some { name := name, max_capacity := c, cost_x := x, cost_y := y, cost_z := z,
             free_spaces := c, billing_day_log := [] } ∧
    s1.park_counter = s.park_counter + 1 ∧
    (∀ j : Nat, (j : Int) < s.park_counter → s.parkings.getD j none ≠ none) ∧
    (∀ j : Nat, j ≠ s.park_counter.toNat → s1.parkings.getD j none = s.parkings.getD j none) ∧
    s1.vehicles = s.vehicles ∧ s1.last_date = s.last_date ∧ s1.num_logs = s.num_logs ∧
    out = [] := by
  obtain ⟨h0, h1, _, _, _, _, _, _, _, hs1, hout⟩ := add_new_parking_zero _ _ _ _ _ _ _ _ h
  have hlt : s.park_counter.toNat < s.parkings.length := by
    rw [hwf.2.2.2.2.2]; unfold MAX_PARKINGS at *; omega
  refine ⟨?_, by rw [hs1], ?_, ?_, by rw [hs1], by rw [hs1], by rw [hs1], hout⟩
  · rw [hs1]; exact getD_set_same _ _ _ _ hlt
  · intro j hj
    obtain ⟨p, hp⟩ := hwf.2.2.1 j hj
    rw [hp]; simp
  · intro j hj
    rw [hs1]; exact getD_set_other _ _ _ _ _ (fun h => hj h.symm)

/-- Witness of C17: `Parking1` added to the initial state. -/
theorem add_new_parking_effect_witness :
    registry_wf initial_args ∧
    add_new_parking initial_args "Parking1" 2 1 (3 / 2) 20 = Result.ok (0, demo_added, []) ∧
    demo_added.parkings.getD 0 none = some demo_parking ∧
    demo_added.park_counter = 1 ∧ demo_added.vehicles = initial_args.vehicles := by
  have hstep : add_new_parking initial_args "Parking1" 2 1 (3 / 2) 20 =
      Result.ok (0, demo_added, []) := by decide!
  obtain ⟨h1, h2, _, _, h5, _⟩ := add_new_parking_effect initial_args demo_added []
    "Parking1" 2 1 (3 / 2) 20 state_wf_init.1 hstep
  exact ⟨state_wf_init.1, hstep, h1, h2, h5⟩

/-- C18: in every reachable state, removing a registered parking `p` of slot `k` succeeds;
afterwards the counter is one less, the slots before `k` are as before and every slot
from `k` on holds what the next slot held, so the other parkings keep their order and
their records (capacity, free spaces, rates, billing days), no slot holds the name of
`p`, and the registry has its shape: slots below the counter occupied, the others
empty, names distinct. -/
theorem remove_parking_registry (s : args) (k : Nat) (p : parking) (h : reachable s)
    (hr : registered s k p) :
    ∃ s1 out, remove_parking s (some p.name) = Result.ok (s1, out) ∧
      s1.park_counter = s.park_counter - 1 ∧
      (∀ j : Nat, j < k → s1.parkings.getD j none = s.parkings.getD j none) ∧
      (∀ j : Nat, k ≤ j → s1.parkings.getD j none = s.parkings.getD (j + 1) none) ∧
      (∀ (j : Nat) (q : parking), s1.parkings.getD j none = some q → q.name ≠ p.name) ∧
      registry_wf s1 := by
  have hc := reachable_core s h
  obtain ⟨out, ho⟩ := remove_parking_accept s k p hc.1 (fun e he x hx => (hc.2.2 e he x hx).1) hr
  refine ⟨_, out, ho, rfl, ?_, ?_, ?_, ?_⟩
  · intro j hj
    show (shifted_parkings s.parkings k).getD j none = _
    rw [shifted_parkings_get _ _ _ hc.1.2.2.2.2.2, if_pos hj]
  · intro j hj
    show (shifted_parkings s.parkings k).getD j none = _
    rw [shifted_parkings_get _ _ _ hc.1.2.2.2.2.2, if_neg (by omega)]
  · intro j q hq
    exact remove_shape_absent s _ k p hc.1 hr rfl j q hq
  · exact remove_shape_registry s _ hc.1 ⟨k, p, hr, rfl⟩

theorem remove_parking_registry_witness :
    ∃ s1 out, remove_parking demo_two_parked (some "P1") = Result.ok (s1, out) ∧
      s1.park_counter = demo_two_parked.park_counter - 1 ∧
      (∀ j : Nat, j < 0 → s1.parkings.getD j none = demo_two_parked.parkings.getD j none) ∧
      (∀ j : Nat, 0 ≤ j →
        s1.parkings.getD j none = demo_two_parked.parkings.getD (j + 1) none) ∧
      (∀ (j : Nat) (q : parking), s1.parkings.getD j none = some q → q.name ≠ "P1") ∧
      registry_wf s1 :=
  remove_parking_registry demo_two_parked 0
    { name := "P1", max_capacity := 1, cost_x := 1, cost_y := 2, cost_z := 3, free_spaces := 1,
      billing_day_log :=
        [{ exit_date := { day := 1, month := 1, year := 2023, hour := 11, minutes := 0 },
           total_cost := 3,
           vehicle_log :=
             [{ license_plate := "AA-00-AA", parking_name := none, entry_date := none,
                exit_date := some { day := 1, month := 1, year := 2023, hour := 11,
                                    minutes := 0 },
                cost := 3 }] }] }
    demo_two_parked_reachable ⟨by decide!, by decide!⟩

/-- C19: in every reachable state, removing a registered parking `p` succeeds; afterwards
the index holds the same keys in the same places, each with its previous history
filtered to the events whose parking name is not the name of `p` (the remaining events
keep their order), so no history holds an event of `p`; no vehicle is parked at `p`; and
`find_parking` does not find the name of `p`. -/
theorem remove_parking_histories (s : args) (k : Nat) (p : parking) (h : reachable s)
    (hr : registered s k p) :
    ∃ s1 out, remove_parking s (some p.name) = Result.ok (s1, out) ∧
      (all_entries s1.vehicles).map (fun e => (e.key, e.value.my_logs)) =
        (all_entries s.vehicles).map (fun e =>
          (e.key, e.value.my_logs.filter (fun l => decide (l.parking_name ≠ some p.name)))) ∧
      (∀ pl : String, (find_vehicle s1.vehicles pl).map (fun v => v.my_logs) =
        (find_vehicle s.vehicles pl).map (fun v =>
          v.my_logs.filter (fun l => decide (l.parking_name ≠ some p.name)))) ∧
      (∀ e ∈ all_entries s1.vehicles, ∀ l ∈ e.value.my_logs, l.parking_name ≠ some p.name) ∧
      (∀ e ∈ all_entries s1.vehicles, ¬ parked_at e.value p.name) ∧
      find_parking s1 (some p.name) = Result.ok none := by
  have hc := reachable_core s h
  obtain ⟨out, ho⟩ := remove_parking_accept s k p hc.1 (fun e he x hx => (hc.2.2 e he x hx).1) hr
  have hwf1 := remove_shape_registry s _ hc.1 ⟨k, p, hr, rfl⟩
  refine ⟨_, out, ho, ?_, ?_, ?_, ?_, ?_⟩
  · show (all_entries (purge_index s.vehicles p.name)).map _ = _
    rw [all_entries_purge, List.map_map]
    rfl
  · intro pl
    show (find_vehicle (purge_index s.vehicles p.name) pl).map _ = _
    rw [find_vehicle_purge]
    cases find_vehicle s.vehicles pl <;> rfl
  · intro e he l hl
    change e ∈ all_entries (purge_index s.vehicles p.name) at he
    rw [all_entries_purge] at he
    obtain ⟨e0, _, rfl⟩ := List.mem_map.1 he
    have := (List.mem_filter.1 hl).2
    simpa using this
  · intro e he hpa
    change e ∈ all_entries (purge_index s.vehicles p.name) at he
    rw [all_entries_purge] at he
    obtain ⟨e0, _, rfl⟩ := List.mem_map.1 he
    exact hpa.1 rfl
  · apply find_parking_absent _ _ hwf1
    · show s.park_counter - 1 < MAX_PARKINGS
      have := hc.1.2.1
      omega
    · intro j q hq
      exact remove_shape_absent s _ k p hc.1 hr rfl j q hq.2

theorem remove_parking_histories_witness :
    ∃ s1 out, remove_parking demo_two_parked (some "P1") = Result.ok (s1, out) ∧
      (all_entries s1.vehicles).map (fun e => (e.key, e.value.my_logs)) =
        (all_entries demo_two_parked.vehicles).map (fun e =>
          (e.key, e.value.my_logs.filter (fun l => decide (l.parking_name ≠ some "P1")))) ∧
      (∀ pl : String, (find_vehicle s1.vehicles pl).map (fun v => v.my_logs) =
        (find_vehicle demo_two_parked.vehicles pl).map (fun v =>
          v.my_logs.filter (fun l => decide (l.parking_name ≠ some "P1")))) ∧
      (∀ e ∈ all_entries s1.vehicles, ∀ l ∈ e.value.my_logs, l.parking_name ≠ some "P1") ∧
      (∀ e ∈ all_entries s1.vehicles, ¬ parked_at e.value "P1") ∧
      find_parking s1 (some "P1") = Result.ok none :=
  remove_parking_histories demo_two_parked 0
    { name := "P1", max_capacity := 1, cost_x := 1, cost_y := 2, cost_z := 3, free_spaces := 1,
      billing_day_log :=
        [{ exit_date := { day := 1, month := 1, year := 2023, hour := 11, minutes := 0 },
           total_cost := 3,
           vehicle_log :=
             [{ license_plate := "AA-00-AA", parking_name := none, entry_date := none,
                exit_date := some { day := 1, month := 1, year := 2023, hour := 11,
                                    minutes := 0 },
                cost := 3 }] }] }
    demo_two_parked_reachable ⟨by decide!, by decide!⟩

/-- C20, evaluation of the code at the failing input: in the reachable state in which
`AA-00-AA` is parked at `P2` (flag 1, current parking `P2`), removing the other
registered parking `P1` succeeds and leaves the vehicle with its parked flag 0 while its
current parking is still `P2` and `P2` still counts it (0 free spaces of 1). -/
theorem remove_parking_clears_other_flag :
    reachable demo_two_parked ∧
    (∃ p, registered demo_two_parked 0 p ∧ p.name = "P1") ∧
    (find_vehicle demo_two_parked.vehicles "AA-00-AA").map
      (fun v => (v.is_parked, v.parking_name)) = some (1, some "P2") ∧
    remove_parking demo_two_parked (some "P1") =
      Result.ok (demo_two_removed, [Output.name_line "P2"]) ∧
    (find_vehicle demo_two_removed.vehicles "AA-00-AA").map
      (fun v => (v.is_parked, v.parking_name)) = some (0, some "P2") ∧
    (demo_two_removed.parkings.getD 0 none).map
      (fun q => (q.name, q.max_capacity, q.free_spaces)) = some ("P2", 1, 0) := by
  refine ⟨demo_two_parked_reachable, ?_, by decide!, by decide!, by decide!, by decide!⟩
  exact ⟨{ name := "P1", max_capacity := 1, cost_x := 1, cost_y := 2, cost_z := 3,
           free_spaces := 1,
           billing_day_log :=
             [{ exit_date := { day := 1, month := 1, year := 2023, hour := 11, minutes := 0 },
                total_cost := 3,
                vehicle_log :=
                  [{ license_plate := "AA-00-AA", parking_name := none, entry_date := none,
                     exit_date := some { day := 1, month := 1, year := 2023, hour := 11,
                                         minutes := 0 },
                     cost := 3 }] }] }, ⟨by decide!, by decide!⟩, rfl⟩

/-- The billing days after an exit where the minute difference is exact (no overflow of
`int`): for a parking, a calendar-valid exit date `d`, a cost and a vehicle, where the
last billing day of the parking (if any) has a calendar-valid date and at least one
record, `add_new_exit` returns the parking with the billing days of the
specification: the last day with one more record (plate, `d`, cost) and the cost added
to its total when it has the year, month and day of `d`, otherwise the old days followed
by a new day with date `d`, total `c` and that one record; the days before the last
one are unchanged in both cases. -/
theorem add_new_exit_billing (park : parking) (d : date) (c : ℚ) (v : vehicle)
    (hd : calendar_valid d)
    (hlast : ∀ b, park.billing_day_log.getLast? = some b →
      calendar_valid b.exit_date ∧ b.vehicle_log ≠ []) :
    ∃ days : List billing_day,
      add_new_exit (some park) (some d) c (some v) =
        Result.ok (some { park with billing_day_log := days }) ∧
      days = spec_billing park.billing_day_log v.license_plate d c ∧
      days.take (park.billing_day_log.length - 1) = park.billing_day_log.dropLast ∧
      (∀ last, park.billing_day_log.getLast? = some last →
        (last.exit_date.year = d.year ∧ last.exit_date.month = d.month ∧
            last.exit_date.day = d.day →
          days = park.billing_day_log.dropLast ++
            [{ exit_date := last.exit_date, total_cost := last.total_cost + c,
               vehicle_log := last.vehicle_log ++
                 [{ license_plate := v.license_plate, parking_name := none,
                    entry_date := none, exit_date := some d, cost := c }] }]) ∧
        (¬ (last.exit_date.year = d.year ∧ last.exit_date.month = d.month ∧
            last.exit_date.day = d.day) →
          days = park.billing_day_log ++
            [{ exit_date := d, total_cost := c,
               vehicle_log := [{ license_plate := v.license_plate, parking_name := none,
                                 entry_date := none, exit_date := some d, cost := c }] }])) ∧
      (park.billing_day_log = [] →
        days = [{ exit_date := d, total_cost := c,
                  vehicle_log := [{ license_plate := v.license_plate, parking_name := none,
                                    entry_date := none, exit_date := some d, cost := c }] }]) := by
  refine ⟨_, add_new_exit_eq_spec park d c v hd hlast, rfl, spec_billing_earlier _ _ _ _, ?_, ?_⟩
  · intro last hl
    unfold spec_billing
    rw [hl]
    dsimp only
    constructor
    · intro hs
      rw [if_pos hs]
    · intro hs
      rw [if_neg hs]
  · intro hnil
    unfold spec_billing
    rw [hnil]
    rfl

theorem add_new_exit_billing_witness :
    ∃ days : List billing_day,
      add_new_exit (some demo_billed) (some (token_date demo_day { hour := 12, minutes := 0 }))
        2 (some demo_vehicle) = Result.ok (some { demo_billed with billing_day_log := days }) ∧
      days.length = 1 ∧ days.map (fun b => b.total_cost) = [6] ∧
      days.map (fun b => b.vehicle_log.length) = [2] := by
  obtain ⟨days, h1, h2, _⟩ := add_new_exit_billing demo_billed
    (token_date demo_day { hour := 12, minutes := 0 }) 2 demo_vehicle (by decide)
    (by
      intro b hb
      have hb1 : demo_bill_day = b := Option.some.inj hb
      rw [← hb1]
      exact ⟨by decide, by decide⟩)
  refine ⟨days, h1, ?_, ?_, ?_⟩ <;> rw [h2] <;> decide!

/-- C22: in every state reachable by add, entry, exit and remove commands, the billing
days of every parking in the array have strictly increasing calendar dates (year, month,
day) from first to last; so two billing days of one parking with the same calendar
date are the same billing day, and the daily summary, which prints the billing days in
list order, prints them in chronological order. -/
theorem billing_days_increasing (s : args) (h : reachable s) (i : Nat) (p : parking)
    (hp : s.parkings.getD i none = some p) :
    List.Pairwise (fun a b : billing_day => day_before a.exit_date b.exit_date)
      p.billing_day_log ∧
    (∀ a ∈ p.billing_day_log, ∀ b ∈ p.billing_day_log,
      a.exit_date.year = b.exit_date.year → a.exit_date.month = b.exit_date.month →
      a.exit_date.day = b.exit_date.day → a = b) ∧
    show_daily_summary p =
      p.billing_day_log.map (fun b => Output.summary_line b.exit_date b.total_cost) := by
  have h1 := (reachable_ledger s h i p hp).1
  refine ⟨h1, ?_, rfl⟩
  intro a ha b hb hy hm hd
  by_contra hne
  have h2 : List.Pairwise (fun a b : billing_day =>
      ¬ (a.exit_date.year = b.exit_date.year ∧ a.exit_date.month = b.exit_date.month ∧
        a.exit_date.day = b.exit_date.day)) p.billing_day_log := by
    refine h1.imp ?_
    intro x y hxy
    unfold day_before at hxy
    omega
  have hsymm : Symmetric (fun a b : billing_day =>
      ¬ (a.exit_date.year = b.exit_date.year ∧ a.exit_date.month = b.exit_date.month ∧
        a.exit_date.day = b.exit_date.day)) := by
    intro x y hxy hc
    exact hxy ⟨hc.1.symm, hc.2.1.symm, hc.2.2.symm⟩
  exact h2.forall hsymm ha hb hne ⟨hy, hm, hd⟩

theorem billing_days_increasing_witness :
    List.Pairwise (fun a b : billing_day => day_before a.exit_date b.exit_date)
      [{ exit_date := { day := 1, month := 1, year := 2023, hour := 11, minutes := 0 },
         total_cost := 3,
         vehicle_log :=
           [{ license_plate := "AA-00-AA", parking_name := none, entry_date := none,
              exit_date := some { day := 1, month := 1, year := 2023, hour := 11,
                                  minutes := 0 },
              cost := 3 }] }] :=
  (billing_days_increasing demo_two_parked demo_two_parked_reachable 0
    { name := "P1", max_capacity := 1, cost_x := 1, cost_y := 2, cost_z := 3, free_spaces := 1,
      billing_day_log :=
        [{ exit_date := { day := 1, month := 1, year := 2023, hour := 11, minutes := 0 },
           total_cost := 3,
           vehicle_log :=
             [{ license_plate := "AA-00-AA", parking_name := none, entry_date := none,
                exit_date := some { day := 1, month := 1, year := 2023, hour := 11,
                                    minutes := 0 },
                cost := 3 }] }] }
    (by decide!)).1

/-- C23: in every state reachable by add, entry, exit and remove commands, every event of
every vehicle history has its entry timestamp, every history is ordered by
non-decreasing entry timestamp in the order on (year, month, day, hour, minute), and so
is its sub-sequence of the events of any one parking; this holds for every entry of
the index and so for every vehicle that `find_vehicle` returns. -/
theorem histories_ordered (s : args) (h : reachable s) :
    (∀ e ∈ all_entries s.vehicles,
      (∀ l ∈ e.value.my_logs, ∃ t, l.entry_date = some t) ∧
      List.Pairwise entry_order e.value.my_logs ∧
      ∀ name : String, List.Pairwise entry_order
        (e.value.my_logs.filter (fun l => decide (l.parking_name = some name)))) ∧
    (∀ (pl : String) (v : vehicle), find_vehicle s.vehicles pl = some v →
      (∀ l ∈ v.my_logs, ∃ t, l.entry_date = some t) ∧
      List.Pairwise entry_order v.my_logs ∧
      ∀ name : String, List.Pairwise entry_order
        (v.my_logs.filter (fun l => decide (l.parking_name = some name)))) := by
  have hh := reachable_history s h
  have hc := reachable_core s h
  have hall : ∀ e ∈ all_entries s.vehicles,
      (∀ l ∈ e.value.my_logs, ∃ t, l.entry_date = some t) ∧
      List.Pairwise entry_order e.value.my_logs ∧
      ∀ name : String, List.Pairwise entry_order
        (e.value.my_logs.filter (fun l => decide (l.parking_name = some name))) := by
    intro e he
    refine ⟨?_, (hh e he).1, fun name => (hh e he).1.sublist (List.filter_sublist _)⟩
    intro l hl
    exact Option.ne_none_iff_exists'.1 (hc.2.2 e he l hl).2
  refine ⟨hall, ?_⟩
  intro pl v hf
  obtain ⟨e, he, hv⟩ := find_vehicle_mem _ _ _ hf
  rw [← hv]
  exact hall e he

theorem histories_ordered_witness :
    List.Pairwise entry_order
      [({ license_plate := "AA-00-AA", parking_name := some "P1",
          entry_date := some { day := 1, month := 1, year := 2023, hour := 10, minutes := 0 },
          exit_date := some { day := 1, month := 1, year := 2023, hour := 11, minutes := 0 },
          cost := 3 } : vehicle_log),
       { license_plate := "AA-00-AA", parking_name := some "P2",
         entry_date := some { day := 1, month := 1, year := 2023, hour := 12, minutes := 0 },
         exit_date := none, cost := 0 }] :=
  ((histories_ordered demo_two_parked demo_two_parked_reachable).2 "AA-00-AA"
    { license_plate := "AA-00-AA", parking_name := some "P2", is_parked := 1,
      my_logs :=
        [{ license_plate := "AA-00-AA", parking_name := some "P1",
           entry_date := some { day := 1, month := 1, year := 2023, hour := 10, minutes := 0 },
           exit_date := some { day := 1, month := 1, year := 2023, hour := 11, minutes := 0 },
           cost := 3 },
         { license_plate := "AA-00-AA", parking_name := some "P2",
           entry_date := some { day := 1, month := 1, year := 2023, hour := 12, minutes := 0 },
           exit_date := none, cost := 0 }] }
    (by decide!)).2.1

/-- C24, evaluation of the code at the failing input: after `Parking1` was added,
`AA-00-AA` entered it and `Parking1` was removed, the state is reachable and the vehicle
of the index has its current parking name present (`Parking1`) while its parked flag
is 0. -/
theorem remove_parking_keeps_parking_name :
    reachable (demo_remove demo_parked "Parking1") ∧
    (find_vehicle demo_parked.vehicles "AA-00-AA").map
      (fun v => (v.is_parked, v.parking_name)) = some (1, some "Parking1") ∧
    (find_vehicle (demo_remove demo_parked "Parking1").vehicles "AA-00-AA").map
      (fun v => (v.is_parked, v.parking_name)) = some (0, some "Parking1") ∧
    (demo_remove demo_parked "Parking1").park_counter = 0 :=
  ⟨reachable_demo_remove _ _ (reached_reachable _ demo_parked_reached), by decide!, by decide!,
    by decide!⟩

/-- C25: in every state reachable by add and remove commands (and by entry and exit
commands as well) from the initial state, the counter is between 0 and `MAX_PARKINGS`,
which is 20, the slots below the counter hold parkings, the slots from the counter on
are empty, and registered parkings in different slots have different names. -/
theorem registry_shape (s : args) (h : reachable s) :
    0 ≤ s.park_counter ∧ s.park_counter ≤ MAX_PARKINGS ∧ MAX_PARKINGS = 20 ∧
    (∀ i : Nat, (i : Int) < s.park_counter → ∃ p, s.parkings.getD i none = some p) ∧
    (∀ i : Nat, s.park_counter ≤ (i : Int) → s.parkings.getD i none = none) ∧
    (∀ (i j : Nat) (p q : parking), registered s i p → registered s j q → p.name = q.name →
      i = j) := by
  obtain ⟨h1, h2, h3, h4, h5, _⟩ := (reachable_core s h).1
  exact ⟨h1, h2, rfl, h3, h4, fun i j p q hp hq hn => h5 i j p q hp.2 hq.2 hn⟩

theorem registry_shape_witness :
    0 ≤ demo_two_removed.park_counter ∧ demo_two_removed.park_counter ≤ MAX_PARKINGS ∧
    MAX_PARKINGS = 20 ∧
    (∀ i : Nat, (i : Int) < demo_two_removed.park_counter →
      ∃ p, demo_two_removed.parkings.getD i none = some p) ∧
    (∀ i : Nat, demo_two_removed.park_counter ≤ (i : Int) →
      demo_two_removed.parkings.getD i none = none) ∧
    (∀ (i j : Nat) (p q : parking), registered demo_two_removed i p →
      registered demo_two_removed j q → p.name = q.name → i = j) :=
  registry_shape demo_two_removed (reachable_demo_remove _ _ demo_two_parked_reachable)

/-- C27: for every sequence of `insert_new_entry` calls with pairwise distinct keys into
the table that `initialize_hashtable` builds, `find_vehicle` returns what the finite
map of the pairs returns: the value inserted for the key, nothing for a key that was
not inserted, whatever the chains the keys fall in; and on every table with its array
of chains, inserting the key `k` leaves the result of `find_vehicle` for every other
key unchanged. -/
theorem hashtable_finite_map (kvs : List (String × vehicle))
    (hnd : (kvs.map Prod.fst).Nodup) :
    (∀ k, find_vehicle (insert_all initial_args.vehicles kvs) k = spec_lookup kvs k) ∧
    (∀ k v, (k, v) ∈ kvs → find_vehicle (insert_all initial_args.vehicles kvs) k = some v) ∧
    (∀ k, k ∉ kvs.map Prod.fst →
      find_vehicle (insert_all initial_args.vehicles kvs) k = none) ∧
    (∀ (ht : hashtable) (k k1 : String) (v : vehicle), k1 ≠ k →
      find_vehicle (insert_new_entry ht k v) k1 = find_vehicle ht k1) := by
  have hmain : ∀ k, find_vehicle (insert_all initial_args.vehicles kvs) k = spec_lookup kvs k := by
    intro k
    rw [insert_all_find kvs _ state_wf_init.2.1 hnd (fun k1 _ => find_vehicle_fresh k1) k,
      find_vehicle_fresh]
    cases spec_lookup kvs k <;> rfl
  refine ⟨hmain, ?_, ?_, fun ht k k1 v hk => find_vehicle_insert_other ht k k1 v hk⟩
  · intro k v hkv
    rw [hmain]
    clear hmain
    induction kvs with
    | nil => exact absurd hkv (List.not_mem_nil _)
    | cons kv rest ih =>
      obtain ⟨k0, v0⟩ := kv
      simp only [List.map_cons, List.nodup_cons] at hnd
      rw [spec_lookup_cons]
      rcases List.mem_cons.1 hkv with h1 | h1
      · simp only [Prod.mk.injEq] at h1
        rw [if_pos h1.1.symm, h1.2]
      · have hne : k0 ≠ k := by
          intro hc
          apply hnd.1
          rw [hc]
          exact List.mem_map.2 ⟨(k, v), h1, rfl⟩
        rw [if_neg hne]
        exact ih hnd.2 h1
  · intro k hk
    rw [hmain]
    exact spec_lookup_none kvs k hk

theorem hashtable_finite_map_witness :
    find_vehicle (insert_all initial_args.vehicles
      [("AA-00-AA", demo_vehicle), ("BB-11-BB", { demo_vehicle with license_plate := "BB-11-BB" })])
      "BB-11-BB" = some { demo_vehicle with license_plate := "BB-11-BB" } :=
  (hashtable_finite_map
    [("AA-00-AA", demo_vehicle), ("BB-11-BB", { demo_vehicle with license_plate := "BB-11-BB" })]
    (by decide)).2.1 "BB-11-BB" { demo_vehicle with license_plate := "BB-11-BB" } (by simp)

/-- C28: in every state reachable by add, entry, exit and remove commands, the keys of the
entries of the vehicle index are pairwise distinct (at most one entry per plate), the key
of every entry is the plate stored in its vehicle record, every stored plate satisfies
`is_license_plate_valid`, and `num_entries` is the number of entries. -/
theorem index_keys (s : args) (h : reachable s) :
    ((all_entries s.vehicles).map (fun e => e.key)).Nodup ∧
    (∀ e ∈ all_entries s.vehicles, e.key = e.value.license_plate) ∧
    (∀ e ∈ all_entries s.vehicles, is_license_plate_valid e.value.license_plate = 1) ∧
    s.vehicles.num_entries = ((all_entries s.vehicles).length : Int) := by
  obtain ⟨k1, k2, k3, _⟩ := reachable_keys s h
  refine ⟨k1, fun e he => (k2 e he).1, ?_, k3⟩
  intro e he
  rw [← (k2 e he).1]
  exact (is_license_plate_valid_ne _).1 (k2 e he).2

theorem index_keys_witness :
    ((all_entries demo_two_removed.vehicles).map (fun e => e.key)).Nodup ∧
    (∀ e ∈ all_entries demo_two_removed.vehicles, e.key = e.value.license_plate) ∧
    (∀ e ∈ all_entries demo_two_removed.vehicles,
      is_license_plate_valid e.value.license_plate = 1) ∧
    demo_two_removed.vehicles.num_entries =
      ((all_entries demo_two_removed.vehicles).length : Int) :=
  index_keys demo_two_removed (reachable_demo_remove _ _ demo_two_parked_reachable)

/-- C34: for every array of strings, `insertion_sort` on all its elements (a total
function: the two loops are bounded by the number of elements) gives a permutation of the
array that is sorted in non-decreasing `strcmp` order. -/
theorem insertion_sort_sorted_perm (a : List String) :
    List.Perm (insertion_sort a a.length) a ∧
    List.Pairwise (fun x y => strcmp x y ≤ 0) (insertion_sort a a.length) ∧
    (insertion_sort a a.length).length = a.length :=
  insertion_sort_correct a

/-- C29: in every reachable state, for a vehicle `v` that the index holds for the plate
`pl`, `list_vehicle_logs` outputs the history of the specification for the sorted names:
the names are the registered names, each once, in non-decreasing `strcmp` order, and for
each name in turn come the lines of the events of `v` with that parking name, in history
order; these lines are a permutation of the lines of all events of `v`, one line per
event, so every event is output once; the output is the `no entries` line when the
history is empty, and otherwise has only event lines.  For a valid plate that the index
does not hold the output is the `no entries` line. -/
theorem list_vehicle_logs_history (s : args) (h : reachable s) (pl : String) :
    (∀ v, find_vehicle s.vehicles pl = some v →
      ∃ names : List String,
        names = insertion_sort (collect_parking_names s) (collect_parking_names s).length ∧
        (∀ nm, nm ∈ names ↔ ∃ i p, registered s i p ∧ p.name = nm) ∧ names.Nodup ∧
        List.Pairwise (fun x y => strcmp x y ≤ 0) names ∧
        list_vehicle_logs s (some pl) =
          Result.ok (if v.my_logs = [] then [Output.no_entries_found pl]
            else spec_history names v.my_logs) ∧
        List.Perm (spec_history names v.my_logs) (event_lines v.my_logs) ∧
        (event_lines v.my_logs).length = v.my_logs.length ∧
        (∀ o ∈ spec_history names v.my_logs, ∃ n t x, o = Output.log_line n t x)) ∧
    (find_vehicle s.vehicles pl = none → is_license_plate_valid pl ≠ 0 →
      list_vehicle_logs s (some pl) = Result.ok [Output.no_entries_found pl]) := by
  have hc := reachable_core s h
  constructor
  · intro v hf
    obtain ⟨e, he, hek, hev⟩ := find_vehicle_key _ _ _ hf
    have hval : is_license_plate_valid pl ≠ 0 := by
      rw [← hek]
      exact ((reachable_keys s h).2.1 e he).2
    obtain ⟨hperm, hsorted, _⟩ := insertion_sort_correct (collect_parking_names s)
    have hmem : ∀ nm, nm ∈ insertion_sort (collect_parking_names s)
        (collect_parking_names s).length ↔ ∃ i p, registered s i p ∧ p.name = nm := by
      intro nm
      rw [hperm.mem_iff]
      exact collect_parking_names_mem s hc.1 nm
    have hnd := (hperm.nodup_iff).2 (collect_parking_names_nodup s hc.1)
    have hlogs : ∀ l ∈ v.my_logs, l.parking_name ≠ none ∧ l.entry_date ≠ none := by
      intro l hl
      exact hc.2.2 e he l (by rw [hev]; exact hl)
    have hreg : ∀ l ∈ v.my_logs, ∃ nm ∈ insertion_sort (collect_parking_names s)
        (collect_parking_names s).length, l.parking_name = some nm := by
      intro l hl
      obtain ⟨nm, hn, hex⟩ := reachable_events s h e he l (by rw [hev]; exact hl)
      exact ⟨nm, (hmem nm).2 hex, hn⟩
    have hp := spec_history_perm _ v.my_logs hnd hreg
    have hlen := event_lines_length v.my_logs hlogs
    refine ⟨_, rfl, hmem, hnd, hsorted, ?_, hp, hlen, ?_⟩
    · unfold list_vehicle_logs
      dsimp only
      rw [if_neg (fun h0 => hval h0), hf]
      dsimp only
      rw [list_logs_of_parkings_ok s v hc.1 hlogs _ (fun nm hnm => (hmem nm).1 hnm)]
      dsimp only
      have hiff : spec_history (insertion_sort (collect_parking_names s)
          (collect_parking_names s).length) v.my_logs = [] ↔ v.my_logs = [] := by
        rw [← List.length_eq_zero, hp.length_eq, hlen, List.length_eq_zero]
      by_cases hnil : v.my_logs = []
      · rw [if_pos (hiff.2 hnil), if_pos hnil]
      · rw [if_neg (fun h0 => hnil (hiff.1 h0)), if_neg hnil]
    · intro o ho
      exact event_lines_mem _ o (hp.mem_iff.1 ho)
  · intro hf hval
    unfold list_vehicle_logs
    dsimp only
    rw [if_neg (fun h0 => hval h0), hf]

theorem list_vehicle_logs_history_witness :
    list_vehicle_logs demo_two_parked (some "AA-00-AA") =
      Result.ok
        [Output.log_line "P1" { day := 1, month := 1, year := 2023, hour := 10, minutes := 0 }
           (some { day := 1, month := 1, year := 2023, hour := 11, minutes := 0 }),
         Output.log_line "P2" { day := 1, month := 1, year := 2023, hour := 12, minutes := 0 }
           none] := by
  obtain ⟨names, hn, _, _, _, hl, _⟩ :=
    (list_vehicle_logs_history demo_two_parked demo_two_parked_reachable "AA-00-AA").1
      { license_plate := "AA-00-AA", parking_name := some "P2", is_parked := 1,
        my_logs :=
          [{ license_plate := "AA-00-AA", parking_name := some "P1",
             entry_date := some { day := 1, month := 1, year := 2023, hour := 10, minutes := 0 },
             exit_date := some { day := 1, month := 1, year := 2023, hour := 11, minutes := 0 },
             cost := 3 },
           { license_plate := "AA-00-AA", parking_name := some "P2",
             entry_date := some { day := 1, month := 1, year := 2023, hour := 12, minutes := 0 },
             exit_date := none, cost := 0 }] }
      (by decide!)
  rw [hl, hn]
  decide!

/-- C30, evaluation of the code at the failing input: in the reachable state in which
`Parking1` has one billing day, of 01-02-2023, the revenue query for the date token
32-01-2023 is not rejected and prints the billing record of that billing day, although
no billing day has the year, month and day of the query. -/
theorem show_revenue_other_calendar_day :
    reachable demo_month_end ∧
    (demo_month_end.parkings.getD 0 none).map (fun p => (p.name, p.billing_day_log.map
      (fun b => (b.exit_date.day, b.exit_date.month, b.exit_date.year)))) =
      some ("Parking1", [(1, 2, 2023)]) ∧
    compare_dates (some { day := 1, month := 2, year := 2023, hour := 0, minutes := 0 })
      (some { day := 32, month := 1, year := 2023, hour := 0, minutes := 0 }) = 0 ∧
    show_day_revenue_list demo_month_end "Parking1"
      { day := 32, month := 1, year := 2023, hour := 0, minutes := 0 } =
      Result.ok [Output.revenue_line "AA-00-AA" 0 0 20] ∧
    show_revenue demo_month_end (some "Parking1") (some { day := 32, month := 1, year := 2023 }) =
      Result.ok [Output.revenue_line "AA-00-AA" 0 0 20] :=
  ⟨reachable_demo_exit _ _ _ _ _ (reachable_demo_entry _ _ _ _ _
      (reached_reachable _ demo_added_reached)),
    by decide!, by decide!, by decide!, by decide!⟩

/-- C33, evaluation of the code at the failing input: for the real timestamps 02-01-2023
00:00 and 01-01-2023 00:00 `compare_dates` is negative when `date_1` is the later one
and positive when `date_2` is the later one, while a null `date_1` gives 1 and a null
`date_2` gives -1. -/
theorem compare_dates_sign :
    compare_dates (some { day := 2, month := 1, year := 2023, hour := 0, minutes := 0 })
      (some { day := 1, month := 1, year := 2023, hour := 0, minutes := 0 }) = -1440 ∧
    compare_dates (some { day := 1, month := 1, year := 2023, hour := 0, minutes := 0 })
      (some { day := 2, month := 1, year := 2023, hour := 0, minutes := 0 }) = 1440 ∧
    compare_dates none
      (some { day := 1, month := 1, year := 2023, hour := 0, minutes := 0 }) = 1 ∧
    compare_dates (some { day := 1, month := 1, year := 2023, hour := 0, minutes := 0 })
      none = -1 :=
  ⟨by decide, by decide, by decide, by decide⟩

/-- C35, evaluation of the code at the failing input: in the reachable state after `P1`
was removed while `AA-00-AA` was parked at `P2`, the registered parking `P2` has
capacity 1 and 0 free spaces and no vehicle of the index is parked at `P2`, so free
spaces plus parked vehicles is 0, not the capacity. -/
theorem remove_parking_breaks_capacity :
    reachable demo_two_removed ∧
    (∃ p, registered demo_two_removed 0 p ∧ p.name = "P2" ∧ p.max_capacity = 1 ∧
      p.free_spaces = 0 ∧
      p.free_spaces + parked_count demo_two_removed.vehicles p.name ≠ p.max_capacity) ∧
    parked_count demo_two_removed.vehicles "P2" = 0 ∧
    parked_count demo_two_parked.vehicles "P2" = 1 := by
  refine ⟨reachable_demo_remove _ _ demo_two_parked_reachable, ?_, by decide!, by decide!⟩
  exact ⟨{ name := "P2", max_capacity := 1, cost_x := 1, cost_y := 2, cost_z := 3,
           free_spaces := 0, billing_day_log := [] },
    ⟨by decide!, by decide!⟩, rfl, rfl, rfl, by decide!⟩

/-- C36, evaluation of the code at the failing input: in the reachable state with twenty
registered parkings the loop of `find_parking` for the unregistered name `ZZ` passes
the slots 0 to 19 without a match (twenty iterations return nothing) and its
twenty-first iteration reads slot 20 of the array of `MAX_PARKINGS` = 20 slots. -/
theorem find_parking_reads_slot_20 :
    reachable demo_full ∧ demo_full.park_counter = 20 ∧ MAX_PARKINGS = 20 ∧
    demo_full.parkings.length = 20 ∧
    find_parking_loop demo_full.parkings "ZZ" 20 0 = Result.ok none ∧
    find_parking_loop demo_full.parkings "ZZ" 1 20 = Result.fault Fault.out_of_bounds ∧
    find_parking_loop demo_full.parkings "ZZ" (demo_full.park_counter + 1).toNat 0 =
      Result.fault Fault.out_of_bounds :=
  ⟨reached_reachable _ demo_full_reached, by decide!, rfl, by decide!, by decide!, by decide!,
    by decide!⟩

/-- The minute difference in exact integer arithmetic (no overflow of `int`): for
calendar-valid timestamps `t1` and `t2`, `get_all_minutes t1 t2` is
`M(t2) - M(t1)` for the minute count `M` of the specification, it is positive exactly
when `t1` is strictly earlier than `t2` in the order on (year, month, day, hour,
minute), zero exactly when `t1 = t2`, and negative exactly when `t2` is strictly earlier
than `t1`. -/
theorem get_all_minutes_spec (t1 t2 : date) (h1 : calendar_valid t1)
    (h2 : calendar_valid t2) :
    get_all_minutes t1 t2 = spec_minutes t2 - spec_minutes t1 ∧
    (get_all_minutes t1 t2 > 0 ↔ date_earlier t1 t2) ∧
    (get_all_minutes t1 t2 = 0 ↔ t1 = t2) ∧
    (get_all_minutes t1 t2 < 0 ↔ date_earlier t2 t1) := by
  unfold get_all_minutes
  dsimp only
  refine ⟨by rw [date_minutes_eq_spec t1 h1, date_minutes_eq_spec t2 h2], ?_, ?_, ?_⟩
  · rw [← date_minutes_lt_iff t1 t2 h1 h2]
    constructor <;> intro h <;> omega
  · rw [← date_minutes_eq_iff t1 t2 h1 h2]
    constructor <;> intro h <;> omega
  · rw [← date_minutes_lt_iff t2 t1 h2 h1]
    constructor <;> intro h <;> omega

theorem get_all_minutes_spec_witness :
    get_all_minutes (token_date demo_day { hour := 10, minutes := 0 })
        (token_date demo_day demo_exit_time) =
      spec_minutes (token_date demo_day demo_exit_time) -
        spec_minutes (token_date demo_day { hour := 10, minutes := 0 }) ∧
    (get_all_minutes (token_date demo_day { hour := 10, minutes := 0 })
        (token_date demo_day demo_exit_time) > 0 ↔
      date_earlier (token_date demo_day { hour := 10, minutes := 0 })
        (token_date demo_day demo_exit_time)) ∧
    (get_all_minutes (token_date demo_day { hour := 10, minutes := 0 })
        (token_date demo_day demo_exit_time) = 0 ↔
      token_date demo_day { hour := 10, minutes := 0 } = token_date demo_day demo_exit_time) ∧
    (get_all_minutes (token_date demo_day { hour := 10, minutes := 0 })
        (token_date demo_day demo_exit_time) < 0 ↔
      date_earlier (token_date demo_day demo_exit_time)
        (token_date demo_day { hour := 10, minutes := 0 })) :=
  get_all_minutes_spec (token_date demo_day { hour := 10, minutes := 0 })
    (token_date demo_day demo_exit_time) (by decide) (by decide)

/-- The comparison in exact integer arithmetic (no overflow of `int`): for
calendar-valid timestamps `t1` and `t2` (neither null), `compare_dates` is
0 exactly when they have the same year, month and day, whatever the time of day; on
different calendar days the result is `get_all_minutes t1 t2` and is not zero, positive
exactly when `t1` is strictly earlier than `t2`. -/
theorem compare_dates_same_day_iff (t1 t2 : date) (h1 : calendar_valid t1)
    (h2 : calendar_valid t2) :
    (compare_dates (some t1) (some t2) = 0 ↔
      (t1.year = t2.year ∧ t1.month = t2.month ∧ t1.day = t2.day)) ∧
    (¬ (t1.year = t2.year ∧ t1.month = t2.month ∧ t1.day = t2.day) →
      compare_dates (some t1) (some t2) = get_all_minutes t1 t2 ∧
      compare_dates (some t1) (some t2) ≠ 0 ∧
      (compare_dates (some t1) (some t2) > 0 ↔ date_earlier t1 t2) ∧
      (compare_dates (some t1) (some t2) < 0 ↔ date_earlier t2 t1)) := by
  have hz := compare_dates_zero_iff t1 t2 h1 h2
  refine ⟨hz, ?_⟩
  intro hne
  have heq : compare_dates (some t1) (some t2) = get_all_minutes t1 t2 := by
    unfold compare_dates
    dsimp only
    rw [if_neg hne]
  have hn0 : compare_dates (some t1) (some t2) ≠ 0 := fun h => hne (hz.1 h)
  refine ⟨heq, hn0, ?_, ?_⟩
  · rw [heq]
    unfold get_all_minutes
    dsimp only
    rw [← date_minutes_lt_iff t1 t2 h1 h2]
    constructor <;> intro h <;> omega
  · rw [heq]
    unfold get_all_minutes
    dsimp only
    rw [← date_minutes_lt_iff t2 t1 h2 h1]
    constructor <;> intro h <;> omega

theorem compare_dates_same_day_iff_witness :
    compare_dates (some (token_date demo_day { hour := 10, minutes := 0 }))
      (some (token_date demo_day demo_exit_time)) = 0 :=
  (compare_dates_same_day_iff (token_date demo_day { hour := 10, minutes := 0 })
    (token_date demo_day demo_exit_time) (by decide) (by decide)).1.2 ⟨rfl, rfl, rfl⟩

/-- C37: in every state reachable by add, entry, exit and remove commands, every vehicle
of the index whose parked flag is set has a non-empty history whose last event has no
exit date and names the current parking of the vehicle, and that parking is registered;
and an exit command that changes the state finds the vehicle with such a last event for
the parking of the command and leaves the vehicle with exactly that event closed (exit
date and cost set), the earlier events unchanged. -/
theorem parked_vehicle_open_event (s : args) (h : reachable s) :
    (∀ e ∈ all_entries s.vehicles, e.value.is_parked ≠ 0 →
      ∃ l nm, e.value.my_logs.getLast? = some l ∧ l.exit_date = none ∧
        l.parking_name = some nm ∧ e.value.parking_name = some nm ∧
        ∃ i p, registered s i p ∧ p.name = nm) ∧
    (∀ (name plate : Option String) (d : Option date_token) (t : Option time_token)
      (s1 : args) (out : List Output),
      register_exit s name plate d t = Result.ok (s1, out) → s1 ≠ s →
      ∃ nm pl dt tt v l c, name = some nm ∧ plate = some pl ∧ d = some dt ∧ t = some tt ∧
        find_vehicle s.vehicles pl = some v ∧ v.is_parked ≠ 0 ∧
        v.my_logs.getLast? = some l ∧ l.exit_date = none ∧ l.parking_name = some nm ∧
        find_vehicle s1.vehicles pl =
          some { v with
            is_parked := 0
            parking_name := none
            my_logs := v.my_logs.dropLast ++
              [{ l with exit_date := some (token_date dt tt), cost := c }] }) := by
  have hp := reachable_parked_open s h
  have hc := reachable_core s h
  refine ⟨hp, ?_⟩
  intro name plate d t s1 out hrun hne
  rcases register_exit_cases s s1 out name plate d t hrun with h1 | h1
  · exact absurd h1.1 hne
  · obtain ⟨nm, pl, dt, tt, slot, park, v, hn, hpl, hd, ht, hck, hcommit⟩ := h1
    obtain ⟨last_log, ed, cost, park2, hlast, _, _, _, hs1⟩ :=
      register_exit_commit_shape _ _ _ _ _ _ _ _ hcommit
    obtain ⟨_, hpn⟩ := find_parking_registered s nm slot park hc.1 hck.1
    obtain ⟨e0, he0, hv0⟩ := find_vehicle_mem _ _ _ hck.2.2.1
    obtain ⟨l, n, h2, h3, h4, h5, _⟩ := hp e0 he0 (by rw [hv0]; exact hck.2.2.2.1)
    rw [hv0] at h2 h5
    have hl : l = last_log := Option.some.inj (h2.symm.trans hlast)
    have hnn : n = nm := by
      have := h5.symm.trans hck.2.2.2.2.1
      simp only [Option.some.injEq] at this
      rw [this, hpn]
    refine ⟨nm, pl, dt, tt, v, last_log, cost, hn, hpl, hd, ht, hck.2.2.1, hck.2.2.2.1, hlast,
      by rw [← hl]; exact h3, by rw [← hl, h4, hnn], ?_⟩
    rw [hs1]
    exact find_vehicle_store_same _ _ v _ hck.2.2.1

theorem parked_vehicle_open_event_witness :
    ∃ l nm, demo_vehicle.my_logs.getLast? = some l ∧ l.exit_date = none ∧
      l.parking_name = some nm ∧ demo_vehicle.parking_name = some nm ∧
      ∃ i p, registered demo_parked i p ∧ p.name = nm :=
  (parked_vehicle_open_event demo_parked (reached_reachable _ demo_parked_reached)).1
    { key := "AA-00-AA", value := demo_vehicle } (by decide!) (by decide)

/-- The elapsed minutes in exact integer arithmetic (no overflow of `int`): in every
reachable state, for an exit that passes the checks of `register_exit`
the minutes from the entry date of the last event of the vehicle to the exit date are
not negative, and so are the day count, the remainder and the quarter count that
`calculate_cost` computes from them; and in every reachable state no event has an exit
date earlier than its entry date, so the minutes of every closed event are not
negative. -/
theorem exit_minutes_nonneg (s : args) (h : reachable s) :
    (∀ (nm pl : String) (dt : date_token) (tt : time_token) (slot : Nat) (park : parking)
      (v : vehicle) (l : vehicle_log) (te : date),
      exit_checks s nm pl dt tt slot park v → v.my_logs.getLast? = some l →
      l.entry_date = some te →
      ¬ date_earlier (token_date dt tt) te ∧
      0 ≤ get_all_minutes te (token_date dt tt) ∧
      0 ≤ Int.tdiv (get_all_minutes te (token_date dt tt)) (24 * 60) ∧
      0 ≤ Int.tmod (get_all_minutes te (token_date dt tt)) (24 * 60) ∧
      0 ≤ Int.tdiv (Int.tmod (get_all_minutes te (token_date dt tt)) (24 * 60) + 14) 15) ∧
    (∀ e ∈ all_entries s.vehicles, ∀ l ∈ e.value.my_logs, ∀ te tx,
      l.entry_date = some te → l.exit_date = some tx →
      ¬ date_earlier tx te ∧ 0 ≤ get_all_minutes te tx) := by
  have hd := reachable_dates_valid s h
  have hh := reachable_history s h
  constructor
  · intro nm pl dt tt slot park v l te hck hlast hte
    obtain ⟨e0, he0, hv0⟩ := find_vehicle_mem _ _ _ hck.2.2.1
    have hmem : l ∈ e0.value.my_logs := by
      rw [hv0]; exact List.mem_of_mem_getLast? hlast
    have hacc := hck.2.2.2.2.2
    have hle := (floor_step _ _ s hacc ((hh e0 he0).2 l hmem te hte)).2
    have hm := get_all_minutes_nonneg te (token_date dt tt) ((hd e0 he0 l hmem).1 te hte)
      (accepted_floor _ s hacc).1 hle
    have hr := Int.tmod_nonneg (24 * 60) hm
    exact ⟨hle, hm, Int.tdiv_nonneg hm (by norm_num), hr,
      Int.tdiv_nonneg (by omega) (by norm_num)⟩
  · intro e he l hl te tx hte htx
    obtain ⟨h1, h2, h3⟩ := hd e he l hl
    exact ⟨h3 te tx hte htx, get_all_minutes_nonneg te tx (h1 te hte) (h2 tx htx)
      (h3 te tx hte htx)⟩

theorem exit_minutes_nonneg_witness :
    ¬ date_earlier (token_date demo_day demo_exit_time)
        (token_date demo_day { hour := 10, minutes := 0 }) ∧
    0 ≤ get_all_minutes (token_date demo_day { hour := 10, minutes := 0 })
      (token_date demo_day demo_exit_time) ∧
    0 ≤ Int.tdiv (get_all_minutes (token_date demo_day { hour := 10, minutes := 0 })
      (token_date demo_day demo_exit_time)) (24 * 60) ∧
    0 ≤ Int.tmod (get_all_minutes (token_date demo_day { hour := 10, minutes := 0 })
      (token_date demo_day demo_exit_time)) (24 * 60) ∧
    0 ≤ Int.tdiv (Int.tmod (get_all_minutes (token_date demo_day { hour := 10, minutes := 0 })
      (token_date demo_day demo_exit_time)) (24 * 60) + 14) 15 :=
  (exit_minutes_nonneg demo_parked (reached_reachable _ demo_parked_reached)).1
    "Parking1" "AA-00-AA" demo_day demo_exit_time 0
    { demo_parking with free_spaces := 1 } demo_vehicle
    { license_plate := "AA-00-AA", parking_name := some "Parking1",
      entry_date := some (token_date demo_day { hour := 10, minutes := 0 }),
      exit_date := none, cost := 0 }
    (token_date demo_day { hour := 10, minutes := 0 })
    (by unfold exit_checks; decide!) (by decide) rfl

/-- C40: for calendar-valid timestamps `t1` and `t2` with years from 0 to 4084, every
intermediate value of the two per-date totals of `get_all_minutes` (products, partial
sums, the accumulator after each month) is between 0 and 2^31 - 1, the difference of the
totals fits in a signed 32-bit `int`, and the computation in signed 32-bit arithmetic
gives the exact value: `get_all_minutes_int32 t1 t2 = get_all_minutes t1 t2`, which is
the difference of the minute counts of the specification. -/
theorem get_all_minutes_no_overflow (t1 t2 : date) (h1 : calendar_valid t1)
    (h2 : calendar_valid t2) (hy1 : 0 ≤ t1.year ∧ t1.year ≤ 4084)
    (hy2 : 0 ≤ t2.year ∧ t2.year ≤ 4084) :
    (∀ x ∈ date_minutes_steps t1 ++ date_minutes_steps t2, 0 ≤ x ∧ x ≤ 2 ^ 31 - 1) ∧
    date_minutes_int32 t1 = date_minutes t1 ∧ date_minutes_int32 t2 = date_minutes t2 ∧
    -(2 ^ 31) ≤ get_all_minutes t1 t2 ∧ get_all_minutes t1 t2 ≤ 2 ^ 31 - 1 ∧
    get_all_minutes_int32 t1 t2 = get_all_minutes t1 t2 ∧
    get_all_minutes_int32 t1 t2 = spec_minutes t2 - spec_minutes t1 := by
  obtain ⟨a1, a2, a3, a4⟩ := date_minutes_int32_eq t1 h1 hy1.1 hy1.2
  obtain ⟨b1, b2, b3, b4⟩ := date_minutes_int32_eq t2 h2 hy2.1 hy2.2
  have heq : get_all_minutes_int32 t1 t2 = get_all_minutes t1 t2 := by
    unfold get_all_minutes_int32 get_all_minutes
    dsimp only
    rw [a1, b1]
    exact wrap32_id _ (by omega) (by omega)
  have hp : (2 : Int) ^ 31 = 2147483648 := by norm_num
  refine ⟨?_, a1, b1, ?_, ?_, heq, ?_⟩
  · intro x hx
    rw [hp]
    rcases List.mem_append.1 hx with h | h
    · have := a4 x h
      omega
    · have := b4 x h
      omega
  · rw [hp]
    unfold get_all_minutes
    dsimp only
    omega
  · rw [hp]
    unfold get_all_minutes
    dsimp only
    omega
  · rw [heq]
    unfold get_all_minutes
    dsimp only
    rw [date_minutes_eq_spec t1 h1, date_minutes_eq_spec t2 h2]

theorem get_all_minutes_no_overflow_witness :
    get_all_minutes_int32 (token_date demo_day { hour := 10, minutes := 0 })
        (token_date demo_day demo_exit_time) =
      get_all_minutes (token_date demo_day { hour := 10, minutes := 0 })
        (token_date demo_day demo_exit_time) :=
  (get_all_minutes_no_overflow (token_date demo_day { hour := 10, minutes := 0 })
    (token_date demo_day demo_exit_time) (by decide) (by decide) (by decide)
    (by decide)).2.2.2.2.2.1

/-- C39: in every state reachable by add, entry, exit and remove commands, with costs as
exact rationals, for every registered parking the total of each of its billing days is
the sum of the costs of the records of that day, and the sum of the totals of its billing
days is the sum, over the histories of all vehicles of the index, of the stored costs of
the events that name the parking and have an exit date. -/
theorem ledger_totals (s : args) (h : reachable s) (i : Nat) (p : parking)
    (hp : registered s i p) :
    (∀ b ∈ p.billing_day_log, b.total_cost = (b.vehicle_log.map (fun l => l.cost)).sum) ∧
    billing_total p = closed_total s.vehicles p.name ∧
    (p.billing_day_log.map (fun b => b.total_cost)).sum =
      ((all_entries s.vehicles).map (fun e =>
        ((e.value.my_logs.filter
          (fun l => decide (l.parking_name = some p.name ∧ l.exit_date ≠ none))).map
            (fun l => l.cost)).sum)).sum := by
  have ht := reachable_totals s h
  exact ⟨ht.1 i p hp.2, ht.2 i p hp, ht.2 i p hp⟩

theorem ledger_totals_witness :
    billing_total
      { name := "P1", max_capacity := 1, cost_x := 1, cost_y := 2, cost_z := 3, free_spaces := 1,
        billing_day_log :=
          [{ exit_date := { day := 1, month := 1, year := 2023, hour := 11, minutes := 0 },
             total_cost := 3,
             vehicle_log :=
               [{ license_plate := "AA-00-AA", parking_name := none, entry_date := none,
                  exit_date := some { day := 1, month := 1, year := 2023, hour := 11,
                                      minutes := 0 },
                  cost := 3 }] }] } =
      closed_total demo_two_parked.vehicles "P1" :=
  (ledger_totals demo_two_parked demo_two_parked_reachable 0
    { name := "P1", max_capacity := 1, cost_x := 1, cost_y := 2, cost_z := 3, free_spaces := 1,
      billing_day_log :=
        [{ exit_date := { day := 1, month := 1, year := 2023, hour := 11, minutes := 0 },
           total_cost := 3,
           vehicle_log :=
             [{ license_plate := "AA-00-AA", parking_name := none, entry_date := none,
                exit_date := some { day := 1, month := 1, year := 2023, hour := 11,
                                    minutes := 0 },
                cost := 3 }] }] }
    ⟨by decide!, by decide!⟩).2.1

/-- C31, evaluation of the code at the failing input: the timestamps 01-01-0000 00:00 and
01-01-4086 00:00 are calendar-valid and the first is strictly earlier, the minute count of
the specification gives `M(t2) - M(t1)` = 2147601600, and `get_all_minutes` in the 32-bit
arithmetic of the program returns -2147365696, a negative number. -/
theorem get_all_minutes_int32_year_4086 :
    calendar_valid { day := 1, month := 1, year := 0, hour := 0, minutes := 0 } ∧
    calendar_valid { day := 1, month := 1, year := 4086, hour := 0, minutes := 0 } ∧
    date_earlier { day := 1, month := 1, year := 0, hour := 0, minutes := 0 }
      { day := 1, month := 1, year := 4086, hour := 0, minutes := 0 } ∧
    spec_minutes { day := 1, month := 1, year := 4086, hour := 0, minutes := 0 } -
      spec_minutes { day := 1, month := 1, year := 0, hour := 0, minutes := 0 } = 2147601600 ∧
    get_all_minutes_int32 { day := 1, month := 1, year := 0, hour := 0, minutes := 0 }
      { day := 1, month := 1, year := 4086, hour := 0, minutes := 0 } = -2147365696 := by
  refine ⟨by decide, by decide, by decide, by decide, by decide⟩

/-- C32, evaluation of the code at the failing input: the calendar-valid timestamps
01-01-0001 00:00 and 21-07-8172 04:16 are on different calendar days, `2 ^ 32` minutes
apart, and `compare_dates` in the 32-bit arithmetic of the program returns 0 for them;
for 01-01-0000 00:00 and the later 01-01-4086 00:00 it returns a negative number. -/
theorem compare_dates_int32_other_day :
    calendar_valid demo_year_one ∧ calendar_valid demo_year_8172 ∧
    demo_year_one.year ≠ demo_year_8172.year ∧
    spec_minutes demo_year_8172 - spec_minutes demo_year_one = 4294967296 ∧
    get_all_minutes_int32 demo_year_one demo_year_8172 = 0 ∧
    compare_dates_int32 (some demo_year_one) (some demo_year_8172) = 0 ∧
    compare_dates_int32 (some { day := 1, month := 1, year := 0, hour := 0, minutes := 0 })
      (some { day := 1, month := 1, year := 4086, hour := 0, minutes := 0 }) = -2147365696 := by
  refine ⟨by decide, by decide, by decide, by decide, by decide, by decide, by decide⟩

/-- C21, evaluation of the code at the failing input: the parking `P` has the one billing
day 01-01-0001; for the exit date 21-07-8172 04:16, a calendar-valid date of another
year, `add_new_exit` in the 32-bit arithmetic of the program creates no billing day: it
appends the record to the billing day 01-01-0001 and adds the cost to its total. -/
theorem add_new_exit_int32_old_day :
    calendar_valid demo_year_one ∧ calendar_valid demo_year_8172 ∧
    demo_old_parking.billing_day_log.map (fun b => b.exit_date) = [demo_year_one] ∧
    ¬ (demo_year_one.year = demo_year_8172.year ∧ demo_year_one.month = demo_year_8172.month ∧
        demo_year_one.day = demo_year_8172.day) ∧
    compare_dates_int32 (some demo_year_one) (some demo_year_8172) = 0 ∧
    add_new_exit_int32 (some demo_old_parking) (some demo_year_8172) 0
        (some demo_left_vehicle) =
      Result.ok (some { demo_old_parking with
        billing_day_log :=
          [{ exit_date := demo_year_one, total_cost := 0 + 0,
             vehicle_log := [new_billing_record demo_year_one 0 demo_left_vehicle,
                             new_billing_record demo_year_8172 0 demo_left_vehicle] }] }) := by
  refine ⟨by decide, by decide, by decide, by decide, by decide, by decide!⟩

/-- Counterexample to C13 as stated: the rates 1, 2 and a daily cap of plus infinity (the
`double` that `atof` reads from the token `inf`) satisfy `0 < x < y < z` and
`add_new_parking` accepts them; for an elapsed time of 0 minutes `calculate_cost`
computes `0 * inf` and returns NaN, not 0. -/
theorem calculate_cost_fp_infinite_cap :
    fp_lt (fp.finite 0) (fp.finite 1) = true ∧ fp_lt (fp.finite 1) (fp.finite 2) = true ∧
    fp_lt (fp.finite 2) fp.pos_inf = true ∧
    add_new_parking_fp initial_args "Y" 5 (fp.finite 1) (fp.finite 2) fp.pos_inf =
      Result.ok (0, some { name := "Y", max_capacity := 5, cost_x := fp.finite 1,
                           cost_y := fp.finite 2, cost_z := fp.pos_inf, free_spaces := 5,
                           billing_day_log := [] }, []) ∧
    get_all_minutes_int32 (token_date demo_day { hour := 10, minutes := 0 })
      (token_date demo_day { hour := 10, minutes := 0 }) = 0 ∧
    calculate_cost_fp
      { name := "Y", max_capacity := 5, cost_x := fp.finite 1, cost_y := fp.finite 2,
        cost_z := fp.pos_inf, free_spaces := 5, billing_day_log := [] }
      (demo_stay "Y" (token_date demo_day { hour := 10, minutes := 0 })) =
      Result.ok fp.nan := by
  refine ⟨by decide!, by decide!, by decide!, by decide!, by decide, by decide!⟩

/-- C13, amended: for finite rates `0 < x < y < z` (the cap `z` a finite `double`),
`calculate_cost` as the program computes it returns 0 for an elapsed time of 0 minutes
and exactly `z` for an elapsed time of 1440 minutes. -/
theorem calculate_cost_fp_zero_and_day (park : parking_fp) (l : vehicle_log) (e x : date)
    (z : ℚ) (he : l.entry_date = some e) (hx : l.exit_date = some x)
    (hpx : fp_lt (fp.finite 0) park.cost_x = true)
    (hxy : fp_lt park.cost_x park.cost_y = true)
    (hyz : fp_lt park.cost_y park.cost_z = true)
    (hz : park.cost_z = fp.finite z) (hd : is_double park.cost_z) :
    (get_all_minutes_int32 e x = 0 → calculate_cost_fp park l = Result.ok (fp.finite 0)) ∧
    (get_all_minutes_int32 e x = 1440 →
      calculate_cost_fp park l = Result.ok (fp.finite z)) := by
  have hxz : fp_lt (fp.finite 0) park.cost_z = true :=
    fp_lt_trans _ _ _ (fp_lt_trans _ _ _ hpx hxy) hyz
  rw [hz] at hxz hd
  have hz0 : (0 : ℚ) < z := by simpa [fp_lt] using hxz
  have hrz : fp_round z = fp.finite z := hd
  have hxf : ∃ p, park.cost_x = fp.finite p := by
    have h1 := fp_lt_trans _ _ _ hxy hyz
    rw [hz] at h1
    cases hcx : park.cost_x with
    | finite p => exact ⟨p, rfl⟩
    | pos_inf => rw [hcx] at h1; simp [fp_lt] at h1
    | neg_inf => rw [hcx] at hpx; simp [fp_lt] at hpx
    | nan => rw [hcx] at hpx; simp [fp_lt] at hpx
  obtain ⟨p, hp⟩ := hxf
  have hq : Int.tdiv (Int.tmod (0 : Int) (24 * 60) + 14) 15 = 0 := by decide
  have hq1 : Int.tdiv (Int.tmod (1440 : Int) (24 * 60) + 14) 15 = 0 := by decide
  have hd0 : Int.tdiv (0 : Int) (24 * 60) = 0 := by decide
  have hd1 : Int.tdiv (1440 : Int) (24 * 60) = 1 := by decide
  have hrem : fp_mul (fp_of_int 0) park.cost_x = fp.finite 0 := by
    rw [hp, fp_of_int_zero]
    show fp_round (0 * p) = fp.finite 0
    rw [zero_mul]; exact fp_round_zero
  have hlt : fp_lt (fp.finite 0) (fp.finite z) = true := hxz
  constructor
  · intro hm
    rw [calculate_cost_fp_eq park l e x 0 he hx hm, hq, hd0]
    rw [if_neg (show ¬ ((0 : Int) > 4) by decide), hrem, hz, hlt, if_pos rfl, fp_of_int_zero]
    show Result.ok (fp_add (fp_add (fp.finite 0) (fp_round (0 * z))) (fp.finite 0)) = _
    rw [zero_mul, fp_round_zero]
    show Result.ok (fp_add (fp_round (0 + 0)) (fp.finite 0)) = _
    rw [add_zero, fp_round_zero]
    show Result.ok (fp_round (0 + 0)) = _
    rw [add_zero, fp_round_zero]
  · intro hm
    rw [calculate_cost_fp_eq park l e x 1440 he hx hm, hq1, hd1]
    rw [if_neg (show ¬ ((0 : Int) > 4) by decide), hrem, hz, hlt, if_pos rfl, fp_of_int_one]
    show Result.ok (fp_add (fp_add (fp.finite 0) (fp_round (1 * z))) (fp.finite 0)) = _
    rw [one_mul, hrz]
    show Result.ok (fp_add (fp_round (0 + z)) (fp.finite 0)) = _
    rw [zero_add, hrz]
    show Result.ok (fp_round (z + 0)) = _
    rw [add_zero, hrz]

/-- Witness of C13, amended: exactly one day in `Parking1` costs the daily cap 20. -/
theorem calculate_cost_fp_zero_and_day_witness :
    get_all_minutes_int32 (token_date demo_day { hour := 10, minutes := 0 })
      { day := 2, month := 1, year := 2023, hour := 10, minutes := 0 } = 1440 ∧
    calculate_cost_fp (parking_fp_of demo_parking)
      (demo_stay "Parking1" { day := 2, month := 1, year := 2023, hour := 10, minutes := 0 }) =
      Result.ok (fp.finite 20) :=
  ⟨by decide,
    (calculate_cost_fp_zero_and_day (parking_fp_of demo_parking)
      (demo_stay "Parking1" { day := 2, month := 1, year := 2023, hour := 10, minutes := 0 })
      (token_date demo_day { hour := 10, minutes := 0 })
      { day := 2, month := 1, year := 2023, hour := 10, minutes := 0 } 20 rfl rfl
      (by decide!) (by decide!) (by decide!) (by decide!) (by decide!)).2 (by decide)⟩

/-- Counterexample to C14 as stated: with the rates 0.01, 0.02 and 0.1 as `double` values
(accepted by `add_new_parking`) and an elapsed time of 4319 minutes, two days and 1439
minutes, `calculate_cost` returns the `double` 0.3000000000000000444, which is greater
than `(4319 div 1440 + 1) * z`, three times the value 0.1000000000000000055 of the
cap: the sum `0.2 + 0.1` is rounded up. -/
theorem calculate_cost_fp_above_bound :
    fp_round (1 / 100) = fp.finite (5764607523034235 / 576460752303423488) ∧
    fp_round (2 / 100) = fp.finite (5764607523034235 / 288230376151711744) ∧
    fp_round (1 / 10) = fp.finite (3602879701896397 / 36028797018963968) ∧
    add_new_parking_fp initial_args "Z" 5 (fp_round (1 / 100)) (fp_round (2 / 100))
        (fp_round (1 / 10)) =
      Result.ok (0, some { name := "Z", max_capacity := 5, cost_x := fp_round (1 / 100),
                           cost_y := fp_round (2 / 100), cost_z := fp_round (1 / 10),
                           free_spaces := 5, billing_day_log := [] }, []) ∧
    get_all_minutes_int32 (token_date demo_day { hour := 10, minutes := 0 })
      { day := 4, month := 1, year := 2023, hour := 9, minutes := 59 } = 4319 ∧
    (4319 : Int) / 1440 = 2 ∧
    calculate_cost_fp
      { name := "Z", max_capacity := 5, cost_x := fp_round (1 / 100),
        cost_y := fp_round (2 / 100), cost_z := fp_round (1 / 10), free_spaces := 5,
        billing_day_log := [] }
      (demo_stay "Z" { day := 4, month := 1, year := 2023, hour := 9, minutes := 59 }) =
      Result.ok (fp.finite (1351079888211149 / 4503599627370496)) ∧
    (((4319 : Int) / 1440 : Int) + 1 : ℚ) * (3602879701896397 / 36028797018963968) <
      1351079888211149 / 4503599627370496 := by
  refine ⟨by decide!, by decide!, by decide!, by decide!, by decide, by decide,
    by decide!, by norm_num⟩

/-- Counterexample to C16 as stated: with the three rates NaN (the `double` that `atof`
reads from the token `nan`) both rate checks of `add_new_parking` are false, so the call
on the initial state returns 0 and stores the parking, although no rate is greater
than 0. -/
theorem add_new_parking_fp_nan :
    add_new_parking_fp initial_args "X" 5 fp.nan fp.nan fp.nan =
      Result.ok (0, some { name := "X", max_capacity := 5, cost_x := fp.nan,
                           cost_y := fp.nan, cost_z := fp.nan, free_spaces := 5,
                           billing_day_log := [] }, []) ∧
    fp_lt (fp.finite 0) fp.nan = false ∧ fp_lt fp.nan fp.nan = false := by
  refine ⟨by decide!, by decide!, by decide!⟩

/-- C16, amended: in a state with a well-formed registry and for rates that are not NaN,
`add_new_parking` returns 0 exactly when fewer than `MAX_PARKINGS` facilities are
registered, no registered facility has the name, the capacity is positive, the three
rates are positive and `cost_x < cost_y < cost_z`; once the registry check and the name
check have passed, a capacity `<= 0` is reported as invalid capacity, and with a
positive capacity a rate triple that is not positive or not strictly increasing is
reported as invalid cost. -/
theorem add_new_parking_fp_success_iff (s : args) (name : String) (c : Int) (x y z : fp)
    (hwf : registry_wf s) (hx : x ≠ fp.nan) (hy : y ≠ fp.nan) (hz : z ≠ fp.nan) :
    ((∃ r out, add_new_parking_fp s name c x y z = Result.ok (0, r, out)) ↔
      (s.park_counter < MAX_PARKINGS ∧ (∀ i p, registered s i p → p.name ≠ name) ∧
        0 < c ∧ fp_lt (fp.finite 0) x = true ∧ fp_lt (fp.finite 0) y = true ∧
        fp_lt (fp.finite 0) z = true ∧ fp_lt x y = true ∧ fp_lt y z = true)) ∧
    (s.park_counter < MAX_PARKINGS → (∀ i p, registered s i p → p.name ≠ name) → c ≤ 0 →
      add_new_parking_fp s name c x y z =
        Result.ok (-1, none, [Output.invalid_capacity c])) ∧
    (s.park_counter < MAX_PARKINGS → (∀ i p, registered s i p → p.name ≠ name) → 0 < c →
      (fp_le x (fp.finite 0) = true ∨ fp_le y (fp.finite 0) = true ∨
        fp_le z (fp.finite 0) = true ∨ ¬ (fp_lt x y = true ∧ fp_lt y z = true)) →
      add_new_parking_fp s name c x y z = Result.ok (-1, none, [Output.invalid_cost])) := by
  have hfresh : (∀ i p, registered s i p → p.name ≠ name) ↔
      name_in_use s.parkings name = false := by
    rw [← Bool.not_eq_true, name_in_use_iff s name hwf]
    constructor
    · rintro h ⟨i, p, hr, hn⟩; exact h i p hr hn
    · intro h i p hr hn; exact h ⟨i, p, hr, hn⟩
  have h0 : (fp.finite 0) ≠ fp.nan := by simp
  have nlt : ∀ a b : fp, a ≠ fp.nan → b ≠ fp.nan → (fp_le a b = false ↔ fp_lt b a = true) := by
    intro a b ha hb
    have := fp_le_iff_not_lt a b ha hb
    cases h1 : fp_le a b <;> cases h2 : fp_lt b a <;> simp [h1, h2] at this ⊢
  refine ⟨⟨?_, ?_⟩, ?_, ?_⟩
  · rintro ⟨r, out, h⟩
    obtain ⟨h1, h2, h3, h4, h5, h6, h7, _, h9⟩ := add_new_parking_fp_zero _ _ _ _ _ _ _ _ h
    exact ⟨h1, hfresh.mpr h2, h3, (nlt _ _ hx h0).1 h4, (nlt _ _ hy h0).1 h5,
      (nlt _ _ hz h0).1 h6, (nlt _ _ hy hx).1 h7, (nlt _ _ hz hy).1 h9⟩
  · rintro ⟨h1, h2, h3, h4, h5, h6, h7, h9⟩
    have h8 := fp_lt_trans _ _ _ h7 h9
    refine ⟨some { name := name, max_capacity := c, cost_x := x, cost_y := y, cost_z := z,
                   free_spaces := c, billing_day_log := [] }, [], ?_⟩
    unfold add_new_parking_fp
    rw [if_neg (by omega), hfresh.mp h2]
    simp only [Bool.false_eq_true, if_false]
    rw [if_neg (by omega), if_neg, if_neg, if_neg (by have := hwf.1; omega)]
    · unfold fp_ge
      rw [(nlt _ _ hy hx).2 h7, (nlt _ _ hz hx).2 h8, (nlt _ _ hz hy).2 h9]
      simp
    · rw [(nlt _ _ hx h0).2 h4, (nlt _ _ hy h0).2 h5, (nlt _ _ hz h0).2 h6]
      simp
  · intro h1 h2 h3
    unfold add_new_parking_fp
    rw [if_neg (by omega), hfresh.mp h2]
    simp only [Bool.false_eq_true, if_false]
    rw [if_pos h3]
  · intro h1 h2 h3 h4
    unfold add_new_parking_fp
    rw [if_neg (by omega), hfresh.mp h2]
    simp only [Bool.false_eq_true, if_false]
    rw [if_neg (by omega)]
    by_cases h5 : fp_le x (fp.finite 0) = true ∨ fp_le y (fp.finite 0) = true ∨
        fp_le z (fp.finite 0) = true
    · rw [if_pos h5]
    · rw [if_neg h5, if_pos]
      unfold fp_ge
      rcases h4 with h | h | h | h
      · exact absurd (Or.inl h) h5
      · exact absurd (Or.inr (Or.inl h)) h5
      · exact absurd (Or.inr (Or.inr h)) h5
      · by_cases hxy : fp_lt x y = true
        · have hyz : ¬ fp_lt y z = true := fun hh => h ⟨hxy, hh⟩
          right; right
          rw [fp_le_iff_not_lt _ _ hz hy]
          simpa using hyz
        · left
          rw [fp_le_iff_not_lt _ _ hy hx]
          simpa using hxy

/-- Witness of C16, amended: adding `Parking2` after `Parking1`. -/
theorem add_new_parking_fp_success_iff_witness :
    registry_wf demo_added ∧
    ((∃ r out, add_new_parking_fp demo_added "Parking2" 3 (fp.finite 1) (fp.finite 2)
        (fp.finite 3) = Result.ok (0, r, out)) ↔
      (demo_added.park_counter < MAX_PARKINGS ∧
        (∀ i p, registered demo_added i p → p.name ≠ "Parking2") ∧
        (0 : Int) < 3 ∧ fp_lt (fp.finite 0) (fp.finite 1) = true ∧
        fp_lt (fp.finite 0) (fp.finite 2) = true ∧ fp_lt (fp.finite 0) (fp.finite 3) = true ∧
        fp_lt (fp.finite 1) (fp.finite 2) = true ∧ fp_lt (fp.finite 2) (fp.finite 3) = true)) :=
  ⟨(reached_state_wf _ demo_added_reached).1,
    (add_new_parking_fp_success_iff demo_added "Parking2" 3 (fp.finite 1) (fp.finite 2)
      (fp.finite 3) (reached_state_wf _ demo_added_reached).1 (by simp) (by simp)
      (by simp)).1⟩

/-- C38, evaluation of the code at the failing input: in the reachable state in which
`AA-00-AA` is parked in `Parking1` since 01-01-2023 10:00, the exit at 01-01-6200 10:00
passes every check of `register_exit`; the exit date is later than the entry date, but
the minutes that `get_all_minutes` hands to `calculate_cost` in the 32-bit arithmetic of
the program are -2099536096, so the day count, the remainder and the quarter count are
negative and the cost is -29160236. -/
theorem register_exit_year_6200 :
    reachable demo_parked ∧
    exit_checks demo_parked "Parking1" "AA-00-AA" { day := 1, month := 1, year := 6200 }
      { hour := 10, minutes := 0 } 0 { demo_parking with free_spaces := 1 } demo_vehicle ∧
    demo_vehicle.my_logs.getLast? =
      some { license_plate := "AA-00-AA", parking_name := some "Parking1",
             entry_date := some (token_date demo_day { hour := 10, minutes := 0 }),
             exit_date := none, cost := 0 } ∧
    date_earlier (token_date demo_day { hour := 10, minutes := 0 })
      (token_date { day := 1, month := 1, year := 6200 } { hour := 10, minutes := 0 }) ∧
    get_all_minutes_int32 (token_date demo_day { hour := 10, minutes := 0 })
      (token_date { day := 1, month := 1, year := 6200 } { hour := 10, minutes := 0 }) =
      -2099536096 ∧
    Int.tdiv (-2099536096) (24 * 60) = -1458011 ∧
    Int.tmod (-2099536096) (24 * 60) = -256 ∧
    Int.tdiv (-256 + 14) 15 = -16 ∧
    calculate_cost_fp (parking_fp_of demo_parking)
      (demo_stay "Parking1"
        (token_date { day := 1, month := 1, year := 6200 } { hour := 10, minutes := 0 })) =
      Result.ok (fp.finite (-29160236)) := by
  refine ⟨reached_reachable _ demo_parked_reached, by unfold exit_checks; decide!, by decide,
    by decide, by decide, by decide, by decide, by decide, by decide!⟩

end Parking
